import Mathlib

/-!
Order / escrow state machine and balance ledger of `backend-store`

A shallow embedding of the handlers in `internal/handler/{account,shop,admin}.go`.

* The relational store is a record of tables (lists of rows).  A row of a model that
  embeds `gorm.Model` carries a `deleted` flag (`DeletedAt.Valid`); `First`, `Find`,
  `Preload` and `Update` only see rows whose flag is clear.
* `tx.Model(&x).Update(column, v)` writes `v` in that column of the live row with the
  primary key of `x` and, as gorm does, assigns `v` to the field of the struct `x` too;
  `tx.Save(&x)` replaces the row with the primary key of `x` by `x`.
* Go's `uint` is a natural number below `2 ^ 64`; `+`, `-` and `*` wrap modulo `2 ^ 64`
  (`uadd`, `usub`, `umul`).  Go's `int` is an integer in `[-2 ^ 63, 2 ^ 63)` (`toInt`, `ineg`).
* `float64` values that occur (tax percentages and their products with a price) are
  non-negative and finite; they are kept as `m * 2 ^ e` and every operation rounds to
  53 significant bits, ties to even (`F64`).  The conversion `uint(x)` discards the
  fraction; for an integer part of `2 ^ 64` or more, where the language leaves the result
  to the implementation, it gives the `2 ^ 63` of the amd64 build (`F64.toUInt`).
* `db.Transaction(fn)` commits the writes of `fn` when it returns `nil` and discards them
  otherwise; messages already pushed to websocket clients are not taken back.
-/

namespace BackendStore

set_option maxRecDepth 2048

/-! ## Machine arithmetic -/

/-- Number of values of Go's `uint` on a 64-bit platform. -/
def uintSize : Nat := 2 ^ 64

/-- Unsigned addition of Go: wraps modulo `2 ^ 64`. -/
def uadd (a b : Nat) : Nat := (a + b) % 2 ^ 64

/-- Unsigned subtraction of Go: wraps modulo `2 ^ 64`. -/
def usub (a b : Nat) : Nat := (a % 2 ^ 64 + (2 ^ 64 - b % 2 ^ 64)) % 2 ^ 64

/-- Unsigned multiplication of Go: wraps modulo `2 ^ 64`. -/
def umul (a b : Nat) : Nat := (a * b) % 2 ^ 64

/-- Conversion `int(x)` of a `uint`: the same 64 bits read as two's complement. -/
def toInt (a : Nat) : Int :=
  if a % 2 ^ 64 < 2 ^ 63 then ((a % 2 ^ 64 : Nat) : Int) else ((a % 2 ^ 64 : Nat) : Int) - 2 ^ 64

/-- Negation `-x` of an `int`: wraps at the most negative value. -/
def ineg (i : Int) : Int := if i = -(2 ^ 63) then i else -i

/-! ## float64 -/

/-- A non-negative finite `float64`, value `m * 2 ^ e`. -/
structure F64 where
  m : Nat
  e : Int
deriving DecidableEq, Repr

/-- Number of binary digits of `n`, for `n < 2 ^ fuel`. -/
def bitLen : Nat → Nat → Nat
  | 0, _ => 0
  | fuel + 1, n => if n = 0 then 0 else bitLen fuel (n / 2) + 1

/-- Mantissa `n` shifted right by `sh` bits, rounded to nearest, ties to even. -/
def roundShift (n sh : Nat) : Nat :=
  if sh = 0 then n
  else
    let q := n / 2 ^ sh
    let r := n % 2 ^ sh
    let half := 2 ^ (sh - 1)
    if half < r ∨ (r = half ∧ q % 2 = 1) then q + 1 else q

/-- Nearest `float64` to `n * 2 ^ e` (53 significant bits, round half to even). -/
def F64.round (n : Nat) (e : Int) : F64 :=
  let sh := bitLen 128 n - 53
  ⟨roundShift n sh, e + sh⟩

/-- Conversion `float64(n)` of a `uint`. -/
def F64.ofUInt (n : Nat) : F64 := F64.round n 0

/-- Product of two `float64` values. -/
def F64.mul (a b : F64) : F64 := F64.round (a.m * b.m) (a.e + b.e)

/-- Integer part of a `float64`. -/
def F64.trunc (a : F64) : Nat :=
  if 0 ≤ a.e then a.m * 2 ^ a.e.toNat else a.m / 2 ^ (-a.e).toNat

/-- Conversion `uint(x)` of a `float64`: the fraction is discarded. When the integer part
does not fit a `uint` the language leaves the result to the implementation; the amd64
build converts `x - 2 ^ 63` to `int64` and sets the top bit, which yields `2 ^ 63` for
every `x` of `2 ^ 64` or more. -/
def F64.toUInt (a : F64) : Nat :=
  if a.trunc < 2 ^ 64 then a.trunc else 2 ^ 63

/-- The constant `DefaultGovtTaxPercent = 0.05` as a `float64`. -/
def DefaultGovtTaxPercent : F64 := ⟨3602879701896397, -56⟩

/-- The constant `DefaultEcommerceTaxPercent = 0.02` as a `float64`. -/
def DefaultEcommerceTaxPercent : F64 := ⟨5764607523034235, -58⟩

/-- The expression `uint(float64(basePrice) * percent)` of `PostPurchaseProduct`. -/
def taxAmount (basePrice : Nat) (percent : F64) : Nat :=
  F64.toUInt (F64.mul (F64.ofUInt basePrice) percent)

/-! ## Enumerations (`configs/constants/enums.go`) -/

inductive UserRole where
  | RoleAdmin | RoleUser | RoleGuest
deriving DecidableEq, Repr

inductive UserStatus where
  | UserStatusActive | UserStatusSuspended | UserStatusBanned
deriving DecidableEq, Repr

inductive ProductVisibility where
  | ProductVisibilityAll | ProductVisibilityOwnerAdmin | ProductVisibilityAdminOnly
deriving DecidableEq, Repr

inductive TransactionStatus where
  | TrxStatusPending | TrxStatusWaitingOwner | TrxStatusWaitingUser
  | TrxStatusSuccess | TrxStatusCancel
deriving DecidableEq, Repr

inductive ReceiptStatus where
  | ReceiptPendingProcess | ReceiptCompleted | ReceiptCanceled
deriving DecidableEq, Repr

inductive BalanceStatus where
  | BalanceStatusCredit | BalanceStatusDebit | BalanceStatusRefund
deriving DecidableEq, Repr

inductive NotificationType where
  | NotifTypePurchase | NotifTypeSale | NotifTypeTopUp | NotifTypeWithdraw
  | NotifTypeChat | NotifTypeSupport | NotifTypeAccount
deriving DecidableEq, Repr

open UserRole UserStatus ProductVisibility TransactionStatus ReceiptStatus BalanceStatus
open NotificationType

/-- Reasons for which a handler answers with an error. -/
inductive Err where
  | BadRequest | Unauthorized | Forbidden | InternalServerError
  | UserNotFound | ProductNotFound | ProductSelfPurchase
  | InsufficientStock | InsufficientBalance
  | TransactionNotFound | NotProductOwner
  | TransactionNotConfirmable | TransactionNotCancellable
  | AmountInvalid | MinWithdrawAmount | InvalidStatus
deriving DecidableEq, Repr

/-! ## Rows (`internal/model/db/all_models.go`) -/

structure User where
  id : Nat
  role : UserRole
  balance : Nat
  status : UserStatus
  banUntil : Option Int
  penaltyWarnings : Nat
  deleted : Bool
deriving DecidableEq, Repr

structure Product where
  id : Nat
  userID : Nat
  price : Nat
  stock : Nat
  visibility : ProductVisibility
  deleted : Bool
deriving DecidableEq, Repr

structure TransactionHistory where
  id : Nat
  productID : Nat
  userID : Nat
  quantity : Nat
  totalPrice : Nat
  govtTax : Nat
  ecommerceTax : Nat
  status : TransactionStatus
  isSolved : Bool
  receiptStatus : ReceiptStatus
deriving DecidableEq, Repr

structure BalanceHistory where
  id : Nat
  userID : Nat
  amount : Int
  lastBalance : Nat
  finalBalance : Nat
  status : BalanceStatus
deriving DecidableEq, Repr

structure Review where
  userID : Nat
  productID : Nat
  rating : Nat
deriving DecidableEq, Repr

structure Notification where
  userID : Nat
  type : NotificationType
  relatedID : Option Nat
deriving DecidableEq, Repr

/-- The tables of the store, and the messages pushed so far to websocket clients. -/
structure State where
  users : List User
  products : List Product
  transactions : List TransactionHistory
  balanceHistories : List BalanceHistory
  reviews : List Review
  notifications : List Notification
  sent : List Notification
deriving DecidableEq, Repr

/-- Result of a handler or of the body of a store transaction. -/
inductive Outcome where
  | ok (s : State)
  | fail (e : Err) (s : State)
deriving DecidableEq, Repr

/-- The state in which an outcome leaves the system. -/
def Outcome.state : Outcome → State
  | .ok s => s
  | .fail _ s => s

/-- Whether the handler answered with success. -/
def Outcome.isOk : Outcome → Bool
  | .ok _ => true
  | .fail _ _ => false

/-- Call `db.Transaction(body)`: the writes of a failing body are rolled back, the
messages it has already pushed stay pushed. -/
def Transaction (s : State) (body : State → Outcome) : Outcome :=
  match body s with
  | .ok s' => .ok s'
  | .fail e s' => .fail e { s with sent := s'.sent }

/-! ## Store access (gorm) -/

/-- Query `First(&user, id)`: the live row with this primary key. -/
def State.firstUser (s : State) (id : Nat) : Option User :=
  s.users.find? fun u => decide (u.id = id) && !u.deleted

/-- Query `First(&product, id)`: the live row with this primary key. -/
def State.firstProduct (s : State) (id : Nat) : Option Product :=
  s.products.find? fun p => decide (p.id = id) && !p.deleted

/-- Query `Where("id = ? AND visibility = ? AND deleted_at IS NULL", id, all).First(&product)`
of `PostPurchaseProduct`. -/
def State.firstPublicProduct (s : State) (id : Nat) : Option Product :=
  s.products.find? fun p =>
    decide (p.id = id) && decide (p.visibility = ProductVisibilityAll) && !p.deleted

/-- Query `First(&trx, id)`. Orders are never deleted. -/
def State.firstTransaction (s : State) (id : Nat) : Option TransactionHistory :=
  s.transactions.find? fun t => decide (t.id = id)

/-- Field `trx.Product.UserID` after `Preload("Product")`: the owner of the live product
row, and the zero value when the product is soft-deleted or missing. -/
def State.preloadProductUserID (s : State) (trx : TransactionHistory) : Nat :=
  match s.firstProduct trx.productID with
  | some p => p.userID
  | none => 0

/-- Statement `tx.Model(&user).Update("balance", v)`, on the row. -/
def State.updateUserBalance (s : State) (id v : Nat) : State :=
  { s with users := s.users.map fun u =>
      if u.id = id ∧ u.deleted = false then { u with balance := v } else u }

/-- Statement `tx.Save(&user)`: the row with the primary key of `u` becomes `u`. -/
def State.saveUser (s : State) (u : User) : State :=
  { s with users := s.users.map fun x => if x.id = u.id then u else x }

/-- Statement `tx.Model(&product).Update("stock", v)`, on the row. -/
def State.updateProductStock (s : State) (id v : Nat) : State :=
  { s with products := s.products.map fun p =>
      if p.id = id ∧ p.deleted = false then { p with stock := v } else p }

/-- Statement `tx.Model(&product).Update("visibility", v)`, on the row. -/
def State.updateProductVisibility (s : State) (id : Nat) (v : ProductVisibility) : State :=
  { s with products := s.products.map fun p =>
      if p.id = id ∧ p.deleted = false then { p with visibility := v } else p }

/-- Statement `tx.Save(&product)`: the row with the primary key of `p` becomes `p`. -/
def State.saveProduct (s : State) (p : Product) : State :=
  { s with products := s.products.map fun x => if x.id = p.id then p else x }

/-- Statement `tx.Model(&trx).Updates(...)`: `f` sets the listed columns of the row. -/
def State.updateTransaction (s : State) (id : Nat)
    (f : TransactionHistory → TransactionHistory) : State :=
  { s with transactions := s.transactions.map fun t => if t.id = id then f t else t }

/-- Primary key that `tx.Create(&trx)` gives to the next order. -/
def State.nextTransactionID (s : State) : Nat := s.transactions.length + 1

/-- Statement `tx.Create(&trx)`. -/
def State.createTransaction (s : State) (t : TransactionHistory) : State :=
  { s with transactions := s.transactions ++ [{ t with id := s.nextTransactionID }] }

/-- Statement `tx.Create(&db.BalanceHistory{...})`: one more ledger entry. -/
def State.createBalanceHistory (s : State) (userID : Nat) (amount : Int)
    (lastBalance finalBalance : Nat) (status : BalanceStatus) : State :=
  { s with balanceHistories := s.balanceHistories ++
      [{ id := s.balanceHistories.length + 1, userID := userID, amount := amount,
         lastBalance := lastBalance, finalBalance := finalBalance, status := status }] }

/-- Statement `tx.Create(&review)`. -/
def State.createReview (s : State) (r : Review) : State :=
  { s with reviews := s.reviews ++ [r] }

/-- Statement `tx.Create(&notification)`. -/
def State.createNotification (s : State) (n : Notification) : State :=
  { s with notifications := s.notifications ++ [n] }

/-- Call `util.SendNotificationToUser`: pushed to the websocket hub at once. -/
def State.SendNotificationToUser (s : State) (n : Notification) : State :=
  { s with sent := s.sent ++ [n] }

/-- A notification row is created and pushed. -/
def State.notify (s : State) (userID : Nat) (type : NotificationType)
    (relatedID : Option Nat) : State :=
  (s.createNotification ⟨userID, type, relatedID⟩).SendNotificationToUser
    ⟨userID, type, relatedID⟩

/-- Sequential `for _, x := range xs` whose body may return an error. -/
def forEach {α : Type} (body : State → α → Outcome) : State → List α → Outcome
  | s, [] => .ok s
  | s, x :: xs =>
    match body s x with
    | .ok s' => forEach body s' xs
    | .fail e s' => .fail e s'

/-! ## Account handlers (`internal/handler/account.go`) -/

/-- Handler `PostTopUpBalance`. -/
def PostTopUpBalance (s : State) (userID amount : Nat) : Outcome :=
  -- binding:"required,gt=0,lte=10000000"
  if amount = 0 ∨ 10000000 < amount then .fail .BadRequest s
  else if amount ≤ 0 then .fail .AmountInvalid s
  else Transaction s fun s =>
    match s.firstUser userID with
    | none => .fail .UserNotFound s
    | some user =>
      let lastBalance := user.balance
      let finalBalance := uadd lastBalance amount
      let user := { user with balance := finalBalance }
      let s := s.saveUser user
      let historyID := s.balanceHistories.length + 1
      let s := s.createBalanceHistory user.id (toInt amount) lastBalance finalBalance
        BalanceStatusCredit
      let s := s.notify user.id NotifTypeTopUp (some historyID)
      .ok s

/-- Handler `PostWithDrawBalance`. -/
def PostWithDrawBalance (s : State) (userID amount : Nat) : Outcome :=
  -- binding:"required,gte=10000,lte=10000000"
  if amount < 10000 ∨ 10000000 < amount then .fail .BadRequest s
  else if amount < 10000 then .fail .MinWithdrawAmount s
  else Transaction s fun s =>
    match s.firstUser userID with
    | none => .fail .UserNotFound s
    | some user =>
      if user.balance < amount then .fail .InsufficientBalance s
      else
        let lastBalance := user.balance
        let finalBalance := usub lastBalance amount
        let user := { user with balance := finalBalance }
        let s := s.saveUser user
        let historyID := s.balanceHistories.length + 1
        let s := s.createBalanceHistory user.id (ineg (toInt amount)) lastBalance finalBalance
          BalanceStatusDebit
        let s := s.notify user.id NotifTypeWithdraw (some historyID)
        .ok s

/-! ## Shop handlers (`internal/handler/shop.go`) -/

/-- Tax percentages read from the environment (`GOVT_TAX_PERCENT`,
`ECOMMERCE_TAX_PERCENT`), with their defaults. -/
structure TaxConfig where
  govtTaxPercent : F64
  ecommerceTaxPercent : F64
deriving DecidableEq, Repr

/-- The configuration when neither variable is set. -/
def defaultTaxConfig : TaxConfig := ⟨DefaultGovtTaxPercent, DefaultEcommerceTaxPercent⟩

/-- Type `dto.RequestPurchaseItem`. -/
structure RequestPurchaseItem where
  productID : Nat
  quantity : Nat
deriving DecidableEq, Repr

/-- One round of the loop of `PostPurchaseProduct`: the local `user` and the store. -/
inductive PurchaseStep where
  | next (user : User) (s : State)
  | abort (e : Err) (s : State)

/-- Body of the loop of `PostPurchaseProduct` for one item, after the checks: the writes. -/
def purchaseCommit (cfg : TaxConfig) (user : User) (s : State) (item : RequestPurchaseItem)
    (product : Product) : User × State :=
  let basePrice := umul product.price item.quantity
  let govtTaxAmount := taxAmount basePrice cfg.govtTaxPercent
  let ecommerceTaxAmount := taxAmount basePrice cfg.ecommerceTaxPercent
  let totalPriceForBuyer := uadd basePrice govtTaxAmount
  -- Update("stock", product.Stock-item.Quantity) writes the row and assigns the value to
  -- the struct `product` as well
  let newStock := usub product.stock item.quantity
  let s := s.updateProductStock product.id newStock
  let product := { product with stock := newStock }
  let s := if usub product.stock item.quantity = 0
    then s.updateProductVisibility product.id ProductVisibilityOwnerAdmin else s
  let user := { user with balance := usub user.balance totalPriceForBuyer }
  let s := s.updateUserBalance user.id user.balance
  let trxID := s.nextTransactionID
  let s := s.createTransaction
    { id := 0, productID := product.id, userID := user.id, quantity := item.quantity,
      totalPrice := basePrice, govtTax := govtTaxAmount,
      ecommerceTax := ecommerceTaxAmount, status := TrxStatusPending,
      isSolved := false, receiptStatus := ReceiptPendingProcess }
  let s := s.createBalanceHistory user.id (ineg (toInt totalPriceForBuyer))
    (uadd user.balance totalPriceForBuyer) user.balance BalanceStatusDebit
  let s := s.notify product.userID NotifTypeSale (some trxID)
  let s := s.notify user.id NotifTypePurchase (some trxID)
  (user, s)

/-- Body of the loop of `PostPurchaseProduct` for one item. -/
def purchaseItem (cfg : TaxConfig) (user : User) (s : State) (item : RequestPurchaseItem) :
    PurchaseStep :=
  match s.firstPublicProduct item.productID with
  | none => .abort .ProductNotFound s
  | some product =>
    if product.userID = user.id then .abort .ProductSelfPurchase s
    else if product.stock < item.quantity then .abort .InsufficientStock s
    else
      let basePrice := umul product.price item.quantity
      let govtTaxAmount := taxAmount basePrice cfg.govtTaxPercent
      let totalPriceForBuyer := uadd basePrice govtTaxAmount
      if user.balance < totalPriceForBuyer then .abort .InsufficientBalance s
      else
        .next (purchaseCommit cfg user s item product).1
          (purchaseCommit cfg user s item product).2

/-- The loop `for _, item := range req` of `PostPurchaseProduct`. -/
def purchaseLoop (cfg : TaxConfig) : User → State → List RequestPurchaseItem → Outcome
  | _, s, [] => .ok s
  | user, s, item :: rest =>
    match purchaseItem cfg user s item with
    | .next user' s' => purchaseLoop cfg user' s' rest
    | .abort e s' => .fail e s'

/-- Handler `PostPurchaseProduct`. -/
def PostPurchaseProduct (cfg : TaxConfig) (s : State) (userID : Nat)
    (req : List RequestPurchaseItem) : Outcome :=
  -- binding:"required" and binding:"required,gt=0" on every item
  if req.any (fun i => decide (i.productID = 0) || decide (i.quantity = 0)) then
    .fail .BadRequest s
  else if req.length = 0 then .fail .BadRequest s
  else
    match s.firstUser userID with
    | none => .fail .UserNotFound s
    | some user => Transaction s fun s => purchaseLoop cfg user s req

/-- Body of the loop of `ConfirmTransactionByOwner` for one order. -/
def confirmByOwnerItem (ownerID : Nat) (s : State) (trxID : Nat) : Outcome :=
  match s.firstTransaction trxID with
  | none => .fail .TransactionNotFound s
  | some trx =>
    if s.preloadProductUserID trx ≠ ownerID then .fail .NotProductOwner s
    else if trx.status ≠ TrxStatusPending then .fail .TransactionNotConfirmable s
    else
      let s := s.updateTransaction trx.id fun t =>
        { t with status := TrxStatusWaitingUser, isSolved := false }
      let s := s.notify trx.userID NotifTypePurchase (some trx.id)
      let s := s.notify ownerID NotifTypeSale (some trx.id)
      .ok s

/-- Handler `ConfirmTransactionByOwner`. -/
def ConfirmTransactionByOwner (s : State) (ownerID : Nat) (transactionIDs : List Nat) :
    Outcome :=
  -- binding:"required,min=1,dive,gt=0"
  if transactionIDs.length = 0 ∨ transactionIDs.any (fun i => decide (i = 0)) then
    .fail .BadRequest s
  else Transaction s fun s => forEach (confirmByOwnerItem ownerID) s transactionIDs

/-- Type `dto.ReviewItem`. -/
structure ReviewItem where
  transactionID : Nat
  rating : Option Nat
deriving DecidableEq, Repr

/-- The loop `for _, r := range req.Reviews` of `ConfirmTransactionByUser`. -/
def createReviews (userID trxID productID : Nat) : State → List ReviewItem → State
  | s, [] => s
  | s, r :: rs =>
    match r.rating with
    | some rating =>
      if r.transactionID = trxID then
        createReviews userID trxID productID (s.createReview ⟨userID, productID, rating⟩) rs
      else createReviews userID trxID productID s rs
    | none => createReviews userID trxID productID s rs

/-- Body of the loop of `ConfirmTransactionByUser` for one order. -/
def confirmByUserItem (userID : Nat) (reviews : List ReviewItem) (s : State) (trxID : Nat) :
    Outcome :=
  match s.transactions.find? fun t => decide (t.id = trxID) && decide (t.userID = userID) with
  | none => .fail .TransactionNotFound s
  | some trx =>
    if trx.status ≠ TrxStatusWaitingUser then .fail .TransactionNotConfirmable s
    else
      match s.firstProduct trx.productID with
      | none => .fail .ProductNotFound s
      | some product =>
        match s.firstUser product.userID with
        | none => .fail .UserNotFound s
        | some owner =>
          let sellerReceiveAmount := usub trx.totalPrice trx.ecommerceTax
          let newOwnerBalance := uadd owner.balance sellerReceiveAmount
          let s := s.createBalanceHistory owner.id (toInt sellerReceiveAmount) owner.balance
            newOwnerBalance BalanceStatusCredit
          let s := s.updateUserBalance owner.id newOwnerBalance
          let s := s.updateTransaction trx.id fun t =>
            { t with status := TrxStatusSuccess, isSolved := true,
                     receiptStatus := ReceiptCompleted }
          let s := createReviews userID trxID trx.productID s reviews
          let s := s.notify owner.id NotifTypeSale (some trx.id)
          let s := s.notify userID NotifTypePurchase (some trx.id)
          .ok s

/-- Handler `ConfirmTransactionByUser`. -/
def ConfirmTransactionByUser (s : State) (userID : Nat) (transactionIDs : List Nat)
    (reviews : List ReviewItem) : Outcome :=
  if transactionIDs.length = 0 ∨ transactionIDs.any (fun i => decide (i = 0)) then
    .fail .BadRequest s
  else Transaction s fun s => forEach (confirmByUserItem userID reviews) s transactionIDs

/-- Body of the loop of `CancelTransaction` for one order. -/
def cancelItem (userID : Nat) (s : State) (trxID : Nat) : Outcome :=
  match s.firstTransaction trxID with
  | none => .fail .TransactionNotFound s
  | some trx =>
    let productUserID := s.preloadProductUserID trx
    if userID ≠ productUserID ∧ userID ≠ trx.userID then .fail .Forbidden s
    else if trx.status ≠ TrxStatusPending ∧ trx.status ≠ TrxStatusWaitingOwner then
      .fail .TransactionNotCancellable s
    else
      match s.firstUser trx.userID with
      | none => .fail .UserNotFound s
      | some buyer =>
        let refundAmount := uadd trx.totalPrice trx.govtTax
        let newBalance := uadd buyer.balance refundAmount
        -- Update("balance", newBalance) writes the row and assigns the struct field
        let s := s.updateUserBalance buyer.id newBalance
        let buyer := { buyer with balance := newBalance }
        let s := s.createBalanceHistory buyer.id (toInt refundAmount) buyer.balance newBalance
          BalanceStatusRefund
        match s.firstProduct trx.productID with
        | none => .fail .ProductNotFound s
        | some product =>
          let product := { product with stock := uadd product.stock trx.quantity }
          let s := s.saveProduct product
          let s := if 0 < product.stock ∧ product.visibility = ProductVisibilityOwnerAdmin
            then s.updateProductVisibility product.id ProductVisibilityAll else s
          let s := s.updateTransaction trx.id fun t =>
            { t with status := TrxStatusCancel, isSolved := true,
                     receiptStatus := ReceiptCanceled }
          let s := s.notify buyer.id NotifTypePurchase (some trx.id)
          let s := s.notify productUserID NotifTypeSale (some trx.id)
          .ok s

/-- Handler `CancelTransaction`. -/
def CancelTransaction (s : State) (userID : Nat) (transactionIDs : List Nat) : Outcome :=
  if transactionIDs.length = 0 ∨ transactionIDs.any (fun i => decide (i = 0)) then
    .fail .BadRequest s
  else Transaction s fun s => forEach (cancelItem userID) s transactionIDs

/-- Refund loop body shared in shape by `DeleteProductsRequest` and
`handleProductTransactionsOnDelete`: one order found with status `pending` or
`waiting_owner` is cancelled and its buyer refunded. -/
def refundOnDelete (s : State) (trx : TransactionHistory) : Outcome :=
  match s.firstUser trx.userID with
  | none => .fail .UserNotFound s
  | some buyer =>
    let refundAmount := uadd trx.totalPrice trx.govtTax
    let newBalance := uadd buyer.balance refundAmount
    -- Update("balance", newBalance) writes the row and assigns the struct field
    let s := s.updateUserBalance buyer.id newBalance
    let buyer := { buyer with balance := newBalance }
    let s := s.createBalanceHistory buyer.id (toInt refundAmount) buyer.balance newBalance
      BalanceStatusRefund
    let s := s.updateTransaction trx.id fun t =>
      { t with status := TrxStatusCancel, isSolved := true, receiptStatus := ReceiptCanceled }
    let s := s.notify buyer.id NotifTypePurchase (some trx.id)
    .ok s

/-- Result of `tx.Where("product_id = ? AND status IN (?, ?)", id, pending,
waiting_owner).Find(...)`. -/
def State.pendingTransactions (s : State) (productID : Nat) : List TransactionHistory :=
  s.transactions.filter fun t =>
    decide (t.productID = productID) &&
      (decide (t.status = TrxStatusPending) || decide (t.status = TrxStatusWaitingOwner))

/-- Result of `tx.Where("product_id = ? AND status = ?", id, waiting_users).Find(...)`. -/
def State.waitingUserTransactions (s : State) (productID : Nat) : List TransactionHistory :=
  s.transactions.filter fun t =>
    decide (t.productID = productID) && decide (t.status = TrxStatusWaitingUser)

/-- Second loop body of `DeleteProductsRequest`: one `waiting_users` order is settled and
the owner of the product paid. -/
def settleOnProductDelete (product : Product) (s : State) (trx : TransactionHistory) :
    Outcome :=
  match s.firstUser product.userID with
  | none => .fail .UserNotFound s
  | some owner =>
    let sellerReceiveAmount := usub trx.totalPrice trx.ecommerceTax
    let newOwnerBalance := uadd owner.balance sellerReceiveAmount
    let s := s.updateUserBalance owner.id newOwnerBalance
    let owner := { owner with balance := newOwnerBalance }
    let s := s.createBalanceHistory owner.id (toInt sellerReceiveAmount) owner.balance
      newOwnerBalance BalanceStatusCredit
    let s := s.updateTransaction trx.id fun t =>
      { t with status := TrxStatusSuccess, isSolved := true, receiptStatus := ReceiptCompleted }
    let s := s.notify trx.userID NotifTypePurchase (some trx.id)
    let s := s.notify owner.id NotifTypeSale (some trx.id)
    .ok s

/-- Handler `DeleteProductsRequest`. -/
def DeleteProductsRequest (s : State) (userID : Nat) (role : UserRole) (productID : Nat) :
    Outcome :=
  -- h.db.Unscoped().First(&product, productID)
  match s.products.find? fun p => decide (p.id = productID) with
  | none => .fail .ProductNotFound s
  | some product =>
    if product.deleted = true ∧ role ≠ RoleAdmin then .fail .ProductNotFound s
    else if product.visibility = ProductVisibilityOwnerAdmin ∧ role ≠ RoleAdmin
        ∧ product.userID ≠ userID then .fail .ProductNotFound s
    else if role ≠ RoleAdmin ∧ product.userID ≠ userID then .fail .Forbidden s
    else Transaction s fun s =>
      let product := { product with visibility := ProductVisibilityOwnerAdmin, deleted := true }
      let s := s.saveProduct product
      match forEach refundOnDelete s (s.pendingTransactions product.id) with
      | .fail e s' => .fail e s'
      | .ok s =>
        forEach (settleOnProductDelete product) s (s.waitingUserTransactions product.id)

/-! ## Admin handlers (`internal/handler/admin.go`) -/

/-- Second loop body of `handleProductTransactionsOnDelete`: one `waiting_users` order is
marked settled and a credit entry written for the owner of the product. -/
def settleOnOwnerRemoval (product : Product) (s : State) (trx : TransactionHistory) :
    Outcome :=
  let sellerReceiveAmount := usub trx.totalPrice trx.ecommerceTax
  let s := s.createBalanceHistory product.userID (toInt sellerReceiveAmount) 0 0
    BalanceStatusCredit
  let s := s.updateTransaction trx.id fun t =>
    { t with status := TrxStatusSuccess, isSolved := true, receiptStatus := ReceiptCompleted }
  let s := s.notify trx.userID NotifTypePurchase (some trx.id)
  .ok s

/-- Function `handleProductTransactionsOnDelete`. -/
def handleProductTransactionsOnDelete (s : State) (product : Product) : Outcome :=
  match forEach refundOnDelete s (s.pendingTransactions product.id) with
  | .fail e s' => .fail e s'
  | .ok s =>
    forEach (settleOnOwnerRemoval product) s (s.waitingUserTransactions product.id)

/-- The loop `for _, product := range products` of `SuspendUser`, `BanUser` and
`DeleteUser`: the product is soft-deleted and hidden, its orders are resolved; the error
that `handleProductTransactionsOnDelete` may return is not looked at. -/
def removeProducts : State → List Product → State
  | s, [] => s
  | s, product :: rest =>
    let product := { product with deleted := true, visibility := ProductVisibilityOwnerAdmin }
    let s := s.saveProduct product
    let s := (handleProductTransactionsOnDelete s product).state
    removeProducts s rest

/-- Result of `tx.Where("user_id = ?", id).Find(&products)`. -/
def State.productsOf (s : State) (userID : Nat) : List Product :=
  s.products.filter fun p => decide (p.userID = userID) && !p.deleted

/-- Handler `SuspendUser`. -/
def SuspendUser (s : State) (targetUserID : Nat) : Outcome :=
  match s.firstUser targetUserID with
  | none => .fail .UserNotFound s
  | some user =>
    if user.role = RoleAdmin then .fail .Forbidden s
    else if user.status = UserStatusSuspended then .ok s
    else Transaction s fun s =>
      let user := { user with status := UserStatusSuspended, banUntil := none,
                              penaltyWarnings := 0 }
      let s := s.saveUser user
      let s := removeProducts s (s.productsOf user.id)
      let s := s.notify user.id NotifTypeAccount (some user.id)
      .ok s

/-- Handler `BanUser`; `banUntilUnix` is `time.Now()` plus the requested duration. -/
def BanUser (s : State) (targetUserID : Nat) (banUntilUnix : Int) : Outcome :=
  match s.firstUser targetUserID with
  | none => .fail .UserNotFound s
  | some user =>
    if user.role = RoleAdmin then .fail .Forbidden s
    else if user.status = UserStatusBanned then .ok s
    else Transaction s fun s =>
      let user := { user with status := UserStatusBanned, banUntil := some banUntilUnix,
                              penaltyWarnings := 0 }
      let s := s.saveUser user
      let s := removeProducts s (s.productsOf user.id)
      let s := s.notify user.id NotifTypeAccount (some user.id)
      .ok s

/-- Handler `DeleteUser`. -/
def DeleteUser (s : State) (adminID targetUserID : Nat) : Outcome :=
  -- h.db.Unscoped().First(&user, targetUserID)
  match s.users.find? fun u => decide (u.id = targetUserID) with
  | none => .fail .UserNotFound s
  | some user =>
    if user.deleted = true then .ok s
    else if user.id = adminID then .fail .Forbidden s
    else Transaction s fun s =>
      let user := { user with deleted := true, status := UserStatusSuspended }
      let s := s.saveUser user
      let s := removeProducts s (s.productsOf user.id)
      .ok s

/-- The `switch` of `PatchTransactionStatus`, case `success`. -/
def patchToSuccess (s : State) (trx : TransactionHistory) (productUserID : Nat)
    (oldStatus : TransactionStatus) : Outcome :=
  if oldStatus ≠ TrxStatusSuccess then
    match s.firstUser productUserID with
    | none => .fail .UserNotFound s
    | some owner =>
      let sellerReceiveAmount := usub trx.totalPrice trx.ecommerceTax
      let newOwnerBalance := uadd owner.balance sellerReceiveAmount
      let s := s.updateUserBalance owner.id newOwnerBalance
      let owner := { owner with balance := newOwnerBalance }
      let s := s.createBalanceHistory owner.id (toInt sellerReceiveAmount) owner.balance
        newOwnerBalance BalanceStatusCredit
      let s := s.notify owner.id NotifTypeSale (some trx.id)
      let s := s.notify trx.userID NotifTypePurchase (some trx.id)
      .ok s
  else .ok (s.notify trx.userID NotifTypePurchase (some trx.id))

/-- The `switch` of `PatchTransactionStatus`, case `cancel`, first part: the buyer. -/
def patchCancelRefund (s : State) (trx : TransactionHistory)
    (oldStatus : TransactionStatus) : Outcome :=
  if oldStatus ≠ TrxStatusCancel then
    match s.firstUser trx.userID with
    | none => .fail .UserNotFound s
    | some buyer =>
      let refundAmount := uadd trx.totalPrice trx.govtTax
      let newBalance := uadd buyer.balance refundAmount
      let s := s.updateUserBalance buyer.id newBalance
      let buyer := { buyer with balance := newBalance }
      let s := s.createBalanceHistory buyer.id (toInt refundAmount) buyer.balance newBalance
        BalanceStatusRefund
      let s := s.notify buyer.id NotifTypePurchase (some trx.id)
      .ok s
  else .ok s

/-- The `switch` of `PatchTransactionStatus`, case `cancel`, second part: the seller. -/
def patchCancelDebit (s : State) (trx : TransactionHistory) (productUserID : Nat)
    (oldStatus : TransactionStatus) : Outcome :=
  if oldStatus = TrxStatusWaitingUser ∨ oldStatus = TrxStatusSuccess then
    match s.firstUser productUserID with
    | none => .fail .UserNotFound s
    | some owner =>
      let debitAmount := usub trx.totalPrice trx.ecommerceTax
      let newOwnerBalance := usub owner.balance debitAmount
      -- `newOwnerBalance` is a `uint`
      let newOwnerBalance := if newOwnerBalance < 0 then 0 else newOwnerBalance
      let s := s.updateUserBalance owner.id newOwnerBalance
      let owner := { owner with balance := newOwnerBalance }
      let s := s.createBalanceHistory owner.id (ineg (toInt debitAmount)) owner.balance
        newOwnerBalance BalanceStatusDebit
      let s := s.notify owner.id NotifTypeSale (some trx.id)
      .ok s
  else .ok s

/-- Handler `PatchTransactionStatus`; `status` is the name sent in `req.Status`, `none`
for a string that is not one of the five status names. -/
def PatchTransactionStatus (s : State) (transactionID : Nat)
    (status : Option TransactionStatus) : Outcome :=
  match status with
  | none => .fail .BadRequest s
  | some newStatus =>
    match s.firstTransaction transactionID with
    | none => .fail .TransactionNotFound s
    | some trx =>
      let productUserID := s.preloadProductUserID trx
      let oldStatus := trx.status
      Transaction s fun s =>
        let effect : Outcome :=
          match newStatus with
          | TrxStatusSuccess => patchToSuccess s trx productUserID oldStatus
          | TrxStatusCancel =>
            match patchCancelRefund s trx oldStatus with
            | .fail e s' => .fail e s'
            | .ok s => patchCancelDebit s trx productUserID oldStatus
          | _ => .ok s
        match effect with
        | .fail e s' => .fail e s'
        | .ok s =>
          let isSolved := decide (newStatus = TrxStatusSuccess ∨ newStatus = TrxStatusCancel)
          let receiptStatus :=
            match newStatus with
            | TrxStatusSuccess => ReceiptCompleted
            | TrxStatusCancel => ReceiptCanceled
            | _ => ReceiptPendingProcess
          .ok (s.updateTransaction trx.id fun t =>
            { t with status := newStatus, isSolved := isSolved,
                     receiptStatus := receiptStatus })

/-- Type `dto.RequestPutProduct` as `PatchProductAdmin` reads it: `price` and `stock` are 0
when absent, `visibility` is `none` when absent, and `other` tells whether a title, a
category list or `is_active` is sent. -/
structure RequestPutProduct where
  price : Nat
  stock : Nat
  visibility : Option ProductVisibility
  other : Bool
deriving DecidableEq, Repr

/-- One row after `Updates(updates)`: the columns that have a key in the map are set. -/
def Product.patched (p : Product) (price stock : Option Nat)
    (visibility : Option ProductVisibility) : Product :=
  { p with price := price.getD p.price, stock := stock.getD p.stock, visibility := visibility.getD p.visibility }

/-- Statement `tx.Model(&product).Updates(updates)` of `PatchProductAdmin`, on the row. -/
def State.updatesProduct (s : State) (id : Nat) (price stock : Option Nat)
    (visibility : Option ProductVisibility) : State :=
  { s with products := s.products.map fun p =>
      if p.id = id ∧ p.deleted = false then p.patched price stock visibility else p }

/-- Handler `PatchProductAdmin`. -/
def PatchProductAdmin (s : State) (productID : Nat) (req : RequestPutProduct) : Outcome :=
  -- binding:"omitempty,gte=1000,lte=100000000", "omitempty,gte=0,lte=10000" and
  -- "omitempty,oneof=all owner_admin"
  if (req.price ≠ 0 ∧ (req.price < 1000 ∨ 100000000 < req.price)) ∨ 10000 < req.stock ∨
      req.visibility = some ProductVisibilityAdminOnly then .fail .BadRequest s
  else
    match s.firstProduct productID with
    | none => .fail .ProductNotFound s
    | some product =>
      let price := if req.price ≠ 0 then some req.price else none
      let stock := if req.stock ≠ 0 then some req.stock else none
      let visibility : Option ProductVisibility :=
        if req.stock ≠ 0 then
          if req.stock = 0 then some ProductVisibilityOwnerAdmin
          else if product.stock = 0 ∧ 0 < req.stock ∧
              product.visibility = ProductVisibilityOwnerAdmin then some ProductVisibilityAll
          else none
        else none
      let visibility := if req.visibility ≠ none then req.visibility else visibility
      -- len(updates) == 0
      if price = none ∧ stock = none ∧ visibility = none ∧ req.other = false then
        .fail .BadRequest s
      else Transaction s fun s => .ok (s.updatesProduct product.id price stock visibility)

/-! ## Reactivation of an account, writes of a product, and the resolver of
`DeleteProductsRequest` (`admin.go`, `middlewares/auth.go`, `account.go`, `shop.go`) -/

/-- The loop `for _, product := range products` of `UnbanUser`: the soft-delete mark of the
product is cleared, its visibility set to `all`, and the product saved. -/
def restoreProducts : State → List Product → State
  | s, [] => s
  | s, product :: rest =>
    let product := { product with deleted := false, visibility := ProductVisibilityAll }
    restoreProducts (s.saveProduct product) rest

/-- Handler `UnbanUser`. -/
def UnbanUser (s : State) (targetUserID : Nat) : Outcome :=
  match s.firstUser targetUserID with
  | none => .fail .UserNotFound s
  | some user =>
    if user.role = RoleAdmin then .fail .Forbidden s
    else if user.status = UserStatusActive then .ok s
    else Transaction s fun s =>
      let user := { user with status := UserStatusActive, banUntil := none,
                              penaltyWarnings := 0 }
      let s := s.saveUser user
      -- tx.Unscoped().Where("user_id = ? AND deleted_at IS NOT NULL", user.ID)
      let products := s.products.filter fun p => decide (p.userID = user.id) && p.deleted
      let s := restoreProducts s products
      let s := s.notify user.id NotifTypeAccount (some user.id)
      .ok s

/-- Middleware `CheckUserStatus` for a request that carries the key `userID`; `now` is
`time.Now().Unix()` and `penaltyLimit` the value of `PENALTY_WARNING_LIMIT`. A ban that
has run out is lifted here, outside any store transaction. -/
def CheckUserStatus (s : State) (userID : Nat) (now : Int) (penaltyLimit : Nat) : Outcome :=
  match s.firstUser userID with
  | none => .fail .UserNotFound s
  | some user =>
    if user.deleted = true then .fail .Forbidden s
    else if user.status = UserStatusSuspended then .fail .Forbidden s
    else if user.status = UserStatusBanned then
      match user.banUntil with
      | none => .fail .Forbidden s
      | some banUntil =>
        if banUntil < now then
          let user := { user with status := UserStatusActive, banUntil := none,
                                  penaltyWarnings := 0 }
          let s := s.saveUser user
          let s := s.notify user.id NotifTypeAccount (some user.id)
          .ok s
        else .fail .Forbidden s
    else if penaltyLimit ≤ user.penaltyWarnings then
      let user := { user with status := UserStatusSuspended, banUntil := none }
      let s := s.saveUser user
      let s := s.notify user.id NotifTypeAccount (some user.id)
      .fail .Forbidden s
    else .ok s

/-- Handler `PostLoginRequest`; `hasEmail` tells whether a row carries the e-mail address of
the request, `passwordOk` whether the password matches the hash of the row found, and `now`
is `time.Now().Unix()`. A ban that has run out is lifted before the password is looked
at. -/
def PostLoginRequest (s : State) (hasEmail : User → Bool) (passwordOk : Bool) (now : Int) :
    Outcome :=
  match s.users.find? fun u => hasEmail u && !u.deleted with
  | none => .fail .Unauthorized s
  | some user =>
    if user.status = UserStatusSuspended then .fail .Forbidden s
    else
      let lifted : Option State :=
        if user.status = UserStatusBanned then
          match user.banUntil with
          | none => none
          | some banUntil =>
            if banUntil < now then
              let user := { user with status := UserStatusActive, banUntil := none,
                                      penaltyWarnings := 0 }
              let s := s.saveUser user
              some (s.notify user.id NotifTypeAccount (some user.id))
            else none
        else some s
      match lifted with
      | none => .fail .Forbidden s
      | some s =>
        if user.deleted = true then .fail .Forbidden s
        else if passwordOk = false then .fail .Unauthorized s
        else .ok s

/-- Statement `tx.Create(&product)`: the row receives the next primary key. -/
def State.createProduct (s : State) (p : Product) : State :=
  { s with products := s.products ++ [{ p with id := s.products.length + 1 }] }

/-- Handler `PostProductsRequest`; `imagesOk` tells whether every image of the request could
be stored or downloaded. -/
def PostProductsRequest (s : State) (userID price stock : Nat)
    (visibility : Option ProductVisibility) (imagesOk : Bool) : Outcome :=
  -- binding:"required,gte=1000,lte=100000000", "required,gte=0,lte=10000" and
  -- "omitempty,oneof=all owner_admin"
  if price < 1000 ∨ 100000000 < price ∨ stock = 0 ∨ 10000 < stock ∨
      visibility = some ProductVisibilityAdminOnly then .fail .BadRequest s
  else
    let visibility := visibility.getD ProductVisibilityAll
    if visibility ≠ ProductVisibilityAll ∧ visibility ≠ ProductVisibilityOwnerAdmin then
      .fail .BadRequest s
    else Transaction s fun s =>
      let s := s.createProduct ⟨0, userID, price, stock, visibility, false⟩
      if imagesOk = true then .ok s else .fail .InternalServerError s

/-- Handler `PutProductsRequest`; `imagesOk` tells whether every image of the request could
be stored or downloaded. -/
def PutProductsRequest (s : State) (userID productID : Nat) (req : RequestPutProduct)
    (imagesOk : Bool) : Outcome :=
  -- binding:"omitempty,gte=1000,lte=100000000", "omitempty,gte=0,lte=10000" and
  -- "omitempty,oneof=all owner_admin"
  if (req.price ≠ 0 ∧ (req.price < 1000 ∨ 100000000 < req.price)) ∨ 10000 < req.stock ∨
      req.visibility = some ProductVisibilityAdminOnly then .fail .BadRequest s
  else Transaction s fun s =>
    -- tx.First(&product, "id = ? AND user_id = ?", productIDStr, userID)
    match s.products.find? fun p =>
        decide (p.id = productID) && decide (p.userID = userID) && !p.deleted with
    | none => .fail .ProductNotFound s
    | some product =>
      let price := if req.price ≠ 0 then some req.price else none
      let stock := if req.stock ≠ 0 then some req.stock else none
      let visibility : Option ProductVisibility :=
        if req.stock ≠ 0 then
          if req.stock = 0 then some ProductVisibilityOwnerAdmin
          else if product.stock = 0 ∧ 0 < req.stock ∧
              product.visibility = ProductVisibilityOwnerAdmin then some ProductVisibilityAll
          else none
        else none
      if req.visibility ≠ none ∧ req.visibility ≠ some ProductVisibilityAll ∧
          req.visibility ≠ some ProductVisibilityOwnerAdmin then .fail .BadRequest s
      else if req.visibility = some ProductVisibilityAll ∧ product.stock = 0 then
        .fail .BadRequest s
      else
        let visibility := if req.visibility ≠ none then req.visibility else visibility
        -- len(updates) == 0
        if price = none ∧ stock = none ∧ visibility = none ∧ req.other = false then
          .fail .BadRequest s
        else
          let s := s.updatesProduct product.id price stock visibility
          if imagesOk = true then .ok s else .fail .InternalServerError s

/-- Handler `PatchProductVisibility`: the owner or an admin toggles the visibility. -/
def PatchProductVisibility (s : State) (userID : Nat) (role : UserRole) (productID : Nat) :
    Outcome :=
  match s.firstProduct productID with
  | none => .fail .ProductNotFound s
  | some product =>
    if role ≠ RoleAdmin ∧ product.userID ≠ userID then .fail .Forbidden s
    else if product.visibility = ProductVisibilityAll then
      .ok (s.updateProductVisibility product.id ProductVisibilityOwnerAdmin)
    else if product.visibility = ProductVisibilityOwnerAdmin then
      if product.stock = 0 then .fail .BadRequest s
      else .ok (s.updateProductVisibility product.id ProductVisibilityAll)
    else .fail .BadRequest s

/-- The copy of the settlement resolver that `DeleteProductsRequest` runs inside its store
transaction, after the product has been saved as deleted: the two loops over the orders of
the product. -/
def deleteProductResolver (s : State) (product : Product) : Outcome :=
  match forEach refundOnDelete s (s.pendingTransactions product.id) with
  | .fail e s' => .fail e s'
  | .ok s =>
    forEach (settleOnProductDelete product) s (s.waitingUserTransactions product.id)

/-! ## Notions used to state the properties -/

/-- The values stored in the numeric columns fit the signed 64-bit columns of the store. -/
def State.inRange (s : State) : Prop :=
  (∀ u ∈ s.users, u.balance < 2 ^ 63) ∧
  (∀ p ∈ s.products, p.price < 2 ^ 63 ∧ p.stock < 2 ^ 63) ∧
  (∀ t ∈ s.transactions, t.quantity < 2 ^ 63 ∧ t.totalPrice < 2 ^ 63 ∧ t.govtTax < 2 ^ 63 ∧
    t.ecommerceTax < 2 ^ 63)

/-- Primary keys of the products are pairwise different. -/
def State.uniqueProducts (s : State) : Prop := (s.products.map (·.id)).Nodup

/-- Primary keys of the users are pairwise different. -/
def State.uniqueUsers (s : State) : Prop := (s.users.map (·.id)).Nodup

/-- Sum of the amounts of the ledger entries of a user. -/
def State.ledgerSum (s : State) (userID : Nat) : Int :=
  ((s.balanceHistories.filter fun e => decide (e.userID = userID)).map (·.amount)).sum

/-- The balance of user `userID` is a `uint` and agrees with the sum of the ledger entries
of that user modulo `2 ^ 64`, in a store whose user keys are unique. -/
def State.agrees (s : State) (userID : Nat) : Prop :=
  s.uniqueUsers ∧ ∀ u ∈ s.users, u.id = userID →
    u.balance < 2 ^ 64 ∧ (u.balance : Int) ≡ s.ledgerSum userID [ZMOD 2 ^ 64]

/-- Stock of the product with a given primary key (0 when there is none). -/
def State.stockOf (s : State) (productID : Nat) : Nat :=
  match s.products.find? fun p => decide (p.id = productID) with
  | some p => p.stock
  | none => 0

/-- The value `totalPriceForBuyer` of `PostPurchaseProduct` for a product and an item:
`basePrice + govtTaxAmount`, on `uint`. -/
def totalPriceForBuyer (cfg : TaxConfig) (p : Product) (item : RequestPurchaseItem) : Nat :=
  uadd (umul p.price item.quantity) (taxAmount (umul p.price item.quantity) cfg.govtTaxPercent)

/-- The local `user` and the store once the loop of `PostPurchaseProduct` has gone through
`items` without an error (`none` when one of them is refused). -/
def purchaseRun (cfg : TaxConfig) : User → State → List RequestPurchaseItem →
    Option (User × State)
  | user, s, [] => some (user, s)
  | user, s, item :: rest =>
    match purchaseItem cfg user s item with
    | .next user' s' => purchaseRun cfg user' s' rest
    | .abort _ _ => none

/-- The operations that change a balance. -/
inductive Operation where
  | topUp (userID amount : Nat)
  | withdraw (userID amount : Nat)
  | purchase (cfg : TaxConfig) (userID : Nat) (req : List RequestPurchaseItem)
  | confirmReceipt (userID : Nat) (transactionIDs : List Nat) (reviews : List ReviewItem)
  | cancel (userID : Nat) (transactionIDs : List Nat)
  | adminOverride (transactionID : Nat) (status : Option TransactionStatus)
  | deleteProduct (userID : Nat) (role : UserRole) (productID : Nat)
  | suspendUser (targetUserID : Nat)
  | banUser (targetUserID : Nat) (banUntilUnix : Int)
  | deleteUser (adminID targetUserID : Nat)

/-- The handler that serves an operation. -/
def Operation.run : Operation → State → Outcome
  | .topUp userID amount, s => PostTopUpBalance s userID amount
  | .withdraw userID amount, s => PostWithDrawBalance s userID amount
  | .purchase cfg userID req, s => PostPurchaseProduct cfg s userID req
  | .confirmReceipt userID ids reviews, s => ConfirmTransactionByUser s userID ids reviews
  | .cancel userID ids, s => CancelTransaction s userID ids
  | .adminOverride id status, s => PatchTransactionStatus s id status
  | .deleteProduct userID role productID, s => DeleteProductsRequest s userID role productID
  | .suspendUser target, s => SuspendUser s target
  | .banUser target banUntil, s => BanUser s target banUntil
  | .deleteUser adminID target, s => DeleteUser s adminID target

/-- The account that an operation suspends, bans or deletes, if it does. -/
def Operation.removedUser : Operation → Option Nat
  | .suspendUser target => some target
  | .banUser target _ => some target
  | .deleteUser _ target => some target
  | _ => none

/-! ## Scenarios of the specification, as concrete states -/

/-- An active account with the given primary key and balance. -/
def account (id balance : Nat) : User :=
  ⟨id, RoleUser, balance, UserStatusActive, none, 0, false⟩

/-- Scenario A: buyer 1 holds 100,000; seller 2 offers product 1 at 50,000, stock 1. -/
def scenarioA : State :=
  { users := [account 1 100000, account 2 0],
    products := [⟨1, 2, 50000, 1, ProductVisibilityAll, false⟩],
    transactions := [], balanceHistories := [], reviews := [], notifications := [],
    sent := [] }

/-- Scenario A after the purchase of one unit by buyer 1. -/
def afterPurchase : State :=
  (PostPurchaseProduct defaultTaxConfig scenarioA 1 [⟨1, 1⟩]).state

/-- Scenario B, first half: seller 2 has confirmed the shipment of order 1. -/
def afterShipment : State := (ConfirmTransactionByOwner afterPurchase 2 [1]).state

/-- Scenario B, second half: buyer 1 has confirmed the receipt of order 1. -/
def afterReceipt : State := (ConfirmTransactionByUser afterShipment 1 [1] []).state

/-- Seller 2 has then withdrawn 39,000 of the 49,000 received for order 1. -/
def afterWithdraw : State := (PostWithDrawBalance afterReceipt 2 39000).state

/-- A shop with two buyers: buyers 1 and 3, seller 2 offering product 1 with stock 5. -/
def twoBuyers : State :=
  { users := [account 1 100000, account 2 0, account 3 60000],
    products := [⟨1, 2, 50000, 5, ProductVisibilityAll, false⟩],
    transactions := [], balanceHistories := [], reviews := [], notifications := [],
    sent := [] }

/-- Buyer 3 has bought one unit (order 1) which seller 2 has shipped; buyer 1 has bought
one unit (order 2, still pending); then the administrator 9 has deleted the account of
buyer 1. -/
def buyerDeleted : State :=
  (DeleteUser
    (PostPurchaseProduct defaultTaxConfig
      (ConfirmTransactionByOwner
        (PostPurchaseProduct defaultTaxConfig twoBuyers 3 [⟨1, 1⟩]).state 2 [1]).state
      1 [⟨1, 1⟩]).state
    9 1).state

/-- After that, seller 2 has been banned. -/
def sellerBanned : State := (BanUser buyerDeleted 2 1000).state

/-- Scenario A after the purchase, and after seller 2 has then deleted product 1: order 1
is cancelled and buyer 1 refunded. -/
def afterProductDeleted : State := (DeleteProductsRequest afterPurchase 2 RoleUser 1).state

/-- Buyer 3 has bought one unit (order 1), seller 2 has shipped it and buyer 3 has confirmed
the receipt, so that seller 2 holds 49,000; then buyer 1 has bought one unit (order 2) and
seller 2 has shipped it: order 2 is `waiting_users` and nothing has been paid for it. -/
def secondShipped : State :=
  (ConfirmTransactionByOwner
    (PostPurchaseProduct defaultTaxConfig
      (ConfirmTransactionByUser
        (ConfirmTransactionByOwner
          (PostPurchaseProduct defaultTaxConfig twoBuyers 3 [⟨1, 1⟩]).state 2 [1]).state
        3 [1] []).state
      1 [⟨1, 1⟩]).state
    2 [2]).state

/-- The shop with two buyers after buyer 3 has bought one unit (order 1), seller 2 has
shipped it and buyer 3 has confirmed the receipt, and buyer 1 has then bought one unit
(order 2): order 1 is `success`, order 2 is `pending`. -/
def settledAndPending : State :=
  (PostPurchaseProduct defaultTaxConfig
    (ConfirmTransactionByUser
      (ConfirmTransactionByOwner
        (PostPurchaseProduct defaultTaxConfig twoBuyers 3 [⟨1, 1⟩]).state 2 [1]).state
      3 [1] []).state
    1 [⟨1, 1⟩]).state

/-- After that, the administrator has set order 1 back to `pending`: the order is `pending`
on a product of seller 2 that is soft-deleted. -/
def reopenedAfterDeletion : State :=
  (PatchTransactionStatus afterProductDeleted 1 (some TrxStatusPending)).state

/-- Scenario A after the purchase, with two penalty warnings on the account of seller 2. -/
def sellerWarned : State :=
  { afterPurchase with
    users := [account 1 47500, ⟨2, RoleUser, 0, UserStatusActive, none, 2, false⟩] }

/-! ## Notions used to state the properties of the order state machine -/

/-- Primary keys of the orders are pairwise different. -/
def State.uniqueTransactions (s : State) : Prop := (s.transactions.map (·.id)).Nodup

/-- The coherence of an order: receipt `COMPLETED` and solved when the status is `success`,
`CANCELED` and solved when it is `cancel`, `PENDING_PROCESS` and not solved otherwise. -/
def TransactionHistory.coherent (t : TransactionHistory) : Bool :=
  match t.status with
  | TrxStatusSuccess => decide (t.receiptStatus = ReceiptCompleted) && t.isSolved
  | TrxStatusCancel => decide (t.receiptStatus = ReceiptCanceled) && t.isSolved
  | _ => decide (t.receiptStatus = ReceiptPendingProcess) && !t.isSolved

/-- Every order of the store is coherent. -/
def State.coherent (s : State) : Prop := ∀ t ∈ s.transactions, t.coherent = true

/-- The status of the order is `success` or `cancel`. -/
def TransactionHistory.terminal (t : TransactionHistory) : Bool :=
  decide (t.status = TrxStatusSuccess) || decide (t.status = TrxStatusCancel)

/-- The operations of the system that write to the users, the products, the orders or the
ledger. -/
inductive Action where
  | balance (op : Operation)
  | confirmShipment (ownerID : Nat) (transactionIDs : List Nat)
  | patchProduct (productID : Nat) (req : RequestPutProduct)

/-- The handler that serves an action. -/
def Action.run : Action → State → Outcome
  | .balance op, s => op.run s
  | .confirmShipment ownerID ids, s => ConfirmTransactionByOwner s ownerID ids
  | .patchProduct productID req, s => PatchProductAdmin s productID req

/-- The action is an admin override of the status of an order. -/
def Action.isOverride : Action → Bool
  | .balance (.adminOverride _ _) => true
  | _ => false

/-- The order after the shipment is confirmed. -/
def TransactionHistory.shipped (t : TransactionHistory) : TransactionHistory :=
  { t with status := TrxStatusWaitingUser, isSolved := false }

/-- The order after it is settled. -/
def TransactionHistory.settled (t : TransactionHistory) : TransactionHistory :=
  { t with status := TrxStatusSuccess, isSolved := true, receiptStatus := ReceiptCompleted }

/-- The order after it is cancelled. -/
def TransactionHistory.cancelled (t : TransactionHistory) : TransactionHistory :=
  { t with status := TrxStatusCancel, isSolved := true, receiptStatus := ReceiptCanceled }

/-- The receipt status that the admin override writes with a status. -/
def receiptFor : TransactionStatus → ReceiptStatus
  | TrxStatusSuccess => ReceiptCompleted
  | TrxStatusCancel => ReceiptCanceled
  | _ => ReceiptPendingProcess

/-- The order after the admin override to status `st`. -/
def TransactionHistory.overridden (t : TransactionHistory) (st : TransactionStatus) :
    TransactionHistory :=
  { t with status := st, isSolved := decide (st = TrxStatusSuccess ∨ st = TrxStatusCancel), receiptStatus := receiptFor st }

/-- An order after some steps of the state machine of the orders: it stays as it is, it is
shipped (`pending` to `waiting_users`), settled (`waiting_users` to `success`) or cancelled
(`pending` or `waiting_owner` to `cancel`), and, when `admin` holds, it may be set to any
status by the override. -/
inductive Moves (admin : Bool) : TransactionHistory → TransactionHistory → Prop
  | stay (t : TransactionHistory) : Moves admin t t
  | ship (t : TransactionHistory) : t.status = TrxStatusPending → Moves admin t t.shipped
  | settle (t : TransactionHistory) : t.status = TrxStatusWaitingUser → Moves admin t t.settled
  | cancel (t : TransactionHistory) :
      t.status = TrxStatusPending ∨ t.status = TrxStatusWaitingOwner → Moves admin t t.cancelled
  | override (t : TransactionHistory) (st : TransactionStatus) :
      admin = true → Moves admin t (t.overridden st)
  | trans {a b c : TransactionHistory} : Moves admin a b → Moves admin b c → Moves admin a c

/-- An order as `PostPurchaseProduct` creates it. -/
def TransactionHistory.fresh (t : TransactionHistory) : Prop :=
  t.status = TrxStatusPending ∧ t.isSolved = false ∧ t.receiptStatus = ReceiptPendingProcess

/-- The orders `l` after an operation, `l'`: every order of `l` has moved along the state
machine, and the orders that come after them are newly created ones. -/
def Evolves (admin : Bool) (l l' : List TransactionHistory) : Prop :=
  ∃ front extra, l' = front ++ extra ∧ List.Forall₂ (Moves admin) l front ∧
    ∀ t ∈ extra, t.fresh

/-- The users, the products, the orders and the ledger of `s'` are those of `s`. -/
def State.sameTables (s s' : State) : Prop :=
  s'.users = s.users ∧ s'.products = s.products ∧ s'.transactions = s.transactions ∧
    s'.balanceHistories = s.balanceHistories

/-- The action revokes the ability of a seller to fulfil orders by removing products: the
deletion of a product, and the suspension, the ban or the deletion of a user. -/
def Action.revokes : Action → Bool
  | .balance (.deleteProduct _ _ _) => true
  | .balance (.suspendUser _) => true
  | .balance (.banUser _ _) => true
  | .balance (.deleteUser _ _) => true
  | _ => false

/-- What the orders of `l` that belong to buyer `userID` cost that buyer: the sum of
`totalPrice + govtTax`. -/
def refundTotal (l : List TransactionHistory) (userID : Nat) : Nat :=
  ((l.filter fun x => decide (x.userID = userID)).map fun x => x.totalPrice + x.govtTax).sum

/-- What buyer `userID` has paid for the orders on product `productID` that are `pending`
or `waiting_owner`. -/
def State.refundDue (s : State) (productID userID : Nat) : Nat :=
  refundTotal (s.pendingTransactions productID) userID

/-- The account with the balance raised by `amount`. -/
def User.credited (u : User) (amount : Nat) : User :=
  { u with balance := u.balance + amount }

/-- The refund entries that the ledger must hold for the orders of `l`, in their order:
buyer, amount `totalPrice + govtTax` and kind. -/
def refundsOf (l : List TransactionHistory) : List (Nat × Int × BalanceStatus) :=
  l.map fun x => (x.userID, ((x.totalPrice + x.govtTax : Nat) : Int), BalanceStatusRefund)

/-- Buyer, amount and kind of the entries of a ledger. -/
def entriesOf (l : List BalanceHistory) : List (Nat × Int × BalanceStatus) :=
  l.map fun e => (e.userID, e.amount, e.status)

/-- The product rows that an action sets out to remove: the product with the given key, or
the live products of the user who is suspended, banned or deleted. -/
def Action.removed : Action → State → List Product
  | .balance (.deleteProduct _ _ productID), s =>
    s.products.filter fun p => decide (p.id = productID)
  | .balance (.suspendUser target), s => s.productsOf target
  | .balance (.banUser target _), s => s.productsOf target
  | .balance (.deleteUser _ target), s => s.productsOf target
  | _, _ => []

/-- The orders on the products `ps` that are `pending` or `waiting_owner`, product by
product. -/
def State.pendingOn (s : State) (ps : List Product) : List TransactionHistory :=
  (ps.map fun p => s.pendingTransactions p.id).flatten

/-- What buyer `userID` has paid for the orders on the products `ps` that are `pending` or
`waiting_owner`. -/
def State.refundDueAll (s : State) (ps : List Product) (userID : Nat) : Nat :=
  (ps.map fun p => s.refundDue p.id userID).sum

/-- The orders on the products `ps` that are `pending` or `waiting_owner` can be refunded:
their buyers are live accounts other than the owner of the product, the refund
`totalPrice + govtTax` fits the store, and no balance overflows when all of them are paid
back. -/
def State.refundable (s : State) (ps : List Product) : Prop :=
  (∀ p ∈ ps, ∀ t ∈ s.transactions, t.productID = p.id →
    (t.status = TrxStatusPending ∨ t.status = TrxStatusWaitingOwner) →
    (s.firstUser t.userID).isSome = true ∧ t.userID ≠ p.userID ∧
      t.totalPrice + t.govtTax < 2 ^ 63) ∧
  ∀ u ∈ s.users, u.balance + s.refundDueAll ps u.id < 2 ^ 64

/-- State `s'` is `s` after the orders on the products `ps` that were `pending` or
`waiting_owner` have been force-cancelled: each of them is read back as `cancel`, `CANCELED`
and solved; every user who owns none of the products has the balance raised by
`totalPrice + govtTax` for each of these orders bought; and the refund entries appended to
the ledger are, in their order, one entry of that amount for the buyer of each order. -/
def State.forceCancelled (s : State) (ps : List Product) (s' : State) : Prop :=
  (∀ p ∈ ps, ∀ t ∈ s.transactions, t.productID = p.id →
    (t.status = TrxStatusPending ∨ t.status = TrxStatusWaitingOwner) →
    s'.firstTransaction t.id = some t.cancelled) ∧
  (∀ u ∈ s.users, (∀ p ∈ ps, u.id ≠ p.userID) →
    ∃ u2 ∈ s'.users, u2.id = u.id ∧ u2.balance = u.balance + s.refundDueAll ps u.id) ∧
  ∃ new, s'.balanceHistories = s.balanceHistories ++ new ∧
    entriesOf (new.filter fun e => decide (e.status = BalanceStatusRefund))
      = refundsOf (s.pendingOn ps)

/-- The owner of the product row with a given key, soft-deleted or not. -/
def State.ownerOf (s : State) (productID : Nat) : Option Nat :=
  (s.products.find? fun p => decide (p.id = productID)).map (·.userID)

/-- Sum of the amounts of the credit entries of a user. -/
def State.creditedTotal (s : State) (userID : Nat) : Int :=
  ((s.balanceHistories.filter fun e =>
    decide (e.userID = userID) && decide (e.status = BalanceStatusCredit)).map (·.amount)).sum

/-- What an order is worth to the seller `userID` once it is settled:
`totalPrice - ecommerceTax` when the status is `success` and the product of the order
belongs to that seller, and nothing otherwise. `own` gives the owner of a product. -/
def settledAmount (own : Nat → Option Nat) (userID : Nat) (t : TransactionHistory) : Int :=
  if t.status = TrxStatusSuccess ∧ own t.productID = some userID then
    (t.totalPrice : Int) - (t.ecommerceTax : Int)
  else 0

/-- Sum of `totalPrice - ecommerceTax` over the orders with status `success` on the products
of a seller. -/
def State.settledTotal (s : State) (userID : Nat) : Int :=
  (s.transactions.map (settledAmount s.ownerOf userID)).sum

/-- The action may settle orders without being the admin override: the confirmation of the
receipt and the operations that run the settlement resolver. -/
def Action.settles : Action → Bool
  | .balance (.confirmReceipt _ _ _) => true
  | .balance (.deleteProduct _ _ _) => true
  | .balance (.suspendUser _) => true
  | .balance (.banUser _ _) => true
  | .balance (.deleteUser _ _) => true
  | _ => false

/-- The state after a sequence of actions, each run on the state the one before has left. -/
def runAll : List Action → State → State
  | [], s => s
  | a :: rest, s => runAll rest (a.run s).state

/-- Order keys and product keys are unique, and for every order `ecommerceTax ≤ totalPrice`
and `totalPrice` fits the store. -/
def State.settleable (s : State) : Prop :=
  s.uniqueTransactions ∧ s.uniqueProducts ∧
    ∀ t ∈ s.transactions, t.ecommerceTax ≤ t.totalPrice ∧ t.totalPrice < 2 ^ 63

/-- The state `s` comes from `s0` by settlements without admin override: the orders have
moved along the state machine, the products have kept their keys and owners, and for every
seller the credit entries have grown by what the newly settled orders are worth. -/
def State.settledAlong (s0 s : State) : Prop :=
  List.Forall₂ (Moves false) s0.transactions s.transactions ∧
  s.products.map (fun p => (p.id, p.userID)) = s0.products.map (fun p => (p.id, p.userID)) ∧
  ∀ u, s.creditedTotal u - s.settledTotal u = s0.creditedTotal u - s0.settledTotal u

/-- Scenario B continued: the admin sets the settled order 1 back to `pending`, then to
`success` again. -/
def settledTwice : State :=
  (PatchTransactionStatus
    (PatchTransactionStatus afterReceipt 1 (some TrxStatusPending)).state 1
    (some TrxStatusSuccess)).state

/-! ## Notions used to state the properties of reactivation, product writes, withdrawals,
notifications, batches, reviews and payouts -/

/-- Scenario A, with seller 2 banned until the instant 1,000: product 1 is soft-deleted and
hidden. -/
def sellerBannedA : State := (BanUser scenarioA 2 1000).state

/-- Scenario A after the purchase by buyer 1, and after seller 2 has then hidden product 1,
which is sold out: stock 0 and visibility `owner_admin`. -/
def soldOutHidden : State := (PatchProductVisibility afterPurchase 2 RoleUser 1).state

/-- A product without stock is not visible to all. -/
def Product.hiddenIfEmpty (p : Product) : Bool :=
  decide (p.stock = 0 → p.visibility ≠ ProductVisibilityAll)

/-- The invariant of the product table: `stock = 0` implies `visibility ≠ all`. -/
def State.zeroStockHidden (s : State) : Prop := ∀ p ∈ s.products, p.hiddenIfEmpty = true

/-- The quantity that the cancellation of the order would give back to the stock: its
quantity while the order is `pending` or `waiting_owner`. -/
def TransactionHistory.heldQuantity (t : TransactionHistory) : Nat :=
  if t.status = TrxStatusPending ∨ t.status = TrxStatusWaitingOwner then t.quantity else 0

/-- The stock of every product, with the quantities of all the orders that may still be
cancelled, fits a `uint`. -/
def State.stockRoom (s : State) : Prop :=
  ∀ p ∈ s.products, p.stock + (s.transactions.map (·.heldQuantity)).sum < 2 ^ 64

/-- The operations that write a product without being the purchase, the admin patch or the
unban. -/
inductive ProductWrite where
  | create (userID price stock : Nat) (visibility : Option ProductVisibility)
      (imagesOk : Bool)
  | ownerUpdate (userID productID : Nat) (req : RequestPutProduct) (imagesOk : Bool)
  | toggle (userID : Nat) (role : UserRole) (productID : Nat)
  | cancel (userID : Nat) (transactionIDs : List Nat)
  | deleteProduct (userID : Nat) (role : UserRole) (productID : Nat)
  | suspendUser (targetUserID : Nat)
  | banUser (targetUserID : Nat) (banUntilUnix : Int)
  | deleteUser (adminID targetUserID : Nat)

/-- The handler that serves a write of a product. -/
def ProductWrite.run : ProductWrite → State → Outcome
  | .create userID price stock visibility imagesOk, s =>
    PostProductsRequest s userID price stock visibility imagesOk
  | .ownerUpdate userID productID req imagesOk, s =>
    PutProductsRequest s userID productID req imagesOk
  | .toggle userID role productID, s => PatchProductVisibility s userID role productID
  | .cancel userID ids, s => CancelTransaction s userID ids
  | .deleteProduct userID role productID, s => DeleteProductsRequest s userID role productID
  | .suspendUser target, s => SuspendUser s target
  | .banUser target banUntil, s => BanUser s target banUntil
  | .deleteUser adminID target, s => DeleteUser s adminID target

/-- An account that holds 50,000,000, with no other row in the store. -/
def wealthy : State :=
  { users := [account 1 50000000], products := [], transactions := [],
    balanceHistories := [], reviews := [], notifications := [], sent := [] }

/-- What holds of an outcome `o` reached from the state `s` as far as notifications go: if
the operation failed, the table of notifications is the one of `s`, and the messages pushed
to the users are those pushed before, followed by the ones pushed meanwhile. -/
def Outcome.keepsPushes (s : State) (o : Outcome) : Prop :=
  (o.isOk = false → o.state.notifications = s.notifications) ∧
    ∃ pushed, o.state.sent = s.sent ++ pushed

/-- The order meets the precondition of the confirmation of its shipment by `ownerID`: the
caller owns the product loaded with the order, and the status is `pending`. -/
def State.shippable (s : State) (ownerID : Nat) (t : TransactionHistory) : Bool :=
  decide (s.preloadProductUserID t = ownerID) && decide (t.status = TrxStatusPending)

/-- The order meets the precondition of the confirmation of its receipt by `userID`: the
caller is the buyer, and the status is `waiting_users`. -/
def TransactionHistory.receivable (t : TransactionHistory) (userID : Nat) : Bool :=
  decide (t.userID = userID) && decide (t.status = TrxStatusWaitingUser)

/-- The order meets the precondition of its cancellation by `userID`: the caller is the
buyer or owns the product loaded with the order, and the status is `pending` or
`waiting_owner`. -/
def State.cancellable (s : State) (userID : Nat) (t : TransactionHistory) : Bool :=
  (decide (userID = s.preloadProductUserID t) || decide (userID = t.userID)) &&
    (decide (t.status = TrxStatusPending) || decide (t.status = TrxStatusWaitingOwner))

/-- The shop with two buyers after buyer 3 has bought one unit (order 1) and buyer 1 one
unit (order 2): both orders are `pending`. -/
def twoOrders : State :=
  (PostPurchaseProduct defaultTaxConfig
    (PostPurchaseProduct defaultTaxConfig twoBuyers 3 [⟨1, 1⟩]).state 1 [⟨1, 1⟩]).state

/-- Buyer 1 has bought one of the five units of product 1 (order 1, `pending`), and seller 2
has then hidden the product, which has four units left. -/
def hiddenByOwner : State :=
  (PatchProductVisibility
    (PostPurchaseProduct defaultTaxConfig twoBuyers 1 [⟨1, 1⟩]).state 2 RoleUser 1).state

/-- The reviews that the review items of a confirm-receipt request create for the order
`trxID`: one for each item that names the order and carries a rating. -/
def reviewsFor (userID productID trxID : Nat) (reviews : List ReviewItem) : List Review :=
  reviews.filterMap fun r =>
    if r.transactionID = trxID then r.rating.map fun rating => ⟨userID, productID, rating⟩
    else none

/-- The product of the order with key `trxID` of buyer `userID`, 0 when there is none. -/
def State.productOfOrder (s : State) (userID trxID : Nat) : Nat :=
  ((s.transactions.find? fun t => decide (t.id = trxID) && decide (t.userID = userID)).map
    (·.productID)).getD 0

/-- Scenario A after the purchase, and after the admin has set order 1 to `cancel`, back to
`pending` and to `cancel` again. -/
def refundedTwice : State :=
  (PatchTransactionStatus
    (PatchTransactionStatus
      (PatchTransactionStatus afterPurchase 1 (some TrxStatusCancel)).state 1
      (some TrxStatusPending)).state 1
    (some TrxStatusCancel)).state

/-- What the buyer has paid for the order and the system still holds: `totalPrice + govtTax`
while the order is `pending`, `waiting_owner` or `waiting_users`, and nothing once it is
`success` or `cancel`. -/
def TransactionHistory.escrow (t : TransactionHistory) : Int :=
  if t.status = TrxStatusSuccess ∨ t.status = TrxStatusCancel then 0
  else (t.totalPrice : Int) + (t.govtTax : Int)

/-- The money held for the orders that are not resolved yet. -/
def State.escrow (s : State) : Int := (s.transactions.map (·.escrow)).sum

/-- The sum of the balances of all the accounts. -/
def State.totalBalance (s : State) : Int := (s.users.map fun u => (u.balance : Int)).sum

/-- The action is a transition of an order by its buyer or its seller, or an operation that
runs the settlement resolver: neither the creation of an order, nor a top-up or a
withdrawal, nor the admin override, nor the admin patch of a product. -/
def Action.resolves : Action → Bool
  | .confirmShipment _ _ => true
  | .balance (.confirmReceipt _ _ _) => true
  | .balance (.cancel _ _) => true
  | .balance (.deleteProduct _ _ _) => true
  | .balance (.suspendUser _) => true
  | .balance (.banUser _ _) => true
  | .balance (.deleteUser _ _) => true
  | _ => false

/-- Order keys and user keys are unique, and no order has an e-commerce tax above its total
price. -/
def State.payable (s : State) : Prop :=
  s.uniqueTransactions ∧ s.uniqueUsers ∧
    ∀ t ∈ s.transactions, t.ecommerceTax ≤ t.totalPrice

/-- The state `s` comes from `s0` by operations that pay out of the escrow only: the orders
have moved along the state machine, the accounts are the same, and the balances together
with the money still held do not exceed what they were. -/
def State.withinEscrow (s0 s : State) : Prop :=
  List.Forall₂ (Moves false) s0.transactions s.transactions ∧
  s.users.map (·.id) = s0.users.map (·.id) ∧
  s.totalBalance + s.escrow ≤ s0.totalBalance + s0.escrow

/-! ## Machine arithmetic: basic facts -/

theorem uadd_lt (a b : Nat) : uadd a b < 2 ^ 64 := Nat.mod_lt _ (by norm_num)

theorem usub_lt (a b : Nat) : usub a b < 2 ^ 64 := Nat.mod_lt _ (by norm_num)

theorem umul_lt (a b : Nat) : umul a b < 2 ^ 64 := Nat.mod_lt _ (by norm_num)

theorem uadd_eq {a b : Nat} (h : a + b < 2 ^ 64) : uadd a b = a + b :=
  Nat.mod_eq_of_lt h

theorem usub_eq {a b : Nat} (ha : a < 2 ^ 64) (hb : b ≤ a) : usub a b = a - b := by
  unfold usub
  have hb' : b < 2 ^ 64 := lt_of_le_of_lt hb ha
  rw [Nat.mod_eq_of_lt ha, Nat.mod_eq_of_lt hb']
  have : a + (2 ^ 64 - b) = (a - b) + 2 ^ 64 := by omega
  rw [this, Nat.add_mod_right]
  exact Nat.mod_eq_of_lt (by omega)

theorem toInt_eq {a : Nat} (h : a < 2 ^ 63) : toInt a = (a : Int) := by
  unfold toInt
  have h' : a % 2 ^ 64 = a := Nat.mod_eq_of_lt (by omega)
  rw [h', if_pos h]

/-! ## C2, C3, C6: the code at the inputs of the scenarios -/

/-- C2: in Scenario E with a seller who has withdrawn 39,000 of the payout and holds
10,000, the admin override of order 1 from `success` to `cancel` succeeds and stores
`2 ^ 64 - 39000` as the balance of seller 2, not 0: the subtraction `10000 - 49000` wraps
around and the clamp at zero never applies. -/
theorem C2_admin_cancel_debit_wraps :
    (afterWithdraw.firstTransaction 1).map
        (fun t => (t.status, t.totalPrice, t.ecommerceTax))
      = some (TrxStatusSuccess, 50000, 1000) ∧
    (afterWithdraw.firstUser 2).map (·.balance) = some 10000 ∧
    (PatchTransactionStatus afterWithdraw 1 (some TrxStatusCancel)).isOk = true ∧
    ((PatchTransactionStatus afterWithdraw 1 (some TrxStatusCancel)).state.firstUser 2).map
        (·.balance) = some 18446744073709512616 ∧
    18446744073709512616 = 2 ^ 64 - (50000 - 1000 - 10000) := by
  decide

/-- C3: in Scenario D, banning seller 2 while order 1 is `waiting_users` marks the order
`success` / `COMPLETED` / solved and writes a credit entry of 49,000 for the seller, but the
balance of the seller stays 0. -/
theorem C3_ban_settles_without_credit :
    (afterShipment.firstTransaction 1).map (·.status) = some TrxStatusWaitingUser ∧
    (afterShipment.firstUser 2).map (·.balance) = some 0 ∧
    (BanUser afterShipment 2 1000).isOk = true ∧
    ((BanUser afterShipment 2 1000).state.firstTransaction 1).map
        (fun t => (t.status, t.receiptStatus, t.isSolved, t.totalPrice, t.ecommerceTax))
      = some (TrxStatusSuccess, ReceiptCompleted, true, 50000, 1000) ∧
    ((BanUser afterShipment 2 1000).state.firstUser 2).map (·.balance) = some 0 ∧
    ((BanUser afterShipment 2 1000).state.balanceHistories.filter
        (fun e => decide (e.userID = 2))).map (fun e => (e.amount, e.status))
      = [(49000, BalanceStatusCredit)] := by
  decide

/-- C6: in Scenario A the purchase succeeds with `govtTax` 2,500, `ecommerceTax` 1,000,
buyer balance 47,500, stock 0 and order status `pending`, but the visibility of the product
is still `all`: the test `product.Stock-item.Quantity == 0` reads the stock that `Update`
has just lowered. -/
theorem C6_scenarioA_purchase :
    (PostPurchaseProduct defaultTaxConfig scenarioA 1 [⟨1, 1⟩]).isOk = true ∧
    afterPurchase.transactions =
      [⟨1, 1, 1, 1, 50000, 2500, 1000, TrxStatusPending, false, ReceiptPendingProcess⟩] ∧
    (afterPurchase.firstUser 1).map (·.balance) = some 47500 ∧
    afterPurchase.products = [⟨1, 2, 50000, 0, ProductVisibilityAll, false⟩] := by
  decide

/-! ## Writers of the store, loops and transactions: basic facts -/

attribute [local simp] State.updateUserBalance State.saveUser State.updateProductStock
  State.updateProductVisibility State.saveProduct State.updateTransaction
  State.createTransaction State.createBalanceHistory State.createReview
  State.createNotification State.SendNotificationToUser State.notify
  Outcome.state Outcome.isOk

theorem forEach_invariant {α : Type} (P : State → Prop) (body : State → α → Outcome)
    (hbody : ∀ s x, P s → P (body s x).state) :
    ∀ (xs : List α) (s : State), P s → P (forEach body s xs).state := by
  intro xs
  induction xs with
  | nil => intro s hs; simpa [forEach] using hs
  | cons x xs ih =>
    intro s hs
    have hx := hbody s x hs
    unfold forEach
    cases hb : body s x with
    | ok s' =>
      rw [hb] at hx
      exact ih s' hx
    | fail e s' =>
      rw [hb] at hx
      exact hx

theorem Transaction_invariant (P : State → Prop) (s : State) (body : State → Outcome)
    (hsent : ∀ l, P { s with sent := l }) (hbody : P (body s).state) :
    P (Transaction s body).state := by
  unfold Transaction
  cases hb : body s with
  | ok s' => rw [hb] at hbody; exact hbody
  | fail e s' => exact hsent _

theorem Transaction_fail (s : State) (body : State → Outcome)
    (h : (Transaction s body).isOk = false) :
    (Transaction s body).state.users = s.users ∧
    (Transaction s body).state.products = s.products ∧
    (Transaction s body).state.transactions = s.transactions ∧
    (Transaction s body).state.balanceHistories = s.balanceHistories ∧
    (Transaction s body).state.reviews = s.reviews ∧
    (Transaction s body).state.notifications = s.notifications := by
  unfold Transaction at h ⊢
  cases hb : body s with
  | ok s' => rw [hb] at h; simp at h
  | fail e s' => simp

theorem createReviews_frame (userID trxID productID : Nat) (rs : List ReviewItem) :
    ∀ s : State,
      (createReviews userID trxID productID s rs).users = s.users ∧
      (createReviews userID trxID productID s rs).products = s.products ∧
      (createReviews userID trxID productID s rs).transactions = s.transactions ∧
      (createReviews userID trxID productID s rs).balanceHistories = s.balanceHistories ∧
      (createReviews userID trxID productID s rs).notifications = s.notifications ∧
      (createReviews userID trxID productID s rs).sent = s.sent := by
  induction rs with
  | nil => intro s; simp [createReviews]
  | cons r rs ih =>
    intro s
    unfold createReviews
    cases r.rating with
    | none => exact ih s
    | some rating =>
      simp only
      split_ifs
      · simpa using ih (s.createReview ⟨userID, productID, rating⟩)
      · exact ih s

theorem firstUser_mem {s : State} {id : Nat} {u : User} (h : s.firstUser id = some u) :
    u ∈ s.users ∧ u.id = id ∧ u.deleted = false := by
  unfold State.firstUser at h
  have h1 := List.mem_of_find?_eq_some h
  have h2 := List.find?_some h
  simp at h2
  exact ⟨h1, h2.1, h2.2⟩

theorem firstProduct_mem {s : State} {id : Nat} {p : Product}
    (h : s.firstProduct id = some p) :
    p ∈ s.products ∧ p.id = id ∧ p.deleted = false := by
  unfold State.firstProduct at h
  have h1 := List.mem_of_find?_eq_some h
  have h2 := List.find?_some h
  simp at h2
  exact ⟨h1, h2.1, h2.2⟩

theorem firstPublicProduct_mem {s : State} {id : Nat} {p : Product}
    (h : s.firstPublicProduct id = some p) :
    p ∈ s.products ∧ p.id = id ∧ p.visibility = ProductVisibilityAll ∧ p.deleted = false := by
  unfold State.firstPublicProduct at h
  have h1 := List.mem_of_find?_eq_some h
  have h2 := List.find?_some h
  simp at h2
  exact ⟨h1, h2.1.1, h2.1.2, h2.2⟩

theorem firstTransaction_mem {s : State} {id : Nat} {t : TransactionHistory}
    (h : s.firstTransaction id = some t) : t ∈ s.transactions ∧ t.id = id := by
  unfold State.firstTransaction at h
  have h1 := List.mem_of_find?_eq_some h
  have h2 := List.find?_some h
  simp at h2
  exact ⟨h1, h2⟩

/-- After `Update("balance", v)` on a live account, `First` returns it with the new
balance. -/
theorem firstUser_updateUserBalance {s : State} {id : Nat} {u : User} (v : Nat)
    (h : s.firstUser id = some u) :
    (s.updateUserBalance id v).firstUser id = some { u with balance := v } := by
  have hm := firstUser_mem h
  unfold State.firstUser at h ⊢
  simp only [State.updateUserBalance, List.find?_map]
  have hfun : ((fun u : User => decide (u.id = id) && !u.deleted) ∘
      fun u : User => if u.id = id ∧ u.deleted = false then { u with balance := v } else u)
      = fun u : User => decide (u.id = id) && !u.deleted := by
    funext x
    simp only [Function.comp]
    split_ifs <;> rfl
  rw [hfun, h]
  simp [hm.2.1, hm.2.2]

/-! ## C7: confirmation of the shipment -/

theorem confirmByOwnerItem_frame (ownerID : Nat) (s : State) (trxID : Nat) :
    (confirmByOwnerItem ownerID s trxID).state.users = s.users ∧
    (confirmByOwnerItem ownerID s trxID).state.products = s.products ∧
    (confirmByOwnerItem ownerID s trxID).state.balanceHistories = s.balanceHistories := by
  unfold confirmByOwnerItem
  split
  · simp
  · split_ifs <;> simp

theorem ConfirmTransactionByOwner_frame (s : State) (ownerID : Nat) (ids : List Nat) :
    (ConfirmTransactionByOwner s ownerID ids).state.users = s.users ∧
    (ConfirmTransactionByOwner s ownerID ids).state.products = s.products ∧
    (ConfirmTransactionByOwner s ownerID ids).state.balanceHistories
      = s.balanceHistories := by
  unfold ConfirmTransactionByOwner
  split_ifs
  · simp
  · apply Transaction_invariant
      (fun s' => s'.users = s.users ∧ s'.products = s.products ∧
        s'.balanceHistories = s.balanceHistories)
    · intro l; simp
    · apply forEach_invariant
        (fun s' => s'.users = s.users ∧ s'.products = s.products ∧
          s'.balanceHistories = s.balanceHistories)
      · intro s' x hs'
        have h := confirmByOwnerItem_frame ownerID s' x
        exact ⟨h.1.trans hs'.1, h.2.1.trans hs'.2.1, h.2.2.trans hs'.2.2⟩
      · simp

/-- C7 fails as stated: seller 2 has deleted product 1 (order 1 was cancelled and refunded)
and the administrator has set order 1 back to `pending`. Order 1 is `pending` and its
product is the product of seller 2, but the row of the product is soft-deleted and is not
loaded with the order: `ConfirmTransactionByOwner` by seller 2 fails with `NotProductOwner`
and the order stays `pending`. -/
theorem C7_counterexample_product_deleted :
    (reopenedAfterDeletion.firstTransaction 1).map (fun t => (t.productID, t.status))
      = some (1, TrxStatusPending) ∧
    (reopenedAfterDeletion.products.map fun p => (p.id, p.userID, p.deleted))
      = [(1, 2, true)] ∧
    (reopenedAfterDeletion.firstUser 2).map (·.status) = some UserStatusActive ∧
    ConfirmTransactionByOwner reopenedAfterDeletion 2 [1]
      = .fail .NotProductOwner reopenedAfterDeletion := by
  decide

/-- C7 (as amended): for an order with status `pending` whose product is a live (not
soft-deleted) row that belongs to the caller, `ConfirmTransactionByOwner` succeeds, sets
the status to `waiting_users` with `isSolved` false and leaves every other order, the
users, the products and the ledger as they were; when the status is not `pending`, or the
product is soft-deleted or is not the caller's, it fails and the tables are unchanged; and
whatever the request, no balance, stock or ledger entry changes. -/
theorem C7_confirm_shipment (s : State) (ownerID trxID : Nat) (trx : TransactionHistory)
    (hid : trxID ≠ 0) (hown : ownerID ≠ 0)
    (hfind : s.firstTransaction trxID = some trx) :
    (trx.status = TrxStatusPending ∧
        (∃ p, s.firstProduct trx.productID = some p ∧ p.userID = ownerID) →
      (ConfirmTransactionByOwner s ownerID [trxID]).isOk = true ∧
      (ConfirmTransactionByOwner s ownerID [trxID]).state.transactions =
        s.transactions.map (fun t =>
          if t.id = trxID then { t with status := TrxStatusWaitingUser, isSolved := false }
          else t) ∧
      (ConfirmTransactionByOwner s ownerID [trxID]).state.users = s.users ∧
      (ConfirmTransactionByOwner s ownerID [trxID]).state.products = s.products ∧
      (ConfirmTransactionByOwner s ownerID [trxID]).state.balanceHistories =
        s.balanceHistories) ∧
    (¬ (trx.status = TrxStatusPending ∧
        (∃ p, s.firstProduct trx.productID = some p ∧ p.userID = ownerID)) →
      (ConfirmTransactionByOwner s ownerID [trxID]).isOk = false ∧
      (ConfirmTransactionByOwner s ownerID [trxID]).state.transactions = s.transactions ∧
      (ConfirmTransactionByOwner s ownerID [trxID]).state.users = s.users ∧
      (ConfirmTransactionByOwner s ownerID [trxID]).state.products = s.products ∧
      (ConfirmTransactionByOwner s ownerID [trxID]).state.balanceHistories =
        s.balanceHistories) ∧
    (∀ ids, (ConfirmTransactionByOwner s ownerID ids).state.users = s.users ∧
      (ConfirmTransactionByOwner s ownerID ids).state.products = s.products ∧
      (ConfirmTransactionByOwner s ownerID ids).state.balanceHistories
        = s.balanceHistories) := by
  have hti := (firstTransaction_mem hfind).2
  refine ⟨?_, ?_, fun ids => ConfirmTransactionByOwner_frame s ownerID ids⟩
  · rintro ⟨hst, p, hp, hpo⟩
    simp [ConfirmTransactionByOwner, Transaction, forEach, confirmByOwnerItem, hid, hfind,
      State.preloadProductUserID, hp, hpo, hst, hti]
  · intro hneg
    by_cases hst : trx.status = TrxStatusPending
    · have hno : s.preloadProductUserID trx ≠ ownerID := by
        unfold State.preloadProductUserID
        cases hp : s.firstProduct trx.productID with
        | none => simpa using hown.symm
        | some p =>
          simp only
          intro h
          exact hneg ⟨hst, p, hp, h⟩
      simp [ConfirmTransactionByOwner, Transaction, forEach, confirmByOwnerItem, hid, hfind, hno]
    · by_cases hno : s.preloadProductUserID trx = ownerID
      · simp [ConfirmTransactionByOwner, Transaction, forEach, confirmByOwnerItem, hid, hfind,
          hno, hst]
      · simp [ConfirmTransactionByOwner, Transaction, forEach, confirmByOwnerItem, hid, hfind,
          hno]

/-- Witness of C7 in Scenario B: seller 2 confirms the shipment of order 1. -/
theorem C7_confirm_shipment_witness :
    (ConfirmTransactionByOwner afterPurchase 2 [1]).isOk = true ∧
    (ConfirmTransactionByOwner afterPurchase 2 [1]).state.transactions =
      [⟨1, 1, 1, 1, 50000, 2500, 1000, TrxStatusWaitingUser, false, ReceiptPendingProcess⟩] ∧
    (ConfirmTransactionByOwner afterPurchase 2 [1]).state.users = afterPurchase.users := by
  have h := (C7_confirm_shipment afterPurchase 2 1
    ⟨1, 1, 1, 1, 50000, 2500, 1000, TrxStatusPending, false, ReceiptPendingProcess⟩
    (by decide) (by decide) (by decide)).1
    ⟨by decide, ⟨1, 2, 50000, 0, ProductVisibilityAll, false⟩, by decide, by decide⟩
  refine ⟨h.1, ?_, h.2.2.1⟩
  rw [h.2.1]
  decide

theorem Outcome.ok_of_isOk {o : Outcome} (h : o.isOk = true) : o = .ok o.state := by
  cases o with
  | ok s => rfl
  | fail e s => simp at h

/-! ## C8: confirmation of the receipt -/

/-- C8 (as amended): for an order with status `waiting_users` whose buyer is the caller,
whose product and whose product owner are live records, and with
`owner.balance + totalPrice` below `2 ^ 63`, `ConfirmTransactionByUser` succeeds, raises
the balance of the owner by exactly `totalPrice - ecommerceTax`, appends one credit entry of
that amount and sets the order to `success` / `COMPLETED` / solved; with the default 2% a
total of 50,000 gives a tax of 1,000 and a credit of 49,000. -/
theorem C8_confirm_receipt (s : State) (userID trxID : Nat) (reviews : List ReviewItem)
    (trx : TransactionHistory) (p : Product) (owner : User)
    (hid : trxID ≠ 0)
    (hfind : s.transactions.find?
      (fun t => decide (t.id = trxID) && decide (t.userID = userID)) = some trx)
    (hst : trx.status = TrxStatusWaitingUser)
    (hp : s.firstProduct trx.productID = some p)
    (ho : s.firstUser p.userID = some owner)
    (htax : trx.ecommerceTax ≤ trx.totalPrice)
    (hrange : owner.balance + trx.totalPrice < 2 ^ 63) :
    ∃ s', ConfirmTransactionByUser s userID [trxID] reviews = .ok s' ∧
      s'.firstUser owner.id =
        some { owner with balance := owner.balance + (trx.totalPrice - trx.ecommerceTax) } ∧
      s'.users = s.users.map (fun u =>
        if u.id = owner.id ∧ u.deleted = false then
          { u with balance := owner.balance + (trx.totalPrice - trx.ecommerceTax) }
        else u) ∧
      s'.balanceHistories = s.balanceHistories ++
        [⟨s.balanceHistories.length + 1, owner.id,
          ((trx.totalPrice - trx.ecommerceTax : Nat) : Int), owner.balance,
          owner.balance + (trx.totalPrice - trx.ecommerceTax), BalanceStatusCredit⟩] ∧
      s'.transactions = s.transactions.map (fun t =>
        if t.id = trxID then
          { t with status := TrxStatusSuccess, isSolved := true,
                   receiptStatus := ReceiptCompleted }
        else t) ∧
      s'.products = s.products ∧
      taxAmount 50000 DefaultEcommerceTaxPercent = 1000 ∧ usub 50000 1000 = 49000 := by
  have hti : trx.id = trxID := by
    have h2 := List.find?_some hfind
    simp at h2
    exact h2.1
  have hoid := (firstUser_mem ho).2.1
  have hsub : usub trx.totalPrice trx.ecommerceTax = trx.totalPrice - trx.ecommerceTax :=
    usub_eq (by omega) htax
  have hadd : uadd owner.balance (trx.totalPrice - trx.ecommerceTax)
      = owner.balance + (trx.totalPrice - trx.ecommerceTax) := uadd_eq (by omega)
  have hint : toInt (trx.totalPrice - trx.ecommerceTax)
      = ((trx.totalPrice - trx.ecommerceTax : Nat) : Int) := toInt_eq (by omega)
  have hrev := createReviews_frame userID trxID trx.productID reviews
  have hfu := firstUser_updateUserBalance
    (owner.balance + (trx.totalPrice - trx.ecommerceTax)) ho
  rw [← hoid] at hfu
  have hrun : ConfirmTransactionByUser s userID [trxID] reviews =
      .ok (((createReviews userID trxID trx.productID
        (((s.createBalanceHistory owner.id
            ((trx.totalPrice - trx.ecommerceTax : Nat) : Int) owner.balance
            (owner.balance + (trx.totalPrice - trx.ecommerceTax))
            BalanceStatusCredit).updateUserBalance owner.id
            (owner.balance + (trx.totalPrice - trx.ecommerceTax))).updateTransaction trx.id
            fun t => { t with status := TrxStatusSuccess, isSolved := true,
                              receiptStatus := ReceiptCompleted })
        reviews).notify owner.id NotifTypeSale (some trx.id)).notify userID
          NotifTypePurchase (some trx.id)) := by
    simp only [ConfirmTransactionByUser, Transaction, forEach, confirmByUserItem, hfind, hp, ho,
      hst, hsub, hadd, hint]
    simp [hid]
  refine ⟨_, hrun, ?_, ?_, ?_, ?_, ?_, by decide, by decide⟩
  · unfold State.firstUser at hfu ⊢
    simpa [(hrev _).1] using hfu
  · simp [(hrev _).1]
  · simp [(hrev _).2.2.2.1]
  · simp [(hrev _).2.2.1, hti]
  · simp [(hrev _).2.1]

/-- Witness of C8 in Scenario B: buyer 1 confirms the receipt of order 1 and seller 2 is
credited 49,000. -/
theorem C8_confirm_receipt_witness :
    ∃ s', ConfirmTransactionByUser afterShipment 1 [1] [] = .ok s' ∧
      s'.firstUser 2 = some (account 2 49000) ∧
      s'.balanceHistories = afterShipment.balanceHistories ++
        [⟨2, 2, 49000, 0, 49000, BalanceStatusCredit⟩] := by
  obtain ⟨s', h1, h2, -, h3, -⟩ := C8_confirm_receipt afterShipment 1 1 []
    ⟨1, 1, 1, 1, 50000, 2500, 1000, TrxStatusWaitingUser, false, ReceiptPendingProcess⟩
    ⟨1, 2, 50000, 0, ProductVisibilityAll, false⟩ (account 2 0)
    (by decide) (by decide) (by decide) (by decide) (by decide) (by decide) (by decide)
  exact ⟨s', h1, h2, h3⟩

/-- Counterexample to C8 as stated: after the account of buyer 1 is deleted and seller 2
banned (`sellerBanned`), order 1 of the live buyer 3 is still `waiting_users`, but its
product is soft-deleted: `ConfirmTransactionByUser` fails with `ProductNotFound`, the order
stays `waiting_users` and seller 2 receives nothing. -/
theorem C8_counterexample_product_deleted :
    sellerBanned.transactions.find?
        (fun t => decide (t.id = 1) && decide (t.userID = 3))
      = some ⟨1, 1, 3, 1, 50000, 2500, 1000, TrxStatusWaitingUser, false,
          ReceiptPendingProcess⟩ ∧
    (sellerBanned.firstUser 3).map (·.status) = some UserStatusActive ∧
    ConfirmTransactionByUser sellerBanned 3 [1] [] = .fail .ProductNotFound sellerBanned ∧
    (sellerBanned.users.find? (fun u => decide (u.id = 2))).map (·.balance) = some 0 := by
  decide

/-! ## C9: cancellation by the buyer or the seller -/

/-- The effect of `CancelTransaction` on one cancellable order, in machine arithmetic. -/
theorem CancelTransaction_single (s : State) (userID trxID : Nat) (trx : TransactionHistory)
    (buyer : User) (p : Product)
    (hid : trxID ≠ 0)
    (hfind : s.firstTransaction trxID = some trx)
    (hst : trx.status = TrxStatusPending ∨ trx.status = TrxStatusWaitingOwner)
    (hcaller : userID = trx.userID ∨ userID = p.userID)
    (hb : s.firstUser trx.userID = some buyer)
    (hp : s.firstProduct trx.productID = some p) :
    ∃ s', CancelTransaction s userID [trxID] = .ok s' ∧
      s'.firstUser trx.userID =
        some { buyer with
          balance := uadd buyer.balance (uadd trx.totalPrice trx.govtTax) } ∧
      s'.users = s.users.map (fun u =>
        if u.id = trx.userID ∧ u.deleted = false then
          { u with balance := uadd buyer.balance (uadd trx.totalPrice trx.govtTax) }
        else u) ∧
      s'.balanceHistories = s.balanceHistories ++
        [⟨s.balanceHistories.length + 1, trx.userID,
          toInt (uadd trx.totalPrice trx.govtTax),
          uadd buyer.balance (uadd trx.totalPrice trx.govtTax),
          uadd buyer.balance (uadd trx.totalPrice trx.govtTax), BalanceStatusRefund⟩] ∧
      s'.products = s.products.map (fun x =>
        if x.id = trx.productID then
          { p with stock := uadd p.stock trx.quantity,
                   visibility :=
                     if 0 < uadd p.stock trx.quantity ∧
                        p.visibility = ProductVisibilityOwnerAdmin
                     then ProductVisibilityAll else p.visibility }
        else x) ∧
      s'.transactions = s.transactions.map (fun t =>
        if t.id = trxID then
          { t with status := TrxStatusCancel, isSolved := true,
                   receiptStatus := ReceiptCanceled }
        else t) := by
  have hti := (firstTransaction_mem hfind).2
  have hbm := firstUser_mem hb
  have hpm := firstProduct_mem hp
  have hguard1 : ¬ (userID ≠ s.preloadProductUserID trx ∧ userID ≠ trx.userID) := by
    simp only [State.preloadProductUserID, hp]
    rcases hcaller with h | h
    · simp [h]
    · simp [h]
  have hguard2 : ¬ (trx.status ≠ TrxStatusPending ∧ trx.status ≠ TrxStatusWaitingOwner) := by
    rcases hst with h | h <;> simp [h]
  have hfu := firstUser_updateUserBalance
    (uadd buyer.balance (uadd trx.totalPrice trx.govtTax)) hb
  have hpf : ((s.updateUserBalance buyer.id
      (uadd buyer.balance (uadd trx.totalPrice trx.govtTax))).createBalanceHistory buyer.id
      (toInt (uadd trx.totalPrice trx.govtTax))
      (uadd buyer.balance (uadd trx.totalPrice trx.govtTax))
      (uadd buyer.balance (uadd trx.totalPrice trx.govtTax)) BalanceStatusRefund).firstProduct
      trx.productID = some p := by
    simpa [State.firstProduct] using hp
  have hpid := hpm.2.1
  have hbid := hbm.2.1
  by_cases hvis : 0 < uadd p.stock trx.quantity ∧ p.visibility = ProductVisibilityOwnerAdmin
  · have hok : (CancelTransaction s userID [trxID]).isOk = true := by
      simp only [CancelTransaction, Transaction, forEach, cancelItem, hfind, hguard1, hguard2,
        hb, if_false, hpf, hvis]
      simp [hid]
    refine ⟨_, Outcome.ok_of_isOk hok, ?_, ?_, ?_, ?_, ?_⟩
    · simp only [CancelTransaction, Transaction, forEach, cancelItem, hfind, hguard1, hguard2,
        hb, if_false, hpf, hvis]
      simp only [State.firstUser] at hfu ⊢
      simpa [hid, hbid] using hfu
    · simp only [CancelTransaction, Transaction, forEach, cancelItem, hfind, hguard1, hguard2,
        hb, if_false, hpf, hvis]
      simp [hid, hbid]
    · simp only [CancelTransaction, Transaction, forEach, cancelItem, hfind, hguard1, hguard2,
        hb, if_false, hpf, hvis]
      simp [hid, hbid]
    · simp only [CancelTransaction, Transaction, forEach, cancelItem, hfind, hguard1, hguard2,
        hb, if_false, hpf, hvis]
      simp only [hid, hpid, List.length_cons, List.length_nil, List.any_cons, List.any_nil,
        Outcome.state, State.notify, State.createNotification, State.SendNotificationToUser,
        State.updateTransaction, State.updateProductVisibility, State.saveProduct,
        List.map_map]
      apply List.map_congr_left
      intro a _
      simp only [Function.comp]
      by_cases ha : a.id = trx.productID
      · simp [ha, hpid, hpm.2.2, hvis]
      · simp [ha, hpid]
    · simp only [CancelTransaction, Transaction, forEach, cancelItem, hfind, hguard1, hguard2,
        hb, if_false, hpf, hvis]
      simp [hid, hti]
  · have hok : (CancelTransaction s userID [trxID]).isOk = true := by
      simp only [CancelTransaction, Transaction, forEach, cancelItem, hfind, hguard1, hguard2,
        hb, if_false, hpf, hvis]
      simp [hid]
    refine ⟨_, Outcome.ok_of_isOk hok, ?_, ?_, ?_, ?_, ?_⟩
    · simp only [CancelTransaction, Transaction, forEach, cancelItem, hfind, hguard1, hguard2,
        hb, if_false, hpf, hvis]
      simp only [State.firstUser] at hfu ⊢
      simpa [hid, hbid] using hfu
    · simp only [CancelTransaction, Transaction, forEach, cancelItem, hfind, hguard1, hguard2,
        hb, if_false, hpf, hvis]
      simp [hid, hbid]
    · simp only [CancelTransaction, Transaction, forEach, cancelItem, hfind, hguard1, hguard2,
        hb, if_false, hpf, hvis]
      simp [hid, hbid]
    · simp only [CancelTransaction, Transaction, forEach, cancelItem, hfind, hguard1, hguard2,
        hb, if_false, hpf, hvis]
      simp only [hid, hpid, List.length_cons, List.length_nil, List.any_cons, List.any_nil,
        Outcome.state, State.notify, State.createNotification, State.SendNotificationToUser,
        State.updateTransaction, State.updateProductVisibility, State.saveProduct,
        List.map_map]
      apply List.map_congr_left
      intro a _
      simp only [Function.comp]
    · simp only [CancelTransaction, Transaction, forEach, cancelItem, hfind, hguard1, hguard2,
        hb, if_false, hpf, hvis]
      simp [hid, hti]

/-- C9 (as amended): for an order with status `pending` or `waiting_owner`, a caller who is
its buyer or the owner of its product, a live buyer account and a live product, with
`buyer.balance + totalPrice + govtTax` below `2 ^ 63` and `stock + quantity` below `2 ^ 64`,
`CancelTransaction` succeeds, raises the balance of the buyer by `totalPrice + govtTax`
with one refund entry of that amount, raises the stock of the product by the quantity of
the order (making it public again when it was `owner_admin`), and sets the order to
`cancel` / `CANCELED` / solved. -/
theorem C9_cancel (s : State) (userID trxID : Nat) (trx : TransactionHistory)
    (buyer : User) (p : Product)
    (hid : trxID ≠ 0)
    (hfind : s.firstTransaction trxID = some trx)
    (hst : trx.status = TrxStatusPending ∨ trx.status = TrxStatusWaitingOwner)
    (hcaller : userID = trx.userID ∨ userID = p.userID)
    (hb : s.firstUser trx.userID = some buyer)
    (hp : s.firstProduct trx.productID = some p)
    (hrange : buyer.balance + trx.totalPrice + trx.govtTax < 2 ^ 63)
    (hstock : p.stock + trx.quantity < 2 ^ 64) :
    ∃ s', CancelTransaction s userID [trxID] = .ok s' ∧
      s'.firstUser trx.userID =
        some { buyer with balance := buyer.balance + (trx.totalPrice + trx.govtTax) } ∧
      s'.users = s.users.map (fun u =>
        if u.id = trx.userID ∧ u.deleted = false then
          { u with balance := buyer.balance + (trx.totalPrice + trx.govtTax) }
        else u) ∧
      s'.balanceHistories = s.balanceHistories ++
        [⟨s.balanceHistories.length + 1, trx.userID,
          ((trx.totalPrice + trx.govtTax : Nat) : Int),
          buyer.balance + (trx.totalPrice + trx.govtTax),
          buyer.balance + (trx.totalPrice + trx.govtTax), BalanceStatusRefund⟩] ∧
      s'.products = s.products.map (fun x =>
        if x.id = trx.productID then
          { p with stock := p.stock + trx.quantity,
                   visibility :=
                     if 0 < p.stock + trx.quantity ∧ p.visibility = ProductVisibilityOwnerAdmin
                     then ProductVisibilityAll else p.visibility }
        else x) ∧
      s'.transactions = s.transactions.map (fun t =>
        if t.id = trxID then
          { t with status := TrxStatusCancel, isSolved := true,
                   receiptStatus := ReceiptCanceled }
        else t) := by
  have hrefund : uadd trx.totalPrice trx.govtTax = trx.totalPrice + trx.govtTax :=
    uadd_eq (by omega)
  have hadd : uadd buyer.balance (trx.totalPrice + trx.govtTax)
      = buyer.balance + (trx.totalPrice + trx.govtTax) := uadd_eq (by omega)
  have hint : toInt (trx.totalPrice + trx.govtTax)
      = ((trx.totalPrice + trx.govtTax : Nat) : Int) := toInt_eq (by omega)
  have hst' : uadd p.stock trx.quantity = p.stock + trx.quantity := uadd_eq hstock
  have h := CancelTransaction_single s userID trxID trx buyer p hid hfind hst hcaller hb hp
  rw [hrefund, hadd, hint, hst'] at h
  exact h

/-- Witness of C9 in Scenario C: buyer 1 cancels the pending order 1 and gets 52,500 back. -/
theorem C9_cancel_witness :
    ∃ s', CancelTransaction afterPurchase 1 [1] = .ok s' ∧
      s'.firstUser 1 = some (account 1 100000) ∧
      s'.balanceHistories = afterPurchase.balanceHistories ++
        [⟨2, 1, 52500, 100000, 100000, BalanceStatusRefund⟩] := by
  obtain ⟨s', h1, h2, -, h3, -⟩ := C9_cancel afterPurchase 1 1
    ⟨1, 1, 1, 1, 50000, 2500, 1000, TrxStatusPending, false, ReceiptPendingProcess⟩
    (account 1 47500) ⟨1, 2, 50000, 0, ProductVisibilityAll, false⟩
    (by decide) (by decide) (by decide) (by decide) (by decide) (by decide) (by decide)
    (by decide)
  exact ⟨s', h1, h2, h3⟩

/-- Counterexample to C9 as stated: once the account of buyer 1 is deleted (`buyerDeleted`),
order 2 is still `pending` and seller 2 owns its product, but `CancelTransaction` called by
the seller fails with `UserNotFound`, because the buyer cannot be loaded: nothing is
refunded, the stock is not restored and the order stays `pending`. -/
theorem C9_counterexample_buyer_deleted :
    buyerDeleted.firstTransaction 2
      = some ⟨2, 1, 1, 1, 50000, 2500, 1000, TrxStatusPending, false,
          ReceiptPendingProcess⟩ ∧
    (buyerDeleted.firstProduct 1).map (·.userID) = some 2 ∧
    (buyerDeleted.firstUser 2).map (·.status) = some UserStatusActive ∧
    CancelTransaction buyerDeleted 2 [2] = .fail .UserNotFound buyerDeleted := by
  decide

/-! ## The purchase of one item -/

theorem purchaseCommit_user (cfg : TaxConfig) (user : User) (s : State)
    (item : RequestPurchaseItem) (p : Product) :
    (purchaseCommit cfg user s item p).1 =
      { user with balance := usub user.balance (totalPriceForBuyer cfg p item) } := rfl

theorem purchaseCommit_users (cfg : TaxConfig) (user : User) (s : State)
    (item : RequestPurchaseItem) (p : Product) :
    (purchaseCommit cfg user s item p).2.users = s.users.map (fun u =>
      if u.id = user.id ∧ u.deleted = false then
        { u with balance := usub user.balance (totalPriceForBuyer cfg p item) }
      else u) := by
  simp only [purchaseCommit]
  split_ifs <;> rfl

theorem purchaseCommit_products (cfg : TaxConfig) (user : User) (s : State)
    (item : RequestPurchaseItem) (p : Product) :
    (purchaseCommit cfg user s item p).2.products = s.products.map (fun x =>
      if x.id = p.id ∧ x.deleted = false then
        { x with stock := usub p.stock item.quantity,
                 visibility :=
                   if usub (usub p.stock item.quantity) item.quantity = 0
                   then ProductVisibilityOwnerAdmin else x.visibility }
      else x) := by
  simp only [purchaseCommit]
  split_ifs with h
  · simp only [State.notify, State.createNotification, State.SendNotificationToUser,
      State.createBalanceHistory, State.createTransaction, State.updateUserBalance,
      State.updateProductVisibility, State.updateProductStock, List.map_map]
    apply List.map_congr_left
    intro a _
    simp only [Function.comp]
    by_cases ha : a.id = p.id ∧ a.deleted = false
    · simp [ha]
    · simp [ha]
  · simp only [State.notify, State.createNotification, State.SendNotificationToUser,
      State.createBalanceHistory, State.createTransaction, State.updateUserBalance,
      State.updateProductStock]

theorem purchaseCommit_transactions (cfg : TaxConfig) (user : User) (s : State)
    (item : RequestPurchaseItem) (p : Product) :
    (purchaseCommit cfg user s item p).2.transactions = s.transactions ++
      [{ id := s.transactions.length + 1, productID := p.id, userID := user.id,
         quantity := item.quantity, totalPrice := umul p.price item.quantity,
         govtTax := taxAmount (umul p.price item.quantity) cfg.govtTaxPercent,
         ecommerceTax := taxAmount (umul p.price item.quantity) cfg.ecommerceTaxPercent,
         status := TrxStatusPending, isSolved := false,
         receiptStatus := ReceiptPendingProcess }] := by
  simp only [purchaseCommit]
  split_ifs <;> rfl

theorem purchaseCommit_balanceHistories (cfg : TaxConfig) (user : User) (s : State)
    (item : RequestPurchaseItem) (p : Product) :
    (purchaseCommit cfg user s item p).2.balanceHistories = s.balanceHistories ++
      [{ id := s.balanceHistories.length + 1, userID := user.id,
         amount := ineg (toInt (totalPriceForBuyer cfg p item)),
         lastBalance := uadd (usub user.balance (totalPriceForBuyer cfg p item))
                          (totalPriceForBuyer cfg p item),
         finalBalance := usub user.balance (totalPriceForBuyer cfg p item),
         status := BalanceStatusDebit }] := by
  simp only [purchaseCommit]
  split_ifs <;> rfl

/-- An item goes through exactly when it passes the four checks of the handler. -/
theorem purchaseItem_next_iff (cfg : TaxConfig) (user : User) (s : State)
    (item : RequestPurchaseItem) (user' : User) (s' : State) :
    purchaseItem cfg user s item = .next user' s' ↔
      ∃ p, s.firstPublicProduct item.productID = some p ∧ p.userID ≠ user.id ∧
        item.quantity ≤ p.stock ∧
        totalPriceForBuyer cfg p item ≤ user.balance ∧
        user' = (purchaseCommit cfg user s item p).1 ∧
        s' = (purchaseCommit cfg user s item p).2 := by
  unfold purchaseItem
  cases hp : s.firstPublicProduct item.productID with
  | none => simp
  | some p =>
    simp only [Option.some.injEq, exists_eq_left', totalPriceForBuyer]
    split_ifs with h1 h2 h3
    · simp [h1]
    · simp [h2]
    · simp only [false_iff]
      rintro ⟨-, -, h, -⟩
      omega
    · simp only [PurchaseStep.next.injEq]
      constructor
      · rintro ⟨rfl, rfl⟩
        exact ⟨h1, by omega, by omega, rfl, rfl⟩
      · rintro ⟨-, -, -, rfl, rfl⟩
        exact ⟨rfl, rfl⟩

theorem uadd_usub_cancel {b c : Nat} (hb : b < 2 ^ 64) (hc : c ≤ b) :
    uadd (usub b c) c = b := by
  rw [usub_eq hb hc, uadd_eq (by omega)]
  omega

theorem find?_map_of_preserved {α : Type} (f : α → α) (pr : α → Bool)
    (h : ∀ x, pr (f x) = pr x) (l : List α) :
    (l.map f).find? pr = (l.find? pr).map f := by
  rw [List.find?_map]
  have : pr ∘ f = pr := funext h
  rw [this]

theorem eq_of_uniqueProducts {s : State} (h : s.uniqueProducts) {a b : Product}
    (ha : a ∈ s.products) (hb : b ∈ s.products) (hab : a.id = b.id) : a = b :=
  List.inj_on_of_nodup_map h ha hb hab

theorem firstProduct_of_mem {s : State} (h : s.uniqueProducts) {p : Product}
    (hp : p ∈ s.products) (hlive : p.deleted = false) : s.firstProduct p.id = some p := by
  cases hf : s.firstProduct p.id with
  | none =>
    unfold State.firstProduct at hf
    rw [List.find?_eq_none] at hf
    have := hf p hp
    simp [hlive] at this
  | some x =>
    have hx := firstProduct_mem hf
    rw [eq_of_uniqueProducts h hx.1 hp hx.2.1]

/-- A request for one item succeeds exactly when the item passes the checks. -/
theorem PostPurchaseProduct_single_ok (cfg : TaxConfig) (s : State) (buyerID : Nat)
    (item : RequestPurchaseItem) (s1 : State) :
    PostPurchaseProduct cfg s buyerID [item] = .ok s1 ↔
      item.productID ≠ 0 ∧ item.quantity ≠ 0 ∧
        ∃ user user', s.firstUser buyerID = some user ∧
          purchaseItem cfg user s item = .next user' s1 := by
  unfold PostPurchaseProduct
  by_cases hb : item.productID = 0 ∨ item.quantity = 0
  · have : ([item].any fun i => decide (i.productID = 0) || decide (i.quantity = 0)) = true := by
      simpa using hb
    rw [if_pos this]
    rcases hb with h | h <;> simp [h]
  · have : ¬ ([item].any fun i => decide (i.productID = 0) || decide (i.quantity = 0)) = true := by
      simpa using hb
    rw [if_neg this]
    push_neg at hb
    cases hu : s.firstUser buyerID with
    | none => simp
    | some user =>
      simp only [List.length_cons, List.length_nil, zero_add, one_ne_zero, if_false,
        Transaction, purchaseLoop]
      cases hpi : purchaseItem cfg user s item with
      | next u' s' => simp [hb.1, hb.2, hpi]
      | abort e s' => simp [hpi]

/-- C10: when a request for one item succeeds (in a store whose product keys are unique,
whose order keys were given out in sequence and whose numbers fit their columns), the
cancellation of the resulting order by the buyer succeeds and the product table (stock and
visibility of every product) and the record of the buyer (its balance) are again what they
were before the purchase; the product is public. -/
theorem C10_purchase_then_cancel (cfg : TaxConfig) (s : State) (buyerID : Nat)
    (item : RequestPurchaseItem) (s1 : State)
    (hrange : s.inRange) (huniq : s.uniqueProducts)
    (hfresh : ∀ t ∈ s.transactions, t.id ≤ s.transactions.length)
    (hbuy : PostPurchaseProduct cfg s buyerID [item] = .ok s1) :
    (s1.firstTransaction (s.transactions.length + 1)).map
        (fun t => (t.productID, t.userID, t.quantity, t.status))
      = some (item.productID, buyerID, item.quantity, TrxStatusPending) ∧
    ∃ s2, CancelTransaction s1 buyerID [s.transactions.length + 1] = .ok s2 ∧
      s2.products = s.products ∧
      s2.firstUser buyerID = s.firstUser buyerID ∧
      ∃ p, s2.firstProduct item.productID = some p ∧
        p.visibility = ProductVisibilityAll := by
  obtain ⟨hpid0, hq0, user, user', hu, hitem⟩ :=
    (PostPurchaseProduct_single_ok cfg s buyerID item s1).1 hbuy
  obtain ⟨p, hp, hown, hstock, hcost, -, hs1⟩ :=
    (purchaseItem_next_iff cfg user s item user' s1).1 hitem
  have hum := firstUser_mem hu
  have hpm := firstPublicProduct_mem hp
  have hbal : user.balance < 2 ^ 64 := by
    have := hrange.1 user hum.1
    omega
  have hps : p.stock < 2 ^ 64 := by
    have := (hrange.2.1 p hpm.1).2
    omega
  -- the order created by the purchase
  have htrx : s1.firstTransaction (s.transactions.length + 1) =
      some { id := s.transactions.length + 1, productID := p.id, userID := user.id,
             quantity := item.quantity, totalPrice := umul p.price item.quantity,
             govtTax := taxAmount (umul p.price item.quantity) cfg.govtTaxPercent,
             ecommerceTax := taxAmount (umul p.price item.quantity) cfg.ecommerceTaxPercent,
             status := TrxStatusPending, isSolved := false,
             receiptStatus := ReceiptPendingProcess } := by
    unfold State.firstTransaction
    rw [hs1, purchaseCommit_transactions, List.find?_append]
    have hnone : s.transactions.find? (fun t => decide (t.id = s.transactions.length + 1))
        = none := by
      rw [List.find?_eq_none]
      intro t ht
      have := hfresh t ht
      simp
      omega
    rw [hnone]
    simp
  -- the buyer and the product after the purchase
  have hbuyer : s1.firstUser user.id =
      some { user with balance := usub user.balance (totalPriceForBuyer cfg p item) } := by
    have h := firstUser_updateUserBalance
      (usub user.balance (totalPriceForBuyer cfg p item)) hu
    rw [← hum.2.1] at h
    unfold State.firstUser at h ⊢
    rw [hs1, purchaseCommit_users]
    simpa using h
  have hprod : s1.firstProduct p.id =
      some { p with stock := usub p.stock item.quantity,
                    visibility :=
                      if usub (usub p.stock item.quantity) item.quantity = 0
                      then ProductVisibilityOwnerAdmin else p.visibility } := by
    have h := firstProduct_of_mem huniq hpm.1 hpm.2.2.2
    unfold State.firstProduct at h ⊢
    rw [hs1, purchaseCommit_products, find?_map_of_preserved, h]
    · simp [hpm.2.2.2]
    · intro x
      split_ifs <;> rfl
  obtain ⟨s2, hrun, hfu2, -, -, hprods, -⟩ := CancelTransaction_single s1 user.id
    (s.transactions.length + 1) _ _ _ (by omega) htrx (Or.inl rfl) (Or.inl rfl) hbuyer hprod
  have hcostle : totalPriceForBuyer cfg p item ≤ user.balance := hcost
  have hprods3 : s2.products = s.products := by
    rw [hprods, hs1, purchaseCommit_products, List.map_map]
    conv_rhs => rw [← List.map_id s.products]
    apply List.map_congr_left
    intro a ha
    simp only [Function.comp, id]
    by_cases hap : a.id = p.id
    · have hapeq : a = p := eq_of_uniqueProducts huniq ha hpm.1 hap
      subst hapeq
      have hq : 0 < item.quantity := Nat.pos_of_ne_zero hq0
      have hst : uadd (usub a.stock item.quantity) item.quantity = a.stock :=
        uadd_usub_cancel hps hstock
      have hpos : 0 < a.stock := by omega
      have hvis := hpm.2.2.1
      have hdel := hpm.2.2.2
      cases a with
      | mk aid auid aprice astock avis adel =>
        simp only at hst hpos hvis hdel
        subst hvis hdel
        by_cases hc : usub (usub astock item.quantity) item.quantity = 0
        · simp [hc, hst, hpos]
        · simp [hc, hst]
    · simp [hap]
  refine ⟨?_, s2, ?_, hprods3, ?_, p, ?_, hpm.2.2.1⟩
  · rw [htrx]
    simp [hpm.2.1, hum.2.1]
  · rw [← hum.2.1]
    exact hrun
  · have hu' := hu
    rw [← hum.2.1] at hu'
    rw [← hum.2.1, hfu2, hu']
    have : uadd (usub user.balance (totalPriceForBuyer cfg p item))
        (uadd (umul p.price item.quantity)
          (taxAmount (umul p.price item.quantity) cfg.govtTaxPercent)) = user.balance :=
      uadd_usub_cancel hbal hcostle
    simp [this]
  · have h := firstProduct_of_mem huniq hpm.1 hpm.2.2.2
    rw [hpm.2.1] at h
    unfold State.firstProduct at h ⊢
    rw [hprods3]
    exact h

/-- Witness of C10 in Scenarios A and C: the purchase of the last unit, then its
cancellation by buyer 1. -/
theorem C10_purchase_then_cancel_witness :
    ∃ s2, CancelTransaction afterPurchase 1 [1] = .ok s2 ∧
      s2.products = scenarioA.products ∧
      s2.firstUser 1 = scenarioA.firstUser 1 := by
  obtain ⟨-, s2, h1, h2, h3, -⟩ := C10_purchase_then_cancel defaultTaxConfig scenarioA 1
    ⟨1, 1⟩ afterPurchase (by unfold State.inRange; decide) (by unfold State.uniqueProducts; decide)
    (by decide) (by decide)
  exact ⟨s2, h1, h2, h3⟩

/-! ## C5: a refused item rolls the whole request back -/

theorem purchaseLoop_append (cfg : TaxConfig) (rest : List RequestPurchaseItem) :
    ∀ (pre : List RequestPurchaseItem) (user : User) (s : State) (u1 : User) (s1 : State),
      purchaseRun cfg user s pre = some (u1, s1) →
      purchaseLoop cfg user s (pre ++ rest) = purchaseLoop cfg u1 s1 rest := by
  intro pre
  induction pre with
  | nil =>
    intro user s u1 s1 h
    simp only [purchaseRun, Option.some.injEq, Prod.mk.injEq] at h
    obtain ⟨rfl, rfl⟩ := h
    rfl
  | cons x xs ih =>
    intro user s u1 s1 h
    simp only [purchaseRun] at h
    simp only [List.cons_append, purchaseLoop]
    cases hx : purchaseItem cfg user s x with
    | next u' s' =>
      rw [hx] at h
      exact ih u' s' u1 s1 h
    | abort e s' =>
      rw [hx] at h
      simp at h

theorem purchaseItem_abort_of_balance (cfg : TaxConfig) (user : User) (s : State)
    (item : RequestPurchaseItem) (p : Product)
    (hp : s.firstPublicProduct item.productID = some p)
    (hcost : user.balance < totalPriceForBuyer cfg p item) :
    ∃ e, purchaseItem cfg user s item = .abort e s := by
  unfold purchaseItem
  rw [hp]
  simp only
  split_ifs with h1 h2 h3
  · exact ⟨_, rfl⟩
  · exact ⟨_, rfl⟩
  · exact ⟨_, rfl⟩
  · exact absurd hcost h3

theorem PostPurchaseProduct_fail (cfg : TaxConfig) (s : State) (userID : Nat)
    (req : List RequestPurchaseItem)
    (h : (PostPurchaseProduct cfg s userID req).isOk = false) :
    (PostPurchaseProduct cfg s userID req).state.users = s.users ∧
    (PostPurchaseProduct cfg s userID req).state.products = s.products ∧
    (PostPurchaseProduct cfg s userID req).state.transactions = s.transactions ∧
    (PostPurchaseProduct cfg s userID req).state.balanceHistories = s.balanceHistories ∧
    (PostPurchaseProduct cfg s userID req).state.reviews = s.reviews ∧
    (PostPurchaseProduct cfg s userID req).state.notifications = s.notifications := by
  unfold PostPurchaseProduct at h ⊢
  split_ifs at h ⊢ with h1 h2
  · simp
  · simp
  · cases hu : s.firstUser userID with
    | none => simp
    | some user =>
      rw [hu] at h
      exact Transaction_fail s _ h

/-- C5: when the loop of `PostPurchaseProduct` reaches an item whose cost
`price * quantity + govtTax` (as the handler computes it) exceeds the running balance of
the buyer, the request fails and the users, products, orders and ledger entries (and the
reviews and notification rows) are those of before the request, whatever the items before
it have done; more generally every failing purchase leaves these tables unchanged. -/
theorem C5_purchase_rolls_back (cfg : TaxConfig) (s : State) (userID : Nat)
    (pre : List RequestPurchaseItem) (item : RequestPurchaseItem)
    (post : List RequestPurchaseItem) (user u1 : User) (s1 : State) (p : Product)
    (hu : s.firstUser userID = some user)
    (hrun : purchaseRun cfg user s pre = some (u1, s1))
    (hp : s1.firstPublicProduct item.productID = some p)
    (hcost : u1.balance < totalPriceForBuyer cfg p item) :
    ((PostPurchaseProduct cfg s userID (pre ++ item :: post)).isOk = false ∧
      (PostPurchaseProduct cfg s userID (pre ++ item :: post)).state.users = s.users ∧
      (PostPurchaseProduct cfg s userID (pre ++ item :: post)).state.products = s.products ∧
      (PostPurchaseProduct cfg s userID (pre ++ item :: post)).state.transactions
        = s.transactions ∧
      (PostPurchaseProduct cfg s userID (pre ++ item :: post)).state.balanceHistories
        = s.balanceHistories) ∧
    (∀ req, (PostPurchaseProduct cfg s userID req).isOk = false →
      (PostPurchaseProduct cfg s userID req).state.users = s.users ∧
      (PostPurchaseProduct cfg s userID req).state.products = s.products ∧
      (PostPurchaseProduct cfg s userID req).state.transactions = s.transactions ∧
      (PostPurchaseProduct cfg s userID req).state.balanceHistories = s.balanceHistories ∧
      (PostPurchaseProduct cfg s userID req).state.reviews = s.reviews ∧
      (PostPurchaseProduct cfg s userID req).state.notifications = s.notifications) := by
  have hfail : (PostPurchaseProduct cfg s userID (pre ++ item :: post)).isOk = false := by
    unfold PostPurchaseProduct
    split_ifs with h1 h2
    · rfl
    · rfl
    · rw [hu]
      simp only [Transaction, purchaseLoop_append cfg (item :: post) pre user s u1 s1 hrun,
        purchaseLoop]
      obtain ⟨e, he⟩ := purchaseItem_abort_of_balance cfg u1 s1 item p hp hcost
      rw [he]
      rfl
  have hall := PostPurchaseProduct_fail cfg s userID (pre ++ item :: post) hfail
  exact ⟨⟨hfail, hall.1, hall.2.1, hall.2.2.1, hall.2.2.2.1⟩,
    fun req hreq => PostPurchaseProduct_fail cfg s userID req hreq⟩

/-- Witness of C5: buyer 1 (balance 100,000) asks twice for one unit at 52,500; the second
item exceeds the 47,500 left and the whole request is undone. -/
theorem C5_purchase_rolls_back_witness :
    (PostPurchaseProduct defaultTaxConfig twoBuyers 1 [⟨1, 1⟩, ⟨1, 1⟩]).isOk = false ∧
    (PostPurchaseProduct defaultTaxConfig twoBuyers 1 [⟨1, 1⟩, ⟨1, 1⟩]).state.users
      = twoBuyers.users ∧
    (PostPurchaseProduct defaultTaxConfig twoBuyers 1 [⟨1, 1⟩, ⟨1, 1⟩]).state.products
      = twoBuyers.products ∧
    (PostPurchaseProduct defaultTaxConfig twoBuyers 1 [⟨1, 1⟩, ⟨1, 1⟩]).state.transactions
      = twoBuyers.transactions ∧
    (PostPurchaseProduct defaultTaxConfig twoBuyers 1 [⟨1, 1⟩, ⟨1, 1⟩]).state.balanceHistories
      = twoBuyers.balanceHistories :=
  (C5_purchase_rolls_back defaultTaxConfig twoBuyers 1 [⟨1, 1⟩] ⟨1, 1⟩ []
    (account 1 100000) (account 1 47500)
    (PostPurchaseProduct defaultTaxConfig twoBuyers 1 [⟨1, 1⟩]).state
    ⟨1, 2, 50000, 4, ProductVisibilityAll, false⟩
    (by decide) (by decide) (by decide) (by decide)).1

/-! ## C4: a request whose items all pass the checks -/

theorem uadd_modEq (a b : Nat) : (uadd a b : Int) ≡ (a : Int) + b [ZMOD 2 ^ 64] := by
  unfold uadd
  push_cast
  exact Int.mod_modEq _ _

theorem usub_modEq (a b : Nat) : (usub a b : Int) ≡ (a : Int) - b [ZMOD 2 ^ 64] := by
  unfold usub Int.ModEq
  omega

theorem toInt_modEq (a : Nat) : toInt a ≡ (a : Int) [ZMOD 2 ^ 64] := by
  unfold toInt
  have ha : ((a % 2 ^ 64 : Nat) : Int) ≡ a [ZMOD 2 ^ 64] := by
    push_cast
    exact Int.mod_modEq _ _
  split_ifs
  · exact ha
  · have : (2 ^ 64 : Int) ≡ 0 [ZMOD 2 ^ 64] := by
      unfold Int.ModEq
      simp
    have := ha.sub this
    simpa using this

theorem ineg_modEq (i : Int) : ineg i ≡ -i [ZMOD 2 ^ 64] := by
  unfold ineg
  split_ifs with h
  · subst h
    unfold Int.ModEq
    norm_num
  · exact Int.ModEq.refl _

theorem eq_of_uniqueUsers {s : State} (h : s.uniqueUsers) {a b : User}
    (ha : a ∈ s.users) (hb : b ∈ s.users) (hab : a.id = b.id) : a = b :=
  List.inj_on_of_nodup_map h ha hb hab

theorem ledgerSum_append (s s' : State) (es : List BalanceHistory) (uid : Nat)
    (hb : s'.balanceHistories = s.balanceHistories ++ es) :
    s'.ledgerSum uid = s.ledgerSum uid
      + ((es.filter fun e => decide (e.userID = uid)).map (·.amount)).sum := by
  unfold State.ledgerSum
  rw [hb, List.filter_append, List.map_append, List.sum_append]

/-- One step of the ledger: the rows of the users are mapped by `f`, which keeps the keys,
and entries for one user `target` are appended; the balance of every other user is kept
and, when the user looked at is `target`, the new balance is a `uint` congruent to the old
one plus the amounts appended. -/
theorem agrees_step (uid : Nat) (s s' : State) (f : User → User) (target : Nat)
    (es : List BalanceHistory)
    (hu : s'.users = s.users.map f) (hid : ∀ x, (f x).id = x.id)
    (hb : s'.balanceHistories = s.balanceHistories ++ es)
    (hes : ∀ e ∈ es, e.userID = target)
    (hother : ∀ x ∈ s.users, x.id ≠ target → (f x).balance = x.balance)
    (htarget : uid = target → ∀ x ∈ s.users, x.id = target →
      (f x).balance < 2 ^ 64 ∧
        ((f x).balance : Int) ≡ (x.balance : Int) + (es.map (·.amount)).sum [ZMOD 2 ^ 64])
    (h : s.agrees uid) : s'.agrees uid := by
  obtain ⟨huniq, hag⟩ := h
  refine ⟨?_, ?_⟩
  · unfold State.uniqueUsers at huniq ⊢
    rw [hu, List.map_map]
    have : ((fun x : User => x.id) ∘ f) = fun x : User => x.id := funext hid
    rw [this]
    exact huniq
  · intro u' hu' hu'id
    rw [hu, List.mem_map] at hu'
    obtain ⟨x, hx, rfl⟩ := hu'
    rw [hid] at hu'id
    obtain ⟨hlt, hcong⟩ := hag x hx hu'id
    rw [ledgerSum_append s s' es uid hb]
    by_cases ht : uid = target
    · obtain ⟨h1, h2⟩ := htarget ht x hx (hu'id.trans ht)
      refine ⟨h1, ?_⟩
      have hfil : (es.filter fun e => decide (e.userID = uid)) = es := by
        rw [List.filter_eq_self]
        intro e he
        simp [hes e he, ht]
      rw [hfil]
      exact h2.trans (hcong.add_right _)
    · have hxt : x.id ≠ target := fun h' => ht (hu'id.symm.trans h')
      rw [hother x hx hxt]
      refine ⟨hlt, ?_⟩
      have hfil : (es.filter fun e => decide (e.userID = uid)) = [] := by
        rw [List.filter_eq_nil_iff]
        intro e he
        simp only [decide_eq_true_eq]
        rw [hes e he]
        exact fun h' => ht h'.symm
      rw [hfil]
      simpa using hcong

theorem agrees_congr (uid : Nat) (s s' : State) (hu : s'.users = s.users)
    (hb : s'.balanceHistories = s.balanceHistories) (h : s.agrees uid) : s'.agrees uid := by
  unfold State.agrees State.uniqueUsers State.ledgerSum at h ⊢
  rw [hu, hb]
  exact h

theorem agrees_sent (uid : Nat) (s : State) (h : s.agrees uid) (l : List Notification) :
    ({ s with sent := l } : State).agrees uid :=
  agrees_congr uid s _ rfl rfl h

/-- Ledger step `Update("balance", v)` on a live account together with one entry. -/
theorem agrees_updateBalance (uid : Nat) (s s' : State) (usr : User) (v : Nat)
    (e : BalanceHistory) (hmem : usr ∈ s.users) (hlive : usr.deleted = false)
    (hu : s'.users = s.users.map (fun u =>
      if u.id = usr.id ∧ u.deleted = false then { u with balance := v } else u))
    (hb : s'.balanceHistories = s.balanceHistories ++ [e]) (he : e.userID = usr.id)
    (hv : v < 2 ^ 64) (hcong : (v : Int) ≡ (usr.balance : Int) + e.amount [ZMOD 2 ^ 64])
    (h : s.agrees uid) : s'.agrees uid := by
  refine agrees_step uid s s' _ usr.id [e] hu ?_ hb (by simpa using he) ?_ ?_ h
  · intro x
    dsimp only
    split_ifs <;> rfl
  · intro x _ hx
    dsimp only
    rw [if_neg (fun hc => hx hc.1)]
  · intro _ x hx hxid
    have hxe : x = usr := eq_of_uniqueUsers h.1 hx hmem hxid
    subst hxe
    rw [if_pos ⟨rfl, hlive⟩]
    simpa using ⟨hv, hcong⟩

/-- Ledger step `Save(&user)` of an account with a new balance together with one entry. -/
theorem agrees_saveUser (uid : Nat) (s s' : State) (usr usr' : User)
    (e : BalanceHistory) (hmem : usr ∈ s.users) (hid : usr'.id = usr.id)
    (hu : s'.users = s.users.map (fun x => if x.id = usr'.id then usr' else x))
    (hb : s'.balanceHistories = s.balanceHistories ++ [e]) (he : e.userID = usr.id)
    (hv : usr'.balance < 2 ^ 64)
    (hcong : (usr'.balance : Int) ≡ (usr.balance : Int) + e.amount [ZMOD 2 ^ 64])
    (h : s.agrees uid) : s'.agrees uid := by
  refine agrees_step uid s s' _ usr.id [e] hu ?_ hb (by simpa using he) ?_ ?_ h
  · intro x
    dsimp only
    split_ifs with hx
    · exact hx.symm
    · rfl
  · intro x _ hx
    dsimp only
    rw [if_neg (fun hc => hx (hc.trans hid))]
  · intro _ x hx hxid
    have hxe : x = usr := eq_of_uniqueUsers h.1 hx hmem hxid
    subst hxe
    rw [if_pos hid.symm]
    simpa using ⟨hv, hcong⟩

/-- An account is saved with the balance it had; the ledger is not touched. -/
theorem agrees_saveUser_same (uid : Nat) (s s' : State) (usr usr' : User)
    (hmem : usr ∈ s.users) (hid : usr'.id = usr.id) (hbal : usr'.balance = usr.balance)
    (hu : s'.users = s.users.map (fun x => if x.id = usr'.id then usr' else x))
    (hb : s'.balanceHistories = s.balanceHistories)
    (h : s.agrees uid) : s'.agrees uid := by
  refine agrees_step uid s s' _ usr.id [] hu ?_ (by simpa using hb) (by simp) ?_ ?_ h
  · intro x
    dsimp only
    split_ifs with hx
    · exact hx.symm
    · rfl
  · intro x _ hx
    dsimp only
    rw [if_neg (fun hc => hx (hc.trans hid))]
  · intro huid x hx hxid
    have hxe : x = usr := eq_of_uniqueUsers h.1 hx hmem hxid
    subst hxe
    rw [if_pos hid.symm, hbal]
    simpa using (h.2 x hx huid.symm).1

/-- An entry is written for another user and no balance changes. -/
theorem agrees_entry_other (uid : Nat) (s s' : State) (e : BalanceHistory)
    (hu : s'.users = s.users) (hb : s'.balanceHistories = s.balanceHistories ++ [e])
    (he : e.userID ≠ uid) (h : s.agrees uid) : s'.agrees uid := by
  refine agrees_step uid s s' id e.userID [e] (by simpa using hu) (fun _ => rfl) hb
    (by simp) (fun _ _ _ => rfl) ?_ h
  intro hc
  exact absurd hc.symm he

theorem PostTopUpBalance_agrees (uid : Nat) (s : State) (userID amount : Nat)
    (h : s.agrees uid) : (PostTopUpBalance s userID amount).state.agrees uid := by
  unfold PostTopUpBalance
  split_ifs
  · exact h
  · exact h
  · apply Transaction_invariant (fun s' => s'.agrees uid) s _ (agrees_sent uid s h)
    cases hu : s.firstUser userID with
    | none => exact h
    | some user =>
      have hum := firstUser_mem hu
      simp only [Outcome.state]
      exact agrees_saveUser uid s _ user { user with balance := uadd user.balance amount }
        ⟨s.balanceHistories.length + 1, user.id, toInt amount, user.balance,
          uadd user.balance amount, BalanceStatusCredit⟩
        hum.1 rfl (by simp) (by simp) rfl (uadd_lt _ _)
        ((uadd_modEq _ _).trans ((toInt_modEq amount).symm.add_left _)) h

theorem PostWithDrawBalance_agrees (uid : Nat) (s : State) (userID amount : Nat)
    (h : s.agrees uid) : (PostWithDrawBalance s userID amount).state.agrees uid := by
  unfold PostWithDrawBalance
  split_ifs
  · exact h
  · exact h
  · apply Transaction_invariant (fun s' => s'.agrees uid) s _ (agrees_sent uid s h)
    cases hu : s.firstUser userID with
    | none => exact h
    | some user =>
      have hum := firstUser_mem hu
      simp only
      split_ifs
      · exact h
      · simp only [Outcome.state]
        refine agrees_saveUser uid s _ user { user with balance := usub user.balance amount }
          ⟨s.balanceHistories.length + 1, user.id, ineg (toInt amount), user.balance,
            usub user.balance amount, BalanceStatusDebit⟩
          hum.1 rfl (by simp) (by simp) rfl (usub_lt _ _) ?_ h
        refine (usub_modEq _ _).trans ?_
        have := ((ineg_modEq (toInt amount)).trans (toInt_modEq amount).neg).symm
        simpa [sub_eq_add_neg] using this.add_left (user.balance : Int)

theorem forEach_agrees {α : Type} (uid : Nat) (body : State → α → Outcome)
    (hbody : ∀ s x, s.agrees uid → (body s x).state.agrees uid) (xs : List α) (s : State)
    (h : s.agrees uid) : (forEach body s xs).state.agrees uid :=
  forEach_invariant (fun s' => s'.agrees uid) body hbody xs s h

theorem confirmByUserItem_agrees (uid userID : Nat) (reviews : List ReviewItem) (s : State)
    (trxID : Nat) (h : s.agrees uid) :
    (confirmByUserItem userID reviews s trxID).state.agrees uid := by
  unfold confirmByUserItem
  split
  · exact h
  · rename_i trx _
    split_ifs
    · exact h
    · split
      · exact h
      · rename_i product _
        split
        · exact h
        · rename_i owner ho
          have hom := firstUser_mem ho
          have hrev := createReviews_frame userID trxID trx.productID reviews
          simp only [Outcome.state]
          refine agrees_updateBalance uid s _ owner
            (uadd owner.balance (usub trx.totalPrice trx.ecommerceTax))
            ⟨s.balanceHistories.length + 1, owner.id,
              toInt (usub trx.totalPrice trx.ecommerceTax), owner.balance,
              uadd owner.balance (usub trx.totalPrice trx.ecommerceTax), BalanceStatusCredit⟩
            hom.1 hom.2.2 ?_ ?_ rfl (uadd_lt _ _)
            ((uadd_modEq _ _).trans ((toInt_modEq _).symm.add_left _)) h
          · simp [(hrev _).1]
          · simp [(hrev _).2.2.2.1]

theorem ConfirmTransactionByUser_agrees (uid : Nat) (s : State) (userID : Nat)
    (ids : List Nat) (reviews : List ReviewItem) (h : s.agrees uid) :
    (ConfirmTransactionByUser s userID ids reviews).state.agrees uid := by
  unfold ConfirmTransactionByUser
  split_ifs
  · exact h
  · exact Transaction_invariant (fun s' => s'.agrees uid) s _ (agrees_sent uid s h)
      (forEach_agrees uid _ (confirmByUserItem_agrees uid userID reviews) ids s h)

theorem cancelItem_agrees (uid userID : Nat) (s : State) (trxID : Nat) (h : s.agrees uid) :
    (cancelItem userID s trxID).state.agrees uid := by
  unfold cancelItem
  split
  · exact h
  · rename_i trx _
    simp only
    split_ifs
    · exact h
    · exact h
    · split
      · exact h
      · rename_i buyer hb
        have hbm := firstUser_mem hb
        have hstep : ((s.updateUserBalance buyer.id
            (uadd buyer.balance (uadd trx.totalPrice trx.govtTax))).createBalanceHistory
            buyer.id (toInt (uadd trx.totalPrice trx.govtTax))
            (uadd buyer.balance (uadd trx.totalPrice trx.govtTax))
            (uadd buyer.balance (uadd trx.totalPrice trx.govtTax))
            BalanceStatusRefund).agrees uid := by
          refine agrees_updateBalance uid s _ buyer
            (uadd buyer.balance (uadd trx.totalPrice trx.govtTax))
            ⟨s.balanceHistories.length + 1, buyer.id,
              toInt (uadd trx.totalPrice trx.govtTax),
              uadd buyer.balance (uadd trx.totalPrice trx.govtTax),
              uadd buyer.balance (uadd trx.totalPrice trx.govtTax), BalanceStatusRefund⟩
            hbm.1 hbm.2.2 (by simp) (by simp) rfl (uadd_lt _ _)
            ((uadd_modEq _ _).trans ((toInt_modEq _).symm.add_left _)) h
        split
        · exact hstep
        · simp only [Outcome.state]
          split_ifs
          · exact agrees_congr uid _ _ (by simp) (by simp) hstep
          · exact agrees_congr uid _ _ (by simp) (by simp) hstep

theorem CancelTransaction_agrees (uid : Nat) (s : State) (userID : Nat) (ids : List Nat)
    (h : s.agrees uid) : (CancelTransaction s userID ids).state.agrees uid := by
  unfold CancelTransaction
  split_ifs
  · exact h
  · exact Transaction_invariant (fun s' => s'.agrees uid) s _ (agrees_sent uid s h)
      (forEach_agrees uid _ (cancelItem_agrees uid userID) ids s h)

theorem refundOnDelete_agrees (uid : Nat) (s : State) (trx : TransactionHistory)
    (h : s.agrees uid) : (refundOnDelete s trx).state.agrees uid := by
  unfold refundOnDelete
  split
  · exact h
  · rename_i buyer hb
    have hbm := firstUser_mem hb
    simp only [Outcome.state]
    exact agrees_updateBalance uid s _ buyer
      (uadd buyer.balance (uadd trx.totalPrice trx.govtTax))
      ⟨s.balanceHistories.length + 1, buyer.id,
        toInt (uadd trx.totalPrice trx.govtTax),
        uadd buyer.balance (uadd trx.totalPrice trx.govtTax),
        uadd buyer.balance (uadd trx.totalPrice trx.govtTax), BalanceStatusRefund⟩
      hbm.1 hbm.2.2 (by simp) (by simp) rfl (uadd_lt _ _)
      ((uadd_modEq _ _).trans ((toInt_modEq _).symm.add_left _)) h

theorem settleOnProductDelete_agrees (uid : Nat) (product : Product) (s : State)
    (trx : TransactionHistory) (h : s.agrees uid) :
    (settleOnProductDelete product s trx).state.agrees uid := by
  unfold settleOnProductDelete
  split
  · exact h
  · rename_i owner ho
    have hom := firstUser_mem ho
    simp only [Outcome.state]
    exact agrees_updateBalance uid s _ owner
      (uadd owner.balance (usub trx.totalPrice trx.ecommerceTax))
      ⟨s.balanceHistories.length + 1, owner.id,
        toInt (usub trx.totalPrice trx.ecommerceTax),
        uadd owner.balance (usub trx.totalPrice trx.ecommerceTax),
        uadd owner.balance (usub trx.totalPrice trx.ecommerceTax), BalanceStatusCredit⟩
      hom.1 hom.2.2 (by simp) (by simp) rfl (uadd_lt _ _)
      ((uadd_modEq _ _).trans ((toInt_modEq _).symm.add_left _)) h

theorem DeleteProductsRequest_agrees (uid : Nat) (s : State) (userID : Nat) (role : UserRole)
    (productID : Nat) (h : s.agrees uid) :
    (DeleteProductsRequest s userID role productID).state.agrees uid := by
  unfold DeleteProductsRequest
  split
  · exact h
  · rename_i product _
    split_ifs
    · exact h
    · exact h
    · exact h
    · apply Transaction_invariant (fun s' => s'.agrees uid) s _ (agrees_sent uid s h)
      have h1 : (s.saveProduct
          { product with visibility := ProductVisibilityOwnerAdmin, deleted := true }).agrees
          uid := agrees_congr uid s _ (by simp) (by simp) h
      have h2 := forEach_agrees uid _ (refundOnDelete_agrees uid)
        ((s.saveProduct
          { product with visibility := ProductVisibilityOwnerAdmin, deleted := true }
          ).pendingTransactions product.id) _ h1
      simp only
      split
      · rename_i e s' heq
        rw [heq] at h2
        exact h2
      · rename_i s' heq
        rw [heq] at h2
        exact forEach_agrees uid _ (settleOnProductDelete_agrees uid _) _ _ h2

theorem settleOnOwnerRemoval_agrees (uid : Nat) (product : Product) (s : State)
    (trx : TransactionHistory) (hne : product.userID ≠ uid) (h : s.agrees uid) :
    (settleOnOwnerRemoval product s trx).state.agrees uid := by
  unfold settleOnOwnerRemoval
  simp only [Outcome.state]
  exact agrees_entry_other uid s _
    ⟨s.balanceHistories.length + 1, product.userID,
      toInt (usub trx.totalPrice trx.ecommerceTax), 0, 0, BalanceStatusCredit⟩
    (by simp) (by simp) hne h

theorem handleProductTransactionsOnDelete_agrees (uid : Nat) (s : State) (product : Product)
    (hne : product.userID ≠ uid) (h : s.agrees uid) :
    (handleProductTransactionsOnDelete s product).state.agrees uid := by
  unfold handleProductTransactionsOnDelete
  have h2 := forEach_agrees uid _ (refundOnDelete_agrees uid)
    (s.pendingTransactions product.id) _ h
  split
  · rename_i e s' heq
    rw [heq] at h2
    exact h2
  · rename_i s' heq
    rw [heq] at h2
    exact forEach_agrees uid _
      (fun s x hs => settleOnOwnerRemoval_agrees uid product s x hne hs) _ _ h2

theorem removeProducts_agrees (uid : Nat) (products : List Product) :
    ∀ s : State, (∀ p ∈ products, p.userID ≠ uid) → s.agrees uid →
      (removeProducts s products).agrees uid := by
  induction products with
  | nil => intro s _ h; exact h
  | cons p ps ih =>
    intro s hne h
    unfold removeProducts
    apply ih _ (fun q hq => hne q (List.mem_cons_of_mem _ hq))
    apply handleProductTransactionsOnDelete_agrees uid _ _ (hne p (List.mem_cons_self _ _))
    exact agrees_congr uid s _ (by simp) (by simp) h

theorem productsOf_userID (s : State) (userID : Nat) :
    ∀ p ∈ s.productsOf userID, p.userID = userID := by
  intro p hp
  unfold State.productsOf at hp
  rw [List.mem_filter] at hp
  have h2 := hp.2
  simp only [Bool.and_eq_true, decide_eq_true_eq] at h2
  exact h2.1

theorem SuspendUser_agrees (uid : Nat) (s : State) (target : Nat) (hne : target ≠ uid)
    (h : s.agrees uid) : (SuspendUser s target).state.agrees uid := by
  unfold SuspendUser
  split
  · exact h
  · rename_i user hu
    have hum := firstUser_mem hu
    split_ifs
    · exact h
    · exact h
    · apply Transaction_invariant (fun s' => s'.agrees uid) s _ (agrees_sent uid s h)
      simp only [Outcome.state]
      refine agrees_congr uid (removeProducts _ _) _ rfl rfl ?_
      apply removeProducts_agrees
      · intro p hp
        rw [productsOf_userID _ _ p hp]
        have : user.id ≠ uid := by rw [hum.2.1]; exact hne
        exact this
      · exact agrees_saveUser_same uid s _ user
          { user with status := UserStatusSuspended, banUntil := none, penaltyWarnings := 0 }
          hum.1 rfl rfl rfl rfl h

theorem BanUser_agrees (uid : Nat) (s : State) (target : Nat) (banUntilUnix : Int)
    (hne : target ≠ uid) (h : s.agrees uid) :
    (BanUser s target banUntilUnix).state.agrees uid := by
  unfold BanUser
  split
  · exact h
  · rename_i user hu
    have hum := firstUser_mem hu
    split_ifs
    · exact h
    · exact h
    · apply Transaction_invariant (fun s' => s'.agrees uid) s _ (agrees_sent uid s h)
      simp only [Outcome.state]
      refine agrees_congr uid (removeProducts _ _) _ rfl rfl ?_
      apply removeProducts_agrees
      · intro p hp
        rw [productsOf_userID _ _ p hp]
        have : user.id ≠ uid := by rw [hum.2.1]; exact hne
        exact this
      · exact agrees_saveUser_same uid s _ user
          { user with status := UserStatusBanned, banUntil := some banUntilUnix,
                      penaltyWarnings := 0 }
          hum.1 rfl rfl rfl rfl h

theorem DeleteUser_agrees (uid : Nat) (s : State) (adminID target : Nat) (hne : target ≠ uid)
    (h : s.agrees uid) : (DeleteUser s adminID target).state.agrees uid := by
  unfold DeleteUser
  split
  · exact h
  · rename_i user hu
    have hmem := List.mem_of_find?_eq_some hu
    have hid := List.find?_some hu
    simp only [decide_eq_true_eq] at hid
    split_ifs
    · exact h
    · exact h
    · apply Transaction_invariant (fun s' => s'.agrees uid) s _ (agrees_sent uid s h)
      simp only [Outcome.state]
      apply removeProducts_agrees
      · intro p hp
        rw [productsOf_userID _ _ p hp]
        have : user.id ≠ uid := by rw [hid]; exact hne
        exact this
      · exact agrees_saveUser_same uid s _ user
          { user with deleted := true, status := UserStatusSuspended }
          hmem rfl rfl rfl rfl h

theorem patchToSuccess_agrees (uid : Nat) (s : State) (trx : TransactionHistory)
    (productUserID : Nat) (oldStatus : TransactionStatus) (h : s.agrees uid) :
    (patchToSuccess s trx productUserID oldStatus).state.agrees uid := by
  unfold patchToSuccess
  split_ifs
  · split
    · exact h
    · rename_i owner ho
      have hom := firstUser_mem ho
      simp only [Outcome.state]
      exact agrees_updateBalance uid s _ owner
        (uadd owner.balance (usub trx.totalPrice trx.ecommerceTax))
        ⟨s.balanceHistories.length + 1, owner.id,
          toInt (usub trx.totalPrice trx.ecommerceTax),
          uadd owner.balance (usub trx.totalPrice trx.ecommerceTax),
          uadd owner.balance (usub trx.totalPrice trx.ecommerceTax), BalanceStatusCredit⟩
        hom.1 hom.2.2 (by simp) (by simp) rfl (uadd_lt _ _)
        ((uadd_modEq _ _).trans ((toInt_modEq _).symm.add_left _)) h
  · exact agrees_congr uid s _ (by simp) (by simp) h

theorem patchCancelRefund_agrees (uid : Nat) (s : State) (trx : TransactionHistory)
    (oldStatus : TransactionStatus) (h : s.agrees uid) :
    (patchCancelRefund s trx oldStatus).state.agrees uid := by
  unfold patchCancelRefund
  split_ifs
  · split
    · exact h
    · rename_i buyer hb
      have hbm := firstUser_mem hb
      simp only [Outcome.state]
      exact agrees_updateBalance uid s _ buyer
        (uadd buyer.balance (uadd trx.totalPrice trx.govtTax))
        ⟨s.balanceHistories.length + 1, buyer.id,
          toInt (uadd trx.totalPrice trx.govtTax),
          uadd buyer.balance (uadd trx.totalPrice trx.govtTax),
          uadd buyer.balance (uadd trx.totalPrice trx.govtTax), BalanceStatusRefund⟩
        hbm.1 hbm.2.2 (by simp) (by simp) rfl (uadd_lt _ _)
        ((uadd_modEq _ _).trans ((toInt_modEq _).symm.add_left _)) h
  · exact h

theorem patchCancelDebit_agrees (uid : Nat) (s : State) (trx : TransactionHistory)
    (productUserID : Nat) (oldStatus : TransactionStatus) (h : s.agrees uid) :
    (patchCancelDebit s trx productUserID oldStatus).state.agrees uid := by
  unfold patchCancelDebit
  split_ifs
  · split
    · exact h
    · rename_i owner ho
      have hom := firstUser_mem ho
      simp only [Outcome.state, Nat.not_lt_zero, if_false]
      refine agrees_updateBalance uid s _ owner
        (usub owner.balance (usub trx.totalPrice trx.ecommerceTax))
        ⟨s.balanceHistories.length + 1, owner.id,
          ineg (toInt (usub trx.totalPrice trx.ecommerceTax)),
          usub owner.balance (usub trx.totalPrice trx.ecommerceTax),
          usub owner.balance (usub trx.totalPrice trx.ecommerceTax), BalanceStatusDebit⟩
        hom.1 hom.2.2 (by simp) (by simp) rfl (usub_lt _ _) ?_ h
      refine (usub_modEq _ _).trans ?_
      have := ((ineg_modEq (toInt (usub trx.totalPrice trx.ecommerceTax))).trans
        (toInt_modEq _).neg).symm
      simpa [sub_eq_add_neg] using this.add_left (owner.balance : Int)
  · exact h

theorem PatchTransactionStatus_agrees (uid : Nat) (s : State) (transactionID : Nat)
    (status : Option TransactionStatus) (h : s.agrees uid) :
    (PatchTransactionStatus s transactionID status).state.agrees uid := by
  unfold PatchTransactionStatus
  split
  · exact h
  · rename_i newStatus
    split
    · exact h
    · rename_i trx _
      apply Transaction_invariant (fun s' => s'.agrees uid) s _ (agrees_sent uid s h)
      have hs := patchToSuccess_agrees uid s trx (s.preloadProductUserID trx) trx.status h
      have hr := patchCancelRefund_agrees uid s trx trx.status h
      cases newStatus with
      | TrxStatusSuccess =>
        simp only
        split
        · rename_i e s' heq
          rw [heq] at hs
          exact hs
        · rename_i s' heq
          rw [heq] at hs
          exact agrees_congr uid s' _ (by simp) (by simp) hs
      | TrxStatusCancel =>
        simp only
        split
        · rename_i e s' heq
          split at heq
          · rename_i e2 s2 heq2
            rw [heq2] at hr
            cases heq
            exact hr
          · rename_i s2 heq2
            rw [heq2] at hr
            have hd := patchCancelDebit_agrees uid s2 trx (s.preloadProductUserID trx)
              trx.status hr
            rw [heq] at hd
            exact hd
        · rename_i s' heq
          split at heq
          · cases heq
          · rename_i s2 heq2
            rw [heq2] at hr
            have hd := patchCancelDebit_agrees uid s2 trx (s.preloadProductUserID trx)
              trx.status hr
            rw [heq] at hd
            exact agrees_congr uid s' _ (by simp) (by simp) hd
      | TrxStatusPending => exact agrees_congr uid s _ (by simp) (by simp) h
      | TrxStatusWaitingOwner => exact agrees_congr uid s _ (by simp) (by simp) h
      | TrxStatusWaitingUser => exact agrees_congr uid s _ (by simp) (by simp) h

theorem purchaseCommit_agrees (uid : Nat) (cfg : TaxConfig) (user : User) (s : State)
    (item : RequestPurchaseItem) (p : Product) (hsync : s.firstUser user.id = some user)
    (h : s.agrees uid) : (purchaseCommit cfg user s item p).2.agrees uid := by
  have hum := firstUser_mem hsync
  refine agrees_updateBalance uid s _ user (usub user.balance (totalPriceForBuyer cfg p item))
    _ hum.1 hum.2.2 (purchaseCommit_users cfg user s item p)
    (purchaseCommit_balanceHistories cfg user s item p) rfl (usub_lt _ _) ?_ h
  refine (usub_modEq _ _).trans ?_
  have := ((ineg_modEq (toInt (totalPriceForBuyer cfg p item))).trans
    (toInt_modEq _).neg).symm
  simpa [sub_eq_add_neg] using this.add_left (user.balance : Int)

theorem purchaseCommit_sync (cfg : TaxConfig) (user : User) (s : State)
    (item : RequestPurchaseItem) (p : Product) (hsync : s.firstUser user.id = some user) :
    (purchaseCommit cfg user s item p).2.firstUser (purchaseCommit cfg user s item p).1.id
      = some (purchaseCommit cfg user s item p).1 := by
  have h := firstUser_updateUserBalance
    (usub user.balance (totalPriceForBuyer cfg p item)) hsync
  unfold State.firstUser at h ⊢
  rw [purchaseCommit_users, purchaseCommit_user]
  simpa using h

theorem purchaseItem_abort_state (cfg : TaxConfig) (user : User) (s : State)
    (item : RequestPurchaseItem) (e : Err) (s' : State)
    (h : purchaseItem cfg user s item = .abort e s') : s' = s := by
  unfold purchaseItem at h
  cases hp : s.firstPublicProduct item.productID with
  | none =>
    rw [hp] at h
    simp only [PurchaseStep.abort.injEq] at h
    exact h.2.symm
  | some p =>
    rw [hp] at h
    simp only at h
    by_cases h1 : p.userID = user.id
    · rw [if_pos h1] at h
      simp only [PurchaseStep.abort.injEq] at h
      exact h.2.symm
    · rw [if_neg h1] at h
      by_cases h2 : p.stock < item.quantity
      · rw [if_pos h2] at h
        simp only [PurchaseStep.abort.injEq] at h
        exact h.2.symm
      · rw [if_neg h2] at h
        by_cases h3 : user.balance < uadd (umul p.price item.quantity)
            (taxAmount (umul p.price item.quantity) cfg.govtTaxPercent)
        · rw [if_pos h3] at h
          simp only [PurchaseStep.abort.injEq] at h
          exact h.2.symm
        · rw [if_neg h3] at h
          simp at h

theorem purchaseLoop_agrees (uid : Nat) (cfg : TaxConfig) :
    ∀ (req : List RequestPurchaseItem) (user : User) (s : State),
      s.firstUser user.id = some user → s.agrees uid →
      (purchaseLoop cfg user s req).state.agrees uid := by
  intro req
  induction req with
  | nil => intro user s _ h; exact h
  | cons item rest ih =>
    intro user s hsync h
    unfold purchaseLoop
    cases hitem : purchaseItem cfg user s item with
    | abort e s' =>
      rw [purchaseItem_abort_state cfg user s item e s' hitem]
      exact h
    | next u1 s1 =>
      obtain ⟨p, -, -, -, -, rfl, rfl⟩ := (purchaseItem_next_iff cfg user s item u1 s1).1 hitem
      exact ih _ _ (purchaseCommit_sync cfg user s item p hsync)
        (purchaseCommit_agrees uid cfg user s item p hsync h)

theorem PostPurchaseProduct_agrees (uid : Nat) (cfg : TaxConfig) (s : State) (userID : Nat)
    (req : List RequestPurchaseItem) (h : s.agrees uid) :
    (PostPurchaseProduct cfg s userID req).state.agrees uid := by
  unfold PostPurchaseProduct
  split_ifs
  · exact h
  · exact h
  · split
    · exact h
    · rename_i user hu
      have hum := firstUser_mem hu
      apply Transaction_invariant (fun s' => s'.agrees uid) s _ (agrees_sent uid s h)
      apply purchaseLoop_agrees
      · rw [hum.2.1]; exact hu
      · exact h

/-- Every operation keeps balance and ledger in agreement modulo `2 ^ 64`, for every user
but the one that the operation suspends, bans or deletes. -/
theorem Operation.run_agrees (op : Operation) (s : State) (uid : Nat)
    (hrem : op.removedUser ≠ some uid) (h : s.agrees uid) : (op.run s).state.agrees uid := by
  cases op with
  | topUp userID amount => exact PostTopUpBalance_agrees uid s userID amount h
  | withdraw userID amount => exact PostWithDrawBalance_agrees uid s userID amount h
  | purchase cfg userID req => exact PostPurchaseProduct_agrees uid cfg s userID req h
  | confirmReceipt userID ids reviews =>
    exact ConfirmTransactionByUser_agrees uid s userID ids reviews h
  | cancel userID ids => exact CancelTransaction_agrees uid s userID ids h
  | adminOverride id status => exact PatchTransactionStatus_agrees uid s id status h
  | deleteProduct userID role productID =>
    exact DeleteProductsRequest_agrees uid s userID role productID h
  | suspendUser target =>
    exact SuspendUser_agrees uid s target (fun hc => hrem (by rw [hc]; rfl)) h
  | banUser target banUntil =>
    exact BanUser_agrees uid s target banUntil (fun hc => hrem (by rw [hc]; rfl)) h
  | deleteUser adminID target =>
    exact DeleteUser_agrees uid s adminID target (fun hc => hrem (by rw [hc]; rfl)) h

/-- In a store with unique user keys, for every operation (top-up, withdraw, purchase,
confirm-receipt, cancel, admin status override, product deletion, suspend / ban / delete of
a user) and every user other than the one being suspended, banned or deleted: if the
balance of the user (a `uint`) equals the sum of the ledger entries of the user before the
operation, and the sum of the entries after the operation lies in the `uint` range
`[0, 2 ^ 64)`, then the balance equals that sum after the operation. -/
theorem ledger_kept_for_others (op : Operation) (s : State) (u : User)
    (huniq : s.uniqueUsers) (hu : u ∈ s.users) (hrem : op.removedUser ≠ some u.id)
    (hbal : u.balance < 2 ^ 64) (hcons : (u.balance : Int) = s.ledgerSum u.id) :
    ∀ u' ∈ (op.run s).state.users, u'.id = u.id →
      0 ≤ (op.run s).state.ledgerSum u.id → (op.run s).state.ledgerSum u.id < 2 ^ 64 →
      (u'.balance : Int) = (op.run s).state.ledgerSum u.id := by
  have hag : s.agrees u.id := by
    refine ⟨huniq, ?_⟩
    intro x hx hxid
    have hxe : x = u := eq_of_uniqueUsers huniq hx hu hxid
    subst hxe
    exact ⟨hbal, by rw [hcons]⟩
  have hag' := Operation.run_agrees op s u.id hrem hag
  intro u' hu' hid h0 h1
  obtain ⟨hlt, hcong⟩ := hag'.2 u' hu' hid
  unfold Int.ModEq at hcong
  omega

/-- In Scenario B seller 2 has balance 0 and no ledger entry; after buyer 1 confirms the
receipt the balance 49,000 is the sum of the entries of the seller. -/
theorem ledger_kept_at_receipt :
    ((account 2 49000).balance : Int)
      = ((Operation.confirmReceipt 1 [1] []).run afterShipment).state.ledgerSum
          (account 2 0).id :=
  ledger_kept_for_others (.confirmReceipt 1 [1] []) afterShipment (account 2 0)
    (by unfold State.uniqueUsers; decide) (by decide) (by decide) (by decide) (by decide)
    (account 2 49000) (by decide) (by decide) (by decide) (by decide)

/-- C1 fails at this input: in Scenario B after the shipment, seller 2 holds 0 and has no
ledger entry, so that the balance of the seller equals the sum of the entries of the seller.
The ban of seller 2, one of the listed operations, succeeds and settles order 1: the
ledger of the seller receives a credit of 49,000 and sums to 49,000, while the balance of
the seller is still 0. The suspension and the deletion of seller 2 do the same. -/
theorem C1_ban_breaks_conservation :
    ((afterShipment.users.map fun u => (u.id, u.balance)) = [(1, 47500), (2, 0)] ∧
      afterShipment.ledgerSum 2 = 0) ∧
    (((Operation.banUser 2 1000).run afterShipment).isOk = true ∧
      (((Operation.banUser 2 1000).run afterShipment).state.users.map
          fun u => (u.id, u.balance)) = [(1, 47500), (2, 0)] ∧
      ((Operation.banUser 2 1000).run afterShipment).state.ledgerSum 2 = 49000) ∧
    (((Operation.suspendUser 2).run afterShipment).isOk = true ∧
      (((Operation.suspendUser 2).run afterShipment).state.users.map
          fun u => (u.id, u.balance)) = [(1, 47500), (2, 0)] ∧
      ((Operation.suspendUser 2).run afterShipment).state.ledgerSum 2 = 49000) ∧
    (((Operation.deleteUser 9 2).run afterShipment).isOk = true ∧
      (((Operation.deleteUser 9 2).run afterShipment).state.users.map
          fun u => (u.id, u.balance)) = [(1, 47500), (2, 0)] ∧
      ((Operation.deleteUser 9 2).run afterShipment).state.ledgerSum 2 = 49000) :=
  ⟨by decide, ⟨by decide, by decide, by decide⟩, ⟨by decide, by decide, by decide⟩,
    ⟨by decide, by decide, by decide⟩⟩

/-! ## The default tax percentages -/

theorem bitLen_le (fuel : Nat) : ∀ (n k : Nat), n < 2 ^ k → bitLen fuel n ≤ k := by
  induction fuel with
  | zero => intro n k _; simp [bitLen]
  | succ f ih =>
    intro n k h
    unfold bitLen
    split_ifs with h0
    · exact Nat.zero_le _
    · cases k with
      | zero => simp at h; exact absurd h h0
      | succ k =>
        have : n / 2 < 2 ^ k := by
          rw [Nat.div_lt_iff_lt_mul (by norm_num)]
          rw [pow_succ] at h
          exact h
        have := ih (n / 2) k this
        omega

theorem roundShift_ge (n sh : Nat) : n / 2 ^ sh ≤ roundShift n sh := by
  unfold roundShift
  by_cases h0 : sh = 0
  · subst h0; simp
  · rw [if_neg h0]
    simp only
    split_ifs
    · exact Nat.le_succ _
    · exact le_refl _

theorem roundShift_le (n sh : Nat) : roundShift n sh ≤ n / 2 ^ sh + 1 := by
  unfold roundShift
  by_cases h0 : sh = 0
  · subst h0; simp
  · rw [if_neg h0]
    simp only
    split_ifs
    · exact le_refl _
    · exact Nat.le_succ _

/-- For a percentage `mP * 2 ^ (-E)` with `D * mP = 2 ^ E + c` (a `float64` just above
`1 / D`), the integer part of the product of a price that is small enough and the percentage
is the price divided by `D`, rounded down. -/
theorem trunc_of_ratio (b mP E D c S : Nat) (hD : D * mP = 2 ^ E + c) (hDpos : 0 < D)
    (hb : b < 2 ^ 53) (hS : bitLen 128 (b * mP) - 53 ≤ S) (hSE : S < E)
    (hsmall : c * b + D * 2 ^ S < 2 ^ E) :
    (F64.mul (F64.ofUInt b) ⟨mP, -(E : Int)⟩).trunc = b / D := by
  have hlen : bitLen 128 b - 53 = 0 := by
    have := bitLen_le 128 b 53 hb
    omega
  unfold F64.ofUInt F64.mul F64.round
  simp only [hlen, roundShift, if_true, Nat.cast_zero, add_zero, zero_add]
  set n := b * mP with hn
  set sh := bitLen 128 n - 53 with hsh
  have hshE : sh < E := lt_of_le_of_lt hS hSE
  unfold F64.trunc
  simp only
  have hneg : ¬ (0 : Int) ≤ -(E : Int) + (sh : Int) := by omega
  rw [if_neg hneg]
  have hexp : (-(-(E : Int) + (sh : Int))).toNat = E - sh := by omega
  rw [hexp]
  -- the two powers of two
  have hAB : 2 ^ sh * 2 ^ (E - sh) = 2 ^ E := by
    rw [← pow_add]
    congr 1
    omega
  have hApos : 0 < 2 ^ sh := Nat.pow_pos (by norm_num)
  have hBpos : 0 < 2 ^ (E - sh) := Nat.pow_pos (by norm_num)
  have hAle : 2 ^ sh ≤ 2 ^ S := Nat.pow_le_pow_right (by norm_num) hS
  have hlo := roundShift_ge n sh
  have hhi := roundShift_le n sh
  have hq1 : n / 2 ^ sh * 2 ^ sh ≤ n := Nat.div_mul_le_self n (2 ^ sh)
  -- 20 n = b (2^E + c)
  have hDn : D * n = b * (2 ^ E + c) := by
    rw [hn, ← hD]
    ring
  have hk1 : b / D * D ≤ b := Nat.div_mul_le_self b D
  have hk2 : b < (b / D + 1) * D := by
    have := Nat.lt_succ_self (b / D)
    exact (Nat.div_lt_iff_lt_mul hDpos).mp this
  apply Nat.div_eq_of_lt_le
  · -- lower bound
    have h1 : b / D * 2 ^ (E - sh) * 2 ^ sh ≤ n := by
      have h2 : D * (b / D * 2 ^ (E - sh) * 2 ^ sh) ≤ D * n := by
        have : b / D * 2 ^ (E - sh) * 2 ^ sh = b / D * 2 ^ E := by
          rw [mul_assoc, mul_comm (2 ^ (E - sh)), hAB]
        rw [this, hDn]
        calc D * (b / D * 2 ^ E) = (b / D * D) * 2 ^ E := by ring
          _ ≤ b * 2 ^ E := Nat.mul_le_mul_right _ hk1
          _ ≤ b * (2 ^ E + c) := Nat.mul_le_mul_left _ (Nat.le_add_right _ _)
      exact Nat.le_of_mul_le_mul_left h2 hDpos
    have h3 : b / D * 2 ^ (E - sh) ≤ n / 2 ^ sh := (Nat.le_div_iff_mul_le hApos).mpr h1
    exact le_trans h3 hlo
  · -- upper bound
    have h1 : (n / 2 ^ sh + 1) * 2 ^ sh < (b / D + 1) * 2 ^ (E - sh) * 2 ^ sh := by
      have h2 : (n / 2 ^ sh + 1) * 2 ^ sh ≤ n + 2 ^ sh := by
        rw [add_mul, one_mul]
        omega
      have h3 : D * (n + 2 ^ sh) < D * ((b / D + 1) * 2 ^ E) := by
        have h4 : D * (n + 2 ^ sh) = b * 2 ^ E + (c * b + D * 2 ^ sh) := by
          rw [mul_add, hDn]
          ring
        have h5 : D * 2 ^ sh ≤ D * 2 ^ S := Nat.mul_le_mul_left _ hAle
        have h6 : b * 2 ^ E + 2 ^ E ≤ D * ((b / D + 1) * 2 ^ E) := by
          have : b + 1 ≤ (b / D + 1) * D := hk2
          calc b * 2 ^ E + 2 ^ E = (b + 1) * 2 ^ E := by ring
            _ ≤ ((b / D + 1) * D) * 2 ^ E := Nat.mul_le_mul_right _ this
            _ = D * ((b / D + 1) * 2 ^ E) := by ring
        omega
      have h7 : n + 2 ^ sh < (b / D + 1) * 2 ^ E := Nat.lt_of_mul_lt_mul_left h3
      have h8 : (b / D + 1) * 2 ^ (E - sh) * 2 ^ sh = (b / D + 1) * 2 ^ E := by
        rw [mul_assoc, mul_comm (2 ^ (E - sh)), hAB]
      rw [h8]
      exact lt_of_le_of_lt h2 h7
    have h9 : n / 2 ^ sh + 1 < (b / D + 1) * 2 ^ (E - sh) :=
      Nat.lt_of_mul_lt_mul_right h1
    exact lt_of_le_of_lt hhi h9

/-- For such a percentage the tax on a price that is small enough is the price divided by
`D`, rounded down. -/
theorem taxAmount_of_ratio (b mP E D c S : Nat) (hD : D * mP = 2 ^ E + c) (hDpos : 0 < D)
    (hb : b < 2 ^ 53) (hS : bitLen 128 (b * mP) - 53 ≤ S) (hSE : S < E)
    (hsmall : c * b + D * 2 ^ S < 2 ^ E) :
    taxAmount b ⟨mP, -(E : Int)⟩ = b / D := by
  have hle : b / D ≤ b := Nat.div_le_self b D
  unfold taxAmount F64.toUInt
  rw [trunc_of_ratio b mP E D c S hD hDpos hb hS hSE hsmall, if_pos (by omega)]

/-- With the default percentages the taxes on a total below `2 ^ 50` are exactly 5% and 2%
of it, rounded down. -/
theorem taxAmount_default (b : Nat) (hb : b < 2 ^ 50) :
    taxAmount b DefaultGovtTaxPercent = b * 5 / 100 ∧
    taxAmount b DefaultEcommerceTaxPercent = b * 2 / 100 := by
  constructor
  · have h1 : bitLen 128 (b * 3602879701896397) - 53 ≤ 49 := by
      have : b * 3602879701896397 < 2 ^ 102 := by
        have : b * 3602879701896397 < 2 ^ 50 * 2 ^ 52 :=
          Nat.mul_lt_mul'' hb (by norm_num)
        calc b * 3602879701896397 < 2 ^ 50 * 2 ^ 52 := this
          _ = 2 ^ 102 := by norm_num
      have := bitLen_le 128 _ 102 this
      omega
    have h := taxAmount_of_ratio b 3602879701896397 56 20 4 49 (by norm_num) (by norm_num)
      (by omega) h1 (by norm_num) (by norm_num at hb ⊢; omega)
    have h2 : (⟨3602879701896397, -((56 : Nat) : Int)⟩ : F64) = DefaultGovtTaxPercent := rfl
    rw [h2] at h
    rw [h]
    omega
  · have h1 : bitLen 128 (b * 5764607523034235) - 53 ≤ 50 := by
      have : b * 5764607523034235 < 2 ^ 103 := by
        have : b * 5764607523034235 < 2 ^ 50 * 2 ^ 53 :=
          Nat.mul_lt_mul'' hb (by norm_num)
        calc b * 5764607523034235 < 2 ^ 50 * 2 ^ 53 := this
          _ = 2 ^ 103 := by norm_num
      have := bitLen_le 128 _ 103 this
      omega
    have h := taxAmount_of_ratio b 5764607523034235 58 50 6 50 (by norm_num) (by norm_num)
      (by omega) h1 (by norm_num) (by norm_num at hb ⊢; omega)
    have h2 : (⟨5764607523034235, -((58 : Nat) : Int)⟩ : F64)
        = DefaultEcommerceTaxPercent := rfl
    rw [h2] at h
    rw [h]
    omega

/-! ## The state machine of the orders -/

theorem Moves.fields {m : Bool} {t t' : TransactionHistory} (h : Moves m t t') :
    t'.id = t.id ∧ t'.productID = t.productID ∧ t'.userID = t.userID ∧
    t'.quantity = t.quantity ∧ t'.totalPrice = t.totalPrice ∧ t'.govtTax = t.govtTax ∧
    t'.ecommerceTax = t.ecommerceTax := by
  induction h with
  | stay t => simp
  | ship t _ => simp [TransactionHistory.shipped]
  | settle t _ => simp [TransactionHistory.settled]
  | cancel t _ => simp [TransactionHistory.cancelled]
  | override t st _ => simp [TransactionHistory.overridden]
  | trans _ _ ih1 ih2 =>
    exact ⟨ih2.1.trans ih1.1, ih2.2.1.trans ih1.2.1, ih2.2.2.1.trans ih1.2.2.1,
      ih2.2.2.2.1.trans ih1.2.2.2.1, ih2.2.2.2.2.1.trans ih1.2.2.2.2.1,
      ih2.2.2.2.2.2.1.trans ih1.2.2.2.2.2.1, ih2.2.2.2.2.2.2.trans ih1.2.2.2.2.2.2⟩

theorem Moves.keeps_coherent {m : Bool} {t t' : TransactionHistory} (h : Moves m t t')
    (ht : t.coherent = true) : t'.coherent = true := by
  induction h with
  | stay t => exact ht
  | ship t hs =>
    simp [TransactionHistory.coherent, hs] at ht
    simp [TransactionHistory.coherent, TransactionHistory.shipped, ht]
  | settle t _ => simp [TransactionHistory.coherent, TransactionHistory.settled]
  | cancel t _ => simp [TransactionHistory.coherent, TransactionHistory.cancelled]
  | override t st _ =>
    cases st <;> simp [TransactionHistory.coherent, TransactionHistory.overridden, receiptFor]
  | trans _ _ ih1 ih2 => exact ih2 (ih1 ht)

/-- Without the admin override, an order whose status is `success` or `cancel` does not
move. -/
theorem Moves.of_terminal {t t' : TransactionHistory} (h : Moves false t t')
    (ht : t.terminal = true) : t' = t := by
  induction h with
  | stay t => rfl
  | ship t hs => simp [TransactionHistory.terminal, hs] at ht
  | settle t hs => simp [TransactionHistory.terminal, hs] at ht
  | cancel t hs => rcases hs with hs | hs <;> simp [TransactionHistory.terminal, hs] at ht
  | override t st hadm => simp at hadm
  | trans _ _ ih1 ih2 =>
    have h1 := ih1 ht
    subst h1
    exact ih2 ht

theorem Moves.mono {t t' : TransactionHistory} (h : Moves false t t') : Moves true t t' := by
  induction h with
  | stay t => exact .stay t
  | ship t hs => exact .ship t hs
  | settle t hs => exact .settle t hs
  | cancel t hs => exact .cancel t hs
  | override t st hadm => simp at hadm
  | trans _ _ ih1 ih2 => exact .trans ih1 ih2

theorem forall₂_moves_refl (m : Bool) (l : List TransactionHistory) :
    List.Forall₂ (Moves m) l l := by
  induction l with
  | nil => exact .nil
  | cons t l ih => exact .cons (.stay t) ih

theorem forall₂_moves_trans {m : Bool} {l1 l2 l3 : List TransactionHistory}
    (h12 : List.Forall₂ (Moves m) l1 l2) (h23 : List.Forall₂ (Moves m) l2 l3) :
    List.Forall₂ (Moves m) l1 l3 := by
  induction h12 generalizing l3 with
  | nil => cases h23; exact .nil
  | cons hab _ ih =>
    cases h23 with
    | cons hbc htl => exact .cons (.trans hab hbc) (ih htl)

theorem forall₂_moves_ids {m : Bool} {l l' : List TransactionHistory}
    (h : List.Forall₂ (Moves m) l l') : l'.map (·.id) = l.map (·.id) := by
  induction h with
  | nil => rfl
  | cons hab _ ih => simp [hab.fields.1, ih]

/-- The row found by its key moves, the other rows stay: that is a run of the state machine
on a table with unique keys. -/
theorem forall₂_moves_update {m : Bool} {l : List TransactionHistory}
    (hnd : (l.map (·.id)).Nodup) {trx : TransactionHistory} (hmem : trx ∈ l)
    (f : TransactionHistory → TransactionHistory) (hf : Moves m trx (f trx)) :
    List.Forall₂ (Moves m) l (l.map fun t => if t.id = trx.id then f t else t) := by
  rw [List.forall₂_map_right_iff, List.forall₂_same]
  intro t ht
  split_ifs with h
  · have : t = trx := List.inj_on_of_nodup_map hnd ht hmem h
    subst this
    exact hf
  · exact .stay t

theorem Evolves.of_moves {m : Bool} {l l' : List TransactionHistory}
    (h : List.Forall₂ (Moves m) l l') : Evolves m l l' :=
  ⟨l', [], by simp, h, by simp⟩

theorem Evolves.refl (m : Bool) (l : List TransactionHistory) : Evolves m l l :=
  Evolves.of_moves (forall₂_moves_refl m l)

theorem Evolves.all_coherent {m : Bool} {l l' : List TransactionHistory}
    (h : Evolves m l l') (hl : ∀ t ∈ l, t.coherent = true) :
    ∀ t ∈ l', t.coherent = true := by
  obtain ⟨front, extra, rfl, hf, hx⟩ := h
  intro t ht
  rw [List.mem_append] at ht
  rcases ht with ht | ht
  · have key : ∀ {l front : List TransactionHistory}, List.Forall₂ (Moves m) l front →
        (∀ t ∈ l, t.coherent = true) → ∀ t ∈ front, t.coherent = true := by
      intro l front h
      induction h with
      | nil => intro _ t ht; simp at ht
      | cons hab _ ih =>
        intro hl t ht
        rw [List.mem_cons] at ht
        rcases ht with rfl | ht
        · exact hab.keeps_coherent (hl _ (List.mem_cons_self _ _))
        · exact ih (fun t ht => hl t (List.mem_cons_of_mem _ ht)) t ht
    exact key hf hl t ht
  · obtain ⟨h1, h2, h3⟩ := hx t ht
    simp [TransactionHistory.coherent, h1, h2, h3]

/-- A loop over rows read from the order table before the loop: when the body changes no
row but the one it is given, every row of the list is still in the table when the loop
reaches it. -/
theorem forEach_fresh (P : State → Prop) (Q : TransactionHistory → Prop)
    (body : State → TransactionHistory → Outcome)
    (hbody : ∀ s x, P s → Q x → x ∈ s.transactions →
      P (body s x).state ∧
        ∀ y ∈ s.transactions, y.id ≠ x.id → y ∈ (body s x).state.transactions) :
    ∀ (xs : List TransactionHistory) (s : State), (xs.map (·.id)).Nodup →
      (∀ x ∈ xs, x ∈ s.transactions ∧ Q x) → P s → P (forEach body s xs).state := by
  intro xs
  induction xs with
  | nil => intro s _ _ hs; simpa [forEach] using hs
  | cons x xs ih =>
    intro s hnd hmem hs
    have hx := hbody s x hs (hmem x (List.mem_cons_self _ _)).2
      (hmem x (List.mem_cons_self _ _)).1
    rw [List.map_cons, List.nodup_cons] at hnd
    unfold forEach
    cases hb : body s x with
    | ok s' =>
      rw [hb] at hx
      refine ih s' hnd.2 (fun y hy => ⟨?_, (hmem y (List.mem_cons_of_mem _ hy)).2⟩) hx.1
      refine hx.2 y (hmem y (List.mem_cons_of_mem _ hy)).1 ?_
      intro hid
      exact hnd.1 (hid ▸ List.mem_map_of_mem (·.id) hy)
    | fail e s' =>
      rw [hb] at hx
      exact hx.1

theorem mem_map_update_of_ne {l : List TransactionHistory} {y : TransactionHistory}
    (id : Nat) (f : TransactionHistory → TransactionHistory) (hy : y ∈ l) (hne : y.id ≠ id) :
    y ∈ l.map fun t => if t.id = id then f t else t := by
  rw [List.mem_map]
  exact ⟨y, hy, by simp [hne]⟩

/-- The rows of `s` have moved from those of `s0`; then they still do after the row found
by its key has moved once more. -/
theorem moves_step {m : Bool} {s0 s : State} (hs0 : s0.uniqueTransactions)
    (h : List.Forall₂ (Moves m) s0.transactions s.transactions)
    {trx : TransactionHistory} (hmem : trx ∈ s.transactions)
    (f : TransactionHistory → TransactionHistory) (hf : Moves m trx (f trx)) :
    List.Forall₂ (Moves m) s0.transactions
      (s.transactions.map fun t => if t.id = trx.id then f t else t) := by
  have hnd : (s.transactions.map (·.id)).Nodup := by
    rw [forall₂_moves_ids h]; exact hs0
  exact forall₂_moves_trans h (forall₂_moves_update hnd hmem f hf)

theorem confirmByOwnerItem_moves {m : Bool} {s0 : State} (hs0 : s0.uniqueTransactions)
    (ownerID : Nat) (s : State) (x : Nat)
    (h : List.Forall₂ (Moves m) s0.transactions s.transactions) :
    List.Forall₂ (Moves m) s0.transactions
      (confirmByOwnerItem ownerID s x).state.transactions := by
  unfold confirmByOwnerItem
  split
  · exact h
  · rename_i trx htrx
    split_ifs with h1 h2
    · exact h
    · exact h
    · simp only [Outcome.state, State.notify, State.createNotification,
        State.SendNotificationToUser, State.updateTransaction]
      exact moves_step hs0 h (firstTransaction_mem htrx).1 TransactionHistory.shipped
        (.ship trx (by simpa using h2))

theorem confirmByUserItem_moves {m : Bool} {s0 : State} (hs0 : s0.uniqueTransactions)
    (userID : Nat) (reviews : List ReviewItem) (s : State) (x : Nat)
    (h : List.Forall₂ (Moves m) s0.transactions s.transactions) :
    List.Forall₂ (Moves m) s0.transactions
      (confirmByUserItem userID reviews s x).state.transactions := by
  unfold confirmByUserItem
  split
  · exact h
  · rename_i trx htrx
    split_ifs with h1
    · exact h
    · split
      · exact h
      · split
        · exact h
        · simp only [Outcome.state, State.notify, State.createNotification,
            State.SendNotificationToUser]
          rw [(createReviews_frame _ _ _ _ _).2.2.1]
          simp only [State.updateTransaction, State.updateUserBalance,
            State.createBalanceHistory]
          exact moves_step hs0 h (List.mem_of_find?_eq_some htrx) TransactionHistory.settled
            (.settle trx (by simpa using h1))

theorem cancelItem_moves {m : Bool} {s0 : State} (hs0 : s0.uniqueTransactions)
    (userID : Nat) (s : State) (x : Nat)
    (h : List.Forall₂ (Moves m) s0.transactions s.transactions) :
    List.Forall₂ (Moves m) s0.transactions
      (cancelItem userID s x).state.transactions := by
  unfold cancelItem
  split
  · exact h
  · rename_i trx htrx
    simp only
    split_ifs with h1 h2
    · exact h
    · exact h
    · split
      · exact h
      · split
        · simpa using h
        · have hst : trx.status = TrxStatusPending ∨ trx.status = TrxStatusWaitingOwner := by
            by_contra hc
            push_neg at hc
            exact h2 hc
          split_ifs <;>
          · simp only [Outcome.state, State.notify, State.createNotification,
              State.SendNotificationToUser, State.updateTransaction, State.saveProduct,
              State.updateProductVisibility, State.createBalanceHistory,
              State.updateUserBalance]
            exact moves_step hs0 h (firstTransaction_mem htrx).1
              TransactionHistory.cancelled (.cancel trx hst)

theorem refundOnDelete_moves {m : Bool} {s0 : State} (hs0 : s0.uniqueTransactions)
    (s : State) (x : TransactionHistory)
    (h : List.Forall₂ (Moves m) s0.transactions s.transactions)
    (hx : x.status = TrxStatusPending ∨ x.status = TrxStatusWaitingOwner)
    (hmem : x ∈ s.transactions) :
    List.Forall₂ (Moves m) s0.transactions (refundOnDelete s x).state.transactions ∧
      ∀ y ∈ s.transactions, y.id ≠ x.id → y ∈ (refundOnDelete s x).state.transactions := by
  unfold refundOnDelete
  split
  · exact ⟨h, fun y hy _ => hy⟩
  · simp only [Outcome.state, State.notify, State.createNotification,
      State.SendNotificationToUser, State.updateTransaction, State.createBalanceHistory,
      State.updateUserBalance]
    exact ⟨moves_step hs0 h hmem TransactionHistory.cancelled (.cancel x hx),
      fun y hy hne => mem_map_update_of_ne _ _ hy hne⟩

theorem settleOnProductDelete_moves {m : Bool} {s0 : State}
    (hs0 : s0.uniqueTransactions) (product : Product) (s : State) (x : TransactionHistory)
    (h : List.Forall₂ (Moves m) s0.transactions s.transactions)
    (hx : x.status = TrxStatusWaitingUser) (hmem : x ∈ s.transactions) :
    List.Forall₂ (Moves m) s0.transactions
        (settleOnProductDelete product s x).state.transactions ∧
      ∀ y ∈ s.transactions, y.id ≠ x.id →
        y ∈ (settleOnProductDelete product s x).state.transactions := by
  unfold settleOnProductDelete
  split
  · exact ⟨h, fun y hy _ => hy⟩
  · simp only [Outcome.state, State.notify, State.createNotification,
      State.SendNotificationToUser, State.updateTransaction, State.createBalanceHistory,
      State.updateUserBalance]
    exact ⟨moves_step hs0 h hmem TransactionHistory.settled (.settle x hx),
      fun y hy hne => mem_map_update_of_ne _ _ hy hne⟩

theorem settleOnOwnerRemoval_moves {m : Bool} {s0 : State}
    (hs0 : s0.uniqueTransactions) (product : Product) (s : State) (x : TransactionHistory)
    (h : List.Forall₂ (Moves m) s0.transactions s.transactions)
    (hx : x.status = TrxStatusWaitingUser) (hmem : x ∈ s.transactions) :
    List.Forall₂ (Moves m) s0.transactions
        (settleOnOwnerRemoval product s x).state.transactions ∧
      ∀ y ∈ s.transactions, y.id ≠ x.id →
        y ∈ (settleOnOwnerRemoval product s x).state.transactions := by
  unfold settleOnOwnerRemoval
  simp only [Outcome.state, State.notify, State.createNotification,
    State.SendNotificationToUser, State.updateTransaction, State.createBalanceHistory]
  exact ⟨moves_step hs0 h hmem TransactionHistory.settled (.settle x hx),
    fun y hy hne => mem_map_update_of_ne _ _ hy hne⟩

theorem nodup_ids_of_moves {m : Bool} {s0 s : State} (hs0 : s0.uniqueTransactions)
    (h : List.Forall₂ (Moves m) s0.transactions s.transactions) :
    s.uniqueTransactions := by
  unfold State.uniqueTransactions
  rw [forall₂_moves_ids h]
  exact hs0

theorem pendingTransactions_mem {s : State} {productID : Nat} {x : TransactionHistory}
    (hx : x ∈ s.pendingTransactions productID) :
    x ∈ s.transactions ∧ x.productID = productID ∧
      (x.status = TrxStatusPending ∨ x.status = TrxStatusWaitingOwner) := by
  unfold State.pendingTransactions at hx
  rw [List.mem_filter] at hx
  have h2 := hx.2
  simp only [Bool.and_eq_true, Bool.or_eq_true, decide_eq_true_eq] at h2
  exact ⟨hx.1, h2.1, h2.2⟩

theorem waitingUserTransactions_mem {s : State} {productID : Nat} {x : TransactionHistory}
    (hx : x ∈ s.waitingUserTransactions productID) :
    x ∈ s.transactions ∧ x.productID = productID ∧ x.status = TrxStatusWaitingUser := by
  unfold State.waitingUserTransactions at hx
  rw [List.mem_filter] at hx
  have h2 := hx.2
  simp only [Bool.and_eq_true, decide_eq_true_eq] at h2
  exact ⟨hx.1, h2.1, h2.2⟩

theorem pendingTransactions_nodup {s : State} (h : s.uniqueTransactions) (productID : Nat) :
    ((s.pendingTransactions productID).map (·.id)).Nodup :=
  List.Nodup.sublist ((List.filter_sublist _).map _) h

theorem waitingUserTransactions_nodup {s : State} (h : s.uniqueTransactions)
    (productID : Nat) : ((s.waitingUserTransactions productID).map (·.id)).Nodup :=
  List.Nodup.sublist ((List.filter_sublist _).map _) h

/-- The refund loop of the resolver moves the orders along the state machine. -/
theorem refundLoop_moves {m : Bool} {s0 : State} (hs0 : s0.uniqueTransactions)
    (s : State) (productID : Nat)
    (h : List.Forall₂ (Moves m) s0.transactions s.transactions) :
    List.Forall₂ (Moves m) s0.transactions
      (forEach refundOnDelete s (s.pendingTransactions productID)).state.transactions := by
  apply forEach_fresh
    (fun s' => List.Forall₂ (Moves m) s0.transactions s'.transactions)
    (fun x => x.status = TrxStatusPending ∨ x.status = TrxStatusWaitingOwner)
    refundOnDelete
    (fun s' x hs' hq hm => refundOnDelete_moves hs0 s' x hs' hq hm)
    _ s (pendingTransactions_nodup (nodup_ids_of_moves hs0 h) productID)
    (fun x hx => ⟨(pendingTransactions_mem hx).1, (pendingTransactions_mem hx).2.2⟩) h

theorem handleProductTransactionsOnDelete_moves {m : Bool} {s0 : State}
    (hs0 : s0.uniqueTransactions) (s : State) (product : Product)
    (h : List.Forall₂ (Moves m) s0.transactions s.transactions) :
    List.Forall₂ (Moves m) s0.transactions
      (handleProductTransactionsOnDelete s product).state.transactions := by
  unfold handleProductTransactionsOnDelete
  have h1 := refundLoop_moves hs0 s product.id h
  split
  · rename_i e s' heq
    rw [heq] at h1
    exact h1
  · rename_i s' heq
    rw [heq] at h1
    exact forEach_fresh
      (fun s' => List.Forall₂ (Moves m) s0.transactions s'.transactions)
      (fun x => x.status = TrxStatusWaitingUser)
      (settleOnOwnerRemoval product)
      (fun s'' x hs'' hq hm => settleOnOwnerRemoval_moves hs0 product s'' x hs'' hq hm)
      _ s' (waitingUserTransactions_nodup (nodup_ids_of_moves hs0 h1) product.id)
      (fun x hx => ⟨(waitingUserTransactions_mem hx).1, (waitingUserTransactions_mem hx).2.2⟩)
      h1

theorem removeProducts_moves {m : Bool} {s0 : State} (hs0 : s0.uniqueTransactions)
    (products : List Product) :
    ∀ s : State, List.Forall₂ (Moves m) s0.transactions s.transactions →
      List.Forall₂ (Moves m) s0.transactions (removeProducts s products).transactions := by
  induction products with
  | nil => intro s h; exact h
  | cons p ps ih =>
    intro s h
    unfold removeProducts
    apply ih
    apply handleProductTransactionsOnDelete_moves hs0
    simpa using h

theorem DeleteProductsRequest_moves {m : Bool} (s : State) (hs : s.uniqueTransactions)
    (userID : Nat) (role : UserRole) (productID : Nat) :
    List.Forall₂ (Moves m) s.transactions
      (DeleteProductsRequest s userID role productID).state.transactions := by
  have h0 := forall₂_moves_refl m s.transactions
  unfold DeleteProductsRequest
  split
  · exact h0
  · rename_i product _
    split_ifs
    · exact h0
    · exact h0
    · exact h0
    · apply Transaction_invariant
        (fun s' => List.Forall₂ (Moves m) s.transactions s'.transactions) s _
        (fun l => h0)
      have h1 := refundLoop_moves hs
        (s.saveProduct
          { product with visibility := ProductVisibilityOwnerAdmin, deleted := true })
        product.id (by simpa using h0)
      simp only
      split
      · rename_i e s' heq
        rw [heq] at h1
        exact h1
      · rename_i s' heq
        rw [heq] at h1
        exact forEach_fresh
          (fun s' => List.Forall₂ (Moves m) s.transactions s'.transactions)
          (fun x => x.status = TrxStatusWaitingUser)
          (settleOnProductDelete _)
          (fun s'' x hs'' hq hm => settleOnProductDelete_moves hs _ s'' x hs'' hq hm)
          _ s' (waitingUserTransactions_nodup (nodup_ids_of_moves hs h1) product.id)
          (fun x hx =>
            ⟨(waitingUserTransactions_mem hx).1, (waitingUserTransactions_mem hx).2.2⟩)
          h1

theorem SuspendUser_moves {m : Bool} (s : State) (hs : s.uniqueTransactions)
    (target : Nat) :
    List.Forall₂ (Moves m) s.transactions (SuspendUser s target).state.transactions := by
  have h0 := forall₂_moves_refl m s.transactions
  unfold SuspendUser
  split
  · exact h0
  · split_ifs
    · exact h0
    · exact h0
    · apply Transaction_invariant
        (fun s' => List.Forall₂ (Moves m) s.transactions s'.transactions) s _
        (fun l => h0)
      simp only [Outcome.state, State.notify, State.createNotification,
        State.SendNotificationToUser]
      exact removeProducts_moves hs _ _ (by simpa using h0)

theorem BanUser_moves {m : Bool} (s : State) (hs : s.uniqueTransactions)
    (target : Nat) (banUntil : Int) :
    List.Forall₂ (Moves m) s.transactions
      (BanUser s target banUntil).state.transactions := by
  have h0 := forall₂_moves_refl m s.transactions
  unfold BanUser
  split
  · exact h0
  · split_ifs
    · exact h0
    · exact h0
    · apply Transaction_invariant
        (fun s' => List.Forall₂ (Moves m) s.transactions s'.transactions) s _
        (fun l => h0)
      simp only [Outcome.state, State.notify, State.createNotification,
        State.SendNotificationToUser]
      exact removeProducts_moves hs _ _ (by simpa using h0)

theorem DeleteUser_moves {m : Bool} (s : State) (hs : s.uniqueTransactions)
    (adminID target : Nat) :
    List.Forall₂ (Moves m) s.transactions
      (DeleteUser s adminID target).state.transactions := by
  have h0 := forall₂_moves_refl m s.transactions
  unfold DeleteUser
  split
  · exact h0
  · split_ifs
    · exact h0
    · exact h0
    · apply Transaction_invariant
        (fun s' => List.Forall₂ (Moves m) s.transactions s'.transactions) s _
        (fun l => h0)
      simp only [Outcome.state]
      exact removeProducts_moves hs _ _ (by simpa using h0)

theorem ConfirmTransactionByOwner_moves {m : Bool} (s : State)
    (hs : s.uniqueTransactions) (ownerID : Nat) (ids : List Nat) :
    List.Forall₂ (Moves m) s.transactions
      (ConfirmTransactionByOwner s ownerID ids).state.transactions := by
  have h0 := forall₂_moves_refl m s.transactions
  unfold ConfirmTransactionByOwner
  split_ifs
  · exact h0
  · exact Transaction_invariant
      (fun s' => List.Forall₂ (Moves m) s.transactions s'.transactions) s _
      (fun l => h0)
      (forEach_invariant _ _ (fun s' x hs' => confirmByOwnerItem_moves hs ownerID s' x hs')
        ids s h0)

theorem ConfirmTransactionByUser_moves {m : Bool} (s : State)
    (hs : s.uniqueTransactions) (userID : Nat) (ids : List Nat) (reviews : List ReviewItem) :
    List.Forall₂ (Moves m) s.transactions
      (ConfirmTransactionByUser s userID ids reviews).state.transactions := by
  have h0 := forall₂_moves_refl m s.transactions
  unfold ConfirmTransactionByUser
  split_ifs
  · exact h0
  · exact Transaction_invariant
      (fun s' => List.Forall₂ (Moves m) s.transactions s'.transactions) s _
      (fun l => h0)
      (forEach_invariant _ _
        (fun s' x hs' => confirmByUserItem_moves hs userID reviews s' x hs') ids s h0)

theorem CancelTransaction_moves {m : Bool} (s : State) (hs : s.uniqueTransactions)
    (userID : Nat) (ids : List Nat) :
    List.Forall₂ (Moves m) s.transactions
      (CancelTransaction s userID ids).state.transactions := by
  have h0 := forall₂_moves_refl m s.transactions
  unfold CancelTransaction
  split_ifs
  · exact h0
  · exact Transaction_invariant
      (fun s' => List.Forall₂ (Moves m) s.transactions s'.transactions) s _
      (fun l => h0)
      (forEach_invariant _ _ (fun s' x hs' => cancelItem_moves hs userID s' x hs') ids s h0)

theorem PostTopUpBalance_transactions (s : State) (userID amount : Nat) :
    (PostTopUpBalance s userID amount).state.transactions = s.transactions := by
  unfold PostTopUpBalance
  split_ifs
  · rfl
  · rfl
  · apply Transaction_invariant (fun s' => s'.transactions = s.transactions) s _
      (fun l => rfl)
    split <;> simp

theorem PostWithDrawBalance_transactions (s : State) (userID amount : Nat) :
    (PostWithDrawBalance s userID amount).state.transactions = s.transactions := by
  unfold PostWithDrawBalance
  split_ifs
  · rfl
  · rfl
  · apply Transaction_invariant (fun s' => s'.transactions = s.transactions) s _
      (fun l => rfl)
    split
    · simp
    · split_ifs <;> simp

theorem PatchProductAdmin_frame (s : State) (productID : Nat) (req : RequestPutProduct) :
    (PatchProductAdmin s productID req).state.transactions = s.transactions ∧
    (PatchProductAdmin s productID req).state.users = s.users ∧
    (PatchProductAdmin s productID req).state.balanceHistories = s.balanceHistories := by
  unfold PatchProductAdmin
  by_cases h1 : (req.price ≠ 0 ∧ (req.price < 1000 ∨ 100000000 < req.price)) ∨
      10000 < req.stock ∨ req.visibility = some ProductVisibilityAdminOnly
  · rw [if_pos h1]; simp
  · rw [if_neg h1]
    cases s.firstProduct productID with
    | none => simp
    | some p =>
      simp only
      split_ifs <;> simp [Transaction, State.updatesProduct]

theorem patchEffect_frame (s : State) (trx : TransactionHistory) (productUserID : Nat)
    (oldStatus : TransactionStatus) :
    (patchToSuccess s trx productUserID oldStatus).state.transactions = s.transactions ∧
    (patchCancelRefund s trx oldStatus).state.transactions = s.transactions ∧
    (patchCancelDebit s trx productUserID oldStatus).state.transactions = s.transactions := by
  refine ⟨?_, ?_, ?_⟩
  · unfold patchToSuccess
    split_ifs
    · split <;> simp
    · simp
  · unfold patchCancelRefund
    split_ifs
    · split <;> simp
    · simp
  · unfold patchCancelDebit
    split_ifs
    · split <;> simp
    · simp

/-- The admin override writes the row of the order as `overridden` describes, or fails. -/
theorem PatchTransactionStatus_transactions (s : State) (id : Nat)
    (status : Option TransactionStatus) :
    (PatchTransactionStatus s id status).state.transactions = s.transactions ∨
    ∃ trx st, s.firstTransaction id = some trx ∧ status = some st ∧
      (PatchTransactionStatus s id status).isOk = true ∧
      (PatchTransactionStatus s id status).state.transactions =
        s.transactions.map fun t => if t.id = trx.id then t.overridden st else t := by
  unfold PatchTransactionStatus
  cases status with
  | none => left; rfl
  | some st =>
    simp only
    cases htrx : s.firstTransaction id with
    | none => left; rfl
    | some trx =>
      simp only
      have hf := patchEffect_frame
      unfold Transaction
      cases st
      case TrxStatusSuccess =>
        simp only
        cases he : patchToSuccess s trx (s.preloadProductUserID trx) trx.status with
        | fail e s' => left; rfl
        | ok s' =>
          right
          refine ⟨trx, _, rfl, rfl, rfl, ?_⟩
          have := (hf s trx (s.preloadProductUserID trx) trx.status).1
          rw [he] at this
          simp only [Outcome.state] at this
          simp [this, TransactionHistory.overridden, receiptFor]
      case TrxStatusCancel =>
        simp only
        cases he : patchCancelRefund s trx trx.status with
        | fail e s' => left; rfl
        | ok s' =>
          simp only
          have h1 := (hf s trx (s.preloadProductUserID trx) trx.status).2.1
          rw [he] at h1
          simp only [Outcome.state] at h1
          cases he2 : patchCancelDebit s' trx (s.preloadProductUserID trx) trx.status with
          | fail e s'' => left; rfl
          | ok s'' =>
            right
            refine ⟨trx, _, rfl, rfl, rfl, ?_⟩
            have h2 := (hf s' trx (s.preloadProductUserID trx) trx.status).2.2
            rw [he2] at h2
            simp only [Outcome.state] at h2
            simp [h2, h1, TransactionHistory.overridden, receiptFor]
      all_goals
        right
        refine ⟨trx, _, rfl, rfl, rfl, ?_⟩
        simp [TransactionHistory.overridden, receiptFor]

theorem purchaseItem_evolves (cfg : TaxConfig) (user : User) (s : State)
    (item : RequestPurchaseItem) :
    match purchaseItem cfg user s item with
    | .next _ s' => ∃ t, s'.transactions = s.transactions ++ [t] ∧ t.fresh
    | .abort _ s' => s'.transactions = s.transactions := by
  unfold purchaseItem
  cases s.firstPublicProduct item.productID with
  | none => simp
  | some p =>
    simp only
    split_ifs
    · simp
    · simp
    · simp
    · simp only
      rw [purchaseCommit_transactions]
      exact ⟨_, rfl, rfl, rfl, rfl⟩

theorem purchaseLoop_evolves (cfg : TaxConfig) (req : List RequestPurchaseItem) :
    ∀ (user : User) (s : State),
      ∃ extra, (purchaseLoop cfg user s req).state.transactions = s.transactions ++ extra ∧
        ∀ t ∈ extra, t.fresh := by
  induction req with
  | nil => intro user s; exact ⟨[], by simp [purchaseLoop], by simp⟩
  | cons item rest ih =>
    intro user s
    have h := purchaseItem_evolves cfg user s item
    unfold purchaseLoop
    cases hp : purchaseItem cfg user s item with
    | next user' s' =>
      rw [hp] at h
      obtain ⟨t, ht, hfresh⟩ := h
      obtain ⟨extra, he, hx⟩ := ih user' s'
      refine ⟨t :: extra, ?_, ?_⟩
      · simp only [he, ht, List.append_assoc, List.singleton_append]
      · intro y hy
        rw [List.mem_cons] at hy
        rcases hy with rfl | hy
        · exact hfresh
        · exact hx y hy
    | abort e s' =>
      rw [hp] at h
      exact ⟨[], by simpa using h, by simp⟩

theorem PostPurchaseProduct_evolves (cfg : TaxConfig) (s : State) (userID : Nat)
    (req : List RequestPurchaseItem) :
    ∃ extra, (PostPurchaseProduct cfg s userID req).state.transactions
        = s.transactions ++ extra ∧ ∀ t ∈ extra, t.fresh := by
  unfold PostPurchaseProduct
  split_ifs
  · exact ⟨[], by simp, by simp⟩
  · exact ⟨[], by simp, by simp⟩
  · split
    · exact ⟨[], by simp, by simp⟩
    · rename_i user _
      exact Transaction_invariant
        (fun s' => ∃ extra, s'.transactions = s.transactions ++ extra ∧ ∀ t ∈ extra, t.fresh)
        s _ (fun l => ⟨[], by simp, by simp⟩) (purchaseLoop_evolves cfg req user s)

theorem PatchTransactionStatus_moves (s : State) (hs : s.uniqueTransactions) (id : Nat)
    (status : Option TransactionStatus) :
    List.Forall₂ (Moves true) s.transactions
      (PatchTransactionStatus s id status).state.transactions := by
  rcases PatchTransactionStatus_transactions s id status with h | ⟨trx, st, htrx, _, _, h⟩
  · rw [h]; exact forall₂_moves_refl true _
  · rw [h]
    exact forall₂_moves_update hs (firstTransaction_mem htrx).1 (fun t => t.overridden st)
      (.override trx st rfl)

/-- Every operation moves the orders of the store along the state machine (the admin
override sets a status directly), and a purchase adds new orders after them. -/
theorem Action.run_evolves (a : Action) (s : State) (hs : s.uniqueTransactions) :
    Evolves a.isOverride s.transactions (a.run s).state.transactions := by
  cases a with
  | confirmShipment ownerID ids =>
    exact Evolves.of_moves (ConfirmTransactionByOwner_moves s hs ownerID ids)
  | patchProduct productID req =>
    simp only [Action.run, (PatchProductAdmin_frame s productID req).1]
    exact Evolves.refl _ _
  | balance op =>
    cases op with
    | topUp userID amount =>
      simp only [Action.run, Operation.run, PostTopUpBalance_transactions]
      exact Evolves.refl _ _
    | withdraw userID amount =>
      simp only [Action.run, Operation.run, PostWithDrawBalance_transactions]
      exact Evolves.refl _ _
    | purchase cfg userID req =>
      obtain ⟨extra, he, hx⟩ := PostPurchaseProduct_evolves cfg s userID req
      exact ⟨_, extra, he, forall₂_moves_refl _ _, hx⟩
    | confirmReceipt userID ids reviews =>
      exact Evolves.of_moves (ConfirmTransactionByUser_moves s hs userID ids reviews)
    | cancel userID ids => exact Evolves.of_moves (CancelTransaction_moves s hs userID ids)
    | adminOverride id status =>
      exact Evolves.of_moves (PatchTransactionStatus_moves s hs id status)
    | deleteProduct userID role productID =>
      exact Evolves.of_moves (DeleteProductsRequest_moves s hs userID role productID)
    | suspendUser target => exact Evolves.of_moves (SuspendUser_moves s hs target)
    | banUser target banUntil => exact Evolves.of_moves (BanUser_moves s hs target banUntil)
    | deleteUser adminID target =>
      exact Evolves.of_moves (DeleteUser_moves s hs adminID target)

/-! ## C11: coherence of the orders -/

/-- C11: every operation (purchase, confirmation of the shipment, confirmation of the
receipt, cancellation, admin status override, deletion of a product, suspension, ban and
deletion of a user, and the operations that write no order) preserves the coherence of the
orders of a store with unique order keys: receipt `COMPLETED` and solved for `success`,
`CANCELED` and solved for `cancel`, `PENDING_PROCESS` and not solved for the other
statuses. -/
theorem C11_coherence_preserved (a : Action) (s : State) (huniq : s.uniqueTransactions)
    (hcoh : s.coherent) : (a.run s).state.coherent :=
  (a.run_evolves s huniq).all_coherent hcoh

/-- Witness of C11: the admin override of the settled order 1 of Scenario B back to
`pending`. -/
theorem C11_coherence_preserved_witness :
    afterReceipt.uniqueTransactions ∧ afterReceipt.coherent ∧
    ((Action.balance (.adminOverride 1 (some TrxStatusPending))).run
      afterReceipt).state.coherent :=
  ⟨by unfold State.uniqueTransactions; decide, by unfold State.coherent; decide,
    C11_coherence_preserved _ _ (by unfold State.uniqueTransactions; decide)
      (by unfold State.coherent; decide)⟩

/-! ## C12: transitions attempted on an order that is `success` or `cancel` -/

/-- The orders with key `i` all have status `success` or `cancel`, in a store with unique
order keys. -/
theorem closed_of_moves {s s' : State} {i : Nat}
    (h : List.Forall₂ (Moves false) s.transactions s'.transactions)
    (hs : ∀ t ∈ s.transactions, t.id = i → t.terminal = true) :
    ∀ t ∈ s'.transactions, t.id = i → t.terminal = true := by
  revert hs
  generalize s.transactions = l at h
  generalize s'.transactions = l' at h
  induction h with
  | nil => intro _ t ht; simp at ht
  | cons hab _ ih =>
    intro hs t ht hti
    rw [List.mem_cons] at ht
    rcases ht with rfl | ht
    · have h1 := hs _ (List.mem_cons_self _ _) (hab.fields.1.symm.trans hti)
      rw [hab.of_terminal h1]
      exact h1
    · exact ih (fun t ht => hs t (List.mem_cons_of_mem _ ht)) t ht hti

/-- A loop whose body fails on `i` in every state that satisfies `Q`, and keeps `Q` when it
succeeds, fails on every list that contains `i`. -/
theorem forEach_fails (Q : State → Prop) (body : State → Nat → Outcome) (i : Nat)
    (hfail : ∀ s, Q s → (body s i).isOk = false)
    (hkeep : ∀ s x s', Q s → body s x = .ok s' → Q s') :
    ∀ (ids : List Nat) (s : State), i ∈ ids → Q s → (forEach body s ids).isOk = false := by
  intro ids
  induction ids with
  | nil => intro s hi; simp at hi
  | cons x xs ih =>
    intro s hi hq
    unfold forEach
    cases hb : body s x with
    | fail e s' => rfl
    | ok s' =>
      simp only
      rw [List.mem_cons] at hi
      rcases hi with rfl | hi
      · have := hfail s hq
        rw [hb] at this
        simp at this
      · exact ih s' hi (hkeep s x s' hq hb)

theorem Transaction_isOk (s : State) (body : State → Outcome) :
    (Transaction s body).isOk = (body s).isOk := by
  unfold Transaction
  cases body s <;> rfl

theorem sameTables_of_fail (s : State) (body : State → Outcome)
    (h : (Transaction s body).isOk = false) : s.sameTables (Transaction s body).state :=
  have h' := Transaction_fail s body h
  ⟨h'.1, h'.2.1, h'.2.2.1, h'.2.2.2.1⟩

theorem status_of_terminal {t : TransactionHistory} (h : t.terminal = true) :
    t.status ≠ TrxStatusPending ∧ t.status ≠ TrxStatusWaitingOwner ∧
      t.status ≠ TrxStatusWaitingUser := by
  unfold TransactionHistory.terminal at h
  simp only [Bool.or_eq_true, decide_eq_true_eq] at h
  rcases h with h | h <;> simp [h]

theorem ConfirmTransactionByOwner_closed (s : State) (huniq : s.uniqueTransactions)
    (ownerID : Nat) (ids : List Nat) (i : Nat) (hi : i ∈ ids)
    (hs : ∀ t ∈ s.transactions, t.id = i → t.terminal = true) :
    (ConfirmTransactionByOwner s ownerID ids).isOk = false ∧
      s.sameTables (ConfirmTransactionByOwner s ownerID ids).state := by
  unfold ConfirmTransactionByOwner
  split_ifs
  · exact ⟨rfl, rfl, rfl, rfl, rfl⟩
  · have hf : (Transaction s fun s =>
        forEach (confirmByOwnerItem ownerID) s ids).isOk = false := by
      have := forEach_fails
        (fun s' => s'.uniqueTransactions ∧ ∀ t ∈ s'.transactions, t.id = i → t.terminal = true)
        (confirmByOwnerItem ownerID) i
        (by
          intro s' hq
          unfold confirmByOwnerItem
          split
          · rfl
          · rename_i trx htrx
            have hm := firstTransaction_mem htrx
            have := (status_of_terminal (hq.2 trx hm.1 hm.2)).1
            split_ifs
            · rfl
            · rfl)
        (by
          intro s' x s'' hq hb
          have hm := confirmByOwnerItem_moves (m := false) hq.1 ownerID s' x
            (forall₂_moves_refl _ _)
          rw [hb] at hm
          exact ⟨nodup_ids_of_moves hq.1 hm, closed_of_moves hm hq.2⟩)
        ids s hi ⟨huniq, hs⟩
      rw [Transaction_isOk]
      exact this
    exact ⟨hf, sameTables_of_fail s _ hf⟩

theorem ConfirmTransactionByUser_closed (s : State) (huniq : s.uniqueTransactions)
    (userID : Nat) (ids : List Nat) (reviews : List ReviewItem) (i : Nat) (hi : i ∈ ids)
    (hs : ∀ t ∈ s.transactions, t.id = i → t.terminal = true) :
    (ConfirmTransactionByUser s userID ids reviews).isOk = false ∧
      s.sameTables (ConfirmTransactionByUser s userID ids reviews).state := by
  unfold ConfirmTransactionByUser
  split_ifs
  · exact ⟨rfl, rfl, rfl, rfl, rfl⟩
  · have hf : (Transaction s fun s =>
        forEach (confirmByUserItem userID reviews) s ids).isOk = false := by
      have := forEach_fails
        (fun s' => s'.uniqueTransactions ∧ ∀ t ∈ s'.transactions, t.id = i → t.terminal = true)
        (confirmByUserItem userID reviews) i
        (by
          intro s' hq
          unfold confirmByUserItem
          split
          · rfl
          · rename_i trx htrx
            have hm := List.mem_of_find?_eq_some htrx
            have hid := List.find?_some htrx
            simp only [Bool.and_eq_true, decide_eq_true_eq] at hid
            have := (status_of_terminal (hq.2 trx hm hid.1)).2.2
            rw [if_pos this]
            rfl)
        (by
          intro s' x s'' hq hb
          have hm := confirmByUserItem_moves (m := false) hq.1 userID reviews s' x
            (forall₂_moves_refl _ _)
          rw [hb] at hm
          exact ⟨nodup_ids_of_moves hq.1 hm, closed_of_moves hm hq.2⟩)
        ids s hi ⟨huniq, hs⟩
      rw [Transaction_isOk]
      exact this
    exact ⟨hf, sameTables_of_fail s _ hf⟩

theorem CancelTransaction_closed (s : State) (huniq : s.uniqueTransactions)
    (userID : Nat) (ids : List Nat) (i : Nat) (hi : i ∈ ids)
    (hs : ∀ t ∈ s.transactions, t.id = i → t.terminal = true) :
    (CancelTransaction s userID ids).isOk = false ∧
      s.sameTables (CancelTransaction s userID ids).state := by
  unfold CancelTransaction
  split_ifs
  · exact ⟨rfl, rfl, rfl, rfl, rfl⟩
  · have hf : (Transaction s fun s => forEach (cancelItem userID) s ids).isOk = false := by
      have := forEach_fails
        (fun s' => s'.uniqueTransactions ∧ ∀ t ∈ s'.transactions, t.id = i → t.terminal = true)
        (cancelItem userID) i
        (by
          intro s' hq
          unfold cancelItem
          split
          · rfl
          · rename_i trx htrx
            have hm := firstTransaction_mem htrx
            have := status_of_terminal (hq.2 trx hm.1 hm.2)
            simp only
            split_ifs with h1 h2
            · rfl
            · rfl
            · exact absurd ⟨this.1, this.2.1⟩ h2)
        (by
          intro s' x s'' hq hb
          have hm := cancelItem_moves (m := false) hq.1 userID s' x
            (forall₂_moves_refl _ _)
          rw [hb] at hm
          exact ⟨nodup_ids_of_moves hq.1 hm, closed_of_moves hm hq.2⟩)
        ids s hi ⟨huniq, hs⟩
      rw [Transaction_isOk]
      exact this
    exact ⟨hf, sameTables_of_fail s _ hf⟩

theorem closed_of_unique {s : State} (huniq : s.uniqueTransactions) {t : TransactionHistory}
    (ht : t ∈ s.transactions) (hterm : t.terminal = true) :
    ∀ t' ∈ s.transactions, t'.id = t.id → t'.terminal = true := by
  intro t' ht' hid
  have : t' = t := List.inj_on_of_nodup_map huniq ht' ht hid
  rw [this]
  exact hterm

/-- C12: for an order whose status is `success` or `cancel`, in a store with unique order
keys, every request to confirm the shipment, to confirm the receipt or to cancel that
lists the order fails, whoever sends it and whatever else it lists, and leaves the users
(every balance), the products (every stock level), the orders and the ledger exactly as
they were. -/
theorem C12_terminal_noop (s : State) (t : TransactionHistory) (callerID : Nat)
    (ids : List Nat) (reviews : List ReviewItem) (huniq : s.uniqueTransactions)
    (ht : t ∈ s.transactions) (hterm : t.terminal = true) (hi : t.id ∈ ids) :
    ((ConfirmTransactionByOwner s callerID ids).isOk = false ∧
      s.sameTables (ConfirmTransactionByOwner s callerID ids).state) ∧
    ((ConfirmTransactionByUser s callerID ids reviews).isOk = false ∧
      s.sameTables (ConfirmTransactionByUser s callerID ids reviews).state) ∧
    ((CancelTransaction s callerID ids).isOk = false ∧
      s.sameTables (CancelTransaction s callerID ids).state) :=
  ⟨ConfirmTransactionByOwner_closed s huniq callerID ids t.id hi
      (closed_of_unique huniq ht hterm),
    ConfirmTransactionByUser_closed s huniq callerID ids reviews t.id hi
      (closed_of_unique huniq ht hterm),
    CancelTransaction_closed s huniq callerID ids t.id hi (closed_of_unique huniq ht hterm)⟩

/-- Witness of C12: the settled order 1 of Scenario B, with buyer 1 as the caller. -/
theorem C12_terminal_noop_witness :
    (CancelTransaction afterReceipt 1 [1]).isOk = false ∧
      afterReceipt.sameTables (CancelTransaction afterReceipt 1 [1]).state :=
  (C12_terminal_noop afterReceipt
    ⟨1, 1, 1, 1, 50000, 2500, 1000, TrxStatusSuccess, true, ReceiptCompleted⟩ 1 [1] []
    (by unfold State.uniqueTransactions; decide) (by decide) (by decide) (by decide)).2.2

/-! ## C13: orders that are `success` or `cancel` -/

/-- C13 fails as stated: the admin override sets the settled order 1 of Scenario B back to
`pending` (and the receipt to `PENDING_PROCESS`, not solved). -/
theorem C13_counterexample_admin_override :
    (afterReceipt.firstTransaction 1).map (·.status) = some TrxStatusSuccess ∧
    (PatchTransactionStatus afterReceipt 1 (some TrxStatusPending)).isOk = true ∧
    ((PatchTransactionStatus afterReceipt 1 (some TrxStatusPending)).state.firstTransaction
        1).map (fun t => (t.status, t.receiptStatus, t.isSolved))
      = some (TrxStatusPending, ReceiptPendingProcess, false) := by
  decide

theorem find?_of_moves {l front : List TransactionHistory}
    (h : List.Forall₂ (Moves false) l front) (extra : List TransactionHistory)
    (hnd : (l.map (·.id)).Nodup) {t : TransactionHistory} (ht : t ∈ l)
    (hterm : t.terminal = true) :
    (front ++ extra).find? (fun x => decide (x.id = t.id)) = some t := by
  induction h with
  | nil => simp at ht
  | @cons a b l1 f1 hab _ ih =>
    rw [List.map_cons, List.nodup_cons] at hnd
    rw [List.mem_cons] at ht
    rcases ht with rfl | ht
    · rw [hab.of_terminal hterm]
      simp
    · have hne : b.id ≠ t.id := by
        rw [hab.fields.1]
        intro heq
        exact hnd.1 (heq ▸ List.mem_map_of_mem (·.id) ht)
      rw [List.cons_append, List.find?_cons_of_neg _ (by simpa using hne)]
      exact ih hnd.2 ht

/-- C13 (as amended): once the status of an order is `success` or `cancel`, no operation
other than the admin status override changes it: in a store with unique order keys the
order read back by its key after the operation is the same record. -/
theorem C13_terminal_kept (a : Action) (s : State) (t : TransactionHistory)
    (hnot : a.isOverride = false) (huniq : s.uniqueTransactions) (ht : t ∈ s.transactions)
    (hterm : t.terminal = true) :
    (a.run s).state.firstTransaction t.id = some t := by
  obtain ⟨front, extra, he, hf, _⟩ := a.run_evolves s huniq
  rw [hnot] at hf
  unfold State.firstTransaction
  rw [he]
  exact find?_of_moves hf extra huniq ht hterm

/-- Witness of C13: seller 2 is banned after order 1 of Scenario B is settled. -/
theorem C13_terminal_kept_witness :
    ((Action.balance (.banUser 2 1000)).run afterReceipt).state.firstTransaction 1 =
      some ⟨1, 1, 1, 1, 50000, 2500, 1000, TrxStatusSuccess, true, ReceiptCompleted⟩ :=
  C13_terminal_kept (.balance (.banUser 2 1000)) afterReceipt
    ⟨1, 1, 1, 1, 50000, 2500, 1000, TrxStatusSuccess, true, ReceiptCompleted⟩
    (by decide) (by unfold State.uniqueTransactions; decide) (by decide) (by decide)

/-! ## C15: admin override to `success` -/

/-- C15 fails as stated: after seller 2 has deleted product 1 (order 1 is then cancelled
and refunded), the admin override of order 1 to `success` is refused, since the owner of
the product can no longer be loaded through the order, and the order stays `cancel`. -/
theorem C15_counterexample_product_deleted :
    (afterProductDeleted.firstTransaction 1).map (·.status) = some TrxStatusCancel ∧
    PatchTransactionStatus afterProductDeleted 1 (some TrxStatusSuccess)
      = .fail .UserNotFound afterProductDeleted := by
  decide

/-- C15 (as amended): the admin override to `success` of an order whose status is already
`success` changes no user and appends no ledger entry; for an order with another status,
whose product and product owner are live records (with `ecommerceTax ≤ totalPrice` and
`owner.balance + totalPrice` below `2 ^ 63`), it raises the balance of the owner by
`totalPrice - ecommerceTax` and appends one credit entry of that amount. In both cases the
order ends `success`, `COMPLETED` and solved. -/
theorem C15_override_to_success (s : State) (id : Nat) (trx : TransactionHistory)
    (p : Product) (owner : User)
    (hfind : s.firstTransaction id = some trx)
    (hlive : trx.status ≠ TrxStatusSuccess →
      s.firstProduct trx.productID = some p ∧ s.firstUser p.userID = some owner ∧
        trx.ecommerceTax ≤ trx.totalPrice ∧ owner.balance + trx.totalPrice < 2 ^ 63) :
    ∃ s', PatchTransactionStatus s id (some TrxStatusSuccess) = .ok s' ∧
      s'.transactions = s.transactions.map (fun t => if t.id = id then t.settled else t) ∧
      s'.products = s.products ∧
      (trx.status = TrxStatusSuccess →
        s'.users = s.users ∧ s'.balanceHistories = s.balanceHistories) ∧
      (trx.status ≠ TrxStatusSuccess →
        s'.users = s.users.map (fun u =>
          if u.id = owner.id ∧ u.deleted = false then
            { u with balance := owner.balance + (trx.totalPrice - trx.ecommerceTax) }
          else u) ∧
        s'.firstUser owner.id =
          some { owner with balance := owner.balance + (trx.totalPrice - trx.ecommerceTax) } ∧
        ∃ e, s'.balanceHistories = s.balanceHistories ++ [e] ∧ e.userID = owner.id ∧
          e.amount = ((trx.totalPrice - trx.ecommerceTax : Nat) : Int) ∧
          e.status = BalanceStatusCredit ∧
          e.finalBalance = owner.balance + (trx.totalPrice - trx.ecommerceTax)) := by
  have hti := (firstTransaction_mem hfind).2
  by_cases hst : trx.status = TrxStatusSuccess
  · have hok : (PatchTransactionStatus s id (some TrxStatusSuccess)).isOk = true := by
      simp [PatchTransactionStatus, hfind, Transaction, patchToSuccess, hst]
    refine ⟨(PatchTransactionStatus s id (some TrxStatusSuccess)).state,
      Outcome.ok_of_isOk hok, ?_, ?_, fun _ => ⟨?_, ?_⟩, fun h => absurd hst h⟩
    all_goals
      simp [PatchTransactionStatus, hfind, Transaction, patchToSuccess, hst,
        TransactionHistory.settled, hti]
  · obtain ⟨hp, ho, htax, hrange⟩ := hlive hst
    have hoid := (firstUser_mem ho).2.1
    have hsub : usub trx.totalPrice trx.ecommerceTax = trx.totalPrice - trx.ecommerceTax :=
      usub_eq (by omega) htax
    have hadd : uadd owner.balance (trx.totalPrice - trx.ecommerceTax)
        = owner.balance + (trx.totalPrice - trx.ecommerceTax) := uadd_eq (by omega)
    have hint : toInt (trx.totalPrice - trx.ecommerceTax)
        = ((trx.totalPrice - trx.ecommerceTax : Nat) : Int) := toInt_eq (by omega)
    have hfu := firstUser_updateUserBalance
      (owner.balance + (trx.totalPrice - trx.ecommerceTax)) ho
    rw [← hoid] at hfu
    have hok : (PatchTransactionStatus s id (some TrxStatusSuccess)).isOk = true := by
      simp [PatchTransactionStatus, hfind, Transaction, patchToSuccess, hst,
        State.preloadProductUserID, hp, ho]
    refine ⟨(PatchTransactionStatus s id (some TrxStatusSuccess)).state,
      Outcome.ok_of_isOk hok, ?_, ?_, fun h => absurd h hst,
      fun _ => ⟨?_, ?_, ⟨s.balanceHistories.length + 1, owner.id,
        ((trx.totalPrice - trx.ecommerceTax : Nat) : Int),
        owner.balance + (trx.totalPrice - trx.ecommerceTax),
        owner.balance + (trx.totalPrice - trx.ecommerceTax), BalanceStatusCredit⟩,
        ?_, rfl, rfl, rfl, rfl⟩⟩
    · simp [PatchTransactionStatus, hfind, Transaction, patchToSuccess, hst,
        State.preloadProductUserID, hp, ho, TransactionHistory.settled, hti]
    · simp [PatchTransactionStatus, hfind, Transaction, patchToSuccess, hst,
        State.preloadProductUserID, hp, ho]
    · simp [PatchTransactionStatus, hfind, Transaction, patchToSuccess, hst,
        State.preloadProductUserID, hp, ho, hsub, hadd]
    · have husers : (PatchTransactionStatus s id (some TrxStatusSuccess)).state.users =
          (s.updateUserBalance owner.id
            (owner.balance + (trx.totalPrice - trx.ecommerceTax))).users := by
        simp [PatchTransactionStatus, hfind, Transaction, patchToSuccess, hst,
          State.preloadProductUserID, hp, ho, hsub, hadd]
      unfold State.firstUser at hfu ⊢
      rw [husers]
      exact hfu
    · simp [PatchTransactionStatus, hfind, Transaction, patchToSuccess, hst,
        State.preloadProductUserID, hp, ho, hsub, hadd, hint]

/-- Witness of C15: the admin settles order 1 of Scenario B while it is `waiting_users`;
seller 2 then holds 49,000. -/
theorem C15_override_to_success_witness :
    ∃ s', PatchTransactionStatus afterShipment 1 (some TrxStatusSuccess) = .ok s' ∧
      s'.firstUser 2 = some (account 2 49000) := by
  obtain ⟨s', h1, _, _, _, h5⟩ := C15_override_to_success afterShipment 1
    ⟨1, 1, 1, 1, 50000, 2500, 1000, TrxStatusWaitingUser, false, ReceiptPendingProcess⟩
    ⟨1, 2, 50000, 0, ProductVisibilityAll, false⟩ (account 2 0) (by decide)
    (fun _ => ⟨by decide, by decide, by decide, by decide⟩)
  exact ⟨s', h1, (h5 (by decide)).2.1⟩

/-! ## C16: admin override to `cancel` -/

/-- C16 fails as stated: seller 2 holds 49,000, all of it the payment of order 1; order 2 is
`waiting_users` and nothing was credited for it. The admin override of order 2 to `cancel`
takes 49,000 from seller 2, whose balance becomes 0. -/
theorem C16_counterexample_waiting_users :
    (secondShipped.transactions.map fun t => (t.id, t.status, t.totalPrice, t.ecommerceTax))
      = [(1, TrxStatusSuccess, 50000, 1000), (2, TrxStatusWaitingUser, 50000, 1000)] ∧
    (secondShipped.firstUser 2).map (·.balance) = some 49000 ∧
    (secondShipped.balanceHistories.filter (fun e => decide (e.userID = 2))).map
        (fun e => (e.amount, e.status)) = [(49000, BalanceStatusCredit)] ∧
    (PatchTransactionStatus secondShipped 2 (some TrxStatusCancel)).isOk = true ∧
    ((PatchTransactionStatus secondShipped 2 (some TrxStatusCancel)).state.firstUser 2).map
        (·.balance) = some 0 := by
  decide

theorem firstUser_updateUserBalance_ne (s : State) (id b v : Nat) (hne : id ≠ b) :
    (s.updateUserBalance b v).firstUser id = s.firstUser id := by
  unfold State.firstUser
  simp only [State.updateUserBalance, List.find?_map]
  have hfun : ((fun u : User => decide (u.id = id) && !u.deleted) ∘
      fun u : User => if u.id = b ∧ u.deleted = false then { u with balance := v } else u)
      = fun u : User => decide (u.id = id) && !u.deleted := by
    funext x
    simp only [Function.comp]
    split_ifs <;> rfl
  rw [hfun]
  cases h : List.find? (fun u : User => decide (u.id = id) && !u.deleted) s.users with
  | none => rfl
  | some u =>
    have h2 := List.find?_some h
    simp only [Bool.and_eq_true, decide_eq_true_eq] at h2
    simp [h2.1, hne]

theorem patchCancelRefund_ok (s : State) (trx : TransactionHistory) (buyer : User)
    (hst : trx.status ≠ TrxStatusCancel) (hb : s.firstUser trx.userID = some buyer) :
    patchCancelRefund s trx trx.status = .ok
      (((s.updateUserBalance buyer.id
          (uadd buyer.balance (uadd trx.totalPrice trx.govtTax))).createBalanceHistory
          buyer.id (toInt (uadd trx.totalPrice trx.govtTax))
          (uadd buyer.balance (uadd trx.totalPrice trx.govtTax))
          (uadd buyer.balance (uadd trx.totalPrice trx.govtTax)) BalanceStatusRefund).notify
        buyer.id NotifTypePurchase (some trx.id)) := by
  unfold patchCancelRefund
  rw [if_pos hst, hb]

theorem patchCancelDebit_ok (s : State) (trx : TransactionHistory) (uid : Nat)
    (st : TransactionStatus) (owner : User)
    (hst : st = TrxStatusWaitingUser ∨ st = TrxStatusSuccess)
    (ho : s.firstUser uid = some owner) :
    patchCancelDebit s trx uid st = .ok
      (((s.updateUserBalance owner.id
          (usub owner.balance (usub trx.totalPrice trx.ecommerceTax))).createBalanceHistory
          owner.id (ineg (toInt (usub trx.totalPrice trx.ecommerceTax)))
          (usub owner.balance (usub trx.totalPrice trx.ecommerceTax))
          (usub owner.balance (usub trx.totalPrice trx.ecommerceTax)) BalanceStatusDebit).notify
        owner.id NotifTypeSale (some trx.id)) := by
  unfold patchCancelDebit
  rw [if_pos hst, ho]
  simp

theorem patchCancelDebit_skip (s : State) (trx : TransactionHistory) (uid : Nat)
    (st : TransactionStatus)
    (hst : ¬ (st = TrxStatusWaitingUser ∨ st = TrxStatusSuccess)) :
    patchCancelDebit s trx uid st = .ok s := by
  unfold patchCancelDebit
  rw [if_neg hst]

/-- The admin override to `cancel`, once the two effects have gone through. -/
theorem PatchTransactionStatus_cancel_ok (s : State) (id : Nat) (trx : TransactionHistory)
    (s1 s2 : State) (hfind : s.firstTransaction id = some trx)
    (h1 : patchCancelRefund s trx trx.status = .ok s1)
    (h2 : patchCancelDebit s1 trx (s.preloadProductUserID trx) trx.status = .ok s2) :
    PatchTransactionStatus s id (some TrxStatusCancel) =
      .ok (s2.updateTransaction trx.id fun t => t.cancelled) := by
  unfold PatchTransactionStatus
  simp only [hfind, Transaction, h1, h2]
  simp [TransactionHistory.cancelled]

/-- C16 (as amended): the admin override of an order to `cancel` takes
`totalPrice - ecommerceTax` from the owner of the product whenever the prior status is
`waiting_users` or `success`, whether or not that amount was credited for the order, and
refunds the buyer; from `pending` or `waiting_owner` it only refunds the buyer, and from
`cancel` it changes no balance and no ledger entry. (Product, owner and buyer are live
records where they are read, the buyer is not the owner, and the balance of the owner
covers the amount.) -/
theorem C16_override_to_cancel (s : State) (id : Nat) (trx : TransactionHistory)
    (p : Product) (owner buyer : User)
    (hfind : s.firstTransaction id = some trx)
    (hbuyer : trx.status ≠ TrxStatusCancel →
      s.firstUser trx.userID = some buyer ∧
        buyer.balance + trx.totalPrice + trx.govtTax < 2 ^ 63)
    (howner : trx.status = TrxStatusWaitingUser ∨ trx.status = TrxStatusSuccess →
      s.firstProduct trx.productID = some p ∧ s.firstUser p.userID = some owner ∧
        p.userID ≠ trx.userID ∧ trx.ecommerceTax ≤ trx.totalPrice ∧
        trx.totalPrice - trx.ecommerceTax ≤ owner.balance ∧ owner.balance < 2 ^ 64) :
    ∃ s', PatchTransactionStatus s id (some TrxStatusCancel) = .ok s' ∧
      s'.transactions = s.transactions.map (fun t => if t.id = id then t.cancelled else t) ∧
      s'.products = s.products ∧
      (trx.status = TrxStatusWaitingUser ∨ trx.status = TrxStatusSuccess →
        s'.firstUser owner.id = some
          { owner with balance := owner.balance - (trx.totalPrice - trx.ecommerceTax) } ∧
        s'.users = ((s.updateUserBalance buyer.id
            (buyer.balance + (trx.totalPrice + trx.govtTax))).updateUserBalance owner.id
            (owner.balance - (trx.totalPrice - trx.ecommerceTax))).users) ∧
      (trx.status = TrxStatusPending ∨ trx.status = TrxStatusWaitingOwner →
        s'.users = (s.updateUserBalance buyer.id
            (buyer.balance + (trx.totalPrice + trx.govtTax))).users) ∧
      (trx.status = TrxStatusCancel →
        s'.users = s.users ∧ s'.balanceHistories = s.balanceHistories) := by
  have hti := (firstTransaction_mem hfind).2
  by_cases hc : trx.status = TrxStatusCancel
  · -- nothing is refunded and nothing is taken back
    have h1 : patchCancelRefund s trx trx.status = .ok s := by
      unfold patchCancelRefund
      rw [if_neg (by simpa using hc)]
    have h2 := patchCancelDebit_skip s trx (s.preloadProductUserID trx) trx.status
      (by simp [hc])
    refine ⟨_, PatchTransactionStatus_cancel_ok s id trx s s hfind h1 h2, ?_, rfl,
      fun h => ?_, fun h => ?_, fun _ => ⟨rfl, rfl⟩⟩
    · simp [hti]
    · simp [hc] at h
    · simp [hc] at h
  · obtain ⟨hb, hbr⟩ := hbuyer hc
    have hbid := (firstUser_mem hb).2.1
    have hr : uadd trx.totalPrice trx.govtTax = trx.totalPrice + trx.govtTax :=
      uadd_eq (by omega)
    have hnb : uadd buyer.balance (trx.totalPrice + trx.govtTax)
        = buyer.balance + (trx.totalPrice + trx.govtTax) := uadd_eq (by omega)
    have h1 := patchCancelRefund_ok s trx buyer hc hb
    rw [hr, hnb] at h1
    by_cases hd : trx.status = TrxStatusWaitingUser ∨ trx.status = TrxStatusSuccess
    · obtain ⟨hp, ho, hne, htax, hcov, hob⟩ := howner hd
      have hoid := (firstUser_mem ho).2.1
      have ha : usub trx.totalPrice trx.ecommerceTax = trx.totalPrice - trx.ecommerceTax :=
        usub_eq (by omega) htax
      have hno : usub owner.balance (trx.totalPrice - trx.ecommerceTax)
          = owner.balance - (trx.totalPrice - trx.ecommerceTax) := usub_eq hob hcov
      have hpre : s.preloadProductUserID trx = p.userID := by
        simp [State.preloadProductUserID, hp]
      have ho1 : (((s.updateUserBalance buyer.id
          (buyer.balance + (trx.totalPrice + trx.govtTax))).createBalanceHistory
          buyer.id (toInt (trx.totalPrice + trx.govtTax))
          (buyer.balance + (trx.totalPrice + trx.govtTax))
          (buyer.balance + (trx.totalPrice + trx.govtTax)) BalanceStatusRefund).notify
          buyer.id NotifTypePurchase (some trx.id)).firstUser p.userID = some owner := by
        have := firstUser_updateUserBalance_ne s p.userID buyer.id
          (buyer.balance + (trx.totalPrice + trx.govtTax)) (by rw [hbid]; exact hne)
        rw [ho] at this
        exact this
      have h2 := patchCancelDebit_ok _ trx p.userID trx.status owner hd ho1
      rw [ha, hno, ← hpre] at h2
      refine ⟨_, PatchTransactionStatus_cancel_ok s id trx _ _ hfind h1 h2, ?_, rfl,
        fun _ => ⟨?_, rfl⟩, fun h => ?_, fun h => absurd h hc⟩
      · simp [hti]
      · have hne' : owner.id ≠ buyer.id := by rw [hoid, hbid]; exact hne
        have h3 := firstUser_updateUserBalance_ne s owner.id buyer.id
          (buyer.balance + (trx.totalPrice + trx.govtTax)) hne'
        rw [← hoid] at ho
        rw [ho] at h3
        exact firstUser_updateUserBalance
          (owner.balance - (trx.totalPrice - trx.ecommerceTax)) h3
      · rcases hd with hd | hd <;> rcases h with h | h <;> rw [hd] at h <;> simp at h
    · have h2 := patchCancelDebit_skip
        (((s.updateUserBalance buyer.id
          (buyer.balance + (trx.totalPrice + trx.govtTax))).createBalanceHistory
          buyer.id (toInt (trx.totalPrice + trx.govtTax))
          (buyer.balance + (trx.totalPrice + trx.govtTax))
          (buyer.balance + (trx.totalPrice + trx.govtTax)) BalanceStatusRefund).notify
          buyer.id NotifTypePurchase (some trx.id))
        trx (s.preloadProductUserID trx) trx.status hd
      refine ⟨_, PatchTransactionStatus_cancel_ok s id trx _ _ hfind h1 h2, ?_, rfl,
        fun h => absurd h hd, fun _ => rfl, fun h => absurd h hc⟩
      simp [hti]

/-- Witness of C16: the admin cancels the settled order 1 of Scenario B; the 49,000 paid
to seller 2 are taken back. -/
theorem C16_override_to_cancel_witness :
    ∃ s', PatchTransactionStatus afterReceipt 1 (some TrxStatusCancel) = .ok s' ∧
      s'.firstUser 2 = some (account 2 0) := by
  obtain ⟨s', h1, _, _, h4, _⟩ := C16_override_to_cancel afterReceipt 1
    ⟨1, 1, 1, 1, 50000, 2500, 1000, TrxStatusSuccess, true, ReceiptCompleted⟩
    ⟨1, 2, 50000, 0, ProductVisibilityAll, false⟩ (account 2 49000) (account 1 47500)
    (by decide) (fun _ => ⟨by decide, by decide⟩)
    (fun _ => ⟨by decide, by decide, by decide, by decide, by decide, by decide⟩)
  exact ⟨s', h1, (h4 (Or.inr (by decide))).1⟩

/-! ## C18: the force-cancel of the resolver and `CancelTransaction` -/

/-- C18 fails as stated: for the pending order 1 of Scenario A (quantity 1, stock 0 after
the purchase), `CancelTransaction` brings the stock back to 1, while the force-cancel run
by the deletion of the product or by the ban of the seller leaves the stock at 0; order
fields and buyer balance are the same in the three cases. -/
theorem C18_counterexample_stock :
    (CancelTransaction afterPurchase 1 [1]).state.stockOf 1 = 1 ∧
    (DeleteProductsRequest afterPurchase 2 RoleUser 1).state.stockOf 1 = 0 ∧
    (BanUser afterPurchase 2 1000).state.stockOf 1 = 0 ∧
    (DeleteProductsRequest afterPurchase 2 RoleUser 1).state.transactions
      = (CancelTransaction afterPurchase 1 [1]).state.transactions ∧
    (BanUser afterPurchase 2 1000).state.transactions
      = (CancelTransaction afterPurchase 1 [1]).state.transactions ∧
    (DeleteProductsRequest afterPurchase 2 RoleUser 1).state.firstUser 1
      = (CancelTransaction afterPurchase 1 [1]).state.firstUser 1 := by
  decide

/-- C18 (as amended): the force-cancel of the resolver gives the order the same fields, the
buyer the same balance and the ledger the same refund entry as `CancelTransaction` does,
but it writes no product: `refundOnDelete`, run on order `trx` in a store `s'` with the
users, orders and ledger of `s`, and `CancelTransaction` on `s` end with the same users,
orders and ledger; the products of `s'` are unchanged, while `CancelTransaction` raises the
stock of the product by the quantity of the order (and makes a product hidden as
`owner_admin` public again). -/
theorem C18_force_cancel (s s' : State) (userID : Nat) (trx : TransactionHistory)
    (buyer : User) (p : Product)
    (hid : trx.id ≠ 0)
    (hfind : s.firstTransaction trx.id = some trx)
    (hst : trx.status = TrxStatusPending ∨ trx.status = TrxStatusWaitingOwner)
    (hcaller : userID = trx.userID ∨ userID = p.userID)
    (hb : s.firstUser trx.userID = some buyer)
    (hp : s.firstProduct trx.productID = some p)
    (husers : s'.users = s.users) (htrx : s'.transactions = s.transactions)
    (hledger : s'.balanceHistories = s.balanceHistories) :
    ∃ f c, refundOnDelete s' trx = .ok f ∧ CancelTransaction s userID [trx.id] = .ok c ∧
      f.transactions = c.transactions ∧ f.users = c.users ∧
      f.balanceHistories = c.balanceHistories ∧
      f.products = s'.products ∧
      c.products = s.products.map (fun x =>
        if x.id = trx.productID then
          { p with stock := uadd p.stock trx.quantity,
                   visibility :=
                     if 0 < uadd p.stock trx.quantity ∧
                        p.visibility = ProductVisibilityOwnerAdmin
                     then ProductVisibilityAll else p.visibility }
        else x) := by
  obtain ⟨c, hc, _, hcu, hcl, hcp, hct⟩ :=
    CancelTransaction_single s userID trx.id trx buyer p hid hfind hst hcaller hb hp
  have hbid := (firstUser_mem hb).2.1
  have hb' : s'.firstUser trx.userID = some buyer := by
    unfold State.firstUser at hb ⊢
    rw [husers]
    exact hb
  have hok : (refundOnDelete s' trx).isOk = true := by
    simp [refundOnDelete, hb']
  refine ⟨(refundOnDelete s' trx).state, c, Outcome.ok_of_isOk hok, hc, ?_, ?_, ?_, ?_, hcp⟩
  · rw [hct]
    simp [refundOnDelete, hb', htrx]
  · rw [hcu]
    simp [refundOnDelete, hb', husers, hbid]
  · rw [hcl]
    simp [refundOnDelete, hb', hledger, hbid]
  · simp [refundOnDelete, hb']

/-- Witness of C18: the pending order 1 of Scenario A, the resolver running after the
product has been hidden and soft-deleted. -/
theorem C18_force_cancel_witness :
    ∃ f c, refundOnDelete
        (afterPurchase.saveProduct ⟨1, 2, 50000, 0, ProductVisibilityOwnerAdmin, true⟩)
        ⟨1, 1, 1, 1, 50000, 2500, 1000, TrxStatusPending, false, ReceiptPendingProcess⟩
        = .ok f ∧
      CancelTransaction afterPurchase 1 [1] = .ok c ∧
      f.transactions = c.transactions ∧ f.users = c.users ∧
      f.balanceHistories = c.balanceHistories ∧
      f.products = [⟨1, 2, 50000, 0, ProductVisibilityOwnerAdmin, true⟩] := by
  obtain ⟨f, c, h1, h2, h3, h4, h5, h6, _⟩ := C18_force_cancel afterPurchase
    (afterPurchase.saveProduct ⟨1, 2, 50000, 0, ProductVisibilityOwnerAdmin, true⟩) 1
    ⟨1, 1, 1, 1, 50000, 2500, 1000, TrxStatusPending, false, ReceiptPendingProcess⟩
    (account 1 47500) ⟨1, 2, 50000, 0, ProductVisibilityAll, false⟩
    (by decide) (by decide) (by decide) (by decide) (by decide) (by decide) rfl rfl rfl
  exact ⟨f, c, h1, h2, h3, h4, h5, h6.trans (by decide)⟩

/-! ## Loops of the resolver: the orders they are run on -/

theorem filter_map_update (P : TransactionHistory → Bool) (id : Nat)
    (f : TransactionHistory → TransactionHistory) (hf : ∀ t, P (f t) = false) :
    ∀ l : List TransactionHistory,
      (l.map fun t => if t.id = id then f t else t).filter P
        = (l.filter P).filter fun t => decide (t.id ≠ id) := by
  intro l
  induction l with
  | nil => rfl
  | cons t l ih =>
    by_cases hid : t.id = id
    · by_cases hp : P t = true
      · simp [List.filter_cons, hid, hf, hp, ih]
      · simp [List.filter_cons, hid, hf, hp, ih]
    · by_cases hp : P t = true
      · simp [List.filter_cons, hid, hp, ih]
      · simp [List.filter_cons, hid, hp, ih]

theorem filter_ne_head {x : TransactionHistory} {rest : List TransactionHistory}
    (hnd : ((x :: rest).map (·.id)).Nodup) :
    (x :: rest).filter (fun t => decide (t.id ≠ x.id)) = rest := by
  rw [List.map_cons, List.nodup_cons] at hnd
  rw [List.filter_cons_of_neg (by simp)]
  rw [List.filter_eq_self]
  intro t ht
  simp only [ne_eq, decide_eq_true_eq]
  intro heq
  exact hnd.1 (heq ▸ List.mem_map_of_mem (·.id) ht)

theorem nodup_ids_update {l : List TransactionHistory} (id : Nat)
    (f : TransactionHistory → TransactionHistory) (hfid : ∀ t, (f t).id = t.id)
    (h : (l.map (·.id)).Nodup) :
    ((l.map fun t => if t.id = id then f t else t).map (·.id)).Nodup := by
  have : (l.map fun t => if t.id = id then f t else t).map (·.id) = l.map (·.id) := by
    rw [List.map_map]
    apply List.map_congr_left
    intro t _
    simp only [Function.comp]
    split_ifs
    · exact hfid t
    · rfl
  rw [this]
  exact h

theorem forEach_cons_ok {α : Type} {body : State → α → Outcome} {s s' : State} {x : α}
    (xs : List α) (h : body s x = .ok s') : forEach body s (x :: xs) = forEach body s' xs := by
  rw [forEach, h]

theorem forEach_cons_fail {α : Type} {body : State → α → Outcome} {s s' : State} {x : α}
    {e : Err} (xs : List α) (h : body s x = .fail e s') :
    forEach body s (x :: xs) = .fail e s' := by
  rw [forEach, h]

/-- A loop over the orders selected by `P`, whose body moves the order it is given out of
the selection: when the loop stops on an error the orders still selected are the one it
stopped on and those after it, and a second run stops on the same error at once; when it
goes through, no order is selected any more. -/
theorem forEach_selected (P : TransactionHistory → Bool)
    (f : TransactionHistory → TransactionHistory) (hPf : ∀ t, P (f t) = false)
    (hfid : ∀ t, (f t).id = t.id)
    (body : State → TransactionHistory → Outcome)
    (hok : ∀ s x s', body s x = .ok s' →
      s'.transactions = s.transactions.map fun t => if t.id = x.id then f t else t)
    (hfail : ∀ s x e s', body s x = .fail e s' → s' = s) :
    ∀ (L : List TransactionHistory) (s : State), s.uniqueTransactions →
      s.transactions.filter P = L →
      match forEach body s L with
      | .ok s' => s'.uniqueTransactions ∧ s'.transactions.filter P = []
      | .fail e s' => s'.uniqueTransactions ∧
          forEach body s' (s'.transactions.filter P) = .fail e s' := by
  intro L
  induction L with
  | nil =>
    intro s hs hL
    simp only [forEach]
    exact ⟨hs, hL⟩
  | cons x rest ih =>
    intro s hs hL
    cases hb : body s x with
    | fail e s' =>
      have := hfail s x e s' hb
      subst this
      rw [forEach_cons_fail rest hb]
      simp only
      refine ⟨hs, ?_⟩
      rw [hL]
      exact forEach_cons_fail rest hb
    | ok s' =>
      rw [forEach_cons_ok rest hb]
      have htx := hok s x s' hb
      have hs' : s'.uniqueTransactions := by
        unfold State.uniqueTransactions
        rw [htx]
        exact nodup_ids_update x.id f hfid hs
      have hL' : s'.transactions.filter P = rest := by
        rw [htx, filter_map_update P x.id f hPf, hL]
        apply filter_ne_head
        rw [← hL]
        exact List.Nodup.sublist ((List.filter_sublist _).map _) hs
      exact ih s' hs' hL'

/-- A selection that is empty stays empty in a loop whose body moves orders out of it. -/
theorem forEach_keeps_empty (Q : TransactionHistory → Bool)
    (f : TransactionHistory → TransactionHistory) (hQf : ∀ t, Q (f t) = false)
    (body : State → TransactionHistory → Outcome)
    (hok : ∀ s x s', body s x = .ok s' →
      s'.transactions = s.transactions.map fun t => if t.id = x.id then f t else t)
    (hfail : ∀ s x e s', body s x = .fail e s' → s' = s) :
    ∀ (L : List TransactionHistory) (s : State), s.transactions.filter Q = [] →
      (forEach body s L).state.transactions.filter Q = [] := by
  intro L s h
  apply forEach_invariant (fun s' => s'.transactions.filter Q = []) body _ L s h
  intro s' x hs'
  cases hb : body s' x with
  | fail e s'' =>
    have := hfail s' x e s'' hb
    subst this
    exact hs'
  | ok s'' =>
    simp only [Outcome.state]
    rw [hok s' x s'' hb, filter_map_update Q x.id f hQf, hs']
    rfl

theorem refundOnDelete_shape :
    (∀ s x s', refundOnDelete s x = .ok s' →
      s'.transactions = s.transactions.map fun t =>
        if t.id = x.id then t.cancelled else t) ∧
    (∀ s x e s', refundOnDelete s x = .fail e s' → s' = s) := by
  constructor
  · intro s x s' h
    unfold refundOnDelete at h
    split at h
    · simp at h
    · simp only [Outcome.ok.injEq] at h
      rw [← h]
      rfl
  · intro s x e s' h
    unfold refundOnDelete at h
    split at h
    · simp only [Outcome.fail.injEq] at h
      exact h.2.symm
    · simp at h

theorem settleOnOwnerRemoval_shape (product : Product) :
    (∀ s x s', settleOnOwnerRemoval product s x = .ok s' →
      s'.transactions = s.transactions.map fun t =>
        if t.id = x.id then t.settled else t) ∧
    (∀ s x e s', settleOnOwnerRemoval product s x = .fail e s' → s' = s) := by
  constructor
  · intro s x s' h
    unfold settleOnOwnerRemoval at h
    simp only [Outcome.ok.injEq] at h
    rw [← h]
    rfl
  · intro s x e s' h
    unfold settleOnOwnerRemoval at h
    simp at h

theorem settleOnProductDelete_shape (product : Product) :
    (∀ s x s', settleOnProductDelete product s x = .ok s' →
      s'.transactions = s.transactions.map fun t =>
        if t.id = x.id then t.settled else t) ∧
    (∀ s x e s', settleOnProductDelete product s x = .fail e s' → s' = s) := by
  constructor
  · intro s x s' h
    unfold settleOnProductDelete at h
    split at h
    · simp at h
    · simp only [Outcome.ok.injEq] at h
      rw [← h]
      rfl
  · intro s x e s' h
    unfold settleOnProductDelete at h
    split at h
    · simp only [Outcome.fail.injEq] at h
      exact h.2.symm
    · simp at h

theorem pending_cancelled (productID : Nat) (t : TransactionHistory) :
    (decide (t.cancelled.productID = productID) &&
      (decide (t.cancelled.status = TrxStatusPending) ||
        decide (t.cancelled.status = TrxStatusWaitingOwner))) = false := by
  simp [TransactionHistory.cancelled]

theorem pending_settled (productID : Nat) (t : TransactionHistory) :
    (decide (t.settled.productID = productID) &&
      (decide (t.settled.status = TrxStatusPending) ||
        decide (t.settled.status = TrxStatusWaitingOwner))) = false := by
  simp [TransactionHistory.settled]

theorem waiting_settled (productID : Nat) (t : TransactionHistory) :
    (decide (t.settled.productID = productID) &&
      decide (t.settled.status = TrxStatusWaitingUser)) = false := by
  simp [TransactionHistory.settled]

/-- The refund loop of the resolver, run on the orders of a product that are `pending` or
`waiting_owner`: see `forEach_selected`. -/
theorem refundLoop_selected (s : State) (hs : s.uniqueTransactions) (productID : Nat) :
    match forEach refundOnDelete s (s.pendingTransactions productID) with
    | .ok s' => s'.uniqueTransactions ∧ s'.pendingTransactions productID = []
    | .fail e s' => s'.uniqueTransactions ∧
        forEach refundOnDelete s' (s'.pendingTransactions productID) = .fail e s' :=
  forEach_selected _ TransactionHistory.cancelled (pending_cancelled productID)
    (fun _ => rfl) refundOnDelete refundOnDelete_shape.1 refundOnDelete_shape.2
    (s.pendingTransactions productID) s hs rfl

/-- The settlement loop of `handleProductTransactionsOnDelete`, run on the `waiting_users`
orders of a product. -/
theorem settleLoop_selected (product : Product) (s : State) (hs : s.uniqueTransactions)
    (hp : s.pendingTransactions product.id = []) :
    match forEach (settleOnOwnerRemoval product) s (s.waitingUserTransactions product.id) with
    | .ok s' => s'.uniqueTransactions ∧ s'.waitingUserTransactions product.id = [] ∧
        s'.pendingTransactions product.id = []
    | .fail e s' => s'.uniqueTransactions ∧
        forEach (settleOnOwnerRemoval product) s' (s'.waitingUserTransactions product.id)
          = .fail e s' ∧ s'.pendingTransactions product.id = [] := by
  have h1 := forEach_selected _ TransactionHistory.settled (waiting_settled product.id)
    (fun _ => rfl) (settleOnOwnerRemoval product) (settleOnOwnerRemoval_shape product).1
    (settleOnOwnerRemoval_shape product).2 (s.waitingUserTransactions product.id) s hs rfl
  have h2 := forEach_keeps_empty _ TransactionHistory.settled (pending_settled product.id)
    (settleOnOwnerRemoval product) (settleOnOwnerRemoval_shape product).1
    (settleOnOwnerRemoval_shape product).2 (s.waitingUserTransactions product.id) s hp
  cases hr : forEach (settleOnOwnerRemoval product) s
      (s.waitingUserTransactions product.id) with
  | ok s' =>
    rw [hr] at h1 h2
    exact ⟨h1.1, h1.2, h2⟩
  | fail e s' =>
    rw [hr] at h1 h2
    exact ⟨h1.1, h1.2, h2⟩

/-- The resolver, run a second time on the state it has left, does nothing more: it
answers as the first time and leaves that state as it is. -/
theorem handleProductTransactionsOnDelete_again (s : State) (hs : s.uniqueTransactions)
    (product : Product) :
    handleProductTransactionsOnDelete (handleProductTransactionsOnDelete s product).state
      product = handleProductTransactionsOnDelete s product := by
  have h1 := refundLoop_selected s hs product.id
  unfold handleProductTransactionsOnDelete
  cases hr : forEach refundOnDelete s (s.pendingTransactions product.id) with
  | fail e s1 =>
    rw [hr] at h1
    simp only [Outcome.state]
    rw [h1.2]
  | ok s1 =>
    rw [hr] at h1
    simp only
    have h2 := settleLoop_selected product s1 h1.1 h1.2
    cases hr2 : forEach (settleOnOwnerRemoval product) s1
        (s1.waitingUserTransactions product.id) with
    | ok s2 =>
      rw [hr2] at h2
      simp only [Outcome.state]
      rw [h2.2.2]
      simp only [forEach]
      rw [h2.2.1]
      rfl
    | fail e s2 =>
      rw [hr2] at h2
      simp only [Outcome.state]
      rw [h2.2.2]
      simp only [forEach]
      rw [h2.2.1]

/-- When the resolver goes through, no order on the product is left `pending`,
`waiting_owner` or `waiting_users`. -/
theorem handleProductTransactionsOnDelete_done (s s' : State) (hs : s.uniqueTransactions)
    (product : Product) (h : handleProductTransactionsOnDelete s product = .ok s') :
    s'.uniqueTransactions ∧ s'.pendingTransactions product.id = [] ∧
      s'.waitingUserTransactions product.id = [] := by
  have h1 := refundLoop_selected s hs product.id
  unfold handleProductTransactionsOnDelete at h
  cases hr : forEach refundOnDelete s (s.pendingTransactions product.id) with
  | fail e s1 => rw [hr] at h; simp at h
  | ok s1 =>
    rw [hr] at h h1
    simp only at h
    have h2 := settleLoop_selected product s1 h1.1 h1.2
    rw [h] at h2
    exact ⟨h2.1, h2.2.2, h2.2.1⟩

theorem no_inflight_of_terminal {s : State} {productID : Nat}
    (h : ∀ t ∈ s.transactions, t.productID = productID → t.terminal = true) :
    s.pendingTransactions productID = [] ∧ s.waitingUserTransactions productID = [] := by
  unfold State.pendingTransactions State.waitingUserTransactions
  constructor
  · rw [List.filter_eq_nil_iff]
    intro t ht
    by_cases hp : t.productID = productID
    · have := status_of_terminal (h t ht hp)
      simp [this.1, this.2.1]
    · simp [hp]
  · rw [List.filter_eq_nil_iff]
    intro t ht
    by_cases hp : t.productID = productID
    · have := status_of_terminal (h t ht hp)
      simp [this.2.2]
    · simp [hp]

theorem terminal_of_no_inflight {s : State} {productID : Nat}
    (h1 : s.pendingTransactions productID = [])
    (h2 : s.waitingUserTransactions productID = []) :
    ∀ t ∈ s.transactions, t.productID = productID → t.terminal = true := by
  intro t ht hp
  unfold State.pendingTransactions at h1
  unfold State.waitingUserTransactions at h2
  rw [List.filter_eq_nil_iff] at h1 h2
  have a := h1 t ht
  have b := h2 t ht
  simp only [hp, decide_True, Bool.true_and, Bool.or_eq_true, decide_eq_true_eq,
    not_or] at a b
  unfold TransactionHistory.terminal
  cases hst : t.status <;> simp_all

theorem Transaction_ok {s s' : State} {body : State → Outcome}
    (h : Transaction s body = .ok s') : body s = .ok s' := by
  unfold Transaction at h
  cases hb : body s with
  | ok s'' => rw [hb] at h; simpa using h
  | fail e s'' => rw [hb] at h; simp at h

theorem refundOnDelete_products (s : State) (x : TransactionHistory) :
    (refundOnDelete s x).state.products = s.products := by
  unfold refundOnDelete
  split <;> simp

theorem settleOnProductDelete_products (product : Product) (s : State)
    (x : TransactionHistory) :
    (settleOnProductDelete product s x).state.products = s.products := by
  unfold settleOnProductDelete
  split <;> simp

theorem settleOnOwnerRemoval_products (product : Product) (s : State)
    (x : TransactionHistory) :
    (settleOnOwnerRemoval product s x).state.products = s.products := by
  unfold settleOnOwnerRemoval
  simp

theorem forEach_products {α : Type} (body : State → α → Outcome)
    (hbody : ∀ s x, (body s x).state.products = s.products) (xs : List α) (s : State) :
    (forEach body s xs).state.products = s.products :=
  forEach_invariant (fun s' => s'.products = s.products) body
    (fun s' x hs' => (hbody s' x).trans hs') xs s rfl

/-- What a successful deletion of a product leaves: the product row hidden and soft-deleted,
and no order on it `pending`, `waiting_owner` or `waiting_users`. -/
theorem DeleteProductsRequest_done (s s' : State) (hs : s.uniqueTransactions)
    (userID : Nat) (role : UserRole) (productID : Nat)
    (h : DeleteProductsRequest s userID role productID = .ok s') :
    ∃ product, s.products.find? (fun p => decide (p.id = productID)) = some product ∧
      s'.products = s.products.map (fun x =>
        if x.id = product.id then
          { product with visibility := ProductVisibilityOwnerAdmin, deleted := true }
        else x) ∧
      s'.uniqueTransactions ∧ s'.pendingTransactions productID = [] ∧
      s'.waitingUserTransactions productID = [] := by
  unfold DeleteProductsRequest at h
  cases hf : s.products.find? (fun p => decide (p.id = productID)) with
  | none => rw [hf] at h; simp at h
  | some product =>
    have hpid : product.id = productID := by
      have := List.find?_some hf
      simpa using this
    rw [hf] at h
    simp only at h
    split_ifs at h
    have hb := Transaction_ok h
    simp only at hb
    have h1 := refundLoop_selected
      (s.saveProduct { product with visibility := ProductVisibilityOwnerAdmin, deleted := true })
      hs product.id
    have hp1 := forEach_products refundOnDelete refundOnDelete_products
      ((s.saveProduct
        { product with visibility := ProductVisibilityOwnerAdmin, deleted := true }
        ).pendingTransactions product.id)
      (s.saveProduct { product with visibility := ProductVisibilityOwnerAdmin, deleted := true })
    cases hr : forEach refundOnDelete
        (s.saveProduct
          { product with visibility := ProductVisibilityOwnerAdmin, deleted := true })
        ((s.saveProduct
          { product with visibility := ProductVisibilityOwnerAdmin, deleted := true }
          ).pendingTransactions product.id) with
    | fail e s1 => rw [hr] at hb; simp at hb
    | ok s1 =>
      rw [hr] at hb h1 hp1
      simp only at hb
      simp only [Outcome.state] at hp1
      have h2 := forEach_selected _ TransactionHistory.settled (waiting_settled product.id)
        (fun _ => rfl) (settleOnProductDelete
          { product with visibility := ProductVisibilityOwnerAdmin, deleted := true })
        (settleOnProductDelete_shape _).1 (settleOnProductDelete_shape _).2
        (s1.waitingUserTransactions product.id) s1 h1.1 rfl
      have h3 := forEach_keeps_empty _ TransactionHistory.settled
        (pending_settled product.id) (settleOnProductDelete
          { product with visibility := ProductVisibilityOwnerAdmin, deleted := true })
        (settleOnProductDelete_shape _).1 (settleOnProductDelete_shape _).2
        (s1.waitingUserTransactions product.id) s1 h1.2
      have hp2 := forEach_products (settleOnProductDelete
          { product with visibility := ProductVisibilityOwnerAdmin, deleted := true })
        (settleOnProductDelete_products _) (s1.waitingUserTransactions product.id) s1
      rw [hb] at h2 h3 hp2
      simp only [Outcome.state] at h3 hp2
      refine ⟨product, rfl, ?_, h2.1, ?_, ?_⟩
      · rw [hp2, hp1]
        rfl
      · rw [← hpid]; exact h3
      · rw [← hpid]; exact h2.2

theorem find?_map_replace (productID : Nat) (product product' : Product)
    (hid : product'.id = product.id) :
    ∀ l : List Product, l.find? (fun p => decide (p.id = productID)) = some product →
      (l.map fun x => if x.id = product.id then product' else x).find?
        (fun p => decide (p.id = productID)) = some product' := by
  intro l
  induction l with
  | nil => intro h; simp at h
  | cons a l ih =>
    intro h
    have hpid : product.id = productID := by
      have := List.find?_some h
      simpa using this
    by_cases ha : a.id = productID
    · rw [List.find?_cons_of_pos _ (by simpa using ha)] at h
      simp only [Option.some.injEq] at h
      subst h
      simp [hid, ha]
    · rw [List.find?_cons_of_neg _ (by simpa using ha)] at h
      have hne : a.id ≠ product.id := by rw [hpid]; exact ha
      simp only [List.map_cons, if_neg hne]
      rw [List.find?_cons_of_neg _ (by simpa using ha)]
      exact ih h

/-- A product that has been deleted with success is deleted once more (by its owner or by
an administrator): nothing changes any more. -/
theorem DeleteProductsRequest_again (s s1 : State) (hs : s.uniqueTransactions)
    (userID : Nat) (role : UserRole) (productID : Nat)
    (h : DeleteProductsRequest s userID role productID = .ok s1)
    (userID' : Nat) (role' : UserRole) :
    (DeleteProductsRequest s1 userID' role' productID).state = s1 := by
  obtain ⟨product, hf, hprod, _, hpend, hwait⟩ :=
    DeleteProductsRequest_done s s1 hs userID role productID h
  have hpid : product.id = productID := by
    have := List.find?_some hf
    simpa using this
  subst hpid
  have hf1 : s1.products.find? (fun p => decide (p.id = product.id)) = some
      { product with visibility := ProductVisibilityOwnerAdmin, deleted := true } := by
    rw [hprod]
    exact find?_map_replace product.id product
      { product with visibility := ProductVisibilityOwnerAdmin, deleted := true } rfl _ hf
  have hsave : s1.saveProduct
      { product with visibility := ProductVisibilityOwnerAdmin, deleted := true } = s1 := by
    have : s1.products.map (fun x => if x.id = product.id then
        ({ product with visibility := ProductVisibilityOwnerAdmin, deleted := true } : Product)
        else x) = s1.products := by
      rw [hprod, List.map_map]
      apply List.map_congr_left
      intro x _
      simp only [Function.comp]
      split_ifs <;> simp_all
    simp only [State.saveProduct]
    rw [this]
  unfold DeleteProductsRequest
  rw [hf1]
  simp only
  split_ifs
  · rfl
  · rfl
  · rfl
  · unfold Transaction
    simp only [hsave, hpend, hwait, forEach, Outcome.state]

/-! ## C19: the resolver and the orders that are already `success` or `cancel` -/

theorem DeleteProductsRequest_no_inflight (s : State) (userID : Nat) (role : UserRole)
    (productID : Nat)
    (h : ∀ t ∈ s.transactions, t.productID = productID → t.terminal = true) :
    (DeleteProductsRequest s userID role productID).state.users = s.users ∧
    (DeleteProductsRequest s userID role productID).state.transactions = s.transactions ∧
    (DeleteProductsRequest s userID role productID).state.balanceHistories
      = s.balanceHistories := by
  have hn := no_inflight_of_terminal h
  unfold DeleteProductsRequest
  cases hf : s.products.find? (fun p => decide (p.id = productID)) with
  | none => simp
  | some product =>
    have hpid : product.id = productID := by
      have := List.find?_some hf
      simpa using this
    subst hpid
    simp only
    split_ifs
    · simp
    · simp
    · simp
    · have h1 : (s.saveProduct
          { product with visibility := ProductVisibilityOwnerAdmin, deleted := true }
          ).pendingTransactions product.id = [] := hn.1
      have h2 : (s.saveProduct
          { product with visibility := ProductVisibilityOwnerAdmin, deleted := true }
          ).waitingUserTransactions product.id = [] := hn.2
      unfold Transaction
      simp only [h1, h2, forEach, Outcome.state]
      simp

theorem settleOnOwnerRemoval_users (product : Product) (s : State) (x : TransactionHistory) :
    (settleOnOwnerRemoval product s x).state.users = s.users := by
  unfold settleOnOwnerRemoval
  simp

theorem forEach_invariant_mem {α : Type} (P : State → Prop) (body : State → α → Outcome) :
    ∀ (xs : List α), (∀ s x, x ∈ xs → P s → P (body s x).state) →
      ∀ (s : State), P s → P (forEach body s xs).state := by
  intro xs
  induction xs with
  | nil => intro _ s hs; simpa [forEach] using hs
  | cons x xs ih =>
    intro hbody s hs
    have hx := hbody s x (List.mem_cons_self _ _) hs
    unfold forEach
    cases hb : body s x with
    | ok s' =>
      rw [hb] at hx
      exact ih (fun s y hy => hbody s y (List.mem_cons_of_mem _ hy)) s' hx
    | fail e s' =>
      rw [hb] at hx
      exact hx

/-- A write of the balance of one account leaves the rows of the other accounts as they
are. -/
theorem updateUserBalance_others (s : State) (id b uid : Nat) (h : id ≠ uid) :
    (s.updateUserBalance id b).users.filter (fun u => decide (u.id = uid))
      = s.users.filter (fun u => decide (u.id = uid)) := by
  simp only [State.updateUserBalance]
  induction s.users with
  | nil => rfl
  | cons u us ih =>
    rw [List.map_cons]
    by_cases hu : u.id = uid
    · have hne : ¬ (u.id = id ∧ u.deleted = false) := fun hc => h (hc.1.symm.trans hu)
      rw [if_neg hne, List.filter_cons_of_pos (by simpa using hu),
        List.filter_cons_of_pos (by simpa using hu), ih]
    · have h1 : ¬ ((if u.id = id ∧ u.deleted = false then { u with balance := b } else u).id
          = uid) := by
        split_ifs <;> exact hu
      rw [List.filter_cons_of_neg (by simpa using h1),
        List.filter_cons_of_neg (by simpa using hu), ih]

theorem refundOnDelete_others (s : State) (x : TransactionHistory) (uid : Nat)
    (h : x.userID ≠ uid) :
    (refundOnDelete s x).state.users.filter (fun u => decide (u.id = uid))
      = s.users.filter (fun u => decide (u.id = uid)) := by
  unfold refundOnDelete
  cases hb : s.firstUser x.userID with
  | none => rfl
  | some b =>
    have hid := (firstUser_mem hb).2.1
    exact updateUserBalance_others s b.id _ uid (by rw [hid]; exact h)

theorem settleOnProductDelete_owner (product : Product) (s : State) (x : TransactionHistory)
    (uid : Nat) (h : product.userID ≠ uid) :
    (settleOnProductDelete product s x).state.users.filter (fun u => decide (u.id = uid))
      = s.users.filter (fun u => decide (u.id = uid)) := by
  unfold settleOnProductDelete
  cases hb : s.firstUser product.userID with
  | none => rfl
  | some b =>
    have hid := (firstUser_mem hb).2.1
    exact updateUserBalance_others s b.id _ uid (by rw [hid]; exact h)

/-- The refund loop changes the rows of the buyers of the orders it is run on, and of no
other account. -/
theorem refundLoop_others (s : State) (productID uid : Nat)
    (h : ∀ t ∈ s.transactions, t.productID = productID →
      (t.status = TrxStatusPending ∨ t.status = TrxStatusWaitingOwner) → t.userID ≠ uid) :
    (forEach refundOnDelete s (s.pendingTransactions productID)).state.users.filter
        (fun u => decide (u.id = uid))
      = s.users.filter (fun u => decide (u.id = uid)) := by
  apply forEach_invariant_mem
    (fun s' => s'.users.filter (fun u => decide (u.id = uid))
      = s.users.filter (fun u => decide (u.id = uid))) refundOnDelete
    (s.pendingTransactions productID) _ s rfl
  intro s' x hx hs'
  have hm := pendingTransactions_mem hx
  exact (refundOnDelete_others s' x uid (h x hm.1 hm.2.1 hm.2.2)).trans hs'

/-- The resolver of `SuspendUser`, `BanUser` and `DeleteUser` changes the rows of the buyers
of the orders on the product that are `pending` or `waiting_owner`, and of no other
account. -/
theorem handleProductTransactionsOnDelete_others (s : State) (product : Product) (uid : Nat)
    (h : ∀ t ∈ s.transactions, t.productID = product.id →
      (t.status = TrxStatusPending ∨ t.status = TrxStatusWaitingOwner) → t.userID ≠ uid) :
    (handleProductTransactionsOnDelete s product).state.users.filter
        (fun u => decide (u.id = uid))
      = s.users.filter (fun u => decide (u.id = uid)) := by
  have h1 := refundLoop_others s product.id uid h
  unfold handleProductTransactionsOnDelete
  cases hr : forEach refundOnDelete s (s.pendingTransactions product.id) with
  | fail e s1 =>
    rw [hr] at h1
    exact h1
  | ok s1 =>
    rw [hr] at h1
    simp only [Outcome.state] at h1
    simp only
    have h2 := forEach_invariant (fun s' => s'.users = s1.users)
      (settleOnOwnerRemoval product)
      (fun s' x hs' => (settleOnOwnerRemoval_users product s' x).trans hs')
      (s1.waitingUserTransactions product.id) s1 rfl
    rw [h2]
    exact h1

theorem waiting_cancelled (productID : Nat) (t : TransactionHistory) :
    (decide (t.cancelled.productID = productID) &&
      decide (t.cancelled.status = TrxStatusWaitingUser)) = false := by
  simp [TransactionHistory.cancelled]

/-- The resolver of `DeleteProductsRequest` changes the rows of the buyers of the orders on
the product that are `pending` or `waiting_owner`, the row of the owner of the product when
an order on it is `waiting_users`, and the row of no other account. -/
theorem DeleteProductsRequest_others (s : State) (userID : Nat) (role : UserRole)
    (productID uid : Nat)
    (h : ∀ t ∈ s.transactions, t.productID = productID →
      (t.status = TrxStatusPending ∨ t.status = TrxStatusWaitingOwner) → t.userID ≠ uid)
    (hw : ∀ t ∈ s.transactions, t.productID = productID → t.status = TrxStatusWaitingUser →
      ∀ p ∈ s.products, p.id = productID → p.userID ≠ uid) :
    (DeleteProductsRequest s userID role productID).state.users.filter
        (fun u => decide (u.id = uid))
      = s.users.filter (fun u => decide (u.id = uid)) := by
  unfold DeleteProductsRequest
  cases hf : s.products.find? (fun p => decide (p.id = productID)) with
  | none => rfl
  | some product =>
    have hpm := List.mem_of_find?_eq_some hf
    have hpid : product.id = productID := by
      have := List.find?_some hf
      simpa using this
    subst hpid
    simp only
    split_ifs
    · rfl
    · rfl
    · rfl
    · apply Transaction_invariant
        (fun s' => s'.users.filter (fun u => decide (u.id = uid))
          = s.users.filter (fun u => decide (u.id = uid)))
      · intro l; rfl
      · have h1 := refundLoop_others
          (s.saveProduct
            { product with visibility := ProductVisibilityOwnerAdmin, deleted := true })
          product.id uid h
        have h0 := forEach_keeps_empty
          (fun t => decide (t.productID = product.id)
            && decide (t.status = TrxStatusWaitingUser))
          TransactionHistory.cancelled (waiting_cancelled product.id)
          refundOnDelete refundOnDelete_shape.1 refundOnDelete_shape.2
          ((s.saveProduct
            { product with visibility := ProductVisibilityOwnerAdmin, deleted := true }
            ).pendingTransactions product.id)
          (s.saveProduct
            { product with visibility := ProductVisibilityOwnerAdmin, deleted := true })
        cases hr : forEach refundOnDelete
            (s.saveProduct
              { product with visibility := ProductVisibilityOwnerAdmin, deleted := true })
            ((s.saveProduct
              { product with visibility := ProductVisibilityOwnerAdmin, deleted := true }
              ).pendingTransactions product.id) with
        | fail e s1 =>
          rw [hr] at h1
          exact h1
        | ok s1 =>
          rw [hr] at h1 h0
          simp only [Outcome.state] at h1 h0
          simp only
          by_cases hnone : s.transactions.filter (fun t => decide (t.productID = product.id)
              && decide (t.status = TrxStatusWaitingUser)) = []
          · have : s1.waitingUserTransactions product.id = [] := h0 hnone
            rw [this]
            exact h1
          · obtain ⟨t, ht⟩ := List.exists_mem_of_ne_nil _ hnone
            rw [List.mem_filter] at ht
            simp only [Bool.and_eq_true, decide_eq_true_eq] at ht
            have hown := hw t ht.1 ht.2.1 ht.2.2 product hpm rfl
            have h2 := forEach_invariant
              (fun s' => s'.users.filter (fun u => decide (u.id = uid))
                = s1.users.filter (fun u => decide (u.id = uid)))
              (settleOnProductDelete
                { product with visibility := ProductVisibilityOwnerAdmin, deleted := true })
              (fun s' x hs' => (settleOnProductDelete_owner _ s' x uid hown).trans hs')
              (s1.waitingUserTransactions product.id) s1 rfl
            exact h2.trans h1

/-- C19: in a store with unique order keys, the resolver (`handleProductTransactionsOnDelete`
and the copy in `DeleteProductsRequest`) leaves every order whose status is `success` or
`cancel` as it is, whatever the other orders on the product; it changes the row (the
balance) of no account other than the buyers of the orders on the product that are
`pending` or `waiting_owner` and, for the copy in `DeleteProductsRequest`, the owner of the
product when an order on it is `waiting_users`: an order that is `success` or `cancel`
moves no balance. When every order on the product has such a status the resolver changes
no user, no order and no ledger entry; and run a second time on the state it has left (the
product deleted a second time after a successful deletion), it changes nothing more. -/
theorem C19_resolver_idempotent (s : State) (product : Product)
    (hs : s.uniqueTransactions) :
    (∀ t ∈ s.transactions, t.terminal = true →
      (handleProductTransactionsOnDelete s product).state.firstTransaction t.id = some t) ∧
    (∀ uid,
      (∀ t ∈ s.transactions, t.productID = product.id →
        (t.status = TrxStatusPending ∨ t.status = TrxStatusWaitingOwner) → t.userID ≠ uid) →
      (handleProductTransactionsOnDelete s product).state.users.filter
          (fun u => decide (u.id = uid))
        = s.users.filter (fun u => decide (u.id = uid))) ∧
    ((∀ t ∈ s.transactions, t.productID = product.id → t.terminal = true) →
      handleProductTransactionsOnDelete s product = .ok s) ∧
    handleProductTransactionsOnDelete (handleProductTransactionsOnDelete s product).state
      product = handleProductTransactionsOnDelete s product ∧
    (∀ (userID : Nat) (role : UserRole),
      (∀ t ∈ s.transactions, t.terminal = true →
        (DeleteProductsRequest s userID role product.id).state.firstTransaction t.id
          = some t) ∧
      (∀ uid,
        (∀ t ∈ s.transactions, t.productID = product.id →
          (t.status = TrxStatusPending ∨ t.status = TrxStatusWaitingOwner) →
          t.userID ≠ uid) →
        (∀ t ∈ s.transactions, t.productID = product.id →
          t.status = TrxStatusWaitingUser →
          ∀ p ∈ s.products, p.id = product.id → p.userID ≠ uid) →
        (DeleteProductsRequest s userID role product.id).state.users.filter
            (fun u => decide (u.id = uid))
          = s.users.filter (fun u => decide (u.id = uid))) ∧
      ((∀ t ∈ s.transactions, t.productID = product.id → t.terminal = true) →
        (DeleteProductsRequest s userID role product.id).state.users = s.users ∧
        (DeleteProductsRequest s userID role product.id).state.transactions
          = s.transactions ∧
        (DeleteProductsRequest s userID role product.id).state.balanceHistories
          = s.balanceHistories) ∧
      (∀ s1, DeleteProductsRequest s userID role product.id = .ok s1 →
        ∀ (userID' : Nat) (role' : UserRole),
          (DeleteProductsRequest s1 userID' role' product.id).state = s1)) := by
  refine ⟨fun t ht hterm => ?_,
    fun uid h => handleProductTransactionsOnDelete_others s product uid h,
    fun h => ?_,
    handleProductTransactionsOnDelete_again s hs product, fun userID role =>
      ⟨fun t ht hterm => ?_,
        fun uid h hw => DeleteProductsRequest_others s userID role product.id uid h hw,
        DeleteProductsRequest_no_inflight s userID role product.id,
        fun s1 h1 userID' role' =>
          DeleteProductsRequest_again s s1 hs userID role product.id h1 userID' role'⟩⟩
  · have hm := handleProductTransactionsOnDelete_moves (m := false) hs s product
      (forall₂_moves_refl _ _)
    have := find?_of_moves hm [] hs ht hterm
    simpa [State.firstTransaction] using this
  · have hn := no_inflight_of_terminal h
    unfold handleProductTransactionsOnDelete
    simp only [hn.1, hn.2, forEach]
  · have hm := DeleteProductsRequest_moves (m := false) s hs userID role product.id
    have := find?_of_moves hm [] hs ht hterm
    simpa [State.firstTransaction] using this

/-- Witness of C19: the resolver run for product 1 of seller 2 while order 1 (of buyer 3)
is `success` and order 2 (of buyer 1) is `pending`. It goes through and cancels order 2;
order 1 is the same record afterwards, buyer 3 still holds 7,500 and seller 2 still holds
49,000; and a second run gives the same result as the first. -/
theorem C19_resolver_idempotent_witness :
    ((handleProductTransactionsOnDelete settledAndPending
        ⟨1, 2, 50000, 3, ProductVisibilityAll, false⟩).isOk = true ∧
      ((handleProductTransactionsOnDelete settledAndPending
        ⟨1, 2, 50000, 3, ProductVisibilityAll, false⟩).state.firstTransaction 2).map
          (fun t => (t.status, t.receiptStatus, t.isSolved))
        = some (TrxStatusCancel, ReceiptCanceled, true)) ∧
    (handleProductTransactionsOnDelete settledAndPending
        ⟨1, 2, 50000, 3, ProductVisibilityAll, false⟩).state.firstTransaction 1
      = some ⟨1, 1, 3, 1, 50000, 2500, 1000, TrxStatusSuccess, true, ReceiptCompleted⟩ ∧
    (handleProductTransactionsOnDelete settledAndPending
        ⟨1, 2, 50000, 3, ProductVisibilityAll, false⟩).state.users.filter
          (fun u => decide (u.id = 3)) = [account 3 7500] ∧
    (handleProductTransactionsOnDelete settledAndPending
        ⟨1, 2, 50000, 3, ProductVisibilityAll, false⟩).state.users.filter
          (fun u => decide (u.id = 2)) = [account 2 49000] ∧
    handleProductTransactionsOnDelete
        (handleProductTransactionsOnDelete settledAndPending
          ⟨1, 2, 50000, 3, ProductVisibilityAll, false⟩).state
        ⟨1, 2, 50000, 3, ProductVisibilityAll, false⟩
      = handleProductTransactionsOnDelete settledAndPending
          ⟨1, 2, 50000, 3, ProductVisibilityAll, false⟩ := by
  have h := C19_resolver_idempotent settledAndPending
    ⟨1, 2, 50000, 3, ProductVisibilityAll, false⟩
    (by unfold State.uniqueTransactions; decide)
  refine ⟨⟨by decide, by decide⟩,
    h.1 ⟨1, 1, 3, 1, 50000, 2500, 1000, TrxStatusSuccess, true, ReceiptCompleted⟩
      (by decide) (by decide), ?_, ?_, h.2.2.2.1⟩
  · rw [h.2.1 3 (by decide)]
    decide
  · rw [h.2.1 2 (by decide)]
    decide

/-! ## C20: orders on the products that an operation removes -/

theorem Moves.of_pending {t t' : TransactionHistory} (h : Moves false t t')
    (ht : t'.status = TrxStatusPending ∨ t'.status = TrxStatusWaitingOwner) : t' = t := by
  induction h with
  | stay t => rfl
  | ship t _ => simp [TransactionHistory.shipped] at ht
  | settle t _ => simp [TransactionHistory.settled] at ht
  | cancel t _ => simp [TransactionHistory.cancelled] at ht
  | override t st hadm => simp at hadm
  | trans _ _ ih1 ih2 =>
    have h2 := ih2 ht
    subst h2
    exact ih1 ht

theorem forall₂_moves_mem {m : Bool} {l l' : List TransactionHistory}
    (h : List.Forall₂ (Moves m) l l') {t' : TransactionHistory} (ht' : t' ∈ l') :
    ∃ t ∈ l, Moves m t t' := by
  induction h with
  | nil => simp at ht'
  | @cons a b l1 l2 hab _ ih =>
    rw [List.mem_cons] at ht'
    rcases ht' with rfl | ht'
    · exact ⟨a, List.mem_cons_self _ _, hab⟩
    · obtain ⟨t, ht, hm⟩ := ih ht'
      exact ⟨t, List.mem_cons_of_mem _ ht, hm⟩

/-- Orders on a product that are all `success` or `cancel` stay so in every run of the
state machine without the admin override. -/
theorem closedOn_of_moves {l l' : List TransactionHistory} {productID : Nat}
    (h : List.Forall₂ (Moves false) l l')
    (hl : ∀ t ∈ l, t.productID = productID → t.terminal = true) :
    ∀ t ∈ l', t.productID = productID → t.terminal = true := by
  intro t' ht' hp
  obtain ⟨t, ht, hm⟩ := forall₂_moves_mem h ht'
  have h1 := hl t ht (hm.fields.2.1.symm.trans hp)
  rw [hm.of_terminal h1]
  exact h1

theorem firstUser_isSome_updateUserBalance (s : State) (id b v : Nat) :
    ((s.updateUserBalance b v).firstUser id).isSome = (s.firstUser id).isSome := by
  unfold State.firstUser
  simp only [State.updateUserBalance, List.find?_map]
  have hfun : ((fun u : User => decide (u.id = id) && !u.deleted) ∘
      fun u : User => if u.id = b ∧ u.deleted = false then { u with balance := v } else u)
      = fun u : User => decide (u.id = id) && !u.deleted := by
    funext x
    simp only [Function.comp]
    split_ifs <;> rfl
  rw [hfun]
  cases List.find? (fun u : User => decide (u.id = id) && !u.deleted) s.users <;> rfl

theorem refundOnDelete_accounts (s : State) (x : TransactionHistory) (id : Nat) :
    ((refundOnDelete s x).state.firstUser id).isSome = (s.firstUser id).isSome := by
  unfold refundOnDelete
  split
  · rfl
  · exact firstUser_isSome_updateUserBalance s id _ _

theorem handleProductTransactionsOnDelete_accounts (s : State) (product : Product)
    (id : Nat) :
    ((handleProductTransactionsOnDelete s product).state.firstUser id).isSome
      = (s.firstUser id).isSome := by
  have h1 := forEach_invariant
    (fun s' => (s'.firstUser id).isSome = (s.firstUser id).isSome) refundOnDelete
    (fun s' x hs' => (refundOnDelete_accounts s' x id).trans hs')
    (s.pendingTransactions product.id) s rfl
  unfold handleProductTransactionsOnDelete
  cases hr : forEach refundOnDelete s (s.pendingTransactions product.id) with
  | fail e s1 => rw [hr] at h1; exact h1
  | ok s1 =>
    rw [hr] at h1
    simp only
    have h2 := forEach_invariant (fun s' => s'.users = s1.users)
      (settleOnOwnerRemoval product)
      (fun s' x hs' => (settleOnOwnerRemoval_users product s' x).trans hs')
      (s1.waitingUserTransactions product.id) s1 rfl
    simp only [Outcome.state] at h1
    rw [← h1]
    unfold State.firstUser
    rw [h2]

/-- The refund loop goes through when the buyer of every order it is run on is a live
account. -/
theorem refundLoop_ok :
    ∀ (L : List TransactionHistory) (s : State),
      (∀ x ∈ L, (s.firstUser x.userID).isSome = true) →
      (forEach refundOnDelete s L).isOk = true := by
  intro L
  induction L with
  | nil => intro s _; rfl
  | cons x rest ih =>
    intro s h
    have hx := h x (List.mem_cons_self _ _)
    cases hb : refundOnDelete s x with
    | fail e s' =>
      unfold refundOnDelete at hb
      cases hu : s.firstUser x.userID with
      | none => rw [hu] at hx; simp at hx
      | some b => rw [hu] at hb; simp at hb
    | ok s' =>
      rw [forEach_cons_ok rest hb]
      apply ih
      intro y hy
      have := refundOnDelete_accounts s x y.userID
      rw [hb] at this
      simp only [Outcome.state] at this
      rw [this]
      exact h y (List.mem_cons_of_mem _ hy)

/-- With live buyers for the orders that are `pending` or `waiting_owner` on the product,
the resolver goes through and leaves every order on the product `success` or `cancel`. -/
theorem handleProductTransactionsOnDelete_resolves (s : State) (hs : s.uniqueTransactions)
    (product : Product)
    (hb : ∀ t ∈ s.transactions, t.productID = product.id →
      (t.status = TrxStatusPending ∨ t.status = TrxStatusWaitingOwner) →
      (s.firstUser t.userID).isSome = true) :
    (handleProductTransactionsOnDelete s product).isOk = true ∧
    ∀ t ∈ (handleProductTransactionsOnDelete s product).state.transactions,
      t.productID = product.id → t.terminal = true := by
  have h1 := refundLoop_ok (s.pendingTransactions product.id) s
    (fun x hx => hb x (pendingTransactions_mem hx).1 (pendingTransactions_mem hx).2.1
      (pendingTransactions_mem hx).2.2)
  have hok : (handleProductTransactionsOnDelete s product).isOk = true := by
    unfold handleProductTransactionsOnDelete
    cases hr : forEach refundOnDelete s (s.pendingTransactions product.id) with
    | fail e s1 => rw [hr] at h1; simp at h1
    | ok s1 =>
      simp only
      cases hr2 : forEach (settleOnOwnerRemoval product) s1
          (s1.waitingUserTransactions product.id) with
      | ok s2 => rfl
      | fail e s2 =>
        have key : ∀ (L : List TransactionHistory) (s' : State),
            (forEach (settleOnOwnerRemoval product) s' L).isOk = true := by
          intro L
          induction L with
          | nil => intro s'; rfl
          | cons x rest ih =>
            intro s'
            rw [@forEach_cons_ok _ _ s' (settleOnOwnerRemoval product s' x).state x rest
              (by unfold settleOnOwnerRemoval; rfl)]
            exact ih _
        have := key (s1.waitingUserTransactions product.id) s1
        rw [hr2] at this
        simp at this
  refine ⟨hok, ?_⟩
  have hd := handleProductTransactionsOnDelete_done s _ hs product (Outcome.ok_of_isOk hok)
  exact terminal_of_no_inflight hd.2.1 hd.2.2

theorem handleProductTransactionsOnDelete_products (s : State) (product : Product) :
    (handleProductTransactionsOnDelete s product).state.products = s.products := by
  have h1 := forEach_products refundOnDelete refundOnDelete_products
    (s.pendingTransactions product.id) s
  unfold handleProductTransactionsOnDelete
  cases hr : forEach refundOnDelete s (s.pendingTransactions product.id) with
  | fail e s1 => rw [hr] at h1; exact h1
  | ok s1 =>
    rw [hr] at h1
    simp only
    exact (forEach_products (settleOnOwnerRemoval product)
      (settleOnOwnerRemoval_products product) _ s1).trans h1

/-- A row of the product table after the loop of `SuspendUser`, `BanUser` and `DeleteUser`
is a row of the table before it, or has the key of one of the products of the loop. -/
theorem removeProducts_products (products : List Product) :
    ∀ (s : State), ∀ x ∈ (removeProducts s products).products,
      x ∈ s.products ∨ ∃ q ∈ products, q.id = x.id := by
  induction products with
  | nil => intro s x hx; exact Or.inl hx
  | cons q rest ih =>
    intro s x hx
    unfold removeProducts at hx
    rcases ih _ x hx with h | ⟨q2, hq2, hid⟩
    · rw [handleProductTransactionsOnDelete_products] at h
      simp only [State.saveProduct, List.mem_map] at h
      obtain ⟨y, hy, rfl⟩ := h
      split_ifs with hc
      · exact Or.inr ⟨q, List.mem_cons_self _ _, rfl⟩
      · exact Or.inl hy
    · exact Or.inr ⟨q2, List.mem_cons_of_mem _ hq2, hid⟩

/-- The loop of `SuspendUser`, `BanUser` and `DeleteUser` leaves no order `pending`,
`waiting_owner` or `waiting_users` on a product of its list, when the buyers of the orders
of that product that are `pending` or `waiting_owner` are live accounts. -/
theorem removeProducts_resolves (productID : Nat) (products : List Product) :
    ∀ (s : State), s.uniqueTransactions → (∃ q ∈ products, q.id = productID) →
      (∀ t ∈ s.transactions, t.productID = productID →
        (t.status = TrxStatusPending ∨ t.status = TrxStatusWaitingOwner) →
        (s.firstUser t.userID).isSome = true) →
      ∀ t ∈ (removeProducts s products).transactions,
        t.productID = productID → t.terminal = true := by
  induction products with
  | nil => intro s _ h; simp at h
  | cons q rest ih =>
    intro s hs hq hb
    have hm := @handleProductTransactionsOnDelete_moves false
      (s.saveProduct { q with deleted := true, visibility := ProductVisibilityOwnerAdmin })
      hs
      (s.saveProduct { q with deleted := true, visibility := ProductVisibilityOwnerAdmin })
      { q with deleted := true, visibility := ProductVisibilityOwnerAdmin }
      (forall₂_moves_refl _ _)
    have hs2 := @nodup_ids_of_moves false
      (s.saveProduct { q with deleted := true, visibility := ProductVisibilityOwnerAdmin })
      _ hs hm
    unfold removeProducts
    by_cases hid : q.id = productID
    · have hr := handleProductTransactionsOnDelete_resolves
        (s.saveProduct { q with deleted := true, visibility := ProductVisibilityOwnerAdmin })
        hs { q with deleted := true, visibility := ProductVisibilityOwnerAdmin }
        (fun t ht hp hst => hb t ht (hp.trans hid) hst)
      have hm2 := removeProducts_moves (m := false) hs2 rest _ (forall₂_moves_refl _ _)
      exact closedOn_of_moves hm2 (fun t ht hp => hr.2 t ht (hp.trans hid.symm))
    · have hq' : ∃ q2 ∈ rest, q2.id = productID := by
        obtain ⟨q2, hq2, h2⟩ := hq
        rw [List.mem_cons] at hq2
        rcases hq2 with rfl | hq2
        · exact absurd h2 hid
        · exact ⟨q2, hq2, h2⟩
      apply ih _ hs2 hq'
      intro t ht hp hst
      obtain ⟨t0, ht0, hmv⟩ := forall₂_moves_mem hm ht
      have := hmv.of_pending hst
      subst this
      rw [handleProductTransactionsOnDelete_accounts]
      exact hb t ht0 hp hst

theorem firstUser_saveUser_ne (s : State) (u : User) (id : Nat) (hne : id ≠ u.id) :
    (s.saveUser u).firstUser id = s.firstUser id := by
  unfold State.firstUser
  simp only [State.saveUser, List.find?_map]
  have hfun : ((fun x : User => decide (x.id = id) && !x.deleted) ∘
      fun x : User => if x.id = u.id then u else x)
      = fun x : User => decide (x.id = id) && !x.deleted := by
    funext x
    simp only [Function.comp]
    split_ifs with h
    · have h1 : ¬ u.id = id := fun h' => hne h'.symm
      have h2 : ¬ x.id = id := fun h' => hne (h'.symm.trans h)
      simp [h1, h2]
    · rfl
  rw [hfun]
  cases h : List.find? (fun x : User => decide (x.id = id) && !x.deleted) s.users with
  | none => rfl
  | some x =>
    have h2 := List.find?_some h
    simp only [Bool.and_eq_true, decide_eq_true_eq] at h2
    have : ¬ x.id = u.id := fun h' => hne (h2.1.symm.trans h')
    simp [this]

/-- The removal of the products of an account that has just been saved as `u`. -/
theorem removal_resolves (s : State) (u : User) (p : Product)
    (hs : s.uniqueTransactions) (hup : s.uniqueProducts) (hp : p ∈ s.products)
    (hlive : p.deleted = false)
    (hb : ∀ t ∈ s.transactions, t.productID = p.id →
      (t.status = TrxStatusPending ∨ t.status = TrxStatusWaitingOwner) →
      (s.firstUser t.userID).isSome = true ∧ t.userID ≠ p.userID)
    (hdel : ∃ p' ∈ (removeProducts (s.saveUser u)
      ((s.saveUser u).productsOf u.id)).products, p'.id = p.id ∧ p'.deleted = true) :
    ∀ t ∈ (removeProducts (s.saveUser u) ((s.saveUser u).productsOf u.id)).transactions,
      t.productID = p.id → t.terminal = true := by
  obtain ⟨p', hp', hid, hd⟩ := hdel
  have hq : ∃ q ∈ (s.saveUser u).productsOf u.id, q.id = p.id := by
    rcases removeProducts_products _ _ p' hp' with h | ⟨q, hq, h⟩
    · have : p' = p := List.inj_on_of_nodup_map hup h hp hid
      rw [this, hlive] at hd
      simp at hd
    · exact ⟨q, hq, h.trans hid⟩
  have hown : p.userID = u.id := by
    obtain ⟨q, hq, hqid⟩ := hq
    have hq1 := productsOf_userID _ _ q hq
    have hq2 : q ∈ s.products := by
      unfold State.productsOf at hq
      exact (List.mem_filter.mp hq).1
    have : q = p := List.inj_on_of_nodup_map hup hq2 hp hqid
    rw [← this]
    exact hq1
  apply removeProducts_resolves p.id _ (s.saveUser u) hs hq
  intro t ht hpid hst
  obtain ⟨h1, h2⟩ := hb t ht hpid hst
  rw [firstUser_saveUser_ne s u t.userID (by rw [← hown]; exact h2)]
  exact h1

theorem not_deleted_of_unchanged {s : State} {p : Product} (hup : s.uniqueProducts)
    (hp : p ∈ s.products) (hlive : p.deleted = false)
    (h : ∃ p' ∈ s.products, p'.id = p.id ∧ p'.deleted = true) : False := by
  obtain ⟨p', hp', hid, hd⟩ := h
  have : p' = p := List.inj_on_of_nodup_map hup hp' hp hid
  rw [this, hlive] at hd
  simp at hd

theorem SuspendUser_resolves (s : State) (target : Nat) (p : Product)
    (hs : s.uniqueTransactions) (hup : s.uniqueProducts) (hp : p ∈ s.products)
    (hlive : p.deleted = false)
    (hdel : ∃ p' ∈ (SuspendUser s target).state.products, p'.id = p.id ∧ p'.deleted = true)
    (hb : ∀ t ∈ s.transactions, t.productID = p.id →
      (t.status = TrxStatusPending ∨ t.status = TrxStatusWaitingOwner) →
      (s.firstUser t.userID).isSome = true ∧ t.userID ≠ p.userID) :
    ∀ t ∈ (SuspendUser s target).state.transactions,
      t.productID = p.id → t.terminal = true := by
  unfold SuspendUser at hdel ⊢
  cases hu : s.firstUser target with
  | none => rw [hu] at hdel; exact (not_deleted_of_unchanged hup hp hlive hdel).elim
  | some user =>
    rw [hu] at hdel
    simp only at hdel ⊢
    split_ifs at hdel ⊢
    · exact (not_deleted_of_unchanged hup hp hlive hdel).elim
    · exact (not_deleted_of_unchanged hup hp hlive hdel).elim
    · simp only [Transaction, Outcome.state, State.notify, State.createNotification,
        State.SendNotificationToUser] at hdel ⊢
      exact removal_resolves s
        { user with status := UserStatusSuspended, banUntil := none, penaltyWarnings := 0 }
        p hs hup hp hlive hb hdel

theorem BanUser_resolves (s : State) (target : Nat) (banUntil : Int) (p : Product)
    (hs : s.uniqueTransactions) (hup : s.uniqueProducts) (hp : p ∈ s.products)
    (hlive : p.deleted = false)
    (hdel : ∃ p' ∈ (BanUser s target banUntil).state.products,
      p'.id = p.id ∧ p'.deleted = true)
    (hb : ∀ t ∈ s.transactions, t.productID = p.id →
      (t.status = TrxStatusPending ∨ t.status = TrxStatusWaitingOwner) →
      (s.firstUser t.userID).isSome = true ∧ t.userID ≠ p.userID) :
    ∀ t ∈ (BanUser s target banUntil).state.transactions,
      t.productID = p.id → t.terminal = true := by
  unfold BanUser at hdel ⊢
  cases hu : s.firstUser target with
  | none => rw [hu] at hdel; exact (not_deleted_of_unchanged hup hp hlive hdel).elim
  | some user =>
    rw [hu] at hdel
    simp only at hdel ⊢
    split_ifs at hdel ⊢
    · exact (not_deleted_of_unchanged hup hp hlive hdel).elim
    · exact (not_deleted_of_unchanged hup hp hlive hdel).elim
    · simp only [Transaction, Outcome.state, State.notify, State.createNotification,
        State.SendNotificationToUser] at hdel ⊢
      exact removal_resolves s
        { user with status := UserStatusBanned, banUntil := some banUntil,
                    penaltyWarnings := 0 }
        p hs hup hp hlive hb hdel

theorem DeleteUser_resolves (s : State) (adminID target : Nat) (p : Product)
    (hs : s.uniqueTransactions) (hup : s.uniqueProducts) (hp : p ∈ s.products)
    (hlive : p.deleted = false)
    (hdel : ∃ p' ∈ (DeleteUser s adminID target).state.products,
      p'.id = p.id ∧ p'.deleted = true)
    (hb : ∀ t ∈ s.transactions, t.productID = p.id →
      (t.status = TrxStatusPending ∨ t.status = TrxStatusWaitingOwner) →
      (s.firstUser t.userID).isSome = true ∧ t.userID ≠ p.userID) :
    ∀ t ∈ (DeleteUser s adminID target).state.transactions,
      t.productID = p.id → t.terminal = true := by
  unfold DeleteUser at hdel ⊢
  cases hu : s.users.find? (fun u => decide (u.id = target)) with
  | none => rw [hu] at hdel; exact (not_deleted_of_unchanged hup hp hlive hdel).elim
  | some user =>
    rw [hu] at hdel
    simp only at hdel ⊢
    split_ifs at hdel ⊢
    · exact (not_deleted_of_unchanged hup hp hlive hdel).elim
    · exact (not_deleted_of_unchanged hup hp hlive hdel).elim
    · simp only [Transaction, Outcome.state] at hdel ⊢
      exact removal_resolves s { user with deleted := true, status := UserStatusSuspended }
        p hs hup hp hlive hb hdel

theorem DeleteProductsRequest_fail_products (s : State) (userID : Nat) (role : UserRole)
    (productID : Nat) (h : (DeleteProductsRequest s userID role productID).isOk = false) :
    (DeleteProductsRequest s userID role productID).state.products = s.products := by
  unfold DeleteProductsRequest at h ⊢
  split
  · rfl
  · rename_i product hf
    rw [hf] at h
    simp only at h
    split_ifs at h ⊢
    · rfl
    · rfl
    · rfl
    · exact (Transaction_fail s _ h).2.1

theorem DeleteProductsRequest_resolves (s : State) (userID : Nat) (role : UserRole)
    (productID : Nat) (p : Product)
    (hs : s.uniqueTransactions) (hup : s.uniqueProducts) (hp : p ∈ s.products)
    (hlive : p.deleted = false)
    (hdel : ∃ p' ∈ (DeleteProductsRequest s userID role productID).state.products,
      p'.id = p.id ∧ p'.deleted = true) :
    ∀ t ∈ (DeleteProductsRequest s userID role productID).state.transactions,
      t.productID = p.id → t.terminal = true := by
  cases hok : (DeleteProductsRequest s userID role productID).isOk with
  | false =>
    rw [DeleteProductsRequest_fail_products s userID role productID hok] at hdel
    exact (not_deleted_of_unchanged hup hp hlive hdel).elim
  | true =>
    have hrun := Outcome.ok_of_isOk hok
    obtain ⟨product, hf, hprod, _, hpend, hwait⟩ :=
      DeleteProductsRequest_done s _ hs userID role productID hrun
    have hpid : product.id = productID := by
      have := List.find?_some hf
      simpa using this
    obtain ⟨p', hp', hid, hd⟩ := hdel
    have hpp : p.id = productID := by
      rw [hprod, List.mem_map] at hp'
      obtain ⟨x, hx, hx'⟩ := hp'
      split_ifs at hx' with hc
      · rw [← hid, ← hx', ← hpid]
      · subst hx'
        have : x = p := List.inj_on_of_nodup_map hup hx hp hid
        rw [this, hlive] at hd
        simp at hd
    rw [hpp]
    exact terminal_of_no_inflight hpend hwait

/-! ### The claim -/

/-- C20 fails as stated: an administrator hides product 1 of Scenario A (visibility
`owner_admin`) while order 1 on it is `pending`; the order is still `pending`
afterwards. -/
theorem C20_counterexample_admin_hide :
    (afterPurchase.firstTransaction 1).map (fun t => (t.productID, t.status))
      = some (1, TrxStatusPending) ∧
    (PatchProductAdmin afterPurchase 1 ⟨0, 0, some ProductVisibilityOwnerAdmin, false⟩).isOk
      = true ∧
    ((PatchProductAdmin afterPurchase 1
        ⟨0, 0, some ProductVisibilityOwnerAdmin, false⟩).state.firstProduct 1).map
        (·.visibility) = some ProductVisibilityOwnerAdmin ∧
    ((PatchProductAdmin afterPurchase 1
        ⟨0, 0, some ProductVisibilityOwnerAdmin, false⟩).state.firstTransaction 1).map
        (fun t => (t.productID, t.status)) = some (1, TrxStatusPending) := by
  decide

theorem PatchProductVisibility_frame (s : State) (userID : Nat) (role : UserRole)
    (productID : Nat) :
    (PatchProductVisibility s userID role productID).state.transactions = s.transactions ∧
    (PatchProductVisibility s userID role productID).state.users = s.users ∧
    (PatchProductVisibility s userID role productID).state.balanceHistories
      = s.balanceHistories := by
  unfold PatchProductVisibility
  cases s.firstProduct productID with
  | none => simp
  | some p =>
    simp only
    split_ifs <;> simp

/-- C20 (as amended): after the deletion of a product, or the suspension, the ban or the
deletion of a user, no order on a product that the operation has removed (live before,
soft-deleted after) is left `pending`, `waiting_owner` or `waiting_users`, provided the
buyers of the `pending` and `waiting_owner` orders on that product are live accounts other
than its owner. (Order keys and product keys are unique.) The handlers that hide a product,
`PatchProductAdmin` and the toggle `PatchProductVisibility`, change no order, whatever the
request. -/
theorem C20_no_order_in_flight (a : Action) (s : State) (p : Product)
    (hrev : a.revokes = true) (hs : s.uniqueTransactions) (hup : s.uniqueProducts)
    (hp : p ∈ s.products) (hlive : p.deleted = false)
    (hdel : ∃ p' ∈ (a.run s).state.products, p'.id = p.id ∧ p'.deleted = true)
    (hb : ∀ t ∈ s.transactions, t.productID = p.id →
      (t.status = TrxStatusPending ∨ t.status = TrxStatusWaitingOwner) →
      (s.firstUser t.userID).isSome = true ∧ t.userID ≠ p.userID) :
    (∀ t ∈ (a.run s).state.transactions, t.productID = p.id →
      t.status = TrxStatusSuccess ∨ t.status = TrxStatusCancel) ∧
    (∀ (productID : Nat) (req : RequestPutProduct),
      (PatchProductAdmin s productID req).state.transactions = s.transactions) ∧
    (∀ (userID : Nat) (role : UserRole) (productID : Nat),
      (PatchProductVisibility s userID role productID).state.transactions
        = s.transactions) := by
  refine ⟨?_, fun productID req => (PatchProductAdmin_frame s productID req).1,
    fun userID role productID => (PatchProductVisibility_frame s userID role productID).1⟩
  have key : ∀ t ∈ (a.run s).state.transactions, t.productID = p.id →
      t.terminal = true := by
    cases a with
    | confirmShipment ownerID ids => simp [Action.revokes] at hrev
    | patchProduct productID req => simp [Action.revokes] at hrev
    | balance op =>
      cases op with
      | topUp userID amount => simp [Action.revokes] at hrev
      | withdraw userID amount => simp [Action.revokes] at hrev
      | purchase cfg userID req => simp [Action.revokes] at hrev
      | confirmReceipt userID ids reviews => simp [Action.revokes] at hrev
      | cancel userID ids => simp [Action.revokes] at hrev
      | adminOverride id status => simp [Action.revokes] at hrev
      | deleteProduct userID role productID =>
        exact DeleteProductsRequest_resolves s userID role productID p hs hup hp hlive hdel
      | suspendUser target => exact SuspendUser_resolves s target p hs hup hp hlive hdel hb
      | banUser target banUntil =>
        exact BanUser_resolves s target banUntil p hs hup hp hlive hdel hb
      | deleteUser adminID target =>
        exact DeleteUser_resolves s adminID target p hs hup hp hlive hdel hb
  intro t ht hpid
  have := key t ht hpid
  unfold TransactionHistory.terminal at this
  simpa using this

/-- Witness of C20: seller 2 is banned while order 1 of Scenario B is `waiting_users`. -/
theorem C20_no_order_in_flight_witness :
    afterShipment.uniqueProducts ∧
    ∀ t ∈ ((Action.balance (.banUser 2 1000)).run afterShipment).state.transactions,
      t.productID = 1 → t.status = TrxStatusSuccess ∨ t.status = TrxStatusCancel :=
  ⟨by unfold State.uniqueProducts; decide,
    (C20_no_order_in_flight (.balance (.banUser 2 1000)) afterShipment
      ⟨1, 2, 50000, 0, ProductVisibilityAll, false⟩ rfl
      (by unfold State.uniqueTransactions; decide) (by unfold State.uniqueProducts; decide)
      (by decide) rfl (by decide) (by decide)).1⟩

/-! ## C17: what the resolver does for the orders not yet shipped -/

theorem refundTotal_cons (x : TransactionHistory) (rest : List TransactionHistory)
    (uid : Nat) :
    refundTotal (x :: rest) uid
      = (if x.userID = uid then x.totalPrice + x.govtTax else 0) + refundTotal rest uid := by
  unfold refundTotal
  by_cases h : x.userID = uid
  · simp [List.filter_cons, h]
  · simp [List.filter_cons, h]

theorem User.credited_zero (u : User) : u.credited 0 = u := by
  cases u; rfl

/-- The refund loop of the resolver, run on orders whose buyers are live accounts: every
buyer receives `totalPrice + govtTax` for each of the orders, and the ledger receives one
refund entry of that amount for each order. -/
theorem refundLoop_effect :
    ∀ (L : List TransactionHistory) (s : State), s.uniqueUsers →
      (∀ x ∈ L, (s.firstUser x.userID).isSome = true) →
      (∀ x ∈ L, x.totalPrice + x.govtTax < 2 ^ 63) →
      (∀ u ∈ s.users, u.balance + refundTotal L u.id < 2 ^ 64) →
      ∃ s', forEach refundOnDelete s L = .ok s' ∧
        s'.users = s.users.map (fun u => u.credited (refundTotal L u.id)) ∧
        ∃ new, s'.balanceHistories = s.balanceHistories ++ new ∧
          entriesOf new = refundsOf L := by
  intro L
  induction L with
  | nil =>
    intro s _ _ _ _
    refine ⟨s, rfl, ?_, [], by simp, rfl⟩
    have : (fun u : User => u.credited (refundTotal [] u.id)) = id := by
      funext u
      exact u.credited_zero
    rw [this, List.map_id]
  | cons x rest ih =>
    intro s hu hlive hrange hsum
    obtain ⟨b, hb⟩ := Option.isSome_iff_exists.mp (hlive x (List.mem_cons_self _ _))
    have hbm := firstUser_mem hb
    have hr : uadd x.totalPrice x.govtTax = x.totalPrice + x.govtTax :=
      uadd_eq (lt_trans (hrange x (List.mem_cons_self _ _)) (by norm_num))
    have hbsum := hsum b hbm.1
    rw [refundTotal_cons, if_pos hbm.2.1.symm] at hbsum
    have hnb : uadd b.balance (x.totalPrice + x.govtTax)
        = b.balance + (x.totalPrice + x.govtTax) := uadd_eq (by omega)
    have hint : toInt (x.totalPrice + x.govtTax)
        = ((x.totalPrice + x.govtTax : Nat) : Int) :=
      toInt_eq (hrange x (List.mem_cons_self _ _))
    -- the first order
    have hstep : refundOnDelete s x = .ok
        (((s.updateUserBalance b.id (b.balance + (x.totalPrice + x.govtTax))
          ).createBalanceHistory b.id ((x.totalPrice + x.govtTax : Nat) : Int)
            (b.balance + (x.totalPrice + x.govtTax))
            (b.balance + (x.totalPrice + x.govtTax)) BalanceStatusRefund
          ).updateTransaction x.id (fun t => t.cancelled)
          |>.notify b.id NotifTypePurchase (some x.id)) := by
      unfold refundOnDelete
      rw [hb]
      simp only [hr, hnb, hint]
      rfl
    have husers1 : (s.updateUserBalance b.id (b.balance + (x.totalPrice + x.govtTax))).users
        = s.users.map (fun u =>
            u.credited (if x.userID = u.id then x.totalPrice + x.govtTax else 0)) := by
      simp only [State.updateUserBalance]
      apply List.map_congr_left
      intro u hum
      by_cases hid : u.id = b.id
      · have : u = b := eq_of_uniqueUsers hu hum hbm.1 hid
        subst this
        simp [hbm.2.2, hbm.2.1, User.credited]
      · have hne : ¬ x.userID = u.id := by
          rw [← hbm.2.1]
          exact fun h => hid h.symm
        simp [hid, hne, User.credited_zero]
    rw [forEach_cons_ok rest hstep]
    have hrest := ih
      ((((s.updateUserBalance b.id (b.balance + (x.totalPrice + x.govtTax))
          ).createBalanceHistory b.id ((x.totalPrice + x.govtTax : Nat) : Int)
            (b.balance + (x.totalPrice + x.govtTax))
            (b.balance + (x.totalPrice + x.govtTax)) BalanceStatusRefund
          ).updateTransaction x.id (fun t => t.cancelled)
          |>.notify b.id NotifTypePurchase (some x.id)))
      (by
        unfold State.uniqueUsers
        have : (((s.updateUserBalance b.id (b.balance + (x.totalPrice + x.govtTax))
          ).createBalanceHistory b.id ((x.totalPrice + x.govtTax : Nat) : Int)
            (b.balance + (x.totalPrice + x.govtTax))
            (b.balance + (x.totalPrice + x.govtTax)) BalanceStatusRefund
          ).updateTransaction x.id (fun t => t.cancelled)
          |>.notify b.id NotifTypePurchase (some x.id)).users
            = (s.updateUserBalance b.id (b.balance + (x.totalPrice + x.govtTax))).users :=
          rfl
        rw [this, husers1, List.map_map]
        exact hu)
      (by
        intro y hy
        have h1 := refundOnDelete_accounts s x y.userID
        rw [hstep] at h1
        simp only [Outcome.state] at h1
        rw [h1]
        exact hlive y (List.mem_cons_of_mem _ hy))
      (fun y hy => hrange y (List.mem_cons_of_mem _ hy))
      (by
        intro u1 hu1
        have : u1 ∈ (s.updateUserBalance b.id
            (b.balance + (x.totalPrice + x.govtTax))).users := hu1
        rw [husers1, List.mem_map] at this
        obtain ⟨u, hum, rfl⟩ := this
        have := hsum u hum
        rw [refundTotal_cons] at this
        simp only [User.credited]
        omega)
    obtain ⟨s', hrun, husers, new, hnew, hent⟩ := hrest
    refine ⟨s', hrun, ?_,
      ⟨s.balanceHistories.length + 1, b.id, ((x.totalPrice + x.govtTax : Nat) : Int),
        b.balance + (x.totalPrice + x.govtTax), b.balance + (x.totalPrice + x.govtTax),
        BalanceStatusRefund⟩ :: new, ?_, ?_⟩
    · rw [husers]
      have : (((s.updateUserBalance b.id (b.balance + (x.totalPrice + x.govtTax))
          ).createBalanceHistory b.id ((x.totalPrice + x.govtTax : Nat) : Int)
            (b.balance + (x.totalPrice + x.govtTax))
            (b.balance + (x.totalPrice + x.govtTax)) BalanceStatusRefund
          ).updateTransaction x.id (fun t => t.cancelled)
          |>.notify b.id NotifTypePurchase (some x.id)).users
            = (s.updateUserBalance b.id (b.balance + (x.totalPrice + x.govtTax))).users :=
        rfl
      rw [this, husers1, List.map_map]
      apply List.map_congr_left
      intro u _
      simp only [Function.comp, User.credited, refundTotal_cons]
      congr 1
      omega
    · rw [hnew]
      simp only [State.notify, State.createNotification, State.SendNotificationToUser,
        State.updateTransaction, State.createBalanceHistory, State.updateUserBalance,
        List.append_assoc, List.singleton_append]
    · simp only [entriesOf, refundsOf, List.map_cons] at hent ⊢
      rw [hent, hbm.2.1]

/-- The order table after a loop over the orders selected by `P` has gone through: the
selected orders have been moved by `f`, the others are as they were. -/
theorem forEach_shape (P : TransactionHistory → Bool)
    (f : TransactionHistory → TransactionHistory) (hPf : ∀ t, P (f t) = false)
    (hfid : ∀ t, (f t).id = t.id)
    (body : State → TransactionHistory → Outcome)
    (hok : ∀ s x s', body s x = .ok s' →
      s'.transactions = s.transactions.map fun t => if t.id = x.id then f t else t) :
    ∀ (L : List TransactionHistory) (s s' : State), s.uniqueTransactions →
      s.transactions.filter P = L → forEach body s L = .ok s' →
      s'.transactions = s.transactions.map fun t => if P t = true then f t else t := by
  intro L
  induction L with
  | nil =>
    intro s s' _ hL hrun
    simp only [forEach, Outcome.ok.injEq] at hrun
    subst hrun
    rw [List.filter_eq_nil_iff] at hL
    symm
    conv_rhs => rw [← List.map_id s.transactions]
    apply List.map_congr_left
    intro t ht
    simp [hL t ht]
  | cons x rest ih =>
    intro s s' hs hL hrun
    cases hb : body s x with
    | fail e s1 => rw [forEach_cons_fail rest hb] at hrun; simp at hrun
    | ok s1 =>
      rw [forEach_cons_ok rest hb] at hrun
      have htx := hok s x s1 hb
      have hs1 : s1.uniqueTransactions := by
        unfold State.uniqueTransactions
        rw [htx]
        exact nodup_ids_update x.id f hfid hs
      have hxmem : x ∈ s.transactions.filter P := by
        rw [hL]; exact List.mem_cons_self _ _
      have hL1 : s1.transactions.filter P = rest := by
        rw [htx, filter_map_update P x.id f hPf, hL]
        apply filter_ne_head
        rw [← hL]
        exact List.Nodup.sublist ((List.filter_sublist _).map _) hs
      rw [ih s1 s' hs1 hL1 hrun, htx, List.map_map]
      apply List.map_congr_left
      intro t ht
      simp only [Function.comp]
      by_cases hid : t.id = x.id
      · have : t = x := List.inj_on_of_nodup_map hs ht (List.mem_filter.mp hxmem).1 hid
        subst this
        simp [hPf, (List.mem_filter.mp hxmem).2]
      · simp [hid]

theorem firstTransaction_of_mem {s : State} (hs : s.uniqueTransactions)
    {t : TransactionHistory} (ht : t ∈ s.transactions) :
    s.transactions.find? (fun x => decide (x.id = t.id)) = some t := by
  unfold State.uniqueTransactions at hs
  revert ht hs
  generalize s.transactions = l
  intro hs ht
  induction l with
  | nil => simp at ht
  | cons a l ih =>
    rw [List.map_cons, List.nodup_cons] at hs
    rw [List.mem_cons] at ht
    rcases ht with rfl | ht
    · simp
    · have hne : a.id ≠ t.id := fun heq => hs.1 (heq ▸ List.mem_map_of_mem (·.id) ht)
      rw [List.find?_cons_of_neg _ (by simpa using hne)]
      exact ih hs.2 ht

theorem settleOnOwnerRemoval_ledger (product : Product) (s : State) (x : TransactionHistory) :
    ∃ e, (settleOnOwnerRemoval product s x).state.balanceHistories
        = s.balanceHistories ++ [e] ∧ e.status = BalanceStatusCredit := by
  unfold settleOnOwnerRemoval
  exact ⟨_, rfl, rfl⟩

theorem settleLoop_ledger (product : Product) :
    ∀ (L : List TransactionHistory) (s : State),
      ∃ new, (forEach (settleOnOwnerRemoval product) s L).state.balanceHistories
          = s.balanceHistories ++ new ∧ ∀ e ∈ new, e.status = BalanceStatusCredit := by
  intro L
  induction L with
  | nil => intro s; exact ⟨[], by simp [forEach], by simp⟩
  | cons x rest ih =>
    intro s
    obtain ⟨e, he, hst⟩ := settleOnOwnerRemoval_ledger product s x
    rw [@forEach_cons_ok _ _ s (settleOnOwnerRemoval product s x).state x rest
      (by unfold settleOnOwnerRemoval; rfl)]
    obtain ⟨new, hnew, hall⟩ := ih (settleOnOwnerRemoval product s x).state
    refine ⟨e :: new, ?_, ?_⟩
    · rw [hnew, he]; simp
    · intro y hy
      rw [List.mem_cons] at hy
      rcases hy with rfl | hy
      · exact hst
      · exact hall y hy

theorem filter_refund_entries {new credits : List BalanceHistory}
    {L : List TransactionHistory} (h : entriesOf new = refundsOf L)
    (hc : ∀ e ∈ credits, e.status = BalanceStatusCredit) :
    entriesOf ((new ++ credits).filter fun e => decide (e.status = BalanceStatusRefund))
      = refundsOf L := by
  have h1 : ∀ e ∈ new, e.status = BalanceStatusRefund := by
    intro e he
    have : (e.userID, e.amount, e.status) ∈ entriesOf new := List.mem_map_of_mem _ he
    rw [h] at this
    simp only [refundsOf, List.mem_map] at this
    obtain ⟨x, _, hx⟩ := this
    simp only [Prod.mk.injEq] at hx
    exact hx.2.2.symm
  rw [List.filter_append]
  have h2 : new.filter (fun e => decide (e.status = BalanceStatusRefund)) = new := by
    rw [List.filter_eq_self]
    intro e he
    simp [h1 e he]
  have h3 : credits.filter (fun e => decide (e.status = BalanceStatusRefund)) = [] := by
    rw [List.filter_eq_nil_iff]
    intro e he
    simp [hc e he]
  rw [h2, h3, List.append_nil]
  exact h

theorem settleLoop_ok (product : Product) :
    ∀ (L : List TransactionHistory) (s : State),
      (forEach (settleOnOwnerRemoval product) s L).isOk = true := by
  intro L
  induction L with
  | nil => intro s; rfl
  | cons x rest ih =>
    intro s
    rw [@forEach_cons_ok _ _ s (settleOnOwnerRemoval product s x).state x rest
      (by unfold settleOnOwnerRemoval; rfl)]
    exact ih _

theorem find?_map_moved (P : TransactionHistory → Bool)
    (f : TransactionHistory → TransactionHistory) (hfid : ∀ t, (f t).id = t.id) (id : Nat)
    (l : List TransactionHistory) :
    (l.map fun t => if P t = true then f t else t).find? (fun x => decide (x.id = id))
      = (l.find? fun x => decide (x.id = id)).map fun t => if P t = true then f t else t := by
  apply find?_map_of_preserved
  intro x
  split_ifs
  · rw [hfid]
  · rfl

/-- The resolver run on one product, in a store with unique order and user keys, when the
buyers of the orders of the product that are `pending` or `waiting_owner` are live accounts
(and no balance overflows): it succeeds, each of these orders becomes `cancel`, `CANCELED`
and solved, each buyer receives `totalPrice + govtTax` for each of them, and the ledger
receives one refund entry of that amount for each of them. -/
theorem handleProductTransactionsOnDelete_effect (s : State) (product : Product)
    (hs : s.uniqueTransactions) (hu : s.uniqueUsers)
    (hlive : ∀ t ∈ s.transactions, t.productID = product.id →
      (t.status = TrxStatusPending ∨ t.status = TrxStatusWaitingOwner) →
      (s.firstUser t.userID).isSome = true ∧ t.totalPrice + t.govtTax < 2 ^ 63)
    (hsum : ∀ u ∈ s.users, u.balance + s.refundDue product.id u.id < 2 ^ 64) :
    ∃ s', handleProductTransactionsOnDelete s product = .ok s' ∧
      (∀ t ∈ s.transactions, t.productID = product.id →
        (t.status = TrxStatusPending ∨ t.status = TrxStatusWaitingOwner) →
        s'.firstTransaction t.id = some t.cancelled) ∧
      s'.users = s.users.map (fun u => u.credited (s.refundDue product.id u.id)) ∧
      s'.products = s.products ∧
      ∃ new, s'.balanceHistories = s.balanceHistories ++ new ∧
        entriesOf (new.filter fun e => decide (e.status = BalanceStatusRefund))
          = refundsOf (s.pendingTransactions product.id) := by
  obtain ⟨s1, hrun1, husers1, new1, hnew1, hent1⟩ :=
    refundLoop_effect (s.pendingTransactions product.id) s hu
      (fun x hx => (hlive x (pendingTransactions_mem hx).1 (pendingTransactions_mem hx).2.1
        (pendingTransactions_mem hx).2.2).1)
      (fun x hx => (hlive x (pendingTransactions_mem hx).1 (pendingTransactions_mem hx).2.1
        (pendingTransactions_mem hx).2.2).2)
      hsum
  have hshape1 := forEach_shape _ TransactionHistory.cancelled (pending_cancelled product.id)
    (fun _ => rfl) refundOnDelete refundOnDelete_shape.1
    (s.pendingTransactions product.id) s s1 hs rfl hrun1
  have hsel1 := refundLoop_selected s hs product.id
  rw [hrun1] at hsel1
  have hok2 := settleLoop_ok product (s1.waitingUserTransactions product.id) s1
  have hrun2 := Outcome.ok_of_isOk hok2
  have hshape2 := forEach_shape _ TransactionHistory.settled (waiting_settled product.id)
    (fun _ => rfl) (settleOnOwnerRemoval product) (settleOnOwnerRemoval_shape product).1
    (s1.waitingUserTransactions product.id) s1 _ hsel1.1 rfl hrun2
  have husers2 := forEach_invariant (fun s' => s'.users = s1.users)
    (settleOnOwnerRemoval product)
    (fun s' x hs' => (settleOnOwnerRemoval_users product s' x).trans hs')
    (s1.waitingUserTransactions product.id) s1 rfl
  have hprod1 := forEach_products refundOnDelete refundOnDelete_products
    (s.pendingTransactions product.id) s
  rw [hrun1] at hprod1
  have hprod2 := forEach_products (settleOnOwnerRemoval product)
    (settleOnOwnerRemoval_products product) (s1.waitingUserTransactions product.id) s1
  obtain ⟨credits, hcred, hall⟩ :=
    settleLoop_ledger product (s1.waitingUserTransactions product.id) s1
  refine ⟨(forEach (settleOnOwnerRemoval product) s1
    (s1.waitingUserTransactions product.id)).state, ?_, ?_, ?_, ?_, new1 ++ credits, ?_, ?_⟩
  · unfold handleProductTransactionsOnDelete
    rw [hrun1]
    exact hrun2
  · intro t ht hp hst
    unfold State.firstTransaction
    rw [hshape2, hshape1, find?_map_moved _ TransactionHistory.settled (fun _ => rfl),
      find?_map_moved _ TransactionHistory.cancelled (fun _ => rfl),
      firstTransaction_of_mem hs ht]
    rcases hst with hst | hst <;>
      simp [hp, hst, TransactionHistory.cancelled]
  · rw [husers2, husers1]
    rfl
  · rw [hprod2]
    exact hprod1
  · rw [hcred, hnew1, List.append_assoc]
  · exact filter_refund_entries hent1 hall

/-- The order table after the resolver has gone through for a product. -/
theorem handleProductTransactionsOnDelete_shape (s s' : State) (hs : s.uniqueTransactions)
    (product : Product) (h : handleProductTransactionsOnDelete s product = .ok s') :
    s'.transactions = (s.transactions.map fun t =>
        if (decide (t.productID = product.id) &&
            (decide (t.status = TrxStatusPending) ||
              decide (t.status = TrxStatusWaitingOwner))) = true
        then t.cancelled else t).map fun t =>
      if (decide (t.productID = product.id) && decide (t.status = TrxStatusWaitingUser)) = true
      then t.settled else t := by
  unfold handleProductTransactionsOnDelete at h
  cases hr : forEach refundOnDelete s (s.pendingTransactions product.id) with
  | fail e s1 => rw [hr] at h; simp at h
  | ok s1 =>
    rw [hr] at h
    simp only at h
    have hshape1 := forEach_shape _ TransactionHistory.cancelled
      (pending_cancelled product.id) (fun _ => rfl) refundOnDelete refundOnDelete_shape.1
      (s.pendingTransactions product.id) s s1 hs rfl hr
    have hsel1 := refundLoop_selected s hs product.id
    rw [hr] at hsel1
    have hshape2 := forEach_shape _ TransactionHistory.settled (waiting_settled product.id)
      (fun _ => rfl) (settleOnOwnerRemoval product) (settleOnOwnerRemoval_shape product).1
      (s1.waitingUserTransactions product.id) s1 s' hsel1.1 rfl h
    rw [hshape2, hshape1]

theorem filter_map_same (P : TransactionHistory → Bool)
    (g : TransactionHistory → TransactionHistory) :
    ∀ l : List TransactionHistory,
      (∀ t ∈ l, P (g t) = P t ∧ (P t = true → g t = t)) → (l.map g).filter P = l.filter P := by
  intro l
  induction l with
  | nil => intro _; rfl
  | cons a l ih =>
    intro h
    have ha := h a (List.mem_cons_self _ _)
    have hl := ih (fun t ht => h t (List.mem_cons_of_mem _ ht))
    by_cases hp : P a = true
    · simp only [List.map_cons, List.filter_cons, ha.1, hp, if_true, hl, ha.2 hp]
    · simp only [List.map_cons, List.filter_cons, ha.1, hp, if_false, hl]
      simp [hl]

/-- The resolver for one product leaves the orders of the other products that are `pending`
or `waiting_owner` as they are. -/
theorem handleProductTransactionsOnDelete_pending_other (s s' : State)
    (hs : s.uniqueTransactions) (product : Product)
    (h : handleProductTransactionsOnDelete s product = .ok s') (j : Nat)
    (hj : j ≠ product.id) :
    s'.pendingTransactions j = s.pendingTransactions j := by
  unfold State.pendingTransactions
  rw [handleProductTransactionsOnDelete_shape s s' hs product h]
  rw [filter_map_same, filter_map_same]
  · intro t _
    by_cases hp : t.productID = product.id
    · have : ¬ t.productID = j := fun h' => hj (h'.symm.trans hp)
      have hj' : ¬ product.id = j := fun h' => hj h'.symm
      by_cases hst : t.status = TrxStatusPending ∨ t.status = TrxStatusWaitingOwner
      · rcases hst with hst | hst <;> simp [hp, hst, hj', TransactionHistory.cancelled]
      · push_neg at hst
        simp [hp, hst.1, hst.2, hj']
    · simp [hp]
  · intro t _
    by_cases hp : t.productID = product.id
    · have : ¬ t.productID = j := fun h' => hj (h'.symm.trans hp)
      have hj' : ¬ product.id = j := fun h' => hj h'.symm
      by_cases hst : t.status = TrxStatusWaitingUser
      · simp [hp, hst, hj', TransactionHistory.settled]
      · simp [hp, hst, hj']
    · simp [hp]

theorem refundDueAll_cons (s : State) (q : Product) (rest : List Product) (uid : Nat) :
    s.refundDueAll (q :: rest) uid = s.refundDue q.id uid + s.refundDueAll rest uid := by
  simp [State.refundDueAll]

theorem pendingOn_cons (s : State) (q : Product) (rest : List Product) :
    s.pendingOn (q :: rest) = s.pendingTransactions q.id ++ s.pendingOn rest := by
  simp [State.pendingOn]

theorem refundsOf_append (l1 l2 : List TransactionHistory) :
    refundsOf (l1 ++ l2) = refundsOf l1 ++ refundsOf l2 := by
  simp [refundsOf]

theorem pendingOn_congr {s s' : State} {ps : List Product}
    (h : ∀ q ∈ ps, s'.pendingTransactions q.id = s.pendingTransactions q.id) :
    s'.pendingOn ps = s.pendingOn ps ∧ ∀ uid, s'.refundDueAll ps uid = s.refundDueAll ps uid := by
  constructor
  · unfold State.pendingOn
    congr 1
    exact List.map_congr_left h
  · intro uid
    unfold State.refundDueAll State.refundDue
    congr 1
    apply List.map_congr_left
    intro q hq
    rw [h q hq]

theorem User.credited_credited (u : User) (a b : Nat) :
    (u.credited a).credited b = u.credited (a + b) := by
  simp [User.credited, Nat.add_assoc]

theorem removeProducts_keeps_terminal (s : State) (hs : s.uniqueTransactions)
    (products : List Product) (t : TransactionHistory) (ht : t ∈ s.transactions)
    (hterm : t.terminal = true) :
    (removeProducts s products).firstTransaction t.id = some t := by
  have hm := removeProducts_moves (m := false) hs products s (forall₂_moves_refl _ _)
  have := find?_of_moves hm [] hs ht hterm
  simpa [State.firstTransaction] using this

theorem mem_pendingTransactions {s : State} {productID : Nat} {t : TransactionHistory}
    (ht : t ∈ s.transactions) (hp : t.productID = productID)
    (hst : t.status = TrxStatusPending ∨ t.status = TrxStatusWaitingOwner) :
    t ∈ s.pendingTransactions productID := by
  unfold State.pendingTransactions
  rw [List.mem_filter]
  refine ⟨ht, ?_⟩
  rcases hst with hst | hst <;> simp [hp, hst]

/-- The loop of `SuspendUser`, `BanUser` and `DeleteUser` over products with different keys,
when the buyers of all their orders that are `pending` or `waiting_owner` are live accounts:
each of these orders ends `cancel`, `CANCELED` and solved, each buyer receives
`totalPrice + govtTax` for each of them, and the ledger receives the refund entries. -/
theorem removeProducts_effect :
    ∀ (products : List Product) (s : State), s.uniqueTransactions → s.uniqueUsers →
      (products.map (·.id)).Nodup →
      (∀ q ∈ products, ∀ t ∈ s.transactions, t.productID = q.id →
        (t.status = TrxStatusPending ∨ t.status = TrxStatusWaitingOwner) →
        (s.firstUser t.userID).isSome = true ∧ t.totalPrice + t.govtTax < 2 ^ 63) →
      (∀ u ∈ s.users, u.balance + s.refundDueAll products u.id < 2 ^ 64) →
      (∀ q ∈ products, ∀ t ∈ s.transactions, t.productID = q.id →
        (t.status = TrxStatusPending ∨ t.status = TrxStatusWaitingOwner) →
        (removeProducts s products).firstTransaction t.id = some t.cancelled) ∧
      (removeProducts s products).users
        = s.users.map (fun u => u.credited (s.refundDueAll products u.id)) ∧
      ∃ new, (removeProducts s products).balanceHistories = s.balanceHistories ++ new ∧
        entriesOf (new.filter fun e => decide (e.status = BalanceStatusRefund))
          = refundsOf (s.pendingOn products) := by
  intro products
  induction products with
  | nil =>
    intro s _ _ _ _ _
    refine ⟨by simp, ?_, [], by simp [removeProducts], rfl⟩
    have : (fun u : User => u.credited (s.refundDueAll [] u.id)) = id := by
      funext u
      exact u.credited_zero
    rw [this, List.map_id]
    rfl
  | cons q rest ih =>
    intro s hs hu hnd hlive hsum
    rw [List.map_cons, List.nodup_cons] at hnd
    obtain ⟨s2, hrun, hord, husers, _, new1, hnew1, hent1⟩ :=
      handleProductTransactionsOnDelete_effect
        (s.saveProduct { q with deleted := true, visibility := ProductVisibilityOwnerAdmin })
        { q with deleted := true, visibility := ProductVisibilityOwnerAdmin } hs hu
        (hlive q (List.mem_cons_self _ _))
        (fun u hum => by
          have := hsum u hum
          rw [refundDueAll_cons] at this
          have h2 : (s.saveProduct
              { q with deleted := true, visibility := ProductVisibilityOwnerAdmin }).refundDue
              q.id u.id = s.refundDue q.id u.id := rfl
          show u.balance + _ < 2 ^ 64
          rw [h2]
          omega)
    have hs1 : (s.saveProduct
        { q with deleted := true, visibility := ProductVisibilityOwnerAdmin }
        ).uniqueTransactions := hs
    have hd := handleProductTransactionsOnDelete_done _ s2 hs1 _ hrun
    have hother : ∀ q2 ∈ rest, s2.pendingTransactions q2.id = s.pendingTransactions q2.id := by
      intro q2 hq2
      have hne : q2.id ≠ q.id := fun heq => hnd.1 (heq ▸ List.mem_map_of_mem (·.id) hq2)
      exact handleProductTransactionsOnDelete_pending_other _ s2 hs1 _ hrun q2.id hne
    have hcongr := pendingOn_congr hother
    have hu2 : s2.uniqueUsers := by
      unfold State.uniqueUsers
      rw [husers, List.map_map]
      exact hu
    have hstep : removeProducts s (q :: rest) = removeProducts s2 rest := by
      rw [removeProducts]
      simp only [hrun, Outcome.state]
    have hrest := ih s2 hd.1 hu2 hnd.2
      (by
        intro q2 hq2 t ht hp hst
        have hmem := mem_pendingTransactions ht hp hst
        rw [hother q2 hq2] at hmem
        have hm := pendingTransactions_mem hmem
        have h1 := hlive q2 (List.mem_cons_of_mem _ hq2) t hm.1 hp hst
        refine ⟨?_, h1.2⟩
        have h2 := handleProductTransactionsOnDelete_accounts
          (s.saveProduct { q with deleted := true, visibility := ProductVisibilityOwnerAdmin })
          { q with deleted := true, visibility := ProductVisibilityOwnerAdmin } t.userID
        rw [hrun] at h2
        simp only [Outcome.state] at h2
        rw [h2]
        exact h1.1)
      (by
        intro u2 hu2m
        rw [husers, List.mem_map] at hu2m
        obtain ⟨u, hum, rfl⟩ := hu2m
        have := hsum u hum
        rw [refundDueAll_cons] at this
        rw [hcongr.2]
        have h2 : (s.saveProduct
            { q with deleted := true, visibility := ProductVisibilityOwnerAdmin }).refundDue
            q.id u.id = s.refundDue q.id u.id := rfl
        simp only [User.credited, h2]
        omega)
    obtain ⟨hord2, husers2, new2, hnew2, hent2⟩ := hrest
    rw [hstep]
    refine ⟨?_, ?_, new1 ++ new2, ?_, ?_⟩
    · intro q0 hq0 t ht hp hst
      rw [List.mem_cons] at hq0
      rcases hq0 with rfl | hq0
      · have h1 := hord t ht hp hst
        have h2 := (firstTransaction_mem h1).1
        exact removeProducts_keeps_terminal s2 hd.1 rest t.cancelled h2 rfl
      · have hmem := mem_pendingTransactions ht hp hst
        rw [← hother q0 hq0] at hmem
        exact hord2 q0 hq0 t (pendingTransactions_mem hmem).1 hp hst
    · rw [husers2, husers, List.map_map]
      apply List.map_congr_left
      intro u _
      simp only [Function.comp, hcongr.2, User.credited_credited, refundDueAll_cons]
      rfl
    · rw [hnew2, hnew1, List.append_assoc]
      rfl
    · rw [List.filter_append]
      simp only [entriesOf, List.map_append] at hent1 hent2 ⊢
      rw [hent1, hent2, hcongr.1, pendingOn_cons, refundsOf_append]
      rfl

theorem settleOnProductDelete_ledger (product : Product) (s : State)
    (x : TransactionHistory) :
    ∃ new, (settleOnProductDelete product s x).state.balanceHistories
        = s.balanceHistories ++ new ∧ ∀ e ∈ new, e.status = BalanceStatusCredit := by
  unfold settleOnProductDelete
  split
  · exact ⟨[], by simp, by simp⟩
  · exact ⟨[_], rfl, by simp⟩

theorem settleLoopOnDelete_ledger (product : Product) :
    ∀ (L : List TransactionHistory) (s : State),
      ∃ new, (forEach (settleOnProductDelete product) s L).state.balanceHistories
          = s.balanceHistories ++ new ∧ ∀ e ∈ new, e.status = BalanceStatusCredit := by
  intro L
  induction L with
  | nil => intro s; exact ⟨[], by simp [forEach], by simp⟩
  | cons x rest ih =>
    intro s
    obtain ⟨n1, h1, hc1⟩ := settleOnProductDelete_ledger product s x
    cases hb : settleOnProductDelete product s x with
    | fail e s1 =>
      rw [forEach_cons_fail rest hb]
      rw [hb] at h1
      exact ⟨n1, h1, hc1⟩
    | ok s1 =>
      rw [forEach_cons_ok rest hb]
      rw [hb] at h1
      simp only [Outcome.state] at h1
      obtain ⟨n2, h2, hc2⟩ := ih s1
      refine ⟨n1 ++ n2, ?_, ?_⟩
      · rw [h2, h1, List.append_assoc]
      · intro e he
        rw [List.mem_append] at he
        rcases he with he | he
        · exact hc1 e he
        · exact hc2 e he

theorem settleOnProductDelete_others (product : Product) (s : State)
    (x : TransactionHistory) (u : User) (hu : u ∈ s.users) (hne : u.id ≠ product.userID) :
    u ∈ (settleOnProductDelete product s x).state.users := by
  unfold settleOnProductDelete
  split
  · exact hu
  · rename_i owner ho
    have hoid := (firstUser_mem ho).2.1
    simp only [Outcome.state, State.notify, State.createNotification,
      State.SendNotificationToUser, State.updateTransaction, State.createBalanceHistory,
      State.updateUserBalance, List.mem_map]
    refine ⟨u, hu, ?_⟩
    have : ¬ u.id = owner.id := by rw [hoid]; exact hne
    simp [this]

/-- The deletion of a product that goes through, in a store with unique order and user
keys. -/
theorem DeleteProductsRequest_effect (s s' : State) (hs : s.uniqueTransactions)
    (hu : s.uniqueUsers) (userID : Nat) (role : UserRole) (productID : Nat)
    (hrun : DeleteProductsRequest s userID role productID = .ok s')
    (hlive : ∀ t ∈ s.transactions, t.productID = productID →
      (t.status = TrxStatusPending ∨ t.status = TrxStatusWaitingOwner) →
      (s.firstUser t.userID).isSome = true ∧ t.totalPrice + t.govtTax < 2 ^ 63)
    (hsum : ∀ u ∈ s.users, u.balance + s.refundDue productID u.id < 2 ^ 64) :
    ∃ product, s.products.find? (fun p => decide (p.id = productID)) = some product ∧
      (∀ t ∈ s.transactions, t.productID = productID →
        (t.status = TrxStatusPending ∨ t.status = TrxStatusWaitingOwner) →
        s'.firstTransaction t.id = some t.cancelled) ∧
      (∀ u ∈ s.users, u.id ≠ product.userID →
        u.credited (s.refundDue productID u.id) ∈ s'.users) ∧
      ∃ new, s'.balanceHistories = s.balanceHistories ++ new ∧
        entriesOf (new.filter fun e => decide (e.status = BalanceStatusRefund))
          = refundsOf (s.pendingTransactions productID) := by
  unfold DeleteProductsRequest at hrun
  cases hf : s.products.find? (fun p => decide (p.id = productID)) with
  | none => rw [hf] at hrun; simp at hrun
  | some product =>
    have hpid : product.id = productID := by
      have := List.find?_some hf
      simpa using this
    subst hpid
    rw [hf] at hrun
    simp only at hrun
    split_ifs at hrun
    have hb := Transaction_ok hrun
    simp only at hb
    obtain ⟨s1, hrun1, husers1, new1, hnew1, hent1⟩ :=
      refundLoop_effect
        ((s.saveProduct
          { product with visibility := ProductVisibilityOwnerAdmin, deleted := true }
          ).pendingTransactions product.id)
        (s.saveProduct
          { product with visibility := ProductVisibilityOwnerAdmin, deleted := true }) hu
        (fun x hx => (hlive x (pendingTransactions_mem hx).1 (pendingTransactions_mem hx).2.1
          (pendingTransactions_mem hx).2.2).1)
        (fun x hx => (hlive x (pendingTransactions_mem hx).1 (pendingTransactions_mem hx).2.1
          (pendingTransactions_mem hx).2.2).2)
        hsum
    rw [hrun1] at hb
    simp only at hb
    have hs0 : (s.saveProduct
        { product with visibility := ProductVisibilityOwnerAdmin, deleted := true }
        ).uniqueTransactions := hs
    have hshape1 := forEach_shape _ TransactionHistory.cancelled
      (pending_cancelled product.id) (fun _ => rfl) refundOnDelete refundOnDelete_shape.1
      _ _ s1 hs0 rfl hrun1
    have hsel1 := refundLoop_selected _ hs0 product.id
    rw [hrun1] at hsel1
    have hshape2 := forEach_shape _ TransactionHistory.settled (waiting_settled product.id)
      (fun _ => rfl) (settleOnProductDelete
        { product with visibility := ProductVisibilityOwnerAdmin, deleted := true })
      (settleOnProductDelete_shape _).1
      (s1.waitingUserTransactions product.id) s1 s' hsel1.1 rfl hb
    have hothers := forEach_invariant
      (fun s'' => ∀ u ∈ s1.users, u.id ≠ product.userID → u ∈ s''.users)
      (settleOnProductDelete
        { product with visibility := ProductVisibilityOwnerAdmin, deleted := true })
      (fun s'' x hs'' u hum hne =>
        settleOnProductDelete_others _ s'' x u (hs'' u hum hne) hne)
      (s1.waitingUserTransactions product.id) s1 (fun u hum _ => hum)
    obtain ⟨credits, hcred, hall⟩ := settleLoopOnDelete_ledger
      { product with visibility := ProductVisibilityOwnerAdmin, deleted := true }
      (s1.waitingUserTransactions product.id) s1
    rw [hb] at hothers hcred
    simp only [Outcome.state] at hothers hcred
    refine ⟨product, rfl, ?_, ?_, new1 ++ credits, ?_, ?_⟩
    · intro t ht hp hst
      unfold State.firstTransaction
      rw [hshape2, hshape1, find?_map_moved _ TransactionHistory.settled (fun _ => rfl),
        find?_map_moved _ TransactionHistory.cancelled (fun _ => rfl)]
      have := firstTransaction_of_mem hs ht
      simp only [State.saveProduct]
      rw [this]
      rcases hst with hst | hst <;>
        simp [hp, hst, TransactionHistory.cancelled]
    · intro u hum hne
      refine hothers (u.credited (s.refundDue product.id u.id)) ?_ hne
      rw [husers1]
      exact List.mem_map_of_mem
        (fun u : User => u.credited (s.refundDue product.id u.id)) hum
    · rw [hcred, hnew1, List.append_assoc]
      rfl
    · exact filter_refund_entries hent1 hall

theorem productsOf_nodup {s : State} (h : s.uniqueProducts) (userID : Nat) :
    ((s.productsOf userID).map (·.id)).Nodup :=
  List.Nodup.sublist ((List.filter_sublist _).map _) h

/-- The account `user` is saved as `u` (same key, same balance) and its products are
removed: the orders on them that were `pending` or `waiting_owner` are force-cancelled. -/
theorem removal_effect (s : State) (user u : User) (hs : s.uniqueTransactions)
    (hu : s.uniqueUsers) (hup : s.uniqueProducts) (hmem : user ∈ s.users)
    (hid : u.id = user.id) (hbal : u.balance = user.balance)
    (href : s.refundable (s.productsOf user.id)) :
    s.forceCancelled (s.productsOf user.id)
      (removeProducts (s.saveUser u) ((s.saveUser u).productsOf u.id)) := by
  have hlist : (s.saveUser u).productsOf u.id = s.productsOf user.id := by
    rw [hid]; rfl
  rw [hlist]
  have hrow : ∀ x ∈ s.users, (if x.id = u.id then u else x).id = x.id ∧
      (if x.id = u.id then u else x).balance = x.balance := by
    intro x hx
    split_ifs with h
    · have : x = user := eq_of_uniqueUsers hu hx hmem (h.trans hid)
      subst this
      exact ⟨h.symm, hbal⟩
    · exact ⟨rfl, rfl⟩
  have hu1 : (s.saveUser u).uniqueUsers := by
    unfold State.uniqueUsers
    simp only [State.saveUser, List.map_map]
    have : s.users.map ((fun x : User => x.id) ∘ fun x => if x.id = u.id then u else x)
        = s.users.map (·.id) := by
      apply List.map_congr_left
      intro x hx
      exact (hrow x hx).1
    rw [this]
    exact hu
  obtain ⟨hord, husers, hledger⟩ := removeProducts_effect (s.productsOf user.id)
    (s.saveUser u) hs hu1 (productsOf_nodup hup user.id)
    (by
      intro q hq t ht hp hst
      obtain ⟨h1, h2, h3⟩ := href.1 q hq t ht hp hst
      refine ⟨?_, h3⟩
      rw [firstUser_saveUser_ne s u t.userID
        (by rw [hid, ← productsOf_userID s user.id q hq]; exact h2)]
      exact h1)
    (by
      intro u1 hu1m
      simp only [State.saveUser, List.mem_map] at hu1m
      obtain ⟨x, hx, rfl⟩ := hu1m
      have h1 := href.2 x hx
      have h2 := hrow x hx
      show _ + s.refundDueAll (s.productsOf user.id) _ < 2 ^ 64
      rw [h2.1, h2.2]
      exact h1)
  refine ⟨hord, ?_, hledger⟩
  intro x hx _
  have h2 := hrow x hx
  refine ⟨(if x.id = u.id then u else x).credited
    (s.refundDueAll (s.productsOf user.id) (if x.id = u.id then u else x).id), ?_, h2.1, ?_⟩
  · rw [husers]
    exact List.mem_map_of_mem
      (fun w : User => w.credited (s.refundDueAll (s.productsOf user.id) w.id))
      (List.mem_map_of_mem (fun x : User => if x.id = u.id then u else x) hx)
  · simp only [User.credited]
    rw [h2.1, h2.2]

theorem forceCancelled_congr {s s1 s2 : State} {ps : List Product}
    (ht : s2.transactions = s1.transactions) (hu : s2.users = s1.users)
    (hl : s2.balanceHistories = s1.balanceHistories) (h : s.forceCancelled ps s1) :
    s.forceCancelled ps s2 := by
  unfold State.forceCancelled State.firstTransaction at *
  rw [ht, hu, hl]
  exact h

theorem SuspendUser_effect (s : State) (target : Nat)
    (hok : (SuspendUser s target).isOk = true) (hch : (SuspendUser s target).state ≠ s)
    (hs : s.uniqueTransactions) (hu : s.uniqueUsers) (hup : s.uniqueProducts)
    (href : s.refundable (s.productsOf target)) :
    s.forceCancelled (s.productsOf target) (SuspendUser s target).state := by
  unfold SuspendUser at hok hch ⊢
  cases hf : s.firstUser target with
  | none => rw [hf] at hok; simp at hok
  | some user =>
    have hm := firstUser_mem hf
    rw [hf] at hok hch
    simp only at hok hch ⊢
    split_ifs at hok hch ⊢
    · simp at hok
    · simp at hch
    · rw [← hm.2.1] at href ⊢
      exact forceCancelled_congr rfl rfl rfl
        (removal_effect s user
          { user with status := UserStatusSuspended, banUntil := none, penaltyWarnings := 0 }
          hs hu hup hm.1 rfl rfl href)

theorem BanUser_effect (s : State) (target : Nat) (banUntil : Int)
    (hok : (BanUser s target banUntil).isOk = true)
    (hch : (BanUser s target banUntil).state ≠ s)
    (hs : s.uniqueTransactions) (hu : s.uniqueUsers) (hup : s.uniqueProducts)
    (href : s.refundable (s.productsOf target)) :
    s.forceCancelled (s.productsOf target) (BanUser s target banUntil).state := by
  unfold BanUser at hok hch ⊢
  cases hf : s.firstUser target with
  | none => rw [hf] at hok; simp at hok
  | some user =>
    have hm := firstUser_mem hf
    rw [hf] at hok hch
    simp only at hok hch ⊢
    split_ifs at hok hch ⊢
    · simp at hok
    · simp at hch
    · rw [← hm.2.1] at href ⊢
      exact forceCancelled_congr rfl rfl rfl
        (removal_effect s user
          { user with status := UserStatusBanned, banUntil := some banUntil,
                      penaltyWarnings := 0 }
          hs hu hup hm.1 rfl rfl href)

theorem DeleteUser_effect (s : State) (adminID target : Nat)
    (hok : (DeleteUser s adminID target).isOk = true)
    (hch : (DeleteUser s adminID target).state ≠ s)
    (hs : s.uniqueTransactions) (hu : s.uniqueUsers) (hup : s.uniqueProducts)
    (href : s.refundable (s.productsOf target)) :
    s.forceCancelled (s.productsOf target) (DeleteUser s adminID target).state := by
  unfold DeleteUser at hok hch ⊢
  cases hf : s.users.find? (fun u => decide (u.id = target)) with
  | none => rw [hf] at hok; simp at hok
  | some user =>
    have hm := List.mem_of_find?_eq_some hf
    have hid : user.id = target := by
      have := List.find?_some hf
      simpa using this
    rw [hf] at hok hch
    simp only at hok hch ⊢
    split_ifs at hok hch ⊢
    · simp at hch
    · simp at hok
    · rw [← hid] at href ⊢
      exact forceCancelled_congr rfl rfl rfl
        (removal_effect s user { user with deleted := true, status := UserStatusSuspended }
          hs hu hup hm rfl rfl href)

theorem filter_eq_singleton {l : List Product} (hnd : (l.map (·.id)).Nodup)
    {productID : Nat} {product : Product}
    (hf : l.find? (fun p => decide (p.id = productID)) = some product) :
    l.filter (fun p => decide (p.id = productID)) = [product] := by
  induction l with
  | nil => simp at hf
  | cons a l ih =>
    rw [List.map_cons, List.nodup_cons] at hnd
    by_cases ha : a.id = productID
    · rw [List.find?_cons_of_pos _ (by simpa using ha)] at hf
      simp only [Option.some.injEq] at hf
      subst hf
      rw [List.filter_cons_of_pos (by simpa using ha)]
      congr 1
      rw [List.filter_eq_nil_iff]
      intro x hx
      simp only [decide_eq_true_eq]
      intro hxid
      exact hnd.1 ((hxid.trans ha.symm) ▸ List.mem_map_of_mem (·.id) hx)
    · rw [List.find?_cons_of_neg _ (by simpa using ha)] at hf
      rw [List.filter_cons_of_neg (by simpa using ha)]
      exact ih hnd.2 hf

theorem DeleteProductsRequest_forceCancelled (s : State) (userID : Nat) (role : UserRole)
    (productID : Nat) (hok : (DeleteProductsRequest s userID role productID).isOk = true)
    (hs : s.uniqueTransactions) (hu : s.uniqueUsers) (hup : s.uniqueProducts)
    (href : s.refundable (s.products.filter fun p => decide (p.id = productID))) :
    s.forceCancelled (s.products.filter fun p => decide (p.id = productID))
      (DeleteProductsRequest s userID role productID).state := by
  have hrun := Outcome.ok_of_isOk hok
  obtain ⟨product, hf, _⟩ := DeleteProductsRequest_done s _ hs userID role productID hrun
  have hlist := filter_eq_singleton hup hf
  have hpid : product.id = productID := by
    have := List.find?_some hf
    simpa using this
  rw [hlist] at href ⊢
  have hdue : ∀ uid, s.refundDueAll [product] uid = s.refundDue productID uid := by
    intro uid
    simp [State.refundDueAll, hpid]
  have hpend : s.pendingOn [product] = s.pendingTransactions productID := by
    simp [State.pendingOn, hpid]
  obtain ⟨product', hf', hord, husers, hledger⟩ :=
    DeleteProductsRequest_effect s _ hs hu userID role productID hrun
      (fun t ht hp hst => by
        have := href.1 product (List.mem_singleton.mpr rfl) t ht (hp.trans hpid.symm) hst
        exact ⟨this.1, this.2.2⟩)
      (fun u hum => by
        have := href.2 u hum
        rw [hdue] at this
        exact this)
  have hsame : product' = product := by
    rw [hf] at hf'
    simpa using hf'.symm
  subst hsame
  refine ⟨?_, ?_, ?_⟩
  · intro p hp t ht hpt hst
    rw [List.mem_singleton] at hp
    subst hp
    exact hord t ht (hpt.trans hpid) hst
  · intro u hum hne
    refine ⟨_, husers u hum (hne product' (List.mem_singleton.mpr rfl)), rfl, ?_⟩
    rw [hdue]
    rfl
  · rw [hpend]
    exact hledger

/-! ### The operations that go through -/

/-- When a product is deleted, or its owner suspended, banned or deleted (the operation
goes through and takes effect), and the buyers of the orders on the products removed that
are `pending` or `waiting_owner` are live accounts, then every such order ends `cancel`,
`CANCELED` and solved, its buyer's balance is raised by `totalPrice + govtTax`, and the
ledger receives one refund entry of that amount for the buyer, whoever triggered the
operation. (Keys are unique and no balance overflows.) -/
theorem revocation_force_cancels (a : Action) (s : State) (hrev : a.revokes = true)
    (hok : (a.run s).isOk = true) (hch : (a.run s).state ≠ s)
    (hs : s.uniqueTransactions) (hu : s.uniqueUsers) (hup : s.uniqueProducts)
    (href : s.refundable (a.removed s)) :
    s.forceCancelled (a.removed s) (a.run s).state := by
  cases a with
  | confirmShipment ownerID ids => simp [Action.revokes] at hrev
  | patchProduct productID req => simp [Action.revokes] at hrev
  | balance op =>
    cases op with
    | topUp userID amount => simp [Action.revokes] at hrev
    | withdraw userID amount => simp [Action.revokes] at hrev
    | purchase cfg userID req => simp [Action.revokes] at hrev
    | confirmReceipt userID ids reviews => simp [Action.revokes] at hrev
    | cancel userID ids => simp [Action.revokes] at hrev
    | adminOverride id status => simp [Action.revokes] at hrev
    | deleteProduct userID role productID =>
      exact DeleteProductsRequest_forceCancelled s userID role productID hok hs hu hup href
    | suspendUser target => exact SuspendUser_effect s target hok hch hs hu hup href
    | banUser target banUntil =>
      exact BanUser_effect s target banUntil hok hch hs hu hup href
    | deleteUser adminID target =>
      exact DeleteUser_effect s adminID target hok hch hs hu hup href

/-- Seller 2 is banned while order 1 of Scenario A is `pending`: the order is cancelled and
buyer 1 gets the 52,500 back. -/
theorem revocation_force_cancels_at_ban :
    afterPurchase.forceCancelled
        ((Action.balance (.banUser 2 1000)).removed afterPurchase)
        ((Action.balance (.banUser 2 1000)).run afterPurchase).state ∧
    (((Action.balance (.banUser 2 1000)).run afterPurchase).state.firstUser 1).map
        (·.balance) = some 100000 :=
  ⟨revocation_force_cancels (.balance (.banUser 2 1000)) afterPurchase rfl (by decide)
    (by decide) (by unfold State.uniqueTransactions; decide) (by unfold State.uniqueUsers; decide)
    (by unfold State.uniqueProducts; decide) (by unfold State.refundable; decide),
    by decide⟩

/-! ### The claim -/

/-- C17 fails at this input: order 2 is `pending` on product 1 of seller 2, and its buyer,
user 1, has been deleted, so that the resolver cannot refund the order and returns an
error. `DeleteProductsRequest` hands that error on: the deletion of product 1 fails and the
store is as before. `BanUser` does not look at it: the ban of seller 2 succeeds, product 1
is removed, and order 2 is still `pending`, `PENDING_PROCESS` and not solved, with no refund
entry for user 1, whose balance is still 47,500. -/
theorem C17_ban_leaves_order_pending :
    ((buyerDeleted.firstTransaction 2).map (fun t => (t.productID, t.userID, t.status))
        = some (1, 1, TrxStatusPending) ∧
      (buyerDeleted.products.map fun p => (p.id, p.userID, p.deleted)) = [(1, 2, false)]) ∧
    DeleteProductsRequest buyerDeleted 2 RoleUser 1 = .fail .UserNotFound buyerDeleted ∧
    ((BanUser buyerDeleted 2 1000).isOk = true ∧
      ((BanUser buyerDeleted 2 1000).state.users.map fun u => (u.id, u.status, u.balance))
        = [(1, UserStatusSuspended, 47500), (2, UserStatusBanned, 0),
           (3, UserStatusActive, 7500)] ∧
      ((BanUser buyerDeleted 2 1000).state.products.map fun p => (p.id, p.userID, p.deleted))
        = [(1, 2, true)] ∧
      ((BanUser buyerDeleted 2 1000).state.firstTransaction 2).map
          (fun t => (t.status, t.receiptStatus, t.isSolved))
        = some (TrxStatusPending, ReceiptPendingProcess, false) ∧
      (BanUser buyerDeleted 2 1000).state.balanceHistories.filter
          (fun e => decide (e.userID = 1 ∧ e.status = BalanceStatusRefund)) = []) :=
  ⟨⟨by decide, by decide⟩, by decide, ⟨by decide, by decide, by decide, by decide, by decide⟩⟩

/-- The suspension that `CheckUserStatus` pronounces when the penalty warnings of an
account have reached the limit runs no resolver: seller 2, with two warnings and a limit of
two, is suspended on the next request, product 1 stays a live row and order 1 on it stays
`pending`, with nothing refunded to buyer 1. -/
theorem penalty_suspension_runs_no_resolver :
    (sellerWarned.firstTransaction 1).map (fun t => (t.productID, t.userID, t.status))
      = some (1, 1, TrxStatusPending) ∧
    (CheckUserStatus sellerWarned 2 0 2).isOk = false ∧
    ((CheckUserStatus sellerWarned 2 0 2).state.users.map
        fun u => (u.id, u.status, u.balance))
      = [(1, UserStatusActive, 47500), (2, UserStatusSuspended, 0)] ∧
    (CheckUserStatus sellerWarned 2 0 2).state.products = sellerWarned.products ∧
    (CheckUserStatus sellerWarned 2 0 2).state.transactions = sellerWarned.transactions ∧
    (CheckUserStatus sellerWarned 2 0 2).state.balanceHistories
      = sellerWarned.balanceHistories :=
  ⟨by decide, by decide, by decide, by decide, by decide, by decide⟩

/-! ## C14: settlement once per order -/

/-- C14 fails as stated: order 1 of Scenario B (total 50,000, e-commerce tax 1,000) is
settled by the buyer, set back to `pending` by the admin and set to `success` again by the
admin: seller 2 has been credited 49,000 twice for it and holds 98,000. -/
theorem C14_counterexample_double_credit :
    (settledTwice.transactions.map fun t => (t.id, t.status, t.totalPrice, t.ecommerceTax))
      = [(1, TrxStatusSuccess, 50000, 1000)] ∧
    (settledTwice.balanceHistories.filter (fun e => decide (e.userID = 2))).map
        (fun e => (e.amount, e.status))
      = [(49000, BalanceStatusCredit), (49000, BalanceStatusCredit)] ∧
    (settledTwice.firstUser 2).map (·.balance) = some 98000 ∧
    settledTwice.creditedTotal 2 = 98000 ∧ settledTwice.settledTotal 2 = 49000 := by
  decide

/-! ## Settlement totals: basic facts -/

theorem toInt_usub {a b : Nat} (hb : b ≤ a) (ha : a < 2 ^ 63) :
    toInt (usub a b) = (a : Int) - (b : Int) := by
  rw [usub_eq (by omega) hb, toInt_eq (by omega)]
  omega

/-- The owner of a product depends on the keys and owners of the product rows only. -/
theorem ownerOf_congr {s s' : State}
    (h : s'.products.map (fun p => (p.id, p.userID))
      = s.products.map (fun p => (p.id, p.userID))) : s'.ownerOf = s.ownerOf := by
  have key : ∀ (l : List Product) (productID : Nat),
      ((l.find? fun p => decide (p.id = productID)).map (·.userID))
        = (((l.map fun p => (p.id, p.userID)).find? fun q => decide (q.1 = productID)).map
            (·.2)) := by
    intro l productID
    induction l with
    | nil => rfl
    | cons a l ih =>
      simp only [List.map_cons, List.find?_cons]
      by_cases ha : a.id = productID
      · simp [ha]
      · simpa [ha] using ih
  funext productID
  unfold State.ownerOf
  rw [key, key, h]

theorem ownerOf_of_mem {s : State} (hs : s.uniqueProducts) {p : Product}
    (hp : p ∈ s.products) : s.ownerOf p.id = some p.userID := by
  unfold State.ownerOf
  unfold State.uniqueProducts at hs
  generalize s.products = l at hs hp
  induction l with
  | nil => simp at hp
  | cons a l ih =>
    rw [List.map_cons, List.nodup_cons] at hs
    rw [List.mem_cons] at hp
    rcases hp with rfl | hp
    · simp
    · have hne : a.id ≠ p.id := fun h => hs.1 (h ▸ List.mem_map_of_mem (·.id) hp)
      simp only [List.find?_cons, hne, decide_False]
      exact ih hs.2 hp

/-- Saving a product struct whose key and owner are those of the row keeps the keys and
owners of the product table. -/
theorem saveProduct_owners (s : State) (p : Product)
    (h : ∀ x ∈ s.products, x.id = p.id → x.userID = p.userID) :
    (s.saveProduct p).products.map (fun p => (p.id, p.userID))
      = s.products.map (fun p => (p.id, p.userID)) := by
  unfold State.saveProduct
  simp only [List.map_map]
  apply List.map_congr_left
  intro x hx
  by_cases hx2 : x.id = p.id
  · simp [hx2, h x hx hx2]
  · simp [hx2]

/-- The sum of a quantity over the order table after the row found by its key has been
updated. -/
theorem sum_map_update (F : TransactionHistory → Int) {l : List TransactionHistory}
    (hnd : (l.map (·.id)).Nodup) {x : TransactionHistory} (hx : x ∈ l)
    (f : TransactionHistory → TransactionHistory) :
    ((l.map fun t => if t.id = x.id then f t else t).map F).sum
      = (l.map F).sum - F x + F (f x) := by
  induction l with
  | nil => simp at hx
  | cons a l ih =>
    rw [List.map_cons, List.nodup_cons] at hnd
    rw [List.mem_cons] at hx
    rcases hx with rfl | hx
    · have htail : (l.map fun t => if t.id = x.id then f t else t) = l := by
        conv_rhs => rw [← List.map_id l]
        apply List.map_congr_left
        intro t ht
        have : t.id ≠ x.id := fun h => hnd.1 (h ▸ List.mem_map_of_mem (·.id) ht)
        simp [this]
      simp only [List.map_cons, if_true, List.sum_cons, htail]
      ring
    · have hne : a.id ≠ x.id := fun h => hnd.1 (h ▸ List.mem_map_of_mem (·.id) hx)
      simp only [List.map_cons, if_neg hne, List.sum_cons, ih hnd.2 hx]
      ring

theorem creditedTotal_append (s s' : State) (e : BalanceHistory)
    (h : s'.balanceHistories = s.balanceHistories ++ [e]) (u : Nat) :
    s'.creditedTotal u = s.creditedTotal u +
      (if e.userID = u ∧ e.status = BalanceStatusCredit then e.amount else 0) := by
  unfold State.creditedTotal
  rw [h, List.filter_append, List.map_append, List.sum_append]
  by_cases hc : e.userID = u ∧ e.status = BalanceStatusCredit
  · simp [List.filter_cons, hc.1, hc.2]
  · rw [if_neg hc]
    have : (decide (e.userID = u) && decide (e.status = BalanceStatusCredit)) = false := by
      simpa using hc
    simp [List.filter_cons, this]

theorem State.settledAlong_refl (s : State) : s.settledAlong s :=
  ⟨forall₂_moves_refl false s.transactions, rfl, fun _ => rfl⟩

/-- A state that differs in none of orders, products and ledger is as far along. -/
theorem State.settledAlong_congr {s0 s s' : State} (h : s0.settledAlong s)
    (ht : s'.transactions = s.transactions) (hp : s'.products = s.products)
    (hb : s'.balanceHistories = s.balanceHistories) : s0.settledAlong s' := by
  refine ⟨by rw [ht]; exact h.1, by rw [hp]; exact h.2.1, fun u => ?_⟩
  rw [← h.2.2 u]
  unfold State.creditedTotal State.settledTotal State.ownerOf
  rw [ht, hp, hb]

theorem State.settledAlong_trans {s0 s1 s2 : State} (h1 : s0.settledAlong s1)
    (h2 : s1.settledAlong s2) : s0.settledAlong s2 :=
  ⟨forall₂_moves_trans h1.1 h2.1, h2.2.1.trans h1.2.1, fun u => (h2.2.2 u).trans (h1.2.2 u)⟩

/-- Unique keys and the ranges of the order fields are kept along settlements. -/
theorem State.settleable_of_settledAlong {s0 s : State} (h0 : s0.settleable)
    (h : s0.settledAlong s) : s.settleable := by
  refine ⟨nodup_ids_of_moves h0.1 h.1, ?_, ?_⟩
  · unfold State.uniqueProducts
    have h2 := congrArg (List.map Prod.fst) h.2.1
    simp only [List.map_map] at h2
    have e : (Prod.fst ∘ fun p : Product => (p.id, p.userID)) = fun p => p.id := rfl
    rw [e] at h2
    rw [h2]
    exact h0.2.1
  · intro t ht
    obtain ⟨t0, ht0, hm⟩ := forall₂_moves_mem h.1 ht
    have hf := hm.fields
    rw [hf.2.2.2.2.1, hf.2.2.2.2.2.2]
    exact h0.2.2 t0 ht0

/-! ## Settlement totals: one order at a time -/

/-- One order moves and the credit entries grow by the change of its settled worth: the
state is as far along as before. -/
theorem State.settledAlong_step {s0 s s' : State} (h0 : s0.settleable)
    (h : s0.settledAlong s) {x : TransactionHistory} (hx : x ∈ s.transactions)
    (f : TransactionHistory → TransactionHistory) (hf : Moves false x (f x))
    (ht : s'.transactions = s.transactions.map fun t => if t.id = x.id then f t else t)
    (hp : s'.products = s.products)
    (hc : ∀ u, s'.creditedTotal u - s.creditedTotal u
      = settledAmount s.ownerOf u (f x) - settledAmount s.ownerOf u x) :
    s0.settledAlong s' := by
  refine ⟨by rw [ht]; exact moves_step h0.1 h.1 hx f hf, by rw [hp]; exact h.2.1, fun u => ?_⟩
  have hown : s'.ownerOf = s.ownerOf := ownerOf_congr (by rw [hp])
  have hsum : s'.settledTotal u = s.settledTotal u - settledAmount s.ownerOf u x
      + settledAmount s.ownerOf u (f x) := by
    unfold State.settledTotal
    rw [ht, hown]
    exact sum_map_update _ (nodup_ids_of_moves h0.1 h.1) hx f
  have h1 := hc u
  have h2 := h.2.2 u
  omega

/-- The settled worth of an order that has just been settled. -/
theorem settledAmount_settled (own : Nat → Option Nat) (u : Nat) (x : TransactionHistory)
    (hx : x.status = TrxStatusWaitingUser) (o : Nat) (ho : own x.productID = some o) :
    settledAmount own u x.settled - settledAmount own u x
      = if o = u then (x.totalPrice : Int) - (x.ecommerceTax : Int) else 0 := by
  unfold settledAmount
  simp only [TransactionHistory.settled, hx, ho, Option.some.injEq]
  by_cases hu : o = u
  · simp [hu]
  · simp [hu]

theorem settledAmount_cancelled (own : Nat → Option Nat) (u : Nat) (x : TransactionHistory)
    (hx : x.status = TrxStatusPending ∨ x.status = TrxStatusWaitingOwner) :
    settledAmount own u x.cancelled - settledAmount own u x = 0 := by
  unfold settledAmount
  rcases hx with hx | hx <;> simp [TransactionHistory.cancelled, hx]

theorem refundOnDelete_settled {s0 : State} (h0 : s0.settleable) (s : State)
    (x : TransactionHistory) (h : s0.settledAlong s)
    (hx : x.status = TrxStatusPending ∨ x.status = TrxStatusWaitingOwner)
    (hmem : x ∈ s.transactions) :
    s0.settledAlong (refundOnDelete s x).state ∧
      ∀ y ∈ s.transactions, y.id ≠ x.id → y ∈ (refundOnDelete s x).state.transactions := by
  refine ⟨?_, (refundOnDelete_moves (m := false) h0.1 s x h.1 hx hmem).2⟩
  unfold refundOnDelete
  split
  · exact h
  · rename_i buyer _
    refine State.settledAlong_step h0 h hmem TransactionHistory.cancelled (.cancel x hx)
      rfl rfl (fun u => ?_)
    rw [settledAmount_cancelled _ _ _ hx]
    rw [creditedTotal_append s _
      { id := s.balanceHistories.length + 1, userID := buyer.id,
        amount := toInt (uadd x.totalPrice x.govtTax),
        lastBalance := uadd buyer.balance (uadd x.totalPrice x.govtTax),
        finalBalance := uadd buyer.balance (uadd x.totalPrice x.govtTax),
        status := BalanceStatusRefund } (by simp) u]
    simp

theorem settleOnOwnerRemoval_settled {s0 : State} (h0 : s0.settleable) (product : Product)
    (s : State) (x : TransactionHistory) (h : s0.settledAlong s)
    (ho : s0.ownerOf product.id = some product.userID)
    (hx : x.status = TrxStatusWaitingUser ∧ x.productID = product.id)
    (hmem : x ∈ s.transactions) :
    s0.settledAlong (settleOnOwnerRemoval product s x).state ∧
      ∀ y ∈ s.transactions, y.id ≠ x.id →
        y ∈ (settleOnOwnerRemoval product s x).state.transactions := by
  refine ⟨?_, (settleOnOwnerRemoval_moves (m := false) h0.1 product s x h.1 hx.1 hmem).2⟩
  have hr := (State.settleable_of_settledAlong h0 h).2.2 x hmem
  have hown : s.ownerOf x.productID = some product.userID := by
    rw [ownerOf_congr h.2.1, hx.2]; exact ho
  unfold settleOnOwnerRemoval
  refine State.settledAlong_step h0 h hmem TransactionHistory.settled (.settle x hx.1)
    rfl rfl (fun u => ?_)
  rw [settledAmount_settled _ _ _ hx.1 _ hown]
  rw [creditedTotal_append s _
    { id := s.balanceHistories.length + 1, userID := product.userID,
      amount := toInt (usub x.totalPrice x.ecommerceTax), lastBalance := 0,
      finalBalance := 0, status := BalanceStatusCredit } (by simp) u]
  simp [toInt_usub hr.1 hr.2]

theorem settleOnProductDelete_settled {s0 : State} (h0 : s0.settleable) (product : Product)
    (s : State) (x : TransactionHistory) (h : s0.settledAlong s)
    (ho : s0.ownerOf product.id = some product.userID)
    (hx : x.status = TrxStatusWaitingUser ∧ x.productID = product.id)
    (hmem : x ∈ s.transactions) :
    s0.settledAlong (settleOnProductDelete product s x).state ∧
      ∀ y ∈ s.transactions, y.id ≠ x.id →
        y ∈ (settleOnProductDelete product s x).state.transactions := by
  refine ⟨?_, (settleOnProductDelete_moves (m := false) h0.1 product s x h.1 hx.1 hmem).2⟩
  have hr := (State.settleable_of_settledAlong h0 h).2.2 x hmem
  have hown : s.ownerOf x.productID = some product.userID := by
    rw [ownerOf_congr h.2.1, hx.2]; exact ho
  unfold settleOnProductDelete
  split
  · exact h
  · rename_i owner howner
    have hid : owner.id = product.userID := by
      have := List.find?_some howner
      simp only [Bool.and_eq_true, decide_eq_true_eq] at this
      exact this.1
    refine State.settledAlong_step h0 h hmem TransactionHistory.settled (.settle x hx.1)
      rfl rfl (fun u => ?_)
    rw [settledAmount_settled _ _ _ hx.1 _ hown]
    rw [creditedTotal_append s _
      { id := s.balanceHistories.length + 1, userID := owner.id,
        amount := toInt (usub x.totalPrice x.ecommerceTax),
        lastBalance := uadd owner.balance (usub x.totalPrice x.ecommerceTax),
        finalBalance := uadd owner.balance (usub x.totalPrice x.ecommerceTax),
        status := BalanceStatusCredit } (by simp) u]
    simp [toInt_usub hr.1 hr.2, hid]

/-! ## Settlement totals: the handlers -/

/-- A state with the same orders and ledger whose products have kept keys and owners is as
far along. -/
theorem State.settledAlong_products {s0 s s' : State} (h : s0.settledAlong s)
    (ht : s'.transactions = s.transactions)
    (hp : s'.products.map (fun p => (p.id, p.userID))
      = s.products.map (fun p => (p.id, p.userID)))
    (hb : s'.balanceHistories = s.balanceHistories) : s0.settledAlong s' := by
  refine ⟨by rw [ht]; exact h.1, hp.trans h.2.1, fun u => ?_⟩
  rw [← h.2.2 u]
  unfold State.creditedTotal State.settledTotal
  rw [ht, hb, ownerOf_congr hp]

theorem saveProduct_settled {s0 s : State} (h0 : s0.settleable) (h : s0.settledAlong s)
    (p : Product) (ho : s0.ownerOf p.id = some p.userID) :
    s0.settledAlong (s.saveProduct p) := by
  refine State.settledAlong_products h rfl (saveProduct_owners s p ?_) rfl
  intro x hx hid
  have hmem : (x.id, x.userID) ∈ s0.products.map (fun p => (p.id, p.userID)) := by
    rw [← h.2.1]
    exact List.mem_map_of_mem (fun p => (p.id, p.userID)) hx
  obtain ⟨x0, hx0, he⟩ := List.mem_map.1 hmem
  simp only [Prod.mk.injEq] at he
  have h1 := ownerOf_of_mem h0.2.1 hx0
  rw [he.1, hid, ho, he.2] at h1
  exact (Option.some.inj h1).symm

theorem confirmByUserItem_settled {s0 : State} (h0 : s0.settleable) (userID : Nat)
    (reviews : List ReviewItem) (s : State) (x : Nat) (h : s0.settledAlong s) :
    s0.settledAlong (confirmByUserItem userID reviews s x).state := by
  have hs := State.settleable_of_settledAlong h0 h
  unfold confirmByUserItem
  split
  · exact h
  · rename_i trx htrx
    split_ifs with h1
    · exact h
    · split
      · exact h
      · rename_i product hproduct
        split
        · exact h
        · rename_i owner howner
          have hst : trx.status = TrxStatusWaitingUser := by simpa using h1
          have hmem : trx ∈ s.transactions := List.mem_of_find?_eq_some htrx
          have hr := hs.2.2 trx hmem
          have hpid : product.id = trx.productID := by
            have := List.find?_some hproduct
            simp only [Bool.and_eq_true, decide_eq_true_eq] at this
            exact this.1
          have hown : s.ownerOf trx.productID = some product.userID := by
            rw [← hpid]
            exact ownerOf_of_mem hs.2.1 (List.mem_of_find?_eq_some hproduct)
          have hid : owner.id = product.userID := by
            have := List.find?_some howner
            simp only [Bool.and_eq_true, decide_eq_true_eq] at this
            exact this.1
          have step : s0.settledAlong
              (((s.createBalanceHistory owner.id
                (toInt (usub trx.totalPrice trx.ecommerceTax)) owner.balance
                (uadd owner.balance (usub trx.totalPrice trx.ecommerceTax))
                BalanceStatusCredit).updateUserBalance owner.id
                (uadd owner.balance (usub trx.totalPrice trx.ecommerceTax))).updateTransaction
                trx.id TransactionHistory.settled) := by
            refine State.settledAlong_step h0 h hmem TransactionHistory.settled
              (.settle trx hst) rfl rfl (fun u => ?_)
            rw [settledAmount_settled _ _ _ hst _ hown]
            rw [creditedTotal_append s _
              { id := s.balanceHistories.length + 1, userID := owner.id,
                amount := toInt (usub trx.totalPrice trx.ecommerceTax),
                lastBalance := owner.balance,
                finalBalance := uadd owner.balance (usub trx.totalPrice trx.ecommerceTax),
                status := BalanceStatusCredit } (by simp) u]
            simp [toInt_usub hr.1 hr.2, hid]
          exact State.settledAlong_congr step (createReviews_frame _ _ _ _ _).2.2.1
            (createReviews_frame _ _ _ _ _).2.1 (createReviews_frame _ _ _ _ _).2.2.2.1

theorem ConfirmTransactionByUser_settled (s : State) (h0 : s.settleable) (userID : Nat)
    (ids : List Nat) (reviews : List ReviewItem) :
    s.settledAlong (ConfirmTransactionByUser s userID ids reviews).state := by
  unfold ConfirmTransactionByUser
  split_ifs
  · exact s.settledAlong_refl
  · exact Transaction_invariant (fun s' => s.settledAlong s') s _
      (fun l => State.settledAlong_congr s.settledAlong_refl rfl rfl rfl)
      (forEach_invariant _ _
        (fun s' x hs' => confirmByUserItem_settled h0 userID reviews s' x hs') ids s
        s.settledAlong_refl)

theorem refundLoop_settled {s0 : State} (h0 : s0.settleable) (s : State) (productID : Nat)
    (h : s0.settledAlong s) :
    s0.settledAlong (forEach refundOnDelete s (s.pendingTransactions productID)).state := by
  apply forEach_fresh (fun s' => s0.settledAlong s')
    (fun x => x.status = TrxStatusPending ∨ x.status = TrxStatusWaitingOwner)
    refundOnDelete
    (fun s' x hs' hq hm => refundOnDelete_settled h0 s' x hs' hq hm)
    _ s (pendingTransactions_nodup (nodup_ids_of_moves h0.1 h.1) productID)
    (fun x hx => ⟨(pendingTransactions_mem hx).1, (pendingTransactions_mem hx).2.2⟩) h

theorem handleProductTransactionsOnDelete_settled {s0 : State} (h0 : s0.settleable)
    (s : State) (product : Product) (h : s0.settledAlong s)
    (ho : s0.ownerOf product.id = some product.userID) :
    s0.settledAlong (handleProductTransactionsOnDelete s product).state := by
  unfold handleProductTransactionsOnDelete
  have h1 := refundLoop_settled h0 s product.id h
  split
  · rename_i e s' heq
    rw [heq] at h1
    exact h1
  · rename_i s' heq
    rw [heq] at h1
    exact forEach_fresh (fun s' => s0.settledAlong s')
      (fun x => x.status = TrxStatusWaitingUser ∧ x.productID = product.id)
      (settleOnOwnerRemoval product)
      (fun s'' x hs'' hq hm => settleOnOwnerRemoval_settled h0 product s'' x hs'' ho hq hm)
      _ s' (waitingUserTransactions_nodup (nodup_ids_of_moves h0.1 h1.1) product.id)
      (fun x hx => ⟨(waitingUserTransactions_mem hx).1, (waitingUserTransactions_mem hx).2.2,
        (waitingUserTransactions_mem hx).2.1⟩)
      h1

theorem removeProducts_settled {s0 : State} (h0 : s0.settleable) (products : List Product)
    (hps : ∀ p ∈ products, p ∈ s0.products) :
    ∀ s : State, s0.settledAlong s → s0.settledAlong (removeProducts s products) := by
  induction products with
  | nil => intro s h; exact h
  | cons p ps ih =>
    intro s h
    unfold removeProducts
    have ho : s0.ownerOf p.id = some p.userID :=
      ownerOf_of_mem h0.2.1 (hps p (List.mem_cons_self _ _))
    apply ih (fun q hq => hps q (List.mem_cons_of_mem _ hq))
    exact handleProductTransactionsOnDelete_settled h0 _
      { p with deleted := true, visibility := ProductVisibilityOwnerAdmin }
      (saveProduct_settled h0 h
        { p with deleted := true, visibility := ProductVisibilityOwnerAdmin } ho) ho

theorem DeleteProductsRequest_settled (s : State) (h0 : s.settleable) (userID : Nat)
    (role : UserRole) (productID : Nat) :
    s.settledAlong (DeleteProductsRequest s userID role productID).state := by
  have hr := s.settledAlong_refl
  unfold DeleteProductsRequest
  split
  · exact hr
  · rename_i product hproduct
    split_ifs
    · exact hr
    · exact hr
    · exact hr
    · have ho : s.ownerOf product.id = some product.userID :=
        ownerOf_of_mem h0.2.1 (List.mem_of_find?_eq_some hproduct)
      apply Transaction_invariant (fun s' => s.settledAlong s') s _
        (fun l => State.settledAlong_congr hr rfl rfl rfl)
      have hsave := saveProduct_settled h0 hr
        { product with visibility := ProductVisibilityOwnerAdmin, deleted := true } ho
      have h1 := refundLoop_settled h0 _ product.id hsave
      simp only
      split
      · rename_i e s' heq
        rw [heq] at h1
        exact h1
      · rename_i s' heq
        rw [heq] at h1
        exact forEach_fresh (fun s' => s.settledAlong s')
          (fun x => x.status = TrxStatusWaitingUser ∧ x.productID = product.id)
          (settleOnProductDelete
            { product with visibility := ProductVisibilityOwnerAdmin, deleted := true })
          (fun s'' x hs'' hq hm => settleOnProductDelete_settled h0
            { product with visibility := ProductVisibilityOwnerAdmin, deleted := true }
            s'' x hs'' ho hq hm)
          _ s' (waitingUserTransactions_nodup (nodup_ids_of_moves h0.1 h1.1) product.id)
          (fun x hx => ⟨(waitingUserTransactions_mem hx).1,
            (waitingUserTransactions_mem hx).2.2, (waitingUserTransactions_mem hx).2.1⟩)
          h1

/-- The common part of `SuspendUser`, `BanUser` and `DeleteUser`: the account row is saved
and the products of the account are removed. -/
theorem removal_settled (s : State) (h0 : s.settleable) (user : User) :
    s.settledAlong (removeProducts (s.saveUser user) ((s.saveUser user).productsOf user.id)) :=
  removeProducts_settled h0 _ (fun _ hp => (List.mem_filter.1 hp).1) _
    (State.settledAlong_congr s.settledAlong_refl rfl rfl rfl)

theorem SuspendUser_settled (s : State) (h0 : s.settleable) (target : Nat) :
    s.settledAlong (SuspendUser s target).state := by
  have hr := s.settledAlong_refl
  unfold SuspendUser
  split
  · exact hr
  · split_ifs
    · exact hr
    · exact hr
    · apply Transaction_invariant (fun s' => s.settledAlong s') s _
        (fun l => State.settledAlong_congr hr rfl rfl rfl)
      exact State.settledAlong_congr (removal_settled s h0 _) rfl rfl rfl

theorem BanUser_settled (s : State) (h0 : s.settleable) (target : Nat) (banUntil : Int) :
    s.settledAlong (BanUser s target banUntil).state := by
  have hr := s.settledAlong_refl
  unfold BanUser
  split
  · exact hr
  · split_ifs
    · exact hr
    · exact hr
    · apply Transaction_invariant (fun s' => s.settledAlong s') s _
        (fun l => State.settledAlong_congr hr rfl rfl rfl)
      exact State.settledAlong_congr (removal_settled s h0 _) rfl rfl rfl

theorem DeleteUser_settled (s : State) (h0 : s.settleable) (adminID target : Nat) :
    s.settledAlong (DeleteUser s adminID target).state := by
  have hr := s.settledAlong_refl
  unfold DeleteUser
  split
  · exact hr
  · split_ifs
    · exact hr
    · exact hr
    · apply Transaction_invariant (fun s' => s.settledAlong s') s _
        (fun l => State.settledAlong_congr hr rfl rfl rfl)
      exact removal_settled s h0 _

/-- Every action that settles without override leaves the state as far along. -/
theorem Action.run_settled (a : Action) (s : State) (ha : a.settles = true)
    (h0 : s.settleable) : s.settledAlong (a.run s).state := by
  cases a with
  | balance op =>
    cases op with
    | confirmReceipt userID ids reviews => exact ConfirmTransactionByUser_settled s h0 _ _ _
    | deleteProduct userID role productID => exact DeleteProductsRequest_settled s h0 _ _ _
    | suspendUser target => exact SuspendUser_settled s h0 _
    | banUser target banUntil => exact BanUser_settled s h0 _ _
    | deleteUser adminID target => exact DeleteUser_settled s h0 _ _
    | topUp _ _ => simp [Action.settles] at ha
    | withdraw _ _ => simp [Action.settles] at ha
    | purchase _ _ _ => simp [Action.settles] at ha
    | cancel _ _ => simp [Action.settles] at ha
    | adminOverride _ _ => simp [Action.settles] at ha
  | confirmShipment _ _ => simp [Action.settles] at ha
  | patchProduct _ _ => simp [Action.settles] at ha

theorem runAll_settled (ops : List Action) :
    ∀ s : State, (∀ a ∈ ops, a.settles = true) → s.settleable →
      s.settledAlong (runAll ops s) := by
  induction ops with
  | nil => intro s _ _; exact s.settledAlong_refl
  | cons a rest ih =>
    intro s hops h0
    have h1 := a.run_settled s (hops a (List.mem_cons_self _ _)) h0
    unfold runAll
    exact State.settledAlong_trans h1
      (ih _ (fun b hb => hops b (List.mem_cons_of_mem _ hb))
        (State.settleable_of_settledAlong h0 h1))

/-- C14 (as amended): over every sequence of confirmations of receipt, product deletions,
suspensions, bans and account deletions (no admin override), in a store with unique order
and product keys and `ecommerceTax ≤ totalPrice < 2^63` on every order, the credit entries
written to the ledger of a seller amount to the sum of `totalPrice - ecommerceTax` over the
orders on that seller's products that have reached `success` during the sequence: an order
that was `success` before is read back unchanged afterwards and is not paid again, and every
product keeps its owner. -/
theorem C14_settled_once (ops : List Action) (s : State) (u : Nat)
    (hops : ∀ a ∈ ops, a.settles = true) (hs : s.settleable) :
    (runAll ops s).creditedTotal u - s.creditedTotal u
        = (runAll ops s).settledTotal u - s.settledTotal u ∧
      (∀ t ∈ s.transactions, t.status = TrxStatusSuccess →
        (runAll ops s).firstTransaction t.id = some t) ∧
      (runAll ops s).ownerOf = s.ownerOf := by
  have h := runAll_settled ops s hops hs
  refine ⟨?_, fun t ht hst => ?_, ownerOf_congr h.2.1⟩
  · have := h.2.2 u
    omega
  · have hf := find?_of_moves h.1 [] hs.1 ht (by simp [TransactionHistory.terminal, hst])
    rw [List.append_nil] at hf
    exact hf

/-- Witness of C14: from Scenario B after the shipment, buyer 1 confirms the receipt of
order 1, then seller 2 is banned and product 1 deleted by the admin: seller 2 is credited
49,000 for the order, once. -/
theorem C14_settled_once_witness :
    afterShipment.settleable ∧
    (runAll [.balance (.confirmReceipt 1 [1] []), .balance (.banUser 2 1000),
        .balance (.deleteProduct 9 RoleAdmin 1)] afterShipment).creditedTotal 2
      - afterShipment.creditedTotal 2 = 49000 ∧
    ((runAll [.balance (.confirmReceipt 1 [1] []), .balance (.banUser 2 1000),
        .balance (.deleteProduct 9 RoleAdmin 1)] afterShipment).creditedTotal 2
        - afterShipment.creditedTotal 2
      = (runAll [.balance (.confirmReceipt 1 [1] []), .balance (.banUser 2 1000),
          .balance (.deleteProduct 9 RoleAdmin 1)] afterShipment).settledTotal 2
        - afterShipment.settledTotal 2 ∧
      (∀ t ∈ afterShipment.transactions, t.status = TrxStatusSuccess →
        (runAll [.balance (.confirmReceipt 1 [1] []), .balance (.banUser 2 1000),
          .balance (.deleteProduct 9 RoleAdmin 1)] afterShipment).firstTransaction t.id
          = some t) ∧
      (runAll [.balance (.confirmReceipt 1 [1] []), .balance (.banUser 2 1000),
        .balance (.deleteProduct 9 RoleAdmin 1)] afterShipment).ownerOf
        = afterShipment.ownerOf) :=
  ⟨by unfold State.settleable State.uniqueTransactions State.uniqueProducts; decide,
    by decide,
    C14_settled_once _ afterShipment 2 (by decide)
      (by unfold State.settleable State.uniqueTransactions State.uniqueProducts; decide)⟩

/-! ## Rows found again after a write -/

/-- The live row found by its key after every row with that key has been replaced by a live
row `p`. -/
theorem firstProduct_replace {l : List Product} (p : Product) (hd : p.deleted = false)
    (h : ∃ x ∈ l, x.id = p.id) :
    (l.map fun x => if x.id = p.id then p else x).find?
      (fun x => decide (x.id = p.id) && !x.deleted) = some p := by
  induction l with
  | nil => simp at h
  | cons a l ih =>
    by_cases ha : a.id = p.id
    · simp [List.find?_cons, ha, hd]
    · have h' : ∃ x ∈ l, x.id = p.id := by
        obtain ⟨x, hx, hxi⟩ := h
        rw [List.mem_cons] at hx
        rcases hx with rfl | hx
        · exact absurd hxi ha
        · exact ⟨x, hx, hxi⟩
      rw [List.map_cons, if_neg ha, List.find?_cons_of_neg _ (by simp [ha])]
      exact ih h'

/-- A round of the loop of `ConfirmTransactionByUser` that goes through leaves the order
found for a key not `waiting_users` when it was not. -/
theorem confirmByUserItem_keeps_found (userID : Nat) (reviews : List ReviewItem) (i : Nat)
    (s s' : State) (x : Nat) (h : confirmByUserItem userID reviews s x = .ok s')
    (hq : ∀ t, (s.transactions.find? fun t => decide (t.id = i) && decide (t.userID = userID))
      = some t → t.status ≠ TrxStatusWaitingUser) :
    ∀ t, (s'.transactions.find? fun t => decide (t.id = i) && decide (t.userID = userID))
      = some t → t.status ≠ TrxStatusWaitingUser := by
  unfold confirmByUserItem at h
  split at h
  · simp at h
  · rename_i trx htrx
    split_ifs at h with h1
    split at h
    · simp at h
    · split at h
      · simp at h
      · rename_i product _ owner _
        simp only [Outcome.ok.injEq] at h
        subst h
        intro t hfind
        simp only [State.notify, State.createNotification,
          State.SendNotificationToUser] at hfind
        rw [(createReviews_frame _ _ _ _ _).2.2.1] at hfind
        simp only [State.updateTransaction, State.updateUserBalance,
          State.createBalanceHistory] at hfind
        rw [find?_map_of_preserved] at hfind
        · cases hf : s.transactions.find?
              fun t => decide (t.id = i) && decide (t.userID = userID) with
          | none => rw [hf] at hfind; simp at hfind
          | some t0 =>
            rw [hf] at hfind
            simp only [Option.map_some', Option.some.injEq] at hfind
            rw [← hfind]
            split_ifs
            · simp
            · exact hq t0 hf
        · intro t
          split_ifs <;> rfl

/-! ## C21: products of a user who becomes active again -/

/-- C21 fails at this input: seller 2 of Scenario A is banned until the instant 1,000, which
soft-deletes and hides product 1. When the ban has run out, the status middleware (at the
instant 2,000, penalty limit 3) and the login both make the account active again and leave
product 1 soft-deleted and hidden, and the admin unban then answers that the account is
already active and restores nothing; the admin unban of the banned account restores the
product. -/
theorem C21_expired_ban_keeps_products_hidden :
    (sellerBannedA.users.map fun u => (u.id, u.status))
      = [(1, UserStatusActive), (2, UserStatusBanned)] ∧
    (sellerBannedA.products.map fun p => (p.id, p.userID, p.deleted, p.visibility))
      = [(1, 2, true, ProductVisibilityOwnerAdmin)] ∧
    (CheckUserStatus sellerBannedA 2 2000 3).isOk = true ∧
    ((CheckUserStatus sellerBannedA 2 2000 3).state.users.map fun u => (u.id, u.status))
      = [(1, UserStatusActive), (2, UserStatusActive)] ∧
    ((CheckUserStatus sellerBannedA 2 2000 3).state.products.map
        fun p => (p.id, p.userID, p.deleted, p.visibility))
      = [(1, 2, true, ProductVisibilityOwnerAdmin)] ∧
    (PostLoginRequest sellerBannedA (fun u => decide (u.id = 2)) true 2000).isOk = true ∧
    ((PostLoginRequest sellerBannedA (fun u => decide (u.id = 2)) true 2000).state.users.map
        fun u => (u.id, u.status))
      = [(1, UserStatusActive), (2, UserStatusActive)] ∧
    ((PostLoginRequest sellerBannedA (fun u => decide (u.id = 2)) true 2000).state.products.map
        fun p => (p.id, p.userID, p.deleted, p.visibility))
      = [(1, 2, true, ProductVisibilityOwnerAdmin)] ∧
    ((UnbanUser (CheckUserStatus sellerBannedA 2 2000 3).state 2).state.products.map
        fun p => (p.id, p.userID, p.deleted, p.visibility))
      = [(1, 2, true, ProductVisibilityOwnerAdmin)] ∧
    ((UnbanUser sellerBannedA 2).state.products.map
        fun p => (p.id, p.userID, p.deleted, p.visibility))
      = [(1, 2, false, ProductVisibilityAll)] :=
  ⟨by decide, by decide, by decide, by decide, by decide, by decide, by decide, by decide,
    by decide, by decide⟩

/-! ## C22: a product without stock is not visible to all -/

/-- C22 fails as stated: product 1 of seller 2 is sold out and hidden (stock 0,
`owner_admin`). The admin patch with `visibility: all` makes it visible to all with stock 0;
and when seller 2 is banned and then unbanned, the unban restores the product with
visibility `all` and stock 0. -/
theorem C22_counterexample_patch_and_unban :
    (soldOutHidden.products.map fun p => (p.id, p.stock, p.visibility, p.deleted))
      = [(1, 0, ProductVisibilityOwnerAdmin, false)] ∧
    (PatchProductAdmin soldOutHidden 1 ⟨0, 0, some ProductVisibilityAll, false⟩).isOk = true ∧
    ((PatchProductAdmin soldOutHidden 1 ⟨0, 0, some ProductVisibilityAll, false⟩).state.products.map
        fun p => (p.id, p.stock, p.visibility, p.deleted))
      = [(1, 0, ProductVisibilityAll, false)] ∧
    ((BanUser soldOutHidden 2 1000).state.products.map
        fun p => (p.id, p.stock, p.visibility, p.deleted))
      = [(1, 0, ProductVisibilityOwnerAdmin, true)] ∧
    (UnbanUser (BanUser soldOutHidden 2 1000).state 2).isOk = true ∧
    ((UnbanUser (BanUser soldOutHidden 2 1000).state 2).state.products.map
        fun p => (p.id, p.stock, p.visibility, p.deleted))
      = [(1, 0, ProductVisibilityAll, false)] :=
  ⟨by decide, by decide, by decide, by decide, by decide, by decide⟩

theorem zeroStockHidden_congr {s s' : State} (h : s'.products = s.products)
    (hs : s.zeroStockHidden) : s'.zeroStockHidden := by
  unfold State.zeroStockHidden
  rw [h]
  exact hs

theorem zeroStockHidden_map {s s' : State} (g : Product → Product)
    (h : s'.products = s.products.map g)
    (hg : ∀ p ∈ s.products, p.hiddenIfEmpty = true → (g p).hiddenIfEmpty = true)
    (hs : s.zeroStockHidden) : s'.zeroStockHidden := by
  intro p hp
  rw [h, List.mem_map] at hp
  obtain ⟨q, hq, rfl⟩ := hp
  exact hg q hq (hs q hq)

theorem hiddenIfEmpty_iff (p : Product) :
    p.hiddenIfEmpty = true ↔ (p.stock = 0 → p.visibility ≠ ProductVisibilityAll) := by
  unfold Product.hiddenIfEmpty
  rw [decide_eq_true_iff]

theorem PostProductsRequest_hidden (s : State) (userID price stock : Nat)
    (visibility : Option ProductVisibility) (imagesOk : Bool) (hs : s.zeroStockHidden) :
    (PostProductsRequest s userID price stock visibility imagesOk).state.zeroStockHidden := by
  unfold PostProductsRequest
  by_cases h1 : price < 1000 ∨ 100000000 < price ∨ stock = 0 ∨ 10000 < stock ∨
      visibility = some ProductVisibilityAdminOnly
  · rw [if_pos h1]
    exact hs
  · rw [if_neg h1]
    have hnew : (s.createProduct
        ⟨0, userID, price, stock, visibility.getD ProductVisibilityAll, false⟩).zeroStockHidden := by
      intro p hp
      simp only [State.createProduct, List.mem_append, List.mem_singleton] at hp
      rcases hp with hp | rfl
      · exact hs p hp
      · rw [hiddenIfEmpty_iff]
        intro h0
        exact absurd h0 (by simp only; omega)
    dsimp only
    split_ifs <;> first
      | exact hs
      | exact Transaction_invariant (fun s' => s'.zeroStockHidden) s _
          (fun l => zeroStockHidden_congr rfl hs) hnew

theorem PatchProductVisibility_hidden (s : State) (userID : Nat) (role : UserRole)
    (productID : Nat) (hu : s.uniqueProducts) (hs : s.zeroStockHidden) :
    (PatchProductVisibility s userID role productID).state.zeroStockHidden := by
  unfold PatchProductVisibility
  split
  · exact hs
  · rename_i product hproduct
    have hpm := firstProduct_mem hproduct
    split_ifs with h1 h2 h3 h4
    · exact hs
    · refine zeroStockHidden_map _ rfl ?_ hs
      intro p _ hp
      split_ifs
      · rw [hiddenIfEmpty_iff]; intro _; simp
      · exact hp
    · exact hs
    · refine zeroStockHidden_map _ rfl ?_ hs
      intro p hpmem hp
      split_ifs with hc
      · have : p = product := eq_of_uniqueProducts hu hpmem hpm.1 hc.1
        rw [hiddenIfEmpty_iff]
        intro h0
        rw [this] at h0
        exact absurd h0 h4
      · exact hp
    · exact hs

theorem guarded_hidden (c1 c2 c3 : Prop) [Decidable c1] [Decidable c2] [Decidable c3]
    (imagesOk : Bool) (e1 e2 e3 e4 : Err) (s S : State) (hs : s.zeroStockHidden)
    (hS : ¬ c1 → ¬ c2 → ¬ c3 → S.zeroStockHidden) :
    (if c1 then Outcome.fail e1 s
      else if c2 then Outcome.fail e2 s
      else if c3 then Outcome.fail e3 s
      else if imagesOk = true then Outcome.ok S else Outcome.fail e4 S).state.zeroStockHidden := by
  split_ifs with h1 h2 h3 h4
  · exact hs
  · exact hs
  · exact hs
  · exact hS h1 h2 h3
  · exact hS h1 h2 h3

theorem PutProductsRequest_hidden (s : State) (userID productID : Nat)
    (req : RequestPutProduct) (imagesOk : Bool) (hu : s.uniqueProducts)
    (hs : s.zeroStockHidden) :
    (PutProductsRequest s userID productID req imagesOk).state.zeroStockHidden := by
  unfold PutProductsRequest
  by_cases hb : (req.price ≠ 0 ∧ (req.price < 1000 ∨ 100000000 < req.price)) ∨
      10000 < req.stock ∨ req.visibility = some ProductVisibilityAdminOnly
  · rw [if_pos hb]
    exact hs
  · rw [if_neg hb]
    apply Transaction_invariant (fun s' => s'.zeroStockHidden) s _
      (fun l => zeroStockHidden_congr rfl hs)
    dsimp only
    cases hfind : s.products.find? fun p =>
        decide (p.id = productID) && decide (p.userID = userID) && !p.deleted with
    | none => exact hs
    | some product =>
      have hmem := List.mem_of_find?_eq_some hfind
      have key : ∀ (price stock : Option Nat) (visibility : Option ProductVisibility),
          (visibility = some ProductVisibilityAll →
            stock.getD product.stock ≠ 0) →
          (visibility = none → stock.getD product.stock = 0 → product.stock = 0) →
          (s.updatesProduct product.id price stock visibility).zeroStockHidden := by
        intro price stock visibility hv1 hv2
        refine zeroStockHidden_map _ rfl ?_ hs
        intro p hpmem hp
        split_ifs with hc
        · have hpe : p = product := eq_of_uniqueProducts hu hpmem hmem hc.1
          subst hpe
          rw [hiddenIfEmpty_iff] at hp ⊢
          simp only [Product.patched]
          intro h0
          cases visibility with
          | none => simpa using hp (hv2 rfl h0)
          | some v =>
            simp only [Option.getD_some]
            intro hv
            exact hv1 (by rw [hv]) h0
        · exact hp
      dsimp only
      refine guarded_hidden _ _ _ imagesOk _ _ _ _ s _ hs ?_
      intro c1 c2 c3
      apply key
      · intro hall
        by_cases hst : req.stock = 0
        · cases hv : req.visibility with
          | none => simp [hst, hv] at hall
          | some v =>
            simp only [hst, hv, ne_eq, not_true_eq_false, if_false, reduceCtorEq,
              not_false_eq_true, if_true, Option.some.injEq] at hall
            simp only [hst, ne_eq, not_true_eq_false, if_false, Option.getD_none]
            intro h0
            exact c2 ⟨by rw [hv, hall], h0⟩
        · simp [hst]
      · intro hnone
        by_cases hst : req.stock = 0
        · simp [hst]
        · simp [hst]

theorem heldQuantity_cancelled (t : TransactionHistory) : t.cancelled.heldQuantity = 0 := by
  simp [TransactionHistory.heldQuantity, TransactionHistory.cancelled]

/-- Cancelling the order found by its key frees its quantity. -/
theorem held_after_cancel {l : List TransactionHistory} {x : TransactionHistory}
    (hx : x ∈ l) (hst : x.status = TrxStatusPending ∨ x.status = TrxStatusWaitingOwner) :
    ((l.map fun t => if t.id = x.id then t.cancelled else t).map (·.heldQuantity)).sum
      + x.quantity ≤ (l.map (·.heldQuantity)).sum := by
  have mono : ∀ l : List TransactionHistory,
      ((l.map fun t => if t.id = x.id then t.cancelled else t).map (·.heldQuantity)).sum
        ≤ (l.map (·.heldQuantity)).sum := by
    intro l
    induction l with
    | nil => simp
    | cons a l ih =>
      simp only [List.map_cons, List.sum_cons]
      split_ifs
      · rw [heldQuantity_cancelled]; omega
      · omega
  induction l with
  | nil => simp at hx
  | cons a l ih =>
    rw [List.mem_cons] at hx
    simp only [List.map_cons, List.sum_cons]
    rcases hx with rfl | hx
    · have hq : x.heldQuantity = x.quantity := by
        simp [TransactionHistory.heldQuantity, hst]
      rw [if_pos rfl, heldQuantity_cancelled, hq]
      have := mono l
      omega
    · have := ih hx
      split_ifs
      · rw [heldQuantity_cancelled]; omega
      · omega

theorem heldQuantity_le {l : List TransactionHistory} {x : TransactionHistory}
    (hx : x ∈ l) (hst : x.status = TrxStatusPending ∨ x.status = TrxStatusWaitingOwner) :
    x.quantity ≤ (l.map (·.heldQuantity)).sum := by
  have := held_after_cancel hx hst
  omega

/-- One round of the loop of `CancelTransaction` keeps the invariant of the product table,
and the room left for the quantities that may still come back. -/
theorem cancelItem_hidden (userID : Nat) (s : State) (x : Nat)
    (hq : s.zeroStockHidden ∧ s.stockRoom) :
    (cancelItem userID s x).state.zeroStockHidden ∧ (cancelItem userID s x).state.stockRoom := by
  unfold cancelItem
  split
  · exact hq
  · rename_i trx htrx
    have htm := firstTransaction_mem htrx
    simp only
    split_ifs with h1 h2
    · exact hq
    · exact hq
    · have hst : trx.status = TrxStatusPending ∨ trx.status = TrxStatusWaitingOwner := by
        by_contra hc
        push_neg at hc
        exact h2 hc
      split
      · exact hq
      · rename_i buyer _
        split
        · exact hq
        · rename_i product hproduct
          have hproduct' : s.firstProduct trx.productID = some product := hproduct
          have hpm := firstProduct_mem hproduct'
          have hroom := hq.2 product hpm.1
          have hle := heldQuantity_le htm.1 hst
          have hadd : uadd product.stock trx.quantity = product.stock + trx.quantity :=
            uadd_eq (by omega)
          have hheld := held_after_cancel htm.1 hst
          have hp0 := (hiddenIfEmpty_iff product).1 (hq.1 product hpm.1)
          rw [hadd]
          have hheld' : ((s.transactions.map fun t =>
              if t.id = trx.id then
                { t with status := TrxStatusCancel, isSolved := true,
                         receiptStatus := ReceiptCanceled } else t).map
              (·.heldQuantity)).sum + trx.quantity
                ≤ (s.transactions.map (·.heldQuantity)).sum := hheld
          split_ifs with hv
          · constructor
            · intro p hp
              simp only [Outcome.state, State.notify, State.createNotification,
                State.SendNotificationToUser, State.updateTransaction, State.saveProduct,
                State.updateProductVisibility, State.createBalanceHistory,
                State.updateUserBalance, List.mem_map] at hp
              obtain ⟨q, ⟨r, hr, rfl⟩, rfl⟩ := hp
              rw [hiddenIfEmpty_iff]
              by_cases c : r.id = product.id
              · simp only [c, if_true, hpm.2.2, and_self]
                intro h0
                omega
              · simp only [c, if_false, false_and]
                exact (hiddenIfEmpty_iff r).1 (hq.1 r hr)
            · intro p hp
              simp only [Outcome.state, State.notify, State.createNotification,
                State.SendNotificationToUser, State.updateTransaction, State.saveProduct,
                State.updateProductVisibility, State.createBalanceHistory,
                State.updateUserBalance, List.mem_map] at hp ⊢
              obtain ⟨q, ⟨r, hr, rfl⟩, rfl⟩ := hp
              have hr' := hq.2 r hr
              by_cases c : r.id = product.id
              · simp only [c, if_true, hpm.2.2, and_self]
                omega
              · simp only [c, if_false, false_and]
                omega
          · constructor
            · intro p hp
              simp only [Outcome.state, State.notify, State.createNotification,
                State.SendNotificationToUser, State.updateTransaction, State.saveProduct,
                State.createBalanceHistory, State.updateUserBalance, List.mem_map] at hp
              obtain ⟨r, hr, rfl⟩ := hp
              rw [hiddenIfEmpty_iff]
              by_cases c : r.id = product.id
              · simp only [c, if_true]
                intro h0 hall
                have hs0 : product.stock = 0 := by omega
                exact hp0 hs0 hall
              · simp only [c, if_false]
                exact (hiddenIfEmpty_iff r).1 (hq.1 r hr)
            · intro p hp
              simp only [Outcome.state, State.notify, State.createNotification,
                State.SendNotificationToUser, State.updateTransaction, State.saveProduct,
                State.createBalanceHistory, State.updateUserBalance, List.mem_map] at hp ⊢
              obtain ⟨r, hr, rfl⟩ := hp
              have hr' := hq.2 r hr
              by_cases c : r.id = product.id
              · simp only [c, if_true]
                omega
              · simp only [c, if_false]
                omega

theorem CancelTransaction_hidden (s : State) (userID : Nat) (ids : List Nat)
    (hs : s.zeroStockHidden) (hr : s.stockRoom) :
    (CancelTransaction s userID ids).state.zeroStockHidden := by
  unfold CancelTransaction
  split_ifs
  · exact hs
  · exact Transaction_invariant (fun s' => s'.zeroStockHidden) s _
      (fun l => zeroStockHidden_congr rfl hs)
      (forEach_invariant (fun s' => s'.zeroStockHidden ∧ s'.stockRoom) _
        (fun s' x hq => cancelItem_hidden userID s' x hq) ids s ⟨hs, hr⟩).1

theorem saveProduct_hidden (s : State) (p : Product)
    (hp : p.visibility = ProductVisibilityOwnerAdmin) (hs : s.zeroStockHidden) :
    (s.saveProduct p).zeroStockHidden := by
  refine zeroStockHidden_map _ rfl ?_ hs
  intro q _ hq
  split_ifs
  · rw [hiddenIfEmpty_iff, hp]
    intro _
    decide
  · exact hq

theorem removeProducts_hidden (products : List Product) :
    ∀ s : State, s.zeroStockHidden → (removeProducts s products).zeroStockHidden := by
  induction products with
  | nil => intro s hs; exact hs
  | cons p ps ih =>
    intro s hs
    unfold removeProducts
    apply ih
    exact zeroStockHidden_congr (handleProductTransactionsOnDelete_products _ _)
      (saveProduct_hidden s
        { p with deleted := true, visibility := ProductVisibilityOwnerAdmin } rfl hs)

theorem DeleteProductsRequest_hidden (s : State) (userID : Nat) (role : UserRole)
    (productID : Nat) (hs : s.zeroStockHidden) :
    (DeleteProductsRequest s userID role productID).state.zeroStockHidden := by
  unfold DeleteProductsRequest
  split
  · exact hs
  · rename_i product _
    split_ifs
    · exact hs
    · exact hs
    · exact hs
    · apply Transaction_invariant (fun s' => s'.zeroStockHidden) s _
        (fun l => zeroStockHidden_congr rfl hs)
      have hsave := saveProduct_hidden s
        { product with visibility := ProductVisibilityOwnerAdmin, deleted := true } rfl hs
      have h1 := forEach_products refundOnDelete refundOnDelete_products
        ((s.saveProduct { product with visibility := ProductVisibilityOwnerAdmin,
                                       deleted := true }).pendingTransactions product.id)
        (s.saveProduct { product with visibility := ProductVisibilityOwnerAdmin,
                                      deleted := true })
      simp only
      split
      · rename_i e s' heq
        rw [heq] at h1
        exact zeroStockHidden_congr h1 hsave
      · rename_i s' heq
        rw [heq] at h1
        exact zeroStockHidden_congr
          ((forEach_products _ (settleOnProductDelete_products _) _ s').trans h1) hsave

theorem removal_hidden (s : State) (user : User) (hs : s.zeroStockHidden) :
    (removeProducts (s.saveUser user)
      ((s.saveUser user).productsOf user.id)).zeroStockHidden :=
  removeProducts_hidden _ _ (zeroStockHidden_congr rfl hs)

theorem SuspendUser_hidden (s : State) (target : Nat) (hs : s.zeroStockHidden) :
    (SuspendUser s target).state.zeroStockHidden := by
  unfold SuspendUser
  split
  · exact hs
  · split_ifs
    · exact hs
    · exact hs
    · apply Transaction_invariant (fun s' => s'.zeroStockHidden) s _
        (fun l => zeroStockHidden_congr rfl hs)
      exact zeroStockHidden_congr rfl (removal_hidden s _ hs)

theorem BanUser_hidden (s : State) (target : Nat) (banUntil : Int)
    (hs : s.zeroStockHidden) : (BanUser s target banUntil).state.zeroStockHidden := by
  unfold BanUser
  split
  · exact hs
  · split_ifs
    · exact hs
    · exact hs
    · apply Transaction_invariant (fun s' => s'.zeroStockHidden) s _
        (fun l => zeroStockHidden_congr rfl hs)
      exact zeroStockHidden_congr rfl (removal_hidden s _ hs)

theorem DeleteUser_hidden (s : State) (adminID target : Nat) (hs : s.zeroStockHidden) :
    (DeleteUser s adminID target).state.zeroStockHidden := by
  unfold DeleteUser
  split
  · exact hs
  · split_ifs
    · exact hs
    · exact hs
    · apply Transaction_invariant (fun s' => s'.zeroStockHidden) s _
        (fun l => zeroStockHidden_congr rfl hs)
      exact removal_hidden s _ hs

/-- C22 (as amended): the creation of a product, the update by its owner, the visibility
toggle, the cancellation of orders, the deletion of a product and the suspension, the ban
and the deletion of its owner preserve the invariant `stock = 0` implies
`visibility ≠ all`, in a store with unique product keys where the stock of every product,
with the quantities that cancellations may give back, fits a `uint`. (The admin patch and
the unban set the visibility to `all` whatever the stock.) -/
theorem C22_zero_stock_hidden (w : ProductWrite) (s : State) (hu : s.uniqueProducts)
    (hr : s.stockRoom) (hs : s.zeroStockHidden) : (w.run s).state.zeroStockHidden := by
  cases w with
  | create userID price stock visibility imagesOk =>
    exact PostProductsRequest_hidden s _ _ _ _ _ hs
  | ownerUpdate userID productID req imagesOk =>
    exact PutProductsRequest_hidden s _ _ _ _ hu hs
  | toggle userID role productID => exact PatchProductVisibility_hidden s _ _ _ hu hs
  | cancel userID ids => exact CancelTransaction_hidden s _ _ hs hr
  | deleteProduct userID role productID => exact DeleteProductsRequest_hidden s _ _ _ hs
  | suspendUser target => exact SuspendUser_hidden s _ hs
  | banUser target banUntil => exact BanUser_hidden s _ _ hs
  | deleteUser adminID target => exact DeleteUser_hidden s _ _ hs

/-- Witness of C22: seller 2 asks to make the sold-out product 1 visible again; the toggle
is refused and the product stays hidden. -/
theorem C22_zero_stock_hidden_witness :
    soldOutHidden.zeroStockHidden ∧
    ((ProductWrite.toggle 2 RoleUser 1).run soldOutHidden).state.zeroStockHidden :=
  ⟨by unfold State.zeroStockHidden; decide,
    C22_zero_stock_hidden (.toggle 2 RoleUser 1) soldOutHidden
      (by unfold State.uniqueProducts; decide) (by unfold State.stockRoom; decide)
      (by unfold State.zeroStockHidden; decide)⟩

/-! ## C23: withdrawals -/

/-- C23 fails as stated: user 1 holds 50,000,000 and asks to withdraw 20,000,000, which is
at least 10,000 and does not exceed the balance; the request is refused (the amount is above
the 10,000,000 that one withdrawal may carry) and nothing changes. -/
theorem C23_counterexample_above_cap :
    (wealthy.firstUser 1).map (·.balance) = some 50000000 ∧
    (PostWithDrawBalance wealthy 1 20000000).isOk = false ∧
    (PostWithDrawBalance wealthy 1 20000000).state = wealthy := by
  decide

theorem firstUser_saveUser_same {l : List User} (u : User) (hd : u.deleted = false)
    (h : ∃ x ∈ l, x.id = u.id) :
    (l.map fun x => if x.id = u.id then u else x).find?
      (fun x => decide (x.id = u.id) && !x.deleted) = some u := by
  induction l with
  | nil => simp at h
  | cons a l ih =>
    by_cases ha : a.id = u.id
    · simp [List.find?_cons, ha, hd]
    · have h' : ∃ x ∈ l, x.id = u.id := by
        obtain ⟨x, hx, hxi⟩ := h
        rw [List.mem_cons] at hx
        rcases hx with rfl | hx
        · exact absurd hxi ha
        · exact ⟨x, hx, hxi⟩
      rw [List.map_cons, if_neg ha, List.find?_cons_of_neg _ (by simp [ha])]
      exact ih h'

/-- C23 (as amended): for a live account with a balance below `2 ^ 64`, a withdrawal whose
amount exceeds the balance, or exceeds 10,000,000, fails and leaves the store as it was (the
balance unchanged, no ledger entry); a withdrawal of at least 10,000 and at most 10,000,000
that does not exceed the balance succeeds, lowers the balance by exactly the amount, leaves
the other accounts as they were and appends one debit entry whose `lastBalance` is the old
balance, `finalBalance` the new balance and `amount` the negated withdrawal. -/
theorem C23_withdraw (s : State) (userID amount : Nat) (user : User)
    (hu : s.firstUser userID = some user) (hb : user.balance < 2 ^ 64) :
    (user.balance < amount ∨ 10000000 < amount →
      (PostWithDrawBalance s userID amount).isOk = false ∧
        (PostWithDrawBalance s userID amount).state = s) ∧
    (10000 ≤ amount → amount ≤ 10000000 → amount ≤ user.balance →
      (PostWithDrawBalance s userID amount).isOk = true ∧
      (PostWithDrawBalance s userID amount).state.firstUser userID
        = some { user with balance := user.balance - amount } ∧
      (∀ id, id ≠ userID →
        (PostWithDrawBalance s userID amount).state.firstUser id = s.firstUser id) ∧
      (PostWithDrawBalance s userID amount).state.balanceHistories
        = s.balanceHistories ++
          [⟨s.balanceHistories.length + 1, userID, -(amount : Int), user.balance,
            user.balance - amount, BalanceStatusDebit⟩]) := by
  have hm := firstUser_mem hu
  constructor
  · intro h
    unfold PostWithDrawBalance
    split_ifs with h1 h2
    · exact ⟨rfl, rfl⟩
    · exact ⟨rfl, rfl⟩
    · have hlt : user.balance < amount := by
        rcases h with h | h
        · exact h
        · exact absurd (Or.inr h) h1
      simp [Transaction, hu, hlt]
  · intro h1 h2 h3
    have hg1 : ¬ (amount < 10000 ∨ 10000000 < amount) := by omega
    have hg2 : ¬ amount < 10000 := by omega
    have hg3 : ¬ user.balance < amount := by omega
    have hsub : usub user.balance amount = user.balance - amount := usub_eq hb h3
    have hneg : ineg (toInt amount) = -(amount : Int) := by
      rw [toInt_eq (by omega)]
      unfold ineg
      rw [if_neg]
      omega
    have hres : PostWithDrawBalance s userID amount
        = .ok (((s.saveUser { user with balance := user.balance - amount }).createBalanceHistory
            user.id (-(amount : Int)) user.balance (user.balance - amount)
            BalanceStatusDebit).notify user.id NotifTypeWithdraw
              (some (s.balanceHistories.length + 1))) := by
      unfold PostWithDrawBalance
      rw [if_neg hg1, if_neg hg2]
      simp only [Transaction, hu, if_neg hg3, hsub, hneg]
      rfl
    rw [hres]
    refine ⟨rfl, ?_, ?_, ?_⟩
    · have := firstUser_saveUser_same (l := s.users)
        { user with balance := user.balance - amount } hm.2.2 ⟨user, hm.1, rfl⟩
      simp only [Outcome.state, State.notify, State.createNotification,
        State.SendNotificationToUser, State.createBalanceHistory, State.saveUser,
        State.firstUser]
      rw [← hm.2.1]
      exact this
    · intro id hne
      simp only [Outcome.state, State.notify, State.createNotification,
        State.SendNotificationToUser, State.createBalanceHistory]
      exact firstUser_saveUser_ne s _ id (by rw [hm.2.1]; exact hne)
    · simp [hm.2.1]

/-- Witness of C23: seller 2 of Scenario B, holding 49,000, withdraws 39,000. -/
theorem C23_withdraw_witness :
    (PostWithDrawBalance afterReceipt 2 39000).isOk = true ∧
    (PostWithDrawBalance afterReceipt 2 39000).state.firstUser 2
      = some { account 2 49000 with balance := 49000 - 39000 } ∧
    (∀ id, id ≠ 2 →
      (PostWithDrawBalance afterReceipt 2 39000).state.firstUser id
        = afterReceipt.firstUser id) ∧
    (PostWithDrawBalance afterReceipt 2 39000).state.balanceHistories
      = afterReceipt.balanceHistories ++
        [⟨afterReceipt.balanceHistories.length + 1, 2, -((39000 : Nat) : Int),
          (account 2 49000).balance, (account 2 49000).balance - 39000,
          BalanceStatusDebit⟩] :=
  (C23_withdraw afterReceipt 2 39000 (account 2 49000) (by decide) (by decide)).2
    (by decide) (by decide) (by decide)

/-! ## C24: notifications of operations that fail -/

/-- C24 fails as stated: seller 2 confirms the shipment of order 1 of Scenario A and of an
order 7 that does not exist. The request fails and is rolled back (order 1 is still
`pending`, no notification row is added), but the two messages about order 1 were pushed
before order 7 was looked up, and stay pushed. -/
theorem C24_counterexample_pushed_before_failure :
    (ConfirmTransactionByOwner afterPurchase 2 [1, 7]).isOk = false ∧
    (ConfirmTransactionByOwner afterPurchase 2 [1, 7]).state.transactions
      = afterPurchase.transactions ∧
    (ConfirmTransactionByOwner afterPurchase 2 [1, 7]).state.notifications
      = afterPurchase.notifications ∧
    (ConfirmTransactionByOwner afterPurchase 2 [1, 7]).state.sent
      = afterPurchase.sent ++
        [⟨1, NotifTypePurchase, some 1⟩, ⟨2, NotifTypeSale, some 1⟩] :=
  ⟨by decide, by decide, by decide, by decide⟩

theorem keepsPushes_fail (s : State) (e : Err) : (Outcome.fail e s).keepsPushes s :=
  ⟨fun _ => rfl, [], by simp⟩

theorem keepsPushes_ok (s : State) : (Outcome.ok s).keepsPushes s :=
  ⟨fun h => by simp at h, [], by simp⟩

theorem keepsPushes_now (s s' : State) (h : ∃ pushed, s'.sent = s.sent ++ pushed) :
    (Outcome.ok s').keepsPushes s :=
  ⟨fun h => by simp at h, h⟩

theorem keepsPushes_Transaction (s : State) (body : State → Outcome)
    (h : ∃ pushed, (body s).state.sent = s.sent ++ pushed) :
    (Transaction s body).keepsPushes s := by
  refine ⟨fun hf => (Transaction_fail s body hf).2.2.2.2.2, ?_⟩
  unfold Transaction
  cases hb : body s with
  | ok s' => rw [hb] at h; exact h
  | fail e s' => rw [hb] at h; exact h

theorem pushed_trans {s0 s s' : State} (h1 : ∃ pushed, s.sent = s0.sent ++ pushed)
    (h2 : ∃ pushed, s'.sent = s.sent ++ pushed) : ∃ pushed, s'.sent = s0.sent ++ pushed := by
  obtain ⟨a, ha⟩ := h1
  obtain ⟨b, hb⟩ := h2
  exact ⟨a ++ b, by rw [hb, ha, List.append_assoc]⟩

theorem forEach_pushed {α : Type} (body : State → α → Outcome)
    (hbody : ∀ s x, ∃ pushed, (body s x).state.sent = s.sent ++ pushed) (xs : List α)
    (s : State) : ∃ pushed, (forEach body s xs).state.sent = s.sent ++ pushed :=
  forEach_invariant (fun s' => ∃ pushed, s'.sent = s.sent ++ pushed) body
    (fun s' x hs' => pushed_trans hs' (hbody s' x)) xs s ⟨[], by simp⟩

theorem confirmByOwnerItem_pushed (ownerID : Nat) (s : State) (x : Nat) :
    ∃ pushed, (confirmByOwnerItem ownerID s x).state.sent = s.sent ++ pushed := by
  unfold confirmByOwnerItem
  split
  · exact ⟨[], by simp⟩
  · split_ifs
    · exact ⟨[], by simp⟩
    · exact ⟨[], by simp⟩
    · exact ⟨_, by simp; rfl⟩

theorem confirmByUserItem_pushed (userID : Nat) (reviews : List ReviewItem) (s : State)
    (x : Nat) : ∃ pushed, (confirmByUserItem userID reviews s x).state.sent
      = s.sent ++ pushed := by
  unfold confirmByUserItem
  split
  · exact ⟨[], by simp⟩
  · split_ifs
    · exact ⟨[], by simp⟩
    · split
      · exact ⟨[], by simp⟩
      · split
        · exact ⟨[], by simp⟩
        · exact ⟨_, by
            simp only [Outcome.state, State.notify, State.createNotification,
              State.SendNotificationToUser]
            rw [(createReviews_frame _ _ _ _ _).2.2.2.2.2]
            simp only [State.updateTransaction, State.updateUserBalance,
              State.createBalanceHistory, List.append_assoc]
            rfl⟩

theorem cancelItem_pushed (userID : Nat) (s : State) (x : Nat) :
    ∃ pushed, (cancelItem userID s x).state.sent = s.sent ++ pushed := by
  unfold cancelItem
  split
  · exact ⟨[], by simp⟩
  · simp only
    split_ifs
    · exact ⟨[], by simp⟩
    · exact ⟨[], by simp⟩
    · split
      · exact ⟨[], by simp⟩
      · split
        · exact ⟨[], by simp⟩
        · split_ifs <;>
          · exact ⟨_, by
              simp only [Outcome.state, State.notify, State.createNotification,
                State.SendNotificationToUser, State.updateTransaction, State.saveProduct,
                State.updateProductVisibility, State.createBalanceHistory,
                State.updateUserBalance, List.append_assoc]
              rfl⟩

theorem refundOnDelete_pushed (s : State) (x : TransactionHistory) :
    ∃ pushed, (refundOnDelete s x).state.sent = s.sent ++ pushed := by
  unfold refundOnDelete
  split
  · exact ⟨[], by simp⟩
  · exact ⟨_, by simp; rfl⟩

theorem settleOnProductDelete_pushed (product : Product) (s : State)
    (x : TransactionHistory) :
    ∃ pushed, (settleOnProductDelete product s x).state.sent = s.sent ++ pushed := by
  unfold settleOnProductDelete
  split
  · exact ⟨[], by simp⟩
  · exact ⟨_, by simp; rfl⟩

theorem settleOnOwnerRemoval_pushed (product : Product) (s : State)
    (x : TransactionHistory) :
    ∃ pushed, (settleOnOwnerRemoval product s x).state.sent = s.sent ++ pushed := by
  unfold settleOnOwnerRemoval
  exact ⟨_, by simp; rfl⟩

theorem handleProductTransactionsOnDelete_pushed (s : State) (product : Product) :
    ∃ pushed, (handleProductTransactionsOnDelete s product).state.sent
      = s.sent ++ pushed := by
  unfold handleProductTransactionsOnDelete
  have h1 := forEach_pushed refundOnDelete refundOnDelete_pushed
    (s.pendingTransactions product.id) s
  split
  · rename_i e s' heq
    rw [heq] at h1
    exact h1
  · rename_i s' heq
    rw [heq] at h1
    exact pushed_trans h1
      (forEach_pushed _ (settleOnOwnerRemoval_pushed product) _ s')

theorem removeProducts_pushed (products : List Product) :
    ∀ s : State, ∃ pushed, (removeProducts s products).sent = s.sent ++ pushed := by
  induction products with
  | nil => intro s; exact ⟨[], by simp [removeProducts]⟩
  | cons p ps ih =>
    intro s
    unfold removeProducts
    refine pushed_trans ?_ (ih _)
    exact handleProductTransactionsOnDelete_pushed
      (s.saveProduct { p with deleted := true, visibility := ProductVisibilityOwnerAdmin }) _

theorem purchaseItem_pushed (cfg : TaxConfig) (user : User) (s : State)
    (item : RequestPurchaseItem) :
    match purchaseItem cfg user s item with
    | .next _ s' => ∃ pushed, s'.sent = s.sent ++ pushed
    | .abort _ s' => ∃ pushed, s'.sent = s.sent ++ pushed := by
  unfold purchaseItem
  cases s.firstPublicProduct item.productID with
  | none => exact ⟨[], by simp⟩
  | some p =>
    simp only
    split_ifs
    · exact ⟨[], by simp⟩
    · exact ⟨[], by simp⟩
    · exact ⟨[], by simp⟩
    · simp only [purchaseCommit]
      split_ifs <;>
      · exact ⟨_, by
          simp only [State.notify, State.createNotification, State.SendNotificationToUser,
            State.createBalanceHistory, State.createTransaction, State.updateUserBalance,
            State.updateProductVisibility, State.updateProductStock, List.append_assoc]
          rfl⟩

theorem purchaseLoop_pushed (cfg : TaxConfig) (req : List RequestPurchaseItem) :
    ∀ (user : User) (s : State),
      ∃ pushed, (purchaseLoop cfg user s req).state.sent = s.sent ++ pushed := by
  induction req with
  | nil => intro user s; exact ⟨[], by simp [purchaseLoop]⟩
  | cons item rest ih =>
    intro user s
    unfold purchaseLoop
    have h := purchaseItem_pushed cfg user s item
    cases hp : purchaseItem cfg user s item with
    | next user' s' =>
      rw [hp] at h
      exact pushed_trans h (ih user' s')
    | abort e s' =>
      rw [hp] at h
      exact h

theorem PostTopUpBalance_keepsPushes (s : State) (userID amount : Nat) :
    (PostTopUpBalance s userID amount).keepsPushes s := by
  unfold PostTopUpBalance
  split_ifs
  · exact keepsPushes_fail s _
  · exact keepsPushes_fail s _
  · apply keepsPushes_Transaction
    simp only
    split
    · exact ⟨[], by simp⟩
    · exact ⟨_, by simp; rfl⟩

theorem PostWithDrawBalance_keepsPushes (s : State) (userID amount : Nat) :
    (PostWithDrawBalance s userID amount).keepsPushes s := by
  unfold PostWithDrawBalance
  split_ifs
  · exact keepsPushes_fail s _
  · exact keepsPushes_fail s _
  · apply keepsPushes_Transaction
    simp only
    split
    · exact ⟨[], by simp⟩
    · split_ifs
      · exact ⟨[], by simp⟩
      · exact ⟨_, by simp; rfl⟩

theorem PostPurchaseProduct_keepsPushes (cfg : TaxConfig) (s : State) (userID : Nat)
    (req : List RequestPurchaseItem) :
    (PostPurchaseProduct cfg s userID req).keepsPushes s := by
  unfold PostPurchaseProduct
  split_ifs
  · exact keepsPushes_fail s _
  · exact keepsPushes_fail s _
  · split
    · exact keepsPushes_fail s _
    · exact keepsPushes_Transaction s _ (purchaseLoop_pushed cfg req _ s)

theorem ConfirmTransactionByOwner_keepsPushes (s : State) (ownerID : Nat) (ids : List Nat) :
    (ConfirmTransactionByOwner s ownerID ids).keepsPushes s := by
  unfold ConfirmTransactionByOwner
  split_ifs
  · exact keepsPushes_fail s _
  · exact keepsPushes_Transaction s _
      (forEach_pushed _ (confirmByOwnerItem_pushed ownerID) ids s)

theorem ConfirmTransactionByUser_keepsPushes (s : State) (userID : Nat) (ids : List Nat)
    (reviews : List ReviewItem) :
    (ConfirmTransactionByUser s userID ids reviews).keepsPushes s := by
  unfold ConfirmTransactionByUser
  split_ifs
  · exact keepsPushes_fail s _
  · exact keepsPushes_Transaction s _
      (forEach_pushed _ (confirmByUserItem_pushed userID reviews) ids s)

theorem CancelTransaction_keepsPushes (s : State) (userID : Nat) (ids : List Nat) :
    (CancelTransaction s userID ids).keepsPushes s := by
  unfold CancelTransaction
  split_ifs
  · exact keepsPushes_fail s _
  · exact keepsPushes_Transaction s _ (forEach_pushed _ (cancelItem_pushed userID) ids s)

theorem patchToSuccess_pushed (s : State) (trx : TransactionHistory) (productUserID : Nat)
    (oldStatus : TransactionStatus) :
    ∃ pushed, (patchToSuccess s trx productUserID oldStatus).state.sent
      = s.sent ++ pushed := by
  unfold patchToSuccess
  split_ifs
  · split
    · exact ⟨[], by simp⟩
    · exact ⟨_, by simp; rfl⟩
  · exact ⟨_, by simp; rfl⟩

theorem patchCancelRefund_pushed (s : State) (trx : TransactionHistory)
    (oldStatus : TransactionStatus) :
    ∃ pushed, (patchCancelRefund s trx oldStatus).state.sent = s.sent ++ pushed := by
  unfold patchCancelRefund
  split_ifs
  · split
    · exact ⟨[], by simp⟩
    · exact ⟨_, by simp; rfl⟩
  · exact ⟨[], by simp⟩

theorem patchCancelDebit_pushed (s : State) (trx : TransactionHistory) (productUserID : Nat)
    (oldStatus : TransactionStatus) :
    ∃ pushed, (patchCancelDebit s trx productUserID oldStatus).state.sent
      = s.sent ++ pushed := by
  unfold patchCancelDebit
  split_ifs
  · split
    · exact ⟨[], by simp⟩
    · exact ⟨_, by simp; rfl⟩
  · exact ⟨[], by simp⟩

theorem PatchTransactionStatus_keepsPushes (s : State) (transactionID : Nat)
    (status : Option TransactionStatus) :
    (PatchTransactionStatus s transactionID status).keepsPushes s := by
  unfold PatchTransactionStatus
  cases status with
  | none => exact keepsPushes_fail s _
  | some newStatus =>
    simp only
    cases s.firstTransaction transactionID with
    | none => exact keepsPushes_fail s _
    | some trx =>
      simp only
      apply keepsPushes_Transaction
      cases newStatus
      case TrxStatusSuccess =>
        simp only
        have h := patchToSuccess_pushed s trx (s.preloadProductUserID trx) trx.status
        cases he : patchToSuccess s trx (s.preloadProductUserID trx) trx.status with
        | fail e s' => rw [he] at h; simpa using h
        | ok s' => rw [he] at h; simpa using h
      case TrxStatusCancel =>
        simp only
        have h1 := patchCancelRefund_pushed s trx trx.status
        cases hr : patchCancelRefund s trx trx.status with
        | fail e s' => rw [hr] at h1; simpa using h1
        | ok s1 =>
          rw [hr] at h1
          simp only
          have h2 := pushed_trans h1
            (patchCancelDebit_pushed s1 trx (s.preloadProductUserID trx) trx.status)
          cases hd : patchCancelDebit s1 trx (s.preloadProductUserID trx) trx.status with
          | fail e s' => rw [hd] at h2; simpa using h2
          | ok s2 => rw [hd] at h2; simpa using h2
      case TrxStatusPending => exact ⟨[], by simp⟩
      case TrxStatusWaitingOwner => exact ⟨[], by simp⟩
      case TrxStatusWaitingUser => exact ⟨[], by simp⟩

theorem DeleteProductsRequest_keepsPushes (s : State) (userID : Nat) (role : UserRole)
    (productID : Nat) : (DeleteProductsRequest s userID role productID).keepsPushes s := by
  unfold DeleteProductsRequest
  split
  · exact keepsPushes_fail s _
  · rename_i product _
    split_ifs
    · exact keepsPushes_fail s _
    · exact keepsPushes_fail s _
    · exact keepsPushes_fail s _
    · apply keepsPushes_Transaction
      simp only
      have h1 := forEach_pushed refundOnDelete refundOnDelete_pushed
        ((s.saveProduct { product with visibility := ProductVisibilityOwnerAdmin,
                                       deleted := true }).pendingTransactions product.id)
        (s.saveProduct { product with visibility := ProductVisibilityOwnerAdmin,
                                      deleted := true })
      split
      · rename_i e s' heq
        rw [heq] at h1
        exact h1
      · rename_i s' heq
        rw [heq] at h1
        exact pushed_trans h1 (forEach_pushed _ (settleOnProductDelete_pushed _) _ s')

theorem removal_pushed (s : State) (user : User) :
    ∃ pushed, (removeProducts (s.saveUser user) ((s.saveUser user).productsOf user.id)).sent
      = s.sent ++ pushed :=
  removeProducts_pushed _ (s.saveUser user)

theorem SuspendUser_keepsPushes (s : State) (target : Nat) :
    (SuspendUser s target).keepsPushes s := by
  unfold SuspendUser
  split
  · exact keepsPushes_fail s _
  · rename_i user _
    split_ifs
    · exact keepsPushes_fail s _
    · exact keepsPushes_ok s
    · apply keepsPushes_Transaction
      exact pushed_trans
        (removal_pushed s { user with status := UserStatusSuspended, banUntil := none,
                                      penaltyWarnings := 0 })
        ⟨[⟨user.id, NotifTypeAccount, some user.id⟩], rfl⟩

theorem BanUser_keepsPushes (s : State) (target : Nat) (banUntil : Int) :
    (BanUser s target banUntil).keepsPushes s := by
  unfold BanUser
  split
  · exact keepsPushes_fail s _
  · rename_i user _
    split_ifs
    · exact keepsPushes_fail s _
    · exact keepsPushes_ok s
    · apply keepsPushes_Transaction
      exact pushed_trans
        (removal_pushed s { user with status := UserStatusBanned, banUntil := some banUntil,
                                      penaltyWarnings := 0 })
        ⟨[⟨user.id, NotifTypeAccount, some user.id⟩], rfl⟩

theorem DeleteUser_keepsPushes (s : State) (adminID target : Nat) :
    (DeleteUser s adminID target).keepsPushes s := by
  unfold DeleteUser
  split
  · exact keepsPushes_fail s _
  · rename_i user _
    split_ifs
    · exact keepsPushes_ok s
    · exact keepsPushes_fail s _
    · apply keepsPushes_Transaction
      exact removal_pushed s { user with deleted := true, status := UserStatusSuspended }

theorem PatchProductAdmin_keepsPushes (s : State) (productID : Nat)
    (req : RequestPutProduct) : (PatchProductAdmin s productID req).keepsPushes s := by
  unfold PatchProductAdmin
  by_cases hb : (req.price ≠ 0 ∧ (req.price < 1000 ∨ 100000000 < req.price)) ∨
      10000 < req.stock ∨ req.visibility = some ProductVisibilityAdminOnly
  · rw [if_pos hb]
    exact keepsPushes_fail s _
  · rw [if_neg hb]
    cases s.firstProduct productID with
    | none => exact keepsPushes_fail s _
    | some product =>
      simp only
      split_ifs <;>
        first
        | exact keepsPushes_fail s _
        | exact keepsPushes_Transaction s _ ⟨[], by simp [State.updatesProduct]⟩

/-- C24 (as amended): the notification rows of an operation are stored only when its store
transaction commits, and the messages are pushed to the users while the transaction runs.
If an operation fails (a purchase, a confirmation, a cancellation, an admin override, a
suspension or any other action), the table of notifications is the same as before the
operation; the list of messages sent to the users is the list sent before, followed by the
messages that the operation had pushed before it failed, which are not taken back. -/
theorem C24_notifications_of_failure (a : Action) (s : State)
    (hfail : (a.run s).isOk = false) :
    (a.run s).state.notifications = s.notifications ∧
    ∃ pushed, (a.run s).state.sent = s.sent ++ pushed := by
  have key : (a.run s).keepsPushes s := by
    cases a with
    | balance op =>
      cases op with
      | topUp userID amount => exact PostTopUpBalance_keepsPushes s _ _
      | withdraw userID amount => exact PostWithDrawBalance_keepsPushes s _ _
      | purchase cfg userID req => exact PostPurchaseProduct_keepsPushes cfg s _ _
      | confirmReceipt userID ids reviews => exact ConfirmTransactionByUser_keepsPushes s _ _ _
      | cancel userID ids => exact CancelTransaction_keepsPushes s _ _
      | adminOverride id status => exact PatchTransactionStatus_keepsPushes s _ _
      | deleteProduct userID role productID => exact DeleteProductsRequest_keepsPushes s _ _ _
      | suspendUser target => exact SuspendUser_keepsPushes s _
      | banUser target banUntil => exact BanUser_keepsPushes s _ _
      | deleteUser adminID target => exact DeleteUser_keepsPushes s _ _
    | confirmShipment ownerID ids => exact ConfirmTransactionByOwner_keepsPushes s _ _
    | patchProduct productID req => exact PatchProductAdmin_keepsPushes s _ _
  exact ⟨key.1 hfail, key.2⟩

/-- Witness of C24: buyer 1 asks to cancel order 1 of Scenario B, which is settled. -/
theorem C24_notifications_of_failure_witness :
    ((Action.balance (.cancel 1 [1])).run afterReceipt).state.notifications
      = afterReceipt.notifications ∧
    ∃ pushed, ((Action.balance (.cancel 1 [1])).run afterReceipt).state.sent
      = afterReceipt.sent ++ pushed :=
  C24_notifications_of_failure (.balance (.cancel 1 [1])) afterReceipt (by decide)

/-! ## C25: a batch with an order that fails its precondition -/

/-- A round of the loop of `ConfirmTransactionByOwner` that goes through leaves an order
that is not shippable by the caller not shippable. -/
theorem confirmByOwnerItem_keeps_unshippable (ownerID i : Nat) (s s' : State) (x : Nat)
    (h : confirmByOwnerItem ownerID s x = .ok s')
    (hq : ∀ t, s.firstTransaction i = some t → s.shippable ownerID t = false) :
    ∀ t, s'.firstTransaction i = some t → s'.shippable ownerID t = false := by
  unfold confirmByOwnerItem at h
  split at h
  · simp at h
  · rename_i trx htrx
    split_ifs at h
    simp only [Outcome.ok.injEq] at h
    subst h
    intro t hfind
    unfold State.firstTransaction at hfind hq
    simp only [State.notify, State.createNotification, State.SendNotificationToUser,
      State.updateTransaction] at hfind
    rw [find?_map_of_preserved] at hfind
    · cases hf : s.transactions.find? fun t => decide (t.id = i) with
      | none => rw [hf] at hfind; simp at hfind
      | some t0 =>
        rw [hf] at hfind
        simp only [Option.map_some', Option.some.injEq] at hfind
        have h0 := hq t0 hf
        rw [← hfind]
        unfold State.shippable State.preloadProductUserID State.firstProduct at h0 ⊢
        simp only [State.notify, State.createNotification, State.SendNotificationToUser,
          State.updateTransaction]
        split_ifs
        · simp only [Bool.and_eq_false_imp, decide_eq_true_eq, decide_eq_false_iff_not]
          intro _
          decide
        · exact h0
    · intro t
      split_ifs <;> rfl

/-- The owner loaded with an order after the product of some order has been saved with
another stock and visibility. -/
theorem preload_saveProduct (s : State) (p p' : Product) (hp : s.firstProduct p.id = some p)
    (hid : p'.id = p.id) (hu : p'.userID = p.userID) (hd : p'.deleted = false)
    (s' : State) (hs' : s'.products = s.products.map fun x => if x.id = p.id then p' else x)
    (t : TransactionHistory) :
    s'.preloadProductUserID t = s.preloadProductUserID t := by
  have hpm := firstProduct_mem hp
  unfold State.preloadProductUserID State.firstProduct
  rw [hs']
  by_cases ht : t.productID = p.id
  · rw [ht]
    have h1 := firstProduct_replace (l := s.products) p' hd ⟨p, hpm.1, hid.symm⟩
    rw [hid] at h1
    unfold State.firstProduct at hp
    rw [h1, hp]
    exact hu
  · rw [find?_map_of_preserved]
    · cases hf : s.products.find? fun x => decide (x.id = t.productID) && !x.deleted with
      | none => rfl
      | some q =>
        have hq := List.find?_some hf
        simp only [Bool.and_eq_true, decide_eq_true_eq] at hq
        have hne : ¬ q.id = p.id := by rw [hq.1]; exact ht
        simp [hne]
    · intro x
      split_ifs with hx
      · have h1 : ¬ x.id = t.productID := by rw [hx]; exact fun h => ht h.symm
        have h2 : ¬ p'.id = t.productID := by rw [hid]; exact fun h => ht h.symm
        simp [h1, h2]
      · rfl

theorem preload_visibility (s s' : State) (id : Nat) (v : ProductVisibility)
    (hs' : s'.products = s.products.map fun p =>
      if p.id = id ∧ p.deleted = false then { p with visibility := v } else p)
    (t : TransactionHistory) :
    s'.preloadProductUserID t = s.preloadProductUserID t := by
  unfold State.preloadProductUserID State.firstProduct
  rw [hs', find?_map_of_preserved]
  · cases s.products.find? fun x => decide (x.id = t.productID) && !x.deleted with
    | none => rfl
    | some q =>
      simp only [Option.map_some']
      split_ifs <;> rfl
  · intro x
    split_ifs <;> rfl

theorem preload_congr (s s' : State) (h : s'.products = s.products)
    (t : TransactionHistory) : s'.preloadProductUserID t = s.preloadProductUserID t := by
  unfold State.preloadProductUserID State.firstProduct
  rw [h]

/-- A round of the loop of `CancelTransaction` that goes through leaves an order that the
caller may not cancel in that condition. -/
theorem cancelItem_keeps_uncancellable (userID i : Nat) (s s' : State) (x : Nat)
    (h : cancelItem userID s x = .ok s')
    (hq : ∀ t, s.firstTransaction i = some t → s.cancellable userID t = false) :
    ∀ t, s'.firstTransaction i = some t → s'.cancellable userID t = false := by
  unfold cancelItem at h
  split at h
  · simp at h
  · rename_i trx htrx
    simp only at h
    split_ifs at h with h1 h2
    split at h
    · simp at h
    · rename_i buyer hbuyer
      split at h
      · simp at h
      · rename_i product hproduct
        have hproduct' : s.firstProduct trx.productID = some product := hproduct
        have hpm := firstProduct_mem hproduct'
        have hpre : ∀ t, s'.preloadProductUserID t = s.preloadProductUserID t := by
          intro t
          split_ifs at h with hv
          · simp only [Outcome.ok.injEq] at h
            subst h
            refine (preload_visibility
              (s.saveProduct { product with stock := uadd product.stock trx.quantity }) _
              product.id ProductVisibilityAll rfl t).trans ?_
            exact preload_saveProduct s product
              { product with stock := uadd product.stock trx.quantity }
              (by rw [hpm.2.1]; exact hproduct') rfl rfl hpm.2.2 _ rfl t
          · simp only [Outcome.ok.injEq] at h
            subst h
            exact preload_saveProduct s product
              { product with stock := uadd product.stock trx.quantity }
              (by rw [hpm.2.1]; exact hproduct') rfl rfl hpm.2.2 _ rfl t
        have htx : s'.transactions = s.transactions.map fun t =>
            if t.id = trx.id then t.cancelled else t := by
          split_ifs at h with hv
          · simp only [Outcome.ok.injEq] at h
            subst h
            rfl
          · simp only [Outcome.ok.injEq] at h
            subst h
            rfl
        intro t hfind
        unfold State.firstTransaction at hfind hq
        rw [htx, find?_map_of_preserved] at hfind
        · cases hf : s.transactions.find? fun t => decide (t.id = i) with
          | none => rw [hf] at hfind; simp at hfind
          | some t0 =>
            rw [hf] at hfind
            simp only [Option.map_some', Option.some.injEq] at hfind
            have h0 := hq t0 hf
            rw [← hfind]
            split_ifs
            · simp [State.cancellable, TransactionHistory.cancelled]
            · unfold State.cancellable at h0 ⊢
              rw [hpre]
              exact h0
        · intro t
          split_ifs <;> rfl

theorem ConfirmTransactionByOwner_atomic (s : State) (ownerID : Nat) (ids : List Nat)
    (i : Nat) (hi : i ∈ ids)
    (hs : ∀ t ∈ s.transactions, t.id = i → s.shippable ownerID t = false) :
    (ConfirmTransactionByOwner s ownerID ids).isOk = false ∧
      s.sameTables (ConfirmTransactionByOwner s ownerID ids).state := by
  unfold ConfirmTransactionByOwner
  split_ifs
  · exact ⟨rfl, rfl, rfl, rfl, rfl⟩
  · have hf : (Transaction s fun s =>
        forEach (confirmByOwnerItem ownerID) s ids).isOk = false := by
      rw [Transaction_isOk]
      refine forEach_fails
        (fun s' => ∀ t, s'.firstTransaction i = some t → s'.shippable ownerID t = false)
        (confirmByOwnerItem ownerID) i ?_
        (fun s1 x s2 hq hb => confirmByOwnerItem_keeps_unshippable ownerID i s1 s2 x hb hq)
        ids s hi (fun t ht => hs t (firstTransaction_mem ht).1 (firstTransaction_mem ht).2)
      intro s' hq
      unfold confirmByOwnerItem
      split
      · rfl
      · rename_i trx htrx
        have := hq trx htrx
        simp only [State.shippable, Bool.and_eq_false_imp, decide_eq_true_eq,
          decide_eq_false_iff_not] at this
        split_ifs with h1 h2
        · rfl
        · rfl
        · exact absurd (not_not.1 h2) (this (not_not.1 h1))
    exact ⟨hf, sameTables_of_fail s _ hf⟩

theorem ConfirmTransactionByUser_atomic (s : State) (userID : Nat) (ids : List Nat)
    (reviews : List ReviewItem) (i : Nat) (hi : i ∈ ids)
    (hs : ∀ t ∈ s.transactions, t.id = i → t.receivable userID = false) :
    (ConfirmTransactionByUser s userID ids reviews).isOk = false ∧
      s.sameTables (ConfirmTransactionByUser s userID ids reviews).state := by
  unfold ConfirmTransactionByUser
  split_ifs
  · exact ⟨rfl, rfl, rfl, rfl, rfl⟩
  · have hf : (Transaction s fun s =>
        forEach (confirmByUserItem userID reviews) s ids).isOk = false := by
      rw [Transaction_isOk]
      refine forEach_fails
        (fun s' => ∀ t, (s'.transactions.find?
          fun t => decide (t.id = i) && decide (t.userID = userID)) = some t →
            t.status ≠ TrxStatusWaitingUser)
        (confirmByUserItem userID reviews) i ?_
        (fun s1 x s2 hq hb => confirmByUserItem_keeps_found userID reviews i s1 s2 x hb hq)
        ids s hi ?_
      · intro s' hq
        unfold confirmByUserItem
        split
        · rfl
        · rename_i trx htrx
          rw [if_pos (hq trx htrx)]
          rfl
      · intro t ht
        have hm := List.mem_of_find?_eq_some ht
        have hid := List.find?_some ht
        simp only [Bool.and_eq_true, decide_eq_true_eq] at hid
        have := hs t hm hid.1
        simpa [TransactionHistory.receivable, hid.2] using this
    exact ⟨hf, sameTables_of_fail s _ hf⟩

theorem CancelTransaction_atomic (s : State) (userID : Nat) (ids : List Nat)
    (i : Nat) (hi : i ∈ ids)
    (hs : ∀ t ∈ s.transactions, t.id = i → s.cancellable userID t = false) :
    (CancelTransaction s userID ids).isOk = false ∧
      s.sameTables (CancelTransaction s userID ids).state := by
  unfold CancelTransaction
  split_ifs
  · exact ⟨rfl, rfl, rfl, rfl, rfl⟩
  · have hf : (Transaction s fun s => forEach (cancelItem userID) s ids).isOk = false := by
      rw [Transaction_isOk]
      refine forEach_fails
        (fun s' => ∀ t, s'.firstTransaction i = some t → s'.cancellable userID t = false)
        (cancelItem userID) i ?_
        (fun s1 x s2 hq hb => cancelItem_keeps_uncancellable userID i s1 s2 x hb hq)
        ids s hi (fun t ht => hs t (firstTransaction_mem ht).1 (firstTransaction_mem ht).2)
      intro s' hq
      unfold cancelItem
      split
      · rfl
      · rename_i trx htrx
        have := hq trx htrx
        simp only [State.cancellable, Bool.and_eq_false_imp, Bool.or_eq_true,
          decide_eq_true_eq, Bool.or_eq_false_iff, decide_eq_false_iff_not] at this
        simp only
        split_ifs with h1 h2
        · rfl
        · rfl
        · exfalso
          have hp : userID = s'.preloadProductUserID trx ∨ userID = trx.userID := by
            by_contra hc
            push_neg at hc
            exact h1 hc
          exact h2 (this hp)
    exact ⟨hf, sameTables_of_fail s _ hf⟩

/-- C25: a request to confirm the shipment, to confirm the receipt or to cancel, that lists
an order failing the precondition of the transition (no order has the key, the caller is not
the party the transition requires, or the status is not the one required), fails, and the
users (every balance), the products (every stock level), the orders and the ledger are the
same as before the request, also for the orders listed before the failing one. -/
theorem C25_batch_atomic (s : State) (callerID : Nat) (ids : List Nat)
    (reviews : List ReviewItem) (i : Nat) (hi : i ∈ ids) :
    ((∀ t ∈ s.transactions, t.id = i → s.shippable callerID t = false) →
      (ConfirmTransactionByOwner s callerID ids).isOk = false ∧
        s.sameTables (ConfirmTransactionByOwner s callerID ids).state) ∧
    ((∀ t ∈ s.transactions, t.id = i → t.receivable callerID = false) →
      (ConfirmTransactionByUser s callerID ids reviews).isOk = false ∧
        s.sameTables (ConfirmTransactionByUser s callerID ids reviews).state) ∧
    ((∀ t ∈ s.transactions, t.id = i → s.cancellable callerID t = false) →
      (CancelTransaction s callerID ids).isOk = false ∧
        s.sameTables (CancelTransaction s callerID ids).state) :=
  ⟨ConfirmTransactionByOwner_atomic s callerID ids i hi,
    ConfirmTransactionByUser_atomic s callerID ids reviews i hi,
    CancelTransaction_atomic s callerID ids i hi⟩

/-- Witness of C25: in the shop with two buyers, buyer 3 holds order 1 and buyer 1 holds
order 2, both `pending`; buyer 3 asks to cancel orders 1 and 2. Order 2 is neither theirs
nor on a product of theirs: the request fails and order 1 is not cancelled either. -/
theorem C25_batch_atomic_witness :
    (CancelTransaction twoOrders 3 [1, 2]).isOk = false ∧
      twoOrders.sameTables (CancelTransaction twoOrders 3 [1, 2]).state :=
  (C25_batch_atomic twoOrders 3 [1, 2] [] 2 (by decide)).2.2 (by decide)

/-! ## C26: a failure of the settlement resolver during suspend, ban or delete -/

/-- C26 fails at this input: order 2 on product 1 of seller 2 is `pending` and its buyer,
user 1, has been deleted, so the settlement resolver fails on product 1 (the buyer is not
found). `SuspendUser`, `BanUser` and `DeleteUser` on seller 2 do not look at that error:
each answers with success, the seller is suspended (banned, deleted), product 1 is
soft-deleted, order 2 is still `pending` and order 1, `waiting_users`, is not settled. -/
theorem C26_resolver_error_swallowed :
    (buyerDeleted.products.map fun p =>
        (p.id, p.userID, (handleProductTransactionsOnDelete buyerDeleted p).isOk))
      = [(1, 2, false)] ∧
    ((SuspendUser buyerDeleted 2).isOk = true ∧
      ((SuspendUser buyerDeleted 2).state.users.map fun u => (u.id, u.status, u.deleted))
        = [(1, UserStatusSuspended, true), (2, UserStatusSuspended, false),
           (3, UserStatusActive, false)] ∧
      ((SuspendUser buyerDeleted 2).state.products.map fun p => (p.id, p.deleted))
        = [(1, true)] ∧
      ((SuspendUser buyerDeleted 2).state.transactions.map fun t => (t.id, t.status))
        = [(1, TrxStatusWaitingUser), (2, TrxStatusPending)]) ∧
    ((BanUser buyerDeleted 2 1000).isOk = true ∧
      ((BanUser buyerDeleted 2 1000).state.users.map fun u => (u.id, u.status, u.deleted))
        = [(1, UserStatusSuspended, true), (2, UserStatusBanned, false),
           (3, UserStatusActive, false)] ∧
      ((BanUser buyerDeleted 2 1000).state.products.map fun p => (p.id, p.deleted))
        = [(1, true)] ∧
      ((BanUser buyerDeleted 2 1000).state.transactions.map fun t => (t.id, t.status))
        = [(1, TrxStatusWaitingUser), (2, TrxStatusPending)]) ∧
    ((DeleteUser buyerDeleted 9 2).isOk = true ∧
      ((DeleteUser buyerDeleted 9 2).state.users.map fun u => (u.id, u.status, u.deleted))
        = [(1, UserStatusSuspended, true), (2, UserStatusSuspended, true),
           (3, UserStatusActive, false)] ∧
      ((DeleteUser buyerDeleted 9 2).state.products.map fun p => (p.id, p.deleted))
        = [(1, true)] ∧
      ((DeleteUser buyerDeleted 9 2).state.transactions.map fun t => (t.id, t.status))
        = [(1, TrxStatusWaitingUser), (2, TrxStatusPending)]) :=
  ⟨by decide, ⟨by decide, by decide, by decide, by decide⟩,
    ⟨by decide, by decide, by decide, by decide⟩,
    ⟨by decide, by decide, by decide, by decide⟩⟩

/-! ## C27: visibility of the product after a cancellation -/

/-- C27 fails as stated: product 1 has four units in stock and was hidden by its owner
(`owner_admin`); buyer 1 cancels order 1 and the product becomes visible to all. -/
theorem C27_counterexample_hidden_by_owner :
    (hiddenByOwner.products.map fun p => (p.id, p.stock, p.visibility))
      = [(1, 4, ProductVisibilityOwnerAdmin)] ∧
    (CancelTransaction hiddenByOwner 1 [1]).isOk = true ∧
    ((CancelTransaction hiddenByOwner 1 [1]).state.products.map
        fun p => (p.id, p.stock, p.visibility))
      = [(1, 5, ProductVisibilityAll)] := by
  decide

/-- C27 (as amended): when an order with status `pending` or `waiting_owner` is cancelled
by its buyer or by the owner of its product (live buyer, live product, `stock + quantity`
below `2 ^ 64`), the product is found afterwards with the quantity back in stock, and its
visibility is `all` whenever it was `owner_admin` and the stock after the cancellation is
positive, whether the product had been hidden because its stock was zero or for another
reason with stock left; a visibility `all` or `admin_only` is kept. -/
theorem C27_cancel_visibility (s : State) (userID trxID : Nat) (trx : TransactionHistory)
    (buyer : User) (p : Product)
    (hid : trxID ≠ 0)
    (hfind : s.firstTransaction trxID = some trx)
    (hst : trx.status = TrxStatusPending ∨ trx.status = TrxStatusWaitingOwner)
    (hcaller : userID = trx.userID ∨ userID = p.userID)
    (hb : s.firstUser trx.userID = some buyer)
    (hp : s.firstProduct trx.productID = some p)
    (hstock : p.stock + trx.quantity < 2 ^ 64) :
    (CancelTransaction s userID [trxID]).isOk = true ∧
    (CancelTransaction s userID [trxID]).state.firstProduct trx.productID
      = some { p with stock := p.stock + trx.quantity,
                      visibility :=
                        if 0 < p.stock + trx.quantity ∧
                            p.visibility = ProductVisibilityOwnerAdmin
                        then ProductVisibilityAll else p.visibility } := by
  obtain ⟨s', hs', _, _, _, hprod, _⟩ :=
    CancelTransaction_single s userID trxID trx buyer p hid hfind hst hcaller hb hp
  have hpm := firstProduct_mem hp
  rw [hs']
  refine ⟨rfl, ?_⟩
  simp only [Outcome.state]
  unfold State.firstProduct
  rw [hprod, uadd_eq hstock, ← hpm.2.1]
  exact firstProduct_replace
    { p with stock := p.stock + trx.quantity,
             visibility := if 0 < p.stock + trx.quantity ∧
                 p.visibility = ProductVisibilityOwnerAdmin
               then ProductVisibilityAll else p.visibility }
    hpm.2.2 ⟨p, hpm.1, rfl⟩

/-- Witness of C27: order 1 of Scenario A is cancelled by buyer 1; the stock of product 1 was
zero. -/
theorem C27_cancel_visibility_witness :
    (CancelTransaction afterPurchase 1 [1]).isOk = true ∧
    (CancelTransaction afterPurchase 1 [1]).state.firstProduct 1
      = some { (⟨1, 2, 50000, 0, ProductVisibilityAll, false⟩ : Product) with
                stock := 0 + 1,
                visibility :=
                  if 0 < 0 + 1 ∧ ProductVisibilityAll = ProductVisibilityOwnerAdmin
                  then ProductVisibilityAll else ProductVisibilityAll } :=
  C27_cancel_visibility afterPurchase 1 1
    ⟨1, 1, 1, 1, 50000, 2500, 1000, TrxStatusPending, false, ReceiptPendingProcess⟩
    (account 1 47500) ⟨1, 2, 50000, 0, ProductVisibilityAll, false⟩
    (by decide) (by decide) (by decide) (by decide) (by decide) (by decide) (by decide)

/-! ## C28: reviews attached when the receipt is confirmed -/

/-- C28 fails as stated: buyer 1 confirms the receipt of order 1 of Scenario B with two
review items that both name order 1; two reviews are created for it. -/
theorem C28_counterexample_two_reviews :
    (ConfirmTransactionByUser afterShipment 1 [1] [⟨1, some 5⟩, ⟨1, some 1⟩]).isOk = true ∧
    afterShipment.reviews = [] ∧
    (ConfirmTransactionByUser afterShipment 1 [1] [⟨1, some 5⟩, ⟨1, some 1⟩]).state.reviews
      = [⟨1, 1, 5⟩, ⟨1, 1, 1⟩] := by
  decide

theorem createReviews_reviews (userID trxID productID : Nat) (rs : List ReviewItem) :
    ∀ s : State, (createReviews userID trxID productID s rs).reviews
      = s.reviews ++ reviewsFor userID productID trxID rs := by
  induction rs with
  | nil => intro s; simp [createReviews, reviewsFor]
  | cons r rs ih =>
    intro s
    unfold createReviews
    cases hr : r.rating with
    | none =>
      simp only
      rw [ih]
      simp [reviewsFor, List.filterMap_cons, hr]
    | some rating =>
      simp only
      split_ifs with h
      · rw [ih]
        simp [reviewsFor, List.filterMap_cons, hr, h]
      · rw [ih]
        simp [reviewsFor, List.filterMap_cons, h]

theorem productOfOrder_update (s : State) (userID i id : Nat)
    (f : TransactionHistory → TransactionHistory)
    (hf : ∀ t, (f t).id = t.id ∧ (f t).userID = t.userID ∧ (f t).productID = t.productID)
    (s' : State)
    (h : s'.transactions = s.transactions.map fun t => if t.id = id then f t else t) :
    s'.productOfOrder userID i = s.productOfOrder userID i := by
  unfold State.productOfOrder
  rw [h, find?_map_of_preserved]
  · cases s.transactions.find? fun t => decide (t.id = i) && decide (t.userID = userID) with
    | none => rfl
    | some t =>
      simp only [Option.map_some', Option.getD_some]
      split_ifs
      · exact (hf t).2.2
      · rfl
  · intro t
    split_ifs
    · rw [(hf t).1, (hf t).2.1]
    · rfl

/-- One round of the loop of `ConfirmTransactionByUser` that goes through: the reviews
created, and the order found afterwards. -/
theorem confirmByUserItem_reviews (userID : Nat) (reviews : List ReviewItem) (s s' : State)
    (x : Nat) (h : confirmByUserItem userID reviews s x = .ok s') :
    s'.reviews = s.reviews ++ reviewsFor userID (s.productOfOrder userID x) x reviews ∧
    (∀ i, s'.productOfOrder userID i = s.productOfOrder userID i) ∧
    ∀ t, (s'.transactions.find? fun t => decide (t.id = x) && decide (t.userID = userID))
      = some t → t.status = TrxStatusSuccess := by
  unfold confirmByUserItem at h
  split at h
  · simp at h
  · rename_i trx htrx
    split_ifs at h with h1
    split at h
    · simp at h
    · split at h
      · simp at h
      · rename_i product _ owner _
        have hid := List.find?_some htrx
        simp only [Bool.and_eq_true, decide_eq_true_eq] at hid
        have hpo : s.productOfOrder userID x = trx.productID := by
          unfold State.productOfOrder
          rw [htrx]
          rfl
        simp only [Outcome.ok.injEq] at h
        subst h
        have ht : (createReviews userID x trx.productID
            (((s.createBalanceHistory owner.id (toInt (usub trx.totalPrice trx.ecommerceTax))
              owner.balance (uadd owner.balance (usub trx.totalPrice trx.ecommerceTax))
              BalanceStatusCredit).updateUserBalance owner.id
              (uadd owner.balance (usub trx.totalPrice trx.ecommerceTax))).updateTransaction
              trx.id fun t => { t with status := TrxStatusSuccess, isSolved := true,
                                       receiptStatus := ReceiptCompleted })
            reviews).transactions
            = s.transactions.map fun t => if t.id = trx.id then
                { t with status := TrxStatusSuccess, isSolved := true,
                         receiptStatus := ReceiptCompleted } else t :=
          (createReviews_frame _ _ _ _ _).2.2.1
        refine ⟨?_, ?_, ?_⟩
        · simp only [State.notify, State.createNotification, State.SendNotificationToUser]
          rw [createReviews_reviews, hpo]
          rfl
        · intro i
          exact productOfOrder_update s userID i trx.id TransactionHistory.settled
            (fun t => ⟨rfl, rfl, rfl⟩) _ ht
        · intro t hfind
          simp only [State.notify, State.createNotification,
            State.SendNotificationToUser] at hfind
          rw [ht, find?_map_of_preserved] at hfind
          · rw [htrx] at hfind
            simp only [Option.map_some', if_true, Option.some.injEq] at hfind
            rw [← hfind]
          · intro t
            split_ifs <;> rfl

theorem forEach_confirm_reviews (userID : Nat) (reviews : List ReviewItem) :
    ∀ (ids : List Nat) (s s' : State),
      forEach (confirmByUserItem userID reviews) s ids = .ok s' →
      s'.reviews = s.reviews ++
        (ids.map fun i => reviewsFor userID (s.productOfOrder userID i) i reviews).flatten ∧
      ids.Nodup := by
  intro ids
  induction ids with
  | nil =>
    intro s s' h
    simp only [forEach, Outcome.ok.injEq] at h
    subst h
    simp
  | cons x xs ih =>
    intro s s' h
    unfold forEach at h
    cases hb : confirmByUserItem userID reviews s x with
    | fail e s1 => rw [hb] at h; simp at h
    | ok s1 =>
      rw [hb] at h
      simp only at h
      obtain ⟨h1, h2, h3⟩ := confirmByUserItem_reviews userID reviews s s1 x hb
      obtain ⟨h4, h5⟩ := ih s1 s' h
      refine ⟨?_, ?_⟩
      · rw [h4, h1]
        simp only [h2, List.map_cons, List.flatten_cons, List.append_assoc]
      · rw [List.nodup_cons]
        refine ⟨fun hx => ?_, h5⟩
        have hfails := forEach_fails
          (fun s2 => ∀ t, (s2.transactions.find?
            fun t => decide (t.id = x) && decide (t.userID = userID)) = some t →
              t.status ≠ TrxStatusWaitingUser)
          (confirmByUserItem userID reviews) x
          (by
            intro s2 hq
            unfold confirmByUserItem
            split
            · rfl
            · rename_i trx htrx
              rw [if_pos (hq trx htrx)]
              rfl)
          (fun s2 y s3 hq hy =>
            confirmByUserItem_keeps_found userID reviews x s2 s3 y hy hq)
          xs s1 hx (fun t ht => by rw [h3 t ht]; decide)
        rw [h] at hfails
        simp at hfails

theorem reviewsFor_length (userID productID i : Nat) (reviews : List ReviewItem) :
    (reviewsFor userID productID i reviews).length
      = (reviews.filter fun r => decide (r.transactionID = i) && r.rating.isSome).length := by
  unfold reviewsFor
  induction reviews with
  | nil => rfl
  | cons r rs ih =>
    rw [List.filterMap_cons, List.filter_cons]
    by_cases hr : r.transactionID = i
    · cases hrt : r.rating with
      | none => simpa [hr, hrt] using ih
      | some v => simpa [hr, hrt] using ih
    · simpa [hr] using ih

/-- C28 (as amended): a confirm-receipt request that goes through creates, for each order
it lists, one review for every review item of the request that names the order and carries
a rating, and lists no order twice. So the number of reviews created for an order is the
number of rated review items that name it: at most one when the request holds at most one
such item for the order, and more than one otherwise. -/
theorem C28_reviews (s : State) (userID : Nat) (ids : List Nat) (reviews : List ReviewItem)
    (hok : (ConfirmTransactionByUser s userID ids reviews).isOk = true) :
    (ConfirmTransactionByUser s userID ids reviews).state.reviews
      = s.reviews ++
        (ids.map fun i => reviewsFor userID (s.productOfOrder userID i) i reviews).flatten ∧
    ids.Nodup ∧
    ∀ i productID, (reviewsFor userID productID i reviews).length
      = (reviews.filter fun r => decide (r.transactionID = i) && r.rating.isSome).length := by
  refine ⟨?_, ?_, ?_⟩
  · unfold ConfirmTransactionByUser at hok ⊢
    split_ifs at hok ⊢ with h1
    · simp at hok
    · have hres := Outcome.ok_of_isOk hok
      exact (forEach_confirm_reviews userID reviews ids s _ (Transaction_ok hres)).1
  · unfold ConfirmTransactionByUser at hok
    split_ifs at hok with h1
    · simp at hok
    · exact (forEach_confirm_reviews userID reviews ids s _
        (Transaction_ok (Outcome.ok_of_isOk hok))).2
  · exact fun i productID => reviewsFor_length userID productID i reviews

/-- Witness of C28: buyer 1 confirms the receipt of order 1 of Scenario B with one review
item that names order 1. -/
theorem C28_reviews_witness :
    (ConfirmTransactionByUser afterShipment 1 [1] [⟨1, some 5⟩]).state.reviews
      = afterShipment.reviews ++
        ([1].map fun i =>
          reviewsFor 1 (afterShipment.productOfOrder 1 i) i [⟨1, some 5⟩]).flatten ∧
    [1].Nodup ∧
    ∀ i productID, (reviewsFor 1 productID i [⟨1, some 5⟩]).length
      = ([(⟨1, some 5⟩ : ReviewItem)].filter
          fun r => decide (r.transactionID = i) && r.rating.isSome).length :=
  C28_reviews afterShipment 1 [1] [⟨1, some 5⟩] (by decide)

/-! ## C29: the two copies of the settlement resolver -/

/-- The resolver named `deleteProductResolver` is the code that `DeleteProductsRequest` runs
once its checks have passed. -/
theorem DeleteProductsRequest_resolver (s : State) (userID : Nat) (role : UserRole)
    (productID : Nat) (product : Product)
    (hfind : (s.products.find? fun p => decide (p.id = productID)) = some product)
    (h1 : ¬ (product.deleted = true ∧ role ≠ RoleAdmin))
    (h2 : ¬ (product.visibility = ProductVisibilityOwnerAdmin ∧ role ≠ RoleAdmin
        ∧ product.userID ≠ userID))
    (h3 : ¬ (role ≠ RoleAdmin ∧ product.userID ≠ userID)) :
    DeleteProductsRequest s userID role productID
      = Transaction s fun s =>
          deleteProductResolver
            (s.saveProduct
              { product with visibility := ProductVisibilityOwnerAdmin, deleted := true })
            { product with visibility := ProductVisibilityOwnerAdmin, deleted := true } := by
  unfold DeleteProductsRequest
  rw [hfind]
  simp only [if_neg h1, if_neg h2, if_neg h3]
  rfl

/-- C29 fails at this input: in Scenario B after the shipment (order 1 `waiting_users`,
nothing paid to seller 2 yet), the copy of the resolver in `DeleteProductsRequest` run on
product 1 raises the balance of seller 2 to 49,000 and writes a credit entry with the
snapshots 49,000 and 49,000; `handleProductTransactionsOnDelete` run on the same product in
the same state leaves the balance of seller 2 at 0 and writes a credit entry with the
snapshots 0 and 0. Both set order 1 to `success`. -/
theorem C29_resolvers_differ :
    afterShipment.products = [⟨1, 2, 50000, 0, ProductVisibilityAll, false⟩] ∧
    ((deleteProductResolver afterShipment
        ⟨1, 2, 50000, 0, ProductVisibilityAll, false⟩).state.users.map
        fun u => (u.id, u.balance)) = [(1, 47500), (2, 49000)] ∧
    ((handleProductTransactionsOnDelete afterShipment
        ⟨1, 2, 50000, 0, ProductVisibilityAll, false⟩).state.users.map
        fun u => (u.id, u.balance)) = [(1, 47500), (2, 0)] ∧
    ((deleteProductResolver afterShipment
        ⟨1, 2, 50000, 0, ProductVisibilityAll, false⟩).state.balanceHistories.map
        fun e => (e.userID, e.amount, e.lastBalance, e.finalBalance, e.status))
      = [(1, -52500, 100000, 47500, BalanceStatusDebit),
         (2, 49000, 49000, 49000, BalanceStatusCredit)] ∧
    ((handleProductTransactionsOnDelete afterShipment
        ⟨1, 2, 50000, 0, ProductVisibilityAll, false⟩).state.balanceHistories.map
        fun e => (e.userID, e.amount, e.lastBalance, e.finalBalance, e.status))
      = [(1, -52500, 100000, 47500, BalanceStatusDebit),
         (2, 49000, 0, 0, BalanceStatusCredit)] ∧
    ((deleteProductResolver afterShipment
        ⟨1, 2, 50000, 0, ProductVisibilityAll, false⟩).state.transactions.map
        fun t => (t.id, t.status)) = [(1, TrxStatusSuccess)] ∧
    ((handleProductTransactionsOnDelete afterShipment
        ⟨1, 2, 50000, 0, ProductVisibilityAll, false⟩).state.transactions.map
        fun t => (t.id, t.status)) = [(1, TrxStatusSuccess)] :=
  ⟨by decide, by decide, by decide, by decide, by decide, by decide, by decide⟩

/-! ## C30: what is paid out for an order -/

/-- C30 fails as stated: buyer 1 pays 52,500 for order 1 of Scenario A; the admin sets the
order to `cancel` (refund 52,500), back to `pending` (no monetary effect) and to `cancel`
again (a second refund of 52,500). The balance changes caused by the order add up to
+52,500 for the buyer, and nothing for the seller. -/
theorem C30_counterexample_refunded_twice :
    (scenarioA.users.map fun u => (u.id, u.balance)) = [(1, 100000), (2, 0)] ∧
    (refundedTwice.users.map fun u => (u.id, u.balance)) = [(1, 152500), (2, 0)] ∧
    (refundedTwice.transactions.map fun t => (t.id, t.userID, t.status, t.totalPrice, t.govtTax))
      = [(1, 1, TrxStatusCancel, 50000, 2500)] ∧
    (refundedTwice.balanceHistories.map fun e => (e.userID, e.amount, e.status))
      = [(1, -52500, BalanceStatusDebit), (1, 52500, BalanceStatusRefund),
         (1, 52500, BalanceStatusRefund)] :=
  ⟨by decide, by decide, by decide, by decide⟩

theorem uadd_le (a b : Nat) : uadd a b ≤ a + b := Nat.mod_le _ _

theorem usub_le {a b : Nat} (h : b ≤ a) : usub a b ≤ a := by
  by_cases ha : a < 2 ^ 64
  · rw [usub_eq ha h]
    omega
  · have := usub_lt a b
    omega

/-- The sum of the balances after the balance of the live account `u` has been set. -/
theorem sum_updateUserBalance {l : List User} (hnd : (l.map (·.id)).Nodup) {u : User}
    (hu : u ∈ l) (hd : u.deleted = false) (v : Nat) :
    ((l.map fun x => if x.id = u.id ∧ x.deleted = false then { x with balance := v }
        else x).map fun x => (x.balance : Int)).sum
      = (l.map fun x => (x.balance : Int)).sum - u.balance + v := by
  induction l with
  | nil => simp at hu
  | cons a l ih =>
    rw [List.map_cons, List.nodup_cons] at hnd
    rw [List.mem_cons] at hu
    rcases hu with rfl | hu
    · have htail : (l.map fun x => if x.id = u.id ∧ x.deleted = false then
          { x with balance := v } else x) = l := by
        conv_rhs => rw [← List.map_id l]
        apply List.map_congr_left
        intro t ht
        have : t.id ≠ u.id := fun h => hnd.1 (h ▸ List.mem_map_of_mem (·.id) ht)
        simp [this]
      simp only [List.map_cons, hd, and_self, if_true, List.sum_cons, htail]
      ring
    · have hne : a.id ≠ u.id := fun h => hnd.1 (h ▸ List.mem_map_of_mem (·.id) hu)
      simp only [List.map_cons, hne, false_and, if_false, List.sum_cons, ih hnd.2 hu]
      ring

/-- The sum of the balances after an account has been saved with the balance it had. -/
theorem sum_saveUser {l : List User} (hnd : (l.map (·.id)).Nodup) {u u' : User}
    (hu : u ∈ l) (hid : u'.id = u.id) (hb : u'.balance = u.balance) :
    ((l.map fun x => if x.id = u'.id then u' else x).map fun x => (x.balance : Int)).sum
      = (l.map fun x => (x.balance : Int)).sum := by
  congr 1
  rw [List.map_map]
  apply List.map_congr_left
  intro x hx
  simp only [Function.comp]
  split_ifs with hc
  · have : x = u := List.inj_on_of_nodup_map hnd hx hu (hc.trans hid)
    rw [hb, this]
  · rfl

theorem ids_updateUserBalance (l : List User) (id v : Nat) :
    (l.map fun x => if x.id = id ∧ x.deleted = false then { x with balance := v }
      else x).map (·.id) = l.map (·.id) := by
  rw [List.map_map]
  apply List.map_congr_left
  intro x _
  simp only [Function.comp]
  split_ifs <;> rfl

theorem ids_saveUser (l : List User) (u : User) :
    (l.map fun x => if x.id = u.id then u else x).map (·.id) = l.map (·.id) := by
  rw [List.map_map]
  apply List.map_congr_left
  intro x _
  simp only [Function.comp]
  split_ifs with hc
  · exact hc.symm
  · rfl

theorem State.withinEscrow_refl (s : State) : s.withinEscrow s :=
  ⟨forall₂_moves_refl false s.transactions, rfl, le_refl _⟩

theorem State.withinEscrow_trans {s0 s1 s2 : State} (h1 : s0.withinEscrow s1)
    (h2 : s1.withinEscrow s2) : s0.withinEscrow s2 :=
  ⟨forall₂_moves_trans h1.1 h2.1, h2.2.1.trans h1.2.1, le_trans h2.2.2 h1.2.2⟩

/-- A state with the same orders and the same accounts is as far within the escrow. -/
theorem State.withinEscrow_congr {s0 s s' : State} (h : s0.withinEscrow s)
    (ht : s'.transactions = s.transactions) (hu : s'.users = s.users) :
    s0.withinEscrow s' := by
  refine ⟨by rw [ht]; exact h.1, by rw [hu]; exact h.2.1, ?_⟩
  unfold State.totalBalance State.escrow
  rw [ht, hu]
  exact h.2.2

theorem State.payable_of_withinEscrow {s0 s : State} (h0 : s0.payable)
    (h : s0.withinEscrow s) : s.payable := by
  refine ⟨nodup_ids_of_moves h0.1 h.1, ?_, ?_⟩
  · unfold State.uniqueUsers
    rw [h.2.1]
    exact h0.2.1
  · intro t ht
    obtain ⟨t0, ht0, hm⟩ := forall₂_moves_mem h.1 ht
    have hf := hm.fields
    rw [hf.2.2.2.2.1, hf.2.2.2.2.2.2]
    exact h0.2.2 t0 ht0

/-- One order moves, and the balances rise by no more than the escrow of the order falls:
the state stays within the escrow. -/
theorem State.withinEscrow_step {s0 s s' : State} (h0 : s0.payable)
    (h : s0.withinEscrow s) {x : TransactionHistory} (hx : x ∈ s.transactions)
    (f : TransactionHistory → TransactionHistory) (hf : Moves false x (f x))
    (ht : s'.transactions = s.transactions.map fun t => if t.id = x.id then f t else t)
    (hids : s'.users.map (·.id) = s.users.map (·.id))
    (hB : s'.totalBalance + (f x).escrow ≤ s.totalBalance + x.escrow) :
    s0.withinEscrow s' := by
  refine ⟨by rw [ht]; exact moves_step h0.1 h.1 hx f hf, hids.trans h.2.1, ?_⟩
  have hsum : s'.escrow = s.escrow - x.escrow + (f x).escrow := by
    unfold State.escrow
    rw [ht]
    exact sum_map_update _ (nodup_ids_of_moves h0.1 h.1) hx f
  have := h.2.2
  omega

theorem escrow_settled (x : TransactionHistory) : x.settled.escrow = 0 := by
  simp [TransactionHistory.escrow, TransactionHistory.settled]

theorem escrow_cancelled (x : TransactionHistory) : x.cancelled.escrow = 0 := by
  simp [TransactionHistory.escrow, TransactionHistory.cancelled]

theorem escrow_of_open {x : TransactionHistory}
    (h : x.status = TrxStatusPending ∨ x.status = TrxStatusWaitingOwner ∨
      x.status = TrxStatusWaitingUser) :
    x.escrow = (x.totalPrice : Int) + (x.govtTax : Int) := by
  unfold TransactionHistory.escrow
  rcases h with h | h | h <;> simp [h]

theorem escrow_shipped {x : TransactionHistory} (h : x.status = TrxStatusPending) :
    x.shipped.escrow = x.escrow := by
  simp [TransactionHistory.escrow, TransactionHistory.shipped, h]

/-- The balances after the balance of a live account found by its key has been raised. -/
theorem totalBalance_credit {s r : State} (hu : s.uniqueUsers) {id : Nat} {u : User}
    (hfind : s.firstUser id = some u) (amount : Nat)
    (hr : r.users = (s.updateUserBalance u.id (uadd u.balance amount)).users) :
    r.totalBalance ≤ s.totalBalance + amount ∧ r.users.map (·.id) = s.users.map (·.id) := by
  have hm := firstUser_mem hfind
  constructor
  · unfold State.totalBalance
    rw [hr]
    simp only [State.updateUserBalance]
    rw [sum_updateUserBalance hu hm.1 hm.2.2]
    have := uadd_le u.balance amount
    omega
  · rw [hr]
    exact ids_updateUserBalance _ _ _

theorem refundOnDelete_within {s0 : State} (h0 : s0.payable) (s : State)
    (x : TransactionHistory) (h : s0.withinEscrow s)
    (hx : x.status = TrxStatusPending ∨ x.status = TrxStatusWaitingOwner)
    (hmem : x ∈ s.transactions) :
    s0.withinEscrow (refundOnDelete s x).state ∧
      ∀ y ∈ s.transactions, y.id ≠ x.id → y ∈ (refundOnDelete s x).state.transactions := by
  refine ⟨?_, (refundOnDelete_moves (m := false) h0.1 s x h.1 hx hmem).2⟩
  have hp := State.payable_of_withinEscrow h0 h
  unfold refundOnDelete
  split
  · exact h
  · rename_i buyer hbuyer
    have hc := totalBalance_credit (r := s.updateUserBalance buyer.id
      (uadd buyer.balance (uadd x.totalPrice x.govtTax))) hp.2.1 hbuyer
      (uadd x.totalPrice x.govtTax) rfl
    refine State.withinEscrow_step h0 h hmem TransactionHistory.cancelled (.cancel x hx)
      rfl hc.2 ?_
    rw [escrow_cancelled, escrow_of_open (by tauto)]
    have h1 := hc.1
    have h2 := uadd_le x.totalPrice x.govtTax
    have h3 : ((s.updateUserBalance buyer.id
        (uadd buyer.balance (uadd x.totalPrice x.govtTax))).createBalanceHistory buyer.id
        (toInt (uadd x.totalPrice x.govtTax))
        (uadd buyer.balance (uadd x.totalPrice x.govtTax))
        (uadd buyer.balance (uadd x.totalPrice x.govtTax))
        BalanceStatusRefund).totalBalance
        = (s.updateUserBalance buyer.id
          (uadd buyer.balance (uadd x.totalPrice x.govtTax))).totalBalance := rfl
    simp only [Outcome.state, State.notify, State.createNotification,
      State.SendNotificationToUser, State.updateTransaction, State.totalBalance,
      State.createBalanceHistory] at h1 h3 ⊢
    omega

theorem settleOnOwnerRemoval_within {s0 : State} (h0 : s0.payable) (product : Product)
    (s : State) (x : TransactionHistory) (h : s0.withinEscrow s)
    (hx : x.status = TrxStatusWaitingUser) (hmem : x ∈ s.transactions) :
    s0.withinEscrow (settleOnOwnerRemoval product s x).state ∧
      ∀ y ∈ s.transactions, y.id ≠ x.id →
        y ∈ (settleOnOwnerRemoval product s x).state.transactions := by
  refine ⟨?_, (settleOnOwnerRemoval_moves (m := false) h0.1 product s x h.1 hx hmem).2⟩
  unfold settleOnOwnerRemoval
  refine State.withinEscrow_step h0 h hmem TransactionHistory.settled (.settle x hx)
    rfl rfl ?_
  rw [escrow_settled, escrow_of_open (by tauto)]
  simp only [Outcome.state, State.notify, State.createNotification,
    State.SendNotificationToUser, State.updateTransaction, State.totalBalance,
    State.createBalanceHistory]
  omega

theorem settleOnProductDelete_within {s0 : State} (h0 : s0.payable) (product : Product)
    (s : State) (x : TransactionHistory) (h : s0.withinEscrow s)
    (hx : x.status = TrxStatusWaitingUser) (hmem : x ∈ s.transactions) :
    s0.withinEscrow (settleOnProductDelete product s x).state ∧
      ∀ y ∈ s.transactions, y.id ≠ x.id →
        y ∈ (settleOnProductDelete product s x).state.transactions := by
  refine ⟨?_, (settleOnProductDelete_moves (m := false) h0.1 product s x h.1 hx hmem).2⟩
  have hp := State.payable_of_withinEscrow h0 h
  unfold settleOnProductDelete
  split
  · exact h
  · rename_i owner howner
    have hc := totalBalance_credit (r := s.updateUserBalance owner.id
      (uadd owner.balance (usub x.totalPrice x.ecommerceTax))) hp.2.1 howner
      (usub x.totalPrice x.ecommerceTax) rfl
    refine State.withinEscrow_step h0 h hmem TransactionHistory.settled (.settle x hx)
      rfl hc.2 ?_
    rw [escrow_settled, escrow_of_open (by tauto)]
    have h1 := hc.1
    have h2 := usub_le (hp.2.2 x hmem)
    simp only [Outcome.state, State.notify, State.createNotification,
      State.SendNotificationToUser, State.updateTransaction, State.totalBalance,
      State.createBalanceHistory] at h1 ⊢
    omega

theorem confirmByOwnerItem_within {s0 : State} (h0 : s0.payable) (ownerID : Nat)
    (s : State) (x : Nat) (h : s0.withinEscrow s) :
    s0.withinEscrow (confirmByOwnerItem ownerID s x).state := by
  unfold confirmByOwnerItem
  split
  · exact h
  · rename_i trx htrx
    split_ifs with h1 h2
    · exact h
    · exact h
    · have hst : trx.status = TrxStatusPending := by simpa using h2
      refine State.withinEscrow_step h0 h (firstTransaction_mem htrx).1
        TransactionHistory.shipped (.ship trx hst) rfl rfl ?_
      rw [escrow_shipped hst]
      simp only [Outcome.state, State.notify, State.createNotification,
        State.SendNotificationToUser, State.updateTransaction, State.totalBalance]
      omega

theorem confirmByUserItem_within {s0 : State} (h0 : s0.payable) (userID : Nat)
    (reviews : List ReviewItem) (s : State) (x : Nat) (h : s0.withinEscrow s) :
    s0.withinEscrow (confirmByUserItem userID reviews s x).state := by
  have hp := State.payable_of_withinEscrow h0 h
  unfold confirmByUserItem
  split
  · exact h
  · rename_i trx htrx
    split_ifs with h1
    · exact h
    · split
      · exact h
      · rename_i product hproduct
        split
        · exact h
        · rename_i owner howner
          have hst : trx.status = TrxStatusWaitingUser := by simpa using h1
          have hmem : trx ∈ s.transactions := List.mem_of_find?_eq_some htrx
          have hc := totalBalance_credit (r := s.updateUserBalance owner.id
            (uadd owner.balance (usub trx.totalPrice trx.ecommerceTax))) hp.2.1 howner
            (usub trx.totalPrice trx.ecommerceTax) rfl
          have step : s0.withinEscrow
              (((s.createBalanceHistory owner.id
                (toInt (usub trx.totalPrice trx.ecommerceTax)) owner.balance
                (uadd owner.balance (usub trx.totalPrice trx.ecommerceTax))
                BalanceStatusCredit).updateUserBalance owner.id
                (uadd owner.balance (usub trx.totalPrice trx.ecommerceTax))).updateTransaction
                trx.id TransactionHistory.settled) := by
            refine State.withinEscrow_step h0 h hmem TransactionHistory.settled
              (.settle trx hst) rfl hc.2 ?_
            rw [escrow_settled, escrow_of_open (by tauto)]
            have h1 := hc.1
            have h2 := usub_le (hp.2.2 trx hmem)
            simp only [State.updateTransaction, State.totalBalance,
              State.createBalanceHistory, State.updateUserBalance] at h1 ⊢
            omega
          exact State.withinEscrow_congr step (createReviews_frame _ _ _ _ _).2.2.1
            (createReviews_frame _ _ _ _ _).1

theorem cancelItem_within {s0 : State} (h0 : s0.payable) (userID : Nat) (s s' : State)
    (x : Nat) (h : s0.withinEscrow s) (hok : cancelItem userID s x = .ok s') :
    s0.withinEscrow s' := by
  have hp := State.payable_of_withinEscrow h0 h
  unfold cancelItem at hok
  split at hok
  · simp at hok
  · rename_i trx htrx
    have hmem := (firstTransaction_mem htrx).1
    simp only at hok
    split_ifs at hok with h1 h2
    have hst : trx.status = TrxStatusPending ∨ trx.status = TrxStatusWaitingOwner := by
      by_contra hc
      push_neg at hc
      exact h2 hc
    split at hok
    · simp at hok
    · rename_i buyer hbuyer
      have hc := totalBalance_credit (r := s.updateUserBalance buyer.id
        (uadd buyer.balance (uadd trx.totalPrice trx.govtTax))) hp.2.1 hbuyer
        (uadd trx.totalPrice trx.govtTax) rfl
      have h2 := uadd_le trx.totalPrice trx.govtTax
      have hB : (s.updateUserBalance buyer.id
          (uadd buyer.balance (uadd trx.totalPrice trx.govtTax))).totalBalance
            + trx.cancelled.escrow ≤ s.totalBalance + trx.escrow := by
        rw [escrow_cancelled, escrow_of_open (by tauto)]
        have := hc.1
        omega
      split at hok
      · simp at hok
      · split_ifs at hok <;>
        · simp only [Outcome.ok.injEq] at hok
          subst hok
          exact State.withinEscrow_step h0 h hmem TransactionHistory.cancelled
            (.cancel trx hst) rfl hc.2 hB

/-- A loop whose rounds keep `P` when they go through keeps `P` when it goes through. -/
theorem forEach_ok_invariant {α : Type} (P : State → Prop) (body : State → α → Outcome)
    (hbody : ∀ s x s', P s → body s x = .ok s' → P s') :
    ∀ (xs : List α) (s s' : State), P s → forEach body s xs = .ok s' → P s' := by
  intro xs
  induction xs with
  | nil =>
    intro s s' hs h
    simp only [forEach, Outcome.ok.injEq] at h
    exact h ▸ hs
  | cons x xs ih =>
    intro s s' hs h
    unfold forEach at h
    cases hb : body s x with
    | ok s1 =>
      rw [hb] at h
      exact ih s1 s' (hbody s x s1 hs hb) h
    | fail e s1 =>
      rw [hb] at h
      simp at h

/-- A store transaction keeps `P` when its body does so whenever it goes through, and `P`
does not depend on the messages pushed. -/
theorem Transaction_ok_invariant (P : State → Prop) (s : State) (body : State → Outcome)
    (hsent : ∀ l, P { s with sent := l }) (hok : ∀ s', body s = .ok s' → P s') :
    P (Transaction s body).state := by
  unfold Transaction
  cases hb : body s with
  | ok s' => exact hok s' hb
  | fail e s' => exact hsent _

theorem ConfirmTransactionByOwner_within (s : State) (h0 : s.payable) (ownerID : Nat)
    (ids : List Nat) : s.withinEscrow (ConfirmTransactionByOwner s ownerID ids).state := by
  unfold ConfirmTransactionByOwner
  split_ifs
  · exact s.withinEscrow_refl
  · exact Transaction_invariant (fun s' => s.withinEscrow s') s _
      (fun l => State.withinEscrow_congr s.withinEscrow_refl rfl rfl)
      (forEach_invariant _ _
        (fun s' x hs' => confirmByOwnerItem_within h0 ownerID s' x hs') ids s
        s.withinEscrow_refl)

theorem ConfirmTransactionByUser_within (s : State) (h0 : s.payable) (userID : Nat)
    (ids : List Nat) (reviews : List ReviewItem) :
    s.withinEscrow (ConfirmTransactionByUser s userID ids reviews).state := by
  unfold ConfirmTransactionByUser
  split_ifs
  · exact s.withinEscrow_refl
  · exact Transaction_invariant (fun s' => s.withinEscrow s') s _
      (fun l => State.withinEscrow_congr s.withinEscrow_refl rfl rfl)
      (forEach_invariant _ _
        (fun s' x hs' => confirmByUserItem_within h0 userID reviews s' x hs') ids s
        s.withinEscrow_refl)

theorem CancelTransaction_within (s : State) (h0 : s.payable) (userID : Nat)
    (ids : List Nat) : s.withinEscrow (CancelTransaction s userID ids).state := by
  unfold CancelTransaction
  split_ifs
  · exact s.withinEscrow_refl
  · exact Transaction_ok_invariant (fun s' => s.withinEscrow s') s _
      (fun l => State.withinEscrow_congr s.withinEscrow_refl rfl rfl)
      (fun s' hok => forEach_ok_invariant (fun s' => s.withinEscrow s') _
        (fun s1 x s2 hs1 hb => cancelItem_within h0 userID s1 s2 x hs1 hb) ids s s'
        s.withinEscrow_refl hok)

theorem refundLoop_within {s0 : State} (h0 : s0.payable) (s : State) (productID : Nat)
    (h : s0.withinEscrow s) :
    s0.withinEscrow (forEach refundOnDelete s (s.pendingTransactions productID)).state := by
  apply forEach_fresh (fun s' => s0.withinEscrow s')
    (fun x => x.status = TrxStatusPending ∨ x.status = TrxStatusWaitingOwner)
    refundOnDelete
    (fun s' x hs' hq hm => refundOnDelete_within h0 s' x hs' hq hm)
    _ s (pendingTransactions_nodup (nodup_ids_of_moves h0.1 h.1) productID)
    (fun x hx => ⟨(pendingTransactions_mem hx).1, (pendingTransactions_mem hx).2.2⟩) h

theorem handleProductTransactionsOnDelete_within {s0 : State} (h0 : s0.payable)
    (s : State) (product : Product) (h : s0.withinEscrow s) :
    s0.withinEscrow (handleProductTransactionsOnDelete s product).state := by
  unfold handleProductTransactionsOnDelete
  have h1 := refundLoop_within h0 s product.id h
  split
  · rename_i e s' heq
    rw [heq] at h1
    exact h1
  · rename_i s' heq
    rw [heq] at h1
    exact forEach_fresh (fun s' => s0.withinEscrow s')
      (fun x => x.status = TrxStatusWaitingUser)
      (settleOnOwnerRemoval product)
      (fun s'' x hs'' hq hm => settleOnOwnerRemoval_within h0 product s'' x hs'' hq hm)
      _ s' (waitingUserTransactions_nodup (nodup_ids_of_moves h0.1 h1.1) product.id)
      (fun x hx => ⟨(waitingUserTransactions_mem hx).1, (waitingUserTransactions_mem hx).2.2⟩)
      h1

theorem removeProducts_within {s0 : State} (h0 : s0.payable) (products : List Product) :
    ∀ s : State, s0.withinEscrow s → s0.withinEscrow (removeProducts s products) := by
  induction products with
  | nil => intro s h; exact h
  | cons p ps ih =>
    intro s h
    unfold removeProducts
    apply ih
    exact handleProductTransactionsOnDelete_within h0 _ _
      (State.withinEscrow_congr h rfl rfl)

theorem DeleteProductsRequest_within (s : State) (h0 : s.payable) (userID : Nat)
    (role : UserRole) (productID : Nat) :
    s.withinEscrow (DeleteProductsRequest s userID role productID).state := by
  have hr := s.withinEscrow_refl
  unfold DeleteProductsRequest
  split
  · exact hr
  · rename_i product hproduct
    split_ifs
    · exact hr
    · exact hr
    · exact hr
    · apply Transaction_invariant (fun s' => s.withinEscrow s') s _
        (fun l => State.withinEscrow_congr hr rfl rfl)
      have hsave : s.withinEscrow (s.saveProduct
          { product with visibility := ProductVisibilityOwnerAdmin, deleted := true }) :=
        State.withinEscrow_congr hr rfl rfl
      have h1 := refundLoop_within h0 _ product.id hsave
      simp only
      split
      · rename_i e s' heq
        rw [heq] at h1
        exact h1
      · rename_i s' heq
        rw [heq] at h1
        exact forEach_fresh (fun s' => s.withinEscrow s')
          (fun x => x.status = TrxStatusWaitingUser)
          (settleOnProductDelete
            { product with visibility := ProductVisibilityOwnerAdmin, deleted := true })
          (fun s'' x hs'' hq hm => settleOnProductDelete_within h0
            { product with visibility := ProductVisibilityOwnerAdmin, deleted := true }
            s'' x hs'' hq hm)
          _ s' (waitingUserTransactions_nodup (nodup_ids_of_moves h0.1 h1.1) product.id)
          (fun x hx => ⟨(waitingUserTransactions_mem hx).1,
            (waitingUserTransactions_mem hx).2.2⟩)
          h1

/-- The common part of `SuspendUser`, `BanUser` and `DeleteUser`: the account row is saved
with the balance it had, and the products of the account are removed. -/
theorem removal_within (s : State) (h0 : s.payable) (user user' : User)
    (hu : user ∈ s.users) (hid : user'.id = user.id) (hb : user'.balance = user.balance) :
    s.withinEscrow
      (removeProducts (s.saveUser user') ((s.saveUser user').productsOf user'.id)) := by
  apply removeProducts_within h0
  refine ⟨forall₂_moves_refl false _, ids_saveUser _ _, ?_⟩
  have : (s.saveUser user').totalBalance = s.totalBalance := by
    unfold State.totalBalance State.saveUser
    exact sum_saveUser h0.2.1 hu hid hb
  have he : (s.saveUser user').escrow = s.escrow := rfl
  rw [this, he]

theorem SuspendUser_within (s : State) (h0 : s.payable) (target : Nat) :
    s.withinEscrow (SuspendUser s target).state := by
  have hr := s.withinEscrow_refl
  unfold SuspendUser
  split
  · exact hr
  · rename_i user huser
    split_ifs
    · exact hr
    · exact hr
    · apply Transaction_invariant (fun s' => s.withinEscrow s') s _
        (fun l => State.withinEscrow_congr hr rfl rfl)
      exact State.withinEscrow_congr
        (removal_within s h0 user
          { user with status := UserStatusSuspended, banUntil := none, penaltyWarnings := 0 }
          (firstUser_mem huser).1 rfl rfl) rfl rfl

theorem BanUser_within (s : State) (h0 : s.payable) (target : Nat) (banUntil : Int) :
    s.withinEscrow (BanUser s target banUntil).state := by
  have hr := s.withinEscrow_refl
  unfold BanUser
  split
  · exact hr
  · rename_i user huser
    split_ifs
    · exact hr
    · exact hr
    · apply Transaction_invariant (fun s' => s.withinEscrow s') s _
        (fun l => State.withinEscrow_congr hr rfl rfl)
      exact State.withinEscrow_congr
        (removal_within s h0 user
          { user with status := UserStatusBanned, banUntil := some banUntil,
                      penaltyWarnings := 0 }
          (firstUser_mem huser).1 rfl rfl) rfl rfl

theorem DeleteUser_within (s : State) (h0 : s.payable) (adminID target : Nat) :
    s.withinEscrow (DeleteUser s adminID target).state := by
  have hr := s.withinEscrow_refl
  unfold DeleteUser
  split
  · exact hr
  · rename_i user huser
    split_ifs
    · exact hr
    · exact hr
    · apply Transaction_invariant (fun s' => s.withinEscrow s') s _
        (fun l => State.withinEscrow_congr hr rfl rfl)
      exact removal_within s h0 user
        { user with deleted := true, status := UserStatusSuspended }
        (List.mem_of_find?_eq_some huser) rfl rfl

/-- Every transition of an order and every run of the settlement resolver stays within the
escrow. -/
theorem Action.run_within (a : Action) (s : State) (ha : a.resolves = true)
    (h0 : s.payable) : s.withinEscrow (a.run s).state := by
  cases a with
  | balance op =>
    cases op with
    | confirmReceipt userID ids reviews => exact ConfirmTransactionByUser_within s h0 _ _ _
    | cancel userID ids => exact CancelTransaction_within s h0 _ _
    | deleteProduct userID role productID => exact DeleteProductsRequest_within s h0 _ _ _
    | suspendUser target => exact SuspendUser_within s h0 _
    | banUser target banUntil => exact BanUser_within s h0 _ _
    | deleteUser adminID target => exact DeleteUser_within s h0 _ _
    | topUp _ _ => simp [Action.resolves] at ha
    | withdraw _ _ => simp [Action.resolves] at ha
    | purchase _ _ _ => simp [Action.resolves] at ha
    | adminOverride _ _ => simp [Action.resolves] at ha
  | confirmShipment ownerID ids => exact ConfirmTransactionByOwner_within s h0 _ _
  | patchProduct _ _ => simp [Action.resolves] at ha

theorem runAll_within (ops : List Action) :
    ∀ s : State, (∀ a ∈ ops, a.resolves = true) → s.payable →
      s.withinEscrow (runAll ops s) := by
  induction ops with
  | nil => intro s _ _; exact s.withinEscrow_refl
  | cons a rest ih =>
    intro s hops h0
    have h1 := a.run_within s (hops a (List.mem_cons_self _ _)) h0
    unfold runAll
    exact State.withinEscrow_trans h1
      (ih _ (fun b hb => hops b (List.mem_cons_of_mem _ hb))
        (State.payable_of_withinEscrow h0 h1))

/-- C30 (as amended): over every sequence of transitions of orders by their buyers and
sellers (confirmation of shipment, confirmation of receipt, cancellation) and of runs of
the settlement resolver (deletion of a product, suspension, ban or deletion of a user), in
any order and without admin override, in a store with unique order and user keys where no
order has an e-commerce tax above its total price, the balances of all the accounts
together rise by no more than the money held for the orders falls: what is paid out to
buyers and sellers for the orders resolved is at most what the buyers of those orders had
paid in (`totalPrice + govtTax` each). -/
theorem C30_paid_out_within_escrow (ops : List Action) (s : State)
    (hops : ∀ a ∈ ops, a.resolves = true) (hs : s.payable) :
    (runAll ops s).totalBalance - s.totalBalance ≤ s.escrow - (runAll ops s).escrow ∧
    0 ≤ (runAll ops s).escrow := by
  have h := (runAll_within ops s hops hs).2.2
  refine ⟨by omega, ?_⟩
  unfold State.escrow
  apply List.sum_nonneg
  intro x hx
  rw [List.mem_map] at hx
  obtain ⟨t, _, rfl⟩ := hx
  unfold TransactionHistory.escrow
  split_ifs
  · exact le_refl _
  · omega

/-- Witness of C30: in the shop with two orders `pending`, seller 2 ships order 1, buyer 1
cancels order 2, and seller 2 is banned, which settles order 1: the balances rise by
52,500 (the refund of order 2; the ban writes the credit of order 1 to the ledger only),
and the 105,000 held for the two orders are released. -/
theorem C30_paid_out_within_escrow_witness :
    twoOrders.payable ∧
    ((runAll [.confirmShipment 2 [1], .balance (.cancel 1 [2]), .balance (.banUser 2 1000)]
        twoOrders).totalBalance - twoOrders.totalBalance
      ≤ twoOrders.escrow
        - (runAll [.confirmShipment 2 [1], .balance (.cancel 1 [2]),
            .balance (.banUser 2 1000)] twoOrders).escrow ∧
    0 ≤ (runAll [.confirmShipment 2 [1], .balance (.cancel 1 [2]),
        .balance (.banUser 2 1000)] twoOrders).escrow) ∧
    (runAll [.confirmShipment 2 [1], .balance (.cancel 1 [2]), .balance (.banUser 2 1000)]
      twoOrders).totalBalance - twoOrders.totalBalance = 52500 ∧
    twoOrders.escrow = 105000 :=
  ⟨by unfold State.payable State.uniqueTransactions State.uniqueUsers; decide,
    C30_paid_out_within_escrow _ twoOrders (by decide)
      (by unfold State.payable State.uniqueTransactions State.uniqueUsers; decide),
    by decide, by decide⟩

end BackendStore
